import Mathlib

/-!
# box2dpp: block allocator, polygon collision, distance proxy and weld joint

A shallow embedding of `Box2D/Common/b2BlockAllocator.cpp` (namespace `b2d11`) and of
`Box2D/Collision/b2CollidePolygon.cpp`, the support functions of `Box2D/Collision/b2Distance.h`
and `Box2D/Dynamics/Joints/b2WeldJoint.cpp` (namespace `box2d`), with the properties of their
specification stated and proved over the embedding.

Conventions of the embedding.

* Addresses are integers and the null pointer is `0`. The only word of a pooled block the
  allocator reads or writes is its `next` link, so block memory is a map from the address of
  a block to the link stored there.
* An `Assert` or `b2Assert` that fails is the result `none`; every other path returns `some`.
* The production build is embedded: code under `_DEBUG` is left out, except in `FreeDebug`,
  which is `Free` as compiled with `_DEBUG`, with the assertions on the pointer it is given.
* `int32` and `size_t` values are natural numbers or integers; the values the routines compute
  stay far below the machine bounds. A cast to `uint8` is a remainder modulo 256.
* `float` values are embedded twice. In the namespace `box2d` they are exact rationals: the
  routines there are the routines over exact arithmetic. In the namespace `box2d.ieee` they
  are values of the type `F32`, a number, an infinity or a NaN, and every operation rounds
  its exact result to single precision, to nearest with ties to even, as the code does when
  each operation is evaluated in the type `float` with no fused operation. In both,
  `MAX_FLOAT`, `LINEAR_SLOP`, `ANGULAR_SLOP`, `B2_PI`, the vector methods `Normalize` and
  `Length`, which take a square root, and the constructor `b2Rot(angle)`, which takes a sine
  and a cosine, are parameters of the routines.
* What the files use from headers and files that are not part of the sources at hand is
  either a parameter (`Host` for the allocator) or a definition whose comment says that it
  is modelled from the specification.
-/

set_option autoImplicit false

/-! # Definitions -/

namespace b2d11

/-! ## Block allocator: the source -/

/-- The table `BlockAllocator::s_blockSizes`. -/
def s_blockSizes : List Nat :=
  [16, 32, 64, 96, 128, 160, 192, 224, 256, 320, 384, 448, 512, 640]

/-- Modelled from the spec: `BLOCK_SIZES` is declared in `b2BlockAllocator.h`; it is the number
of entries of the size-class table. -/
def BLOCK_SIZES : Nat := 14

/-- Modelled from the spec: `MAX_BLOCK_SIZE` is declared in `b2BlockAllocator.h`; it is the
largest class size, the lookup table covering every byte size from 1 up to it. -/
def MAX_BLOCK_SIZE : Nat := 640

/-- One pass of the body of the constructor's loop over `i`: the state is the running class
index `j` and the lookup table written so far. -/
def lookupStep (st : Nat × List Nat) (i : Nat) : Option (Nat × List Nat) :=
  if st.1 < BLOCK_SIZES then
    if i ≤ s_blockSizes.getD st.1 0 then
      some (st.1, st.2.set i (st.1 % 256))
    else
      some (st.1 + 1, st.2.set i ((st.1 + 1) % 256))
  else
    none

/-- The constructor's loop `for (i = 1; i <= MAX_BLOCK_SIZE; ++i)` run on the zero-initialised
static table, starting with `j = 0`. -/
def buildLookup : Option (Nat × List Nat) :=
  (List.range' 1 MAX_BLOCK_SIZE).foldlM lookupStep (0, List.replicate (MAX_BLOCK_SIZE + 1) 0)

/-- The static table `BlockAllocator::s_blockSizeLookup` as the first constructor leaves it. -/
def s_blockSizeLookup : List Nat :=
  match buildLookup with
  | some st => st.2
  | none => []

/-- Modelled from the spec: the record `Chunk` of `b2BlockAllocator.h`, a contiguous buffer
`blocks` subdivided into blocks of `blockSize` bytes; the fields are those the source uses. -/
structure Chunk where
  blockSize : Nat
  blocks : Int
deriving DecidableEq, Repr

/-- A chunk record after `memset(..., 0, ...)`. -/
def Chunk.zero : Chunk := ⟨0, 0⟩

/-- What the allocator takes from outside `b2BlockAllocator.cpp`: the constants `CHUNK_SIZE` and
`CHUNK_ARRAY_INCREMENT` of its header, `sizeof(Chunk)`, and the general-purpose allocator
`b2d11::Alloc` / `b2d11::Free`, acting on a state of type `σ`. -/
structure Host (σ : Type) where
  CHUNK_SIZE : Nat
  CHUNK_ARRAY_INCREMENT : Nat
  sizeofChunk : Nat
  Alloc : σ → Int → Int × σ
  Free : σ → Int → σ

/-- Modelled from the spec: the class `BlockAllocator` of `b2BlockAllocator.h`, with the members
the source uses, together with the memory it works on: `m_chunks` is the address of the chunk
array and `chunks` its `m_chunkSpace` records, `m_freeLists` holds the head of the free list
of each class, `next` is the block memory and `sys` the state of the general-purpose
allocator. -/
structure BlockAllocator (σ : Type) where
  m_chunks : Int
  chunks : List Chunk
  m_chunkCount : Nat
  m_chunkSpace : Nat
  m_freeLists : Nat → Int
  next : Int → Int
  sys : σ

namespace BlockAllocator

variable {σ : Type}

/-- The constructor `BlockAllocator::BlockAllocator()`; the static lookup table it fills on its
first run is `s_blockSizeLookup`. -/
def new (H : Host σ) (next : Int → Int) (sys : σ) : BlockAllocator σ :=
  let r := H.Alloc sys ((H.CHUNK_ARRAY_INCREMENT : Int) * H.sizeofChunk)
  { m_chunks := r.1
    chunks := List.replicate H.CHUNK_ARRAY_INCREMENT Chunk.zero
    m_chunkCount := 0
    m_chunkSpace := H.CHUNK_ARRAY_INCREMENT
    m_freeLists := fun _ => 0
    next := next
    sys := r.2 }

/-- The loop of `Allocate` that links the first `n` blocks of a new chunk at `b`, each to the
block after it. -/
def linkBlocks (next : Int → Int) (b : Int) (blockSize : Nat) (n : Nat) : Int → Int :=
  (List.range n).foldl
    (fun m (i : Nat) =>
      Function.update m (b + (blockSize : Int) * (i : Int)) (b + (blockSize : Int) * ((i : Int) + 1)))
    next

/-- The branch of `Allocate` taken when `m_chunkCount == m_chunkSpace`: a larger chunk array is
allocated, the used records are copied, the new records are zeroed and the old array is freed. -/
def growChunks (H : Host σ) (a : BlockAllocator σ) : BlockAllocator σ :=
  if a.m_chunkCount = a.m_chunkSpace then
    let r := H.Alloc a.sys (((a.m_chunkSpace + H.CHUNK_ARRAY_INCREMENT : Nat) : Int) * H.sizeofChunk)
    { a with
      m_chunks := r.1
      chunks := a.chunks.take a.m_chunkCount ++ List.replicate H.CHUNK_ARRAY_INCREMENT Chunk.zero
      m_chunkSpace := a.m_chunkSpace + H.CHUNK_ARRAY_INCREMENT
      sys := H.Free r.2 a.m_chunks }
  else a

/-- The pool-miss branch of `Allocate` for class `index`: a new chunk is allocated and carved
into blocks, the first block is returned and the rest becomes the free list of the class. The
result is `none` when `Assert(blockCount * blockSize <= CHUNK_SIZE)` fails. -/
def allocateChunk (H : Host σ) (a : BlockAllocator σ) (index : Nat) :
    Option (Int × BlockAllocator σ) :=
  let g := growChunks H a
  let r := H.Alloc g.sys H.CHUNK_SIZE
  let blocks := r.1
  let blockSize := s_blockSizes.getD index 0
  let blockCount := H.CHUNK_SIZE / blockSize
  if ¬ (blockCount * blockSize ≤ H.CHUNK_SIZE) then none
  else
    let linked := linkBlocks g.next blocks blockSize (blockCount - 1)
    let mem := Function.update linked (blocks + (blockSize : Int) * ((blockCount : Int) - 1)) 0
    some (blocks,
      { g with
        chunks := g.chunks.set g.m_chunkCount ⟨blockSize, blocks⟩
        m_chunkCount := g.m_chunkCount + 1
        m_freeLists := Function.update g.m_freeLists index (mem blocks)
        next := mem
        sys := r.2 })

/-- The method `BlockAllocator::Allocate(int32 size)`: the pointer returned and the state after
the call. The `memset` of a new chunk under `_DEBUG` is left out: it precedes the loop that
writes the link of every block of the chunk, and it asserts nothing. -/
def Allocate (H : Host σ) (a : BlockAllocator σ) (size : Int) :
    Option (Int × BlockAllocator σ) :=
  if size = 0 then some (0, a)
  else if ¬ (0 < size) then none
  else if size > MAX_BLOCK_SIZE then
    let r := H.Alloc a.sys size
    some (r.1, { a with sys := r.2 })
  else
    let index := s_blockSizeLookup.getD size.toNat 0
    if ¬ (index < BLOCK_SIZES) then none
    else if a.m_freeLists index ≠ 0 then
      let block := a.m_freeLists index
      some (block, { a with m_freeLists := Function.update a.m_freeLists index (a.next block) })
    else
      allocateChunk H a index

/-- The method `BlockAllocator::Free(void* p, int32 size)` as compiled without `_DEBUG`; with
`_DEBUG` it is `FreeDebug`. -/
def Free (H : Host σ) (a : BlockAllocator σ) (p : Int) (size : Int) :
    Option (BlockAllocator σ) :=
  if size = 0 then some a
  else if ¬ (0 < size) then none
  else if size > MAX_BLOCK_SIZE then some { a with sys := H.Free a.sys p }
  else
    let index := s_blockSizeLookup.getD size.toNat 0
    if ¬ (index < BLOCK_SIZES) then none
    else
      some { a with
        next := Function.update a.next p (a.m_freeLists index)
        m_freeLists := Function.update a.m_freeLists index p }

/-- The method `BlockAllocator::Clear()`. -/
def Clear (H : Host σ) (a : BlockAllocator σ) : BlockAllocator σ :=
  { a with
    sys := (List.range a.m_chunkCount).foldl
      (fun s i => H.Free s (a.chunks.getD i Chunk.zero).blocks) a.sys
    m_chunkCount := 0
    chunks := List.replicate a.m_chunkSpace Chunk.zero
    m_freeLists := fun _ => 0 }

end BlockAllocator

/-- The class size a request of `s` bytes resolves to: `s_blockSizes[s_blockSizeLookup[s]]`. -/
def resolvedSize (s : Nat) : Nat :=
  s_blockSizes.getD (s_blockSizeLookup.getD s 0) 0

end b2d11

namespace box2d

/-! ## Polygon collision: the source -/

/-- Modelled from the spec: the vector type `b2Vec<float, 2>` of `b2Math.h`. -/
structure b2Vec where
  x : ℚ
  y : ℚ
deriving DecidableEq, Repr

instance : Inhabited b2Vec := ⟨⟨0, 0⟩⟩

instance : Add b2Vec := ⟨fun a b => ⟨a.x + b.x, a.y + b.y⟩⟩

instance : Sub b2Vec := ⟨fun a b => ⟨a.x - b.x, a.y - b.y⟩⟩

instance : Neg b2Vec := ⟨fun a => ⟨-a.x, -a.y⟩⟩

instance : HMul ℚ b2Vec b2Vec := ⟨fun s a => ⟨s * a.x, s * a.y⟩⟩

/-- Modelled from the spec: the rotation `b2Rot` of `b2Math.h`, a unit complex number given by
the sine and cosine of the angle. -/
structure b2Rot where
  s : ℚ
  c : ℚ
deriving DecidableEq, Repr

/-- Modelled from the spec: the rigid transform `b2Transform` of `b2Math.h`, a position vector
and a rotation. -/
structure b2Transform where
  p : b2Vec
  q : b2Rot
deriving DecidableEq, Repr

/-- Modelled from the spec: `b2Dot` of `b2Math.h`, the dot product. -/
def b2Dot (a b : b2Vec) : ℚ := a.x * b.x + a.y * b.y

/-- Modelled from the spec: `b2Cross(v, s)` of `b2Math.h`, the cross product of a vector and a
scalar. -/
def b2Cross (a : b2Vec) (s : ℚ) : b2Vec := ⟨s * a.y, -s * a.x⟩

/-- Modelled from the spec: `b2Mul(q, v)` of `b2Math.h`, a vector rotated by `q`. -/
def b2MulRot (q : b2Rot) (v : b2Vec) : b2Vec := ⟨q.c * v.x - q.s * v.y, q.s * v.x + q.c * v.y⟩

/-- Modelled from the spec: `b2MulT(q, v)` of `b2Math.h`, a vector rotated by the inverse of
`q`. -/
def b2MulTRot (q : b2Rot) (v : b2Vec) : b2Vec := ⟨q.c * v.x + q.s * v.y, -q.s * v.x + q.c * v.y⟩

/-- Modelled from the spec: `b2Mul(T, v)` of `b2Math.h`, a point mapped by the transform `T`. -/
def b2Mul (T : b2Transform) (v : b2Vec) : b2Vec := b2MulRot T.q v + T.p

/-- Modelled from the spec: `b2MulT(T, v)` of `b2Math.h`, a point mapped by the inverse of
`T`. -/
def b2MulT (T : b2Transform) (v : b2Vec) : b2Vec := b2MulTRot T.q (v - T.p)

/-- Modelled from the spec: `b2MulT(A, B)` of `b2Math.h` on two transforms, the composition
`A⁻¹ * B`. -/
def b2MulTXf (A B : b2Transform) : b2Transform :=
  { q := ⟨A.q.c * B.q.s - A.q.s * B.q.c, A.q.c * B.q.c + A.q.s * B.q.s⟩
    p := b2MulTRot A.q (B.p - A.p) }

/-- Modelled from the spec: the part of `b2PolygonShape` (`b2PolygonShape.h`) the collision
routines read: vertices in counter-clockwise order, face normals and the polygon radius. -/
structure b2PolygonShape where
  vertices : List b2Vec
  normals : List b2Vec
  radius : ℚ
deriving DecidableEq, Repr

/-- Modelled from the spec: `b2PolygonShape::GetVertexCount`, the number of vertices. -/
def b2PolygonShape.GetVertexCount (poly : b2PolygonShape) : Nat := poly.vertices.length

/-- Modelled from the spec: the feature kinds of `b2ContactFeature` (`b2Collision.h`). -/
inductive FeatureType where
  | e_vertex
  | e_face
deriving DecidableEq, Repr

/-- Modelled from the spec: the record `b2ContactFeature` of `b2Collision.h` (the `cf` member of
a contact id): the kinds and indices of the two features that make a manifold point. -/
structure b2ContactFeature where
  indexA : Nat
  indexB : Nat
  typeA : FeatureType
  typeB : FeatureType
deriving DecidableEq, Repr

instance : Inhabited b2ContactFeature := ⟨⟨0, 0, .e_vertex, .e_vertex⟩⟩

/-- Modelled from the spec: the record `b2ClipVertex` of `b2Collision.h`, a point with a contact
id. -/
structure b2ClipVertex where
  v : b2Vec
  id : b2ContactFeature
deriving DecidableEq, Repr

instance : Inhabited b2ClipVertex := ⟨⟨default, default⟩⟩

/-- Modelled from the spec: the record `b2ManifoldPoint` of `b2Collision.h`: a local-frame
contact point, the carried normal and tangent impulses, and a contact id. -/
structure b2ManifoldPoint where
  localPoint : b2Vec
  normalImpulse : ℚ
  tangentImpulse : ℚ
  id : b2ContactFeature
deriving DecidableEq, Repr

/-- Modelled from the spec: the manifold kinds `b2Manifold::Type` of `b2Collision.h`. -/
inductive ManifoldType where
  | e_circles
  | e_faceA
  | e_faceB
deriving DecidableEq, Repr

/-- Modelled from the spec: the record `b2Manifold` of `b2Collision.h`; `points` is its array of
two manifold points. -/
structure b2Manifold where
  points : b2ManifoldPoint × b2ManifoldPoint
  localNormal : b2Vec
  localPoint : b2Vec
  type : ManifoldType
  pointCount : Nat
deriving DecidableEq, Repr

/-- Entry `i` of an array of two. -/
def getAt {α : Type} (arr : α × α) (i : Nat) : α := if i = 0 then arr.1 else arr.2

/-- An array of two with entry `i` replaced. -/
def setAt {α : Type} (arr : α × α) (i : Nat) (a : α) : α × α :=
  if i = 0 then (a, arr.2) else (arr.1, a)

/-- The inner loop of `b2FindMaxSeparation`: the least `b2Dot(n, v2 - v1)` over the vertices
`v2` of the second polygon, starting from `MAX_FLOAT`. -/
def deepest (MAX_FLOAT : ℚ) (n v1 : b2Vec) (v2s : List b2Vec) : ℚ :=
  v2s.foldl (fun si v2 => if b2Dot n (v2 - v1) < si then b2Dot n (v2 - v1) else si) MAX_FLOAT

/-- The value `si` that `b2FindMaxSeparation` computes for face `i` of `poly1`. -/
def faceSeparation (MAX_FLOAT : ℚ) (poly1 : b2PolygonShape) (xf1 : b2Transform)
    (poly2 : b2PolygonShape) (xf2 : b2Transform) (i : Nat) : ℚ :=
  deepest MAX_FLOAT (b2MulRot (b2MulTXf xf2 xf1).q (poly1.normals.getD i default))
    (b2Mul (b2MulTXf xf2 xf1) (poly1.vertices.getD i default)) poly2.vertices

/-- The routine `b2FindMaxSeparation`: the pair of `*edgeIndex` and the value returned.
`MAX_FLOAT` is a constant of the settings header. -/
def b2FindMaxSeparation (MAX_FLOAT : ℚ) (poly1 : b2PolygonShape) (xf1 : b2Transform)
    (poly2 : b2PolygonShape) (xf2 : b2Transform) : Nat × ℚ :=
  (List.range poly1.vertices.length).foldl
    (fun best i =>
      if faceSeparation MAX_FLOAT poly1 xf1 poly2 xf2 i > best.2 then
        (i, faceSeparation MAX_FLOAT poly1 xf1 poly2 xf2 i)
      else best)
    (0, -MAX_FLOAT)

/-- The search loop of `b2FindIncidentEdge`: the pair of `index` and `minDot`. -/
def incidentIndex (MAX_FLOAT : ℚ) (normal1 : b2Vec) (normals2 : List b2Vec) : Nat × ℚ :=
  (List.range normals2.length).foldl
    (fun best i =>
      if b2Dot normal1 (normals2.getD i default) < best.2 then
        (i, b2Dot normal1 (normals2.getD i default))
      else best)
    (0, MAX_FLOAT)

/-- The wrap-around successor `i + 1 < n ? i + 1 : 0` of an index into `n` entries. -/
def nextIndex (i n : Nat) : Nat := if i + 1 < n then i + 1 else 0

/-- The face `index` of `poly2` that `b2FindIncidentEdge` selects for the reference face `edge1`
of `poly1`. -/
def incidentFace (MAX_FLOAT : ℚ) (poly1 : b2PolygonShape) (xf1 : b2Transform) (edge1 : Nat)
    (poly2 : b2PolygonShape) (xf2 : b2Transform) : Nat :=
  (incidentIndex MAX_FLOAT (b2MulTRot xf2.q (b2MulRot xf1.q (poly1.normals.getD edge1 default)))
    poly2.normals).1

/-- The routine `b2FindIncidentEdge`: the two clip vertices written to `c`. -/
def b2FindIncidentEdge (MAX_FLOAT : ℚ) (poly1 : b2PolygonShape) (xf1 : b2Transform)
    (edge1 : Nat) (poly2 : b2PolygonShape) (xf2 : b2Transform) :
    Option (b2ClipVertex × b2ClipVertex) :=
  if ¬ (edge1 < poly1.GetVertexCount) then none
  else
    let i1 := incidentFace MAX_FLOAT poly1 xf1 edge1 poly2 xf2
    let i2 := nextIndex i1 poly2.normals.length
    some
      (⟨b2Mul xf2 (poly2.vertices.getD i1 default), ⟨edge1 % 256, i1 % 256, .e_face, .e_vertex⟩⟩,
       ⟨b2Mul xf2 (poly2.vertices.getD i2 default), ⟨edge1 % 256, i2 % 256, .e_face, .e_vertex⟩⟩)

/-- Modelled from the spec: `b2ClipSegmentToLine` of `b2Collision.cpp`, the clip of the segment
`vIn` against the half-plane `b2Dot(normal, p) - offset <= 0`. A point of `vIn` inside the
half-plane is kept with its id; when the two points lie on strict opposite sides the crossing
point is added, with a vertex-against-face id tagged with `vertexIndexA`. The result is the
number of points written and the output array, which starts out as `vOut`. -/
def b2ClipSegmentToLine (vOut vIn : b2ClipVertex × b2ClipVertex) (normal : b2Vec)
    (offset : ℚ) (vertexIndexA : Nat) : Nat × (b2ClipVertex × b2ClipVertex) :=
  let distance0 := b2Dot normal vIn.1.v - offset
  let distance1 := b2Dot normal vIn.2.v - offset
  let s0 : Nat × (b2ClipVertex × b2ClipVertex) := (0, vOut)
  let s1 := if distance0 ≤ 0 then (s0.1 + 1, setAt s0.2 s0.1 vIn.1) else s0
  let s2 := if distance1 ≤ 0 then (s1.1 + 1, setAt s1.2 s1.1 vIn.2) else s1
  if distance0 * distance1 < 0 then
    let interp := distance0 / (distance0 - distance1)
    (s2.1 + 1, setAt s2.2 s2.1
      ⟨vIn.1.v + interp * (vIn.2.v - vIn.1.v),
        ⟨vertexIndexA % 256, vIn.1.id.indexB, .e_vertex, .e_face⟩⟩)
  else s2

/-- The choice of reference and incident polygon made by `b2CollidePolygons`. -/
structure Reference where
  poly1 : b2PolygonShape
  poly2 : b2PolygonShape
  xf1 : b2Transform
  xf2 : b2Transform
  edge1 : Nat
  type : ManifoldType
  flip : Nat
deriving DecidableEq, Repr

/-- The branch of `b2CollidePolygons` on `separationB > separationA + k_tol`, with
`k_tol = 0.1f * LINEAR_SLOP`. `LINEAR_SLOP` is a constant of the settings header. -/
def chooseReference (LINEAR_SLOP : ℚ) (polyA : b2PolygonShape) (xfA : b2Transform)
    (polyB : b2PolygonShape) (xfB : b2Transform) (edgeA : Nat) (separationA : ℚ)
    (edgeB : Nat) (separationB : ℚ) : Reference :=
  if separationB > separationA + 1 / 10 * LINEAR_SLOP then
    ⟨polyB, polyA, xfB, xfA, edgeB, .e_faceB, 1⟩
  else
    ⟨polyA, polyB, xfA, xfB, edgeA, .e_faceA, 0⟩

/-- The contact feature with its two sides exchanged (the block under `if (flip)`). -/
def swapFeatures (cf : b2ContactFeature) : b2ContactFeature :=
  ⟨cf.indexB, cf.indexA, cf.typeB, cf.typeA⟩

/-- One pass of the final loop of `b2CollidePolygons` over the clipped points: the state is the
manifold and the local `pointCount`. -/
def addPoint (normal : b2Vec) (frontOffset totalRadius : ℚ) (xf2 : b2Transform) (flip : Nat)
    (st : b2Manifold × Nat) (elem : b2ClipVertex) : b2Manifold × Nat :=
  if b2Dot normal elem.v - frontOffset ≤ totalRadius then
    let cp := getAt st.1.points st.2
    let id := if flip ≠ 0 then swapFeatures elem.id else elem.id
    ({ st.1 with
        points := setAt st.1.points st.2 { cp with localPoint := b2MulT xf2 elem.v, id := id } },
      st.2 + 1)
  else st

/-- The geometry `b2CollidePolygons` derives from the reference edge, and the two clips. -/
structure Clipped where
  localNormal : b2Vec
  planePoint : b2Vec
  normal : b2Vec
  frontOffset : ℚ
  np1 : Nat
  clipPoints1 : b2ClipVertex × b2ClipVertex
  np2 : Nat
  clipPoints2 : b2ClipVertex × b2ClipVertex
deriving DecidableEq, Repr

/-- The part of `b2CollidePolygons` from the reference edge to the second clip, for the
incident edge `incidentEdge`. `Normalize` is the vector method of that name. -/
def clipIncidentEdge (Normalize : b2Vec → b2Vec) (totalRadius : ℚ) (r : Reference)
    (incidentEdge : b2ClipVertex × b2ClipVertex) : Clipped :=
  let vertices1 := r.poly1.vertices
  let iv1 := r.edge1
  let iv2 := nextIndex r.edge1 vertices1.length
  let v11 := vertices1.getD iv1 default
  let v12 := vertices1.getD iv2 default
  let localTangent := Normalize (v12 - v11)
  let localNormal := b2Cross localTangent 1
  let planePoint := (1 / 2 : ℚ) * (v11 + v12)
  let tangent := b2MulRot r.xf1.q localTangent
  let normal := b2Cross tangent 1
  let v11 := b2Mul r.xf1 v11
  let v12 := b2Mul r.xf1 v12
  let frontOffset := b2Dot normal v11
  let sideOffset1 := -b2Dot tangent v11 + totalRadius
  let sideOffset2 := b2Dot tangent v12 + totalRadius
  let c1 := b2ClipSegmentToLine default incidentEdge (-tangent) sideOffset1 iv1
  let c2 := b2ClipSegmentToLine default c1.2 tangent sideOffset2 iv2
  ⟨localNormal, planePoint, normal, frontOffset, c1.1, c1.2, c2.1, c2.2⟩

/-- The part of `b2CollidePolygons` after `b2FindIncidentEdge`: the clips, their early returns
and the loop that writes the manifold points. -/
def clipAndWrite (Normalize : b2Vec → b2Vec) (totalRadius : ℚ) (manifold : b2Manifold)
    (r : Reference) (incidentEdge : b2ClipVertex × b2ClipVertex) : b2Manifold :=
  let k := clipIncidentEdge Normalize totalRadius r incidentEdge
  if k.np1 < 2 then manifold
  else if k.np2 < 2 then manifold
  else
    let manifold := { manifold with localNormal := k.localNormal, localPoint := k.planePoint }
    let st := [k.clipPoints2.1, k.clipPoints2.2].foldl
      (addPoint k.normal k.frontOffset totalRadius r.xf2 r.flip) (manifold, 0)
    { st.1 with pointCount := st.2 }

/-- The routine `b2CollidePolygons`: the manifold after the call, for the manifold `manifold`
before it. -/
def b2CollidePolygons (MAX_FLOAT LINEAR_SLOP : ℚ) (Normalize : b2Vec → b2Vec)
    (manifold : b2Manifold) (polyA : b2PolygonShape) (xfA : b2Transform)
    (polyB : b2PolygonShape) (xfB : b2Transform) : Option b2Manifold :=
  let manifold := { manifold with pointCount := 0 }
  let totalRadius := polyA.radius + polyB.radius
  let sepA := b2FindMaxSeparation MAX_FLOAT polyA xfA polyB xfB
  if sepA.2 > totalRadius then some manifold
  else
    let sepB := b2FindMaxSeparation MAX_FLOAT polyB xfB polyA xfA
    if sepB.2 > totalRadius then some manifold
    else
      let r := chooseReference LINEAR_SLOP polyA xfA polyB xfB sepA.1 sepA.2 sepB.1 sepB.2
      let manifold := { manifold with type := r.type }
      match b2FindIncidentEdge MAX_FLOAT r.poly1 r.xf1 r.edge1 r.poly2 r.xf2 with
      | none => none
      | some incidentEdge => some (clipAndWrite Normalize totalRadius manifold r incidentEdge)

end box2d

namespace b2d11

/-! ## Block allocator: notions used to state the properties, and concrete states -/

/-- The least class index whose class size is at least `s` (14 when there is none). -/
def classOf (s : Nat) : Nat :=
  s_blockSizes.findIdx (fun b => decide (s ≤ b))

/-- The loop invariant of the table construction after the pass for `i = n`. -/
def LookupInv (n : Nat) (st : Nat × List Nat) : Prop :=
  st.2.length = MAX_BLOCK_SIZE + 1 ∧ st.1 = classOf n ∧
    ∀ s, s ≤ n → st.2.getD s 0 = classOf s

/-- The first `n` blocks met when following `next` links from `head` up to the null pointer. -/
def chain (next : Int → Int) : Nat → Int → List Int
  | 0, _ => []
  | n + 1, head => if head = 0 then [] else head :: chain next n (next head)

namespace BlockAllocator

variable {σ : Type}

/-- The first `n` blocks of the free list of class `index`. -/
def freeList (a : BlockAllocator σ) (index n : Nat) : List Int :=
  chain a.next n (a.m_freeLists index)

/-- The state a constructor leaves for a chunk array of `space` records at `m_chunks`: no chunk
in use, every record zeroed, every free list empty. -/
def fresh (m_chunks : Int) (space : Nat) (next : Int → Int) (sys : σ) : BlockAllocator σ :=
  { m_chunks := m_chunks
    chunks := List.replicate space Chunk.zero
    m_chunkCount := 0
    m_chunkSpace := space
    m_freeLists := fun _ => 0
    next := next
    sys := sys }

/-- The class index `Allocate` and `Free` look up for `size`. -/
def classIndex (size : Int) : Nat := s_blockSizeLookup.getD size.toNat 0

end BlockAllocator

/-- A host for concrete runs: chunks of 16384 bytes, a chunk array growing by 128 records of 16
bytes, and a general-purpose allocator that hands out consecutive addresses (the state is the
next address it will return) and never reuses memory. -/
def bumpHost : Host Nat where
  CHUNK_SIZE := 16384
  CHUNK_ARRAY_INCREMENT := 128
  sizeofChunk := 16
  Alloc := fun brk n => ((brk : Int), brk + n.toNat)
  Free := fun brk _ => brk

/-- The state over `bumpHost` after the constructor, run on zeroed memory with the
general-purpose allocator at address 6144, and one `Allocate(16)`: the chunk array is at 6144,
the only chunk, at 8192, is carved into 1024 blocks of 16 bytes, block 8192 is handed out and
the other 1023 blocks are on the free list of class 0 in ascending order. -/
def busyChunkState : BlockAllocator Nat where
  m_chunks := 6144
  chunks := (List.replicate 128 Chunk.zero).set 0 ⟨16, 8192⟩
  m_chunkCount := 1
  m_chunkSpace := 128
  m_freeLists := fun i => if i = 0 then 8208 else 0
  next := fun x => if 8192 ≤ x ∧ x < 8192 + 16368 ∧ (x - 8192) % 16 = 0 then x + 16 else 0
  sys := 24576

/-- The state `busyChunkState` after `Free(8192, 16)`: all 1024 blocks of the chunk are on the
free list of class 0, headed by 8192. -/
def oneChunkState : BlockAllocator Nat :=
  { busyChunkState with m_freeLists := fun i => if i = 0 then 8192 else 0 }

end b2d11

namespace box2d

/-! ## Polygon collision: notions used to state the properties, and concrete inputs -/

/-- The separation `dot(n', v2 - v1')` of a vertex `v2` of `poly2` from face `i` of `poly1`,
where `n'` and `v1'` are the `i`-th normal and vertex of `poly1` taken to the world frame by
`xf1` and from there into the frame of `poly2` by the inverse of `xf2`. -/
def projectedSeparation (poly1 : b2PolygonShape) (xf1 xf2 : b2Transform) (i : Nat)
    (v2 : b2Vec) : ℚ :=
  b2Dot (b2MulTRot xf2.q (b2MulRot xf1.q (poly1.normals.getD i default)))
    (v2 - b2MulT xf2 (b2Mul xf1 (poly1.vertices.getD i default)))

/-- The largest finite `float`, the value of `MAX_FLOAT` in the concrete runs. -/
def FLT_MAX : ℚ := 340282346638528859811704183484516925440

/-- The box of half-extent 0.5 with polygon radius 0.01: vertices counter-clockwise from
`(-0.5, -0.5)`, with the outward normal of the face starting at each vertex. -/
def unitBox : b2PolygonShape where
  vertices := [⟨-1/2, -1/2⟩, ⟨1/2, -1/2⟩, ⟨1/2, 1/2⟩, ⟨-1/2, 1/2⟩]
  normals := [⟨0, -1⟩, ⟨1, 0⟩, ⟨0, 1⟩, ⟨-1, 0⟩]
  radius := 1/100

/-- The transform with no rotation that moves the origin to `(x, y)`. -/
def xfAt (x y : ℚ) : b2Transform := ⟨⟨x, y⟩, ⟨0, 1⟩⟩

/-- The transform that rotates about the origin by the angle with sine 3/5 and cosine 4/5. -/
def xfTilted : b2Transform := ⟨⟨0, 0⟩, ⟨3/5, 4/5⟩⟩

/-- A `Normalize` for the concrete runs: it divides by `|x| + |y|`, which is the length of the
vector whenever the vector is parallel to an axis, and keeps the zero vector. -/
def normalizeAxial (v : b2Vec) : b2Vec :=
  if |v.x| + |v.y| = 0 then v else (1 / (|v.x| + |v.y|)) * v

/-- A manifold with every field zero. -/
def zeroManifold : b2Manifold :=
  ⟨(⟨⟨0, 0⟩, 0, 0, default⟩, ⟨⟨0, 0⟩, 0, 0, default⟩), ⟨0, 0⟩, ⟨0, 0⟩, .e_circles, 0⟩

/-- The test of the final loop of `b2CollidePolygons`: the signed separation of a clipped point
along the reference normal is at most the combined radius. -/
def keepPoint (normal : b2Vec) (frontOffset totalRadius : ℚ) (elem : b2ClipVertex) : Bool :=
  decide (b2Dot normal elem.v - frontOffset ≤ totalRadius)

/-- A contact feature names a feature of the reference polygon in its `A` fields and a feature
of the incident polygon in its `B` fields: either the reference face `edge1` against an
incident vertex `i1` or `i2`, or an end `iv1` or `iv2` of the reference face against the
incident face, tagged `i1` or `i2`. Indices are stored in a byte. -/
def FeatureForm (edge1 iv1 iv2 i1 i2 : Nat) (cf : b2ContactFeature) : Prop :=
  (cf.typeA = .e_face ∧ cf.indexA = edge1 % 256 ∧ cf.typeB = .e_vertex ∧
      (cf.indexB = i1 % 256 ∨ cf.indexB = i2 % 256)) ∨
  (cf.typeA = .e_vertex ∧ (cf.indexA = iv1 % 256 ∨ cf.indexA = iv2 % 256) ∧
      cf.typeB = .e_face ∧ (cf.indexB = i1 % 256 ∨ cf.indexB = i2 % 256))

/-- The contact feature `cf` is expressed as (reference feature, incident feature) for the
reference choice `r`. -/
def ReferenceThenIncident (MAX_FLOAT : ℚ) (r : Reference) (cf : b2ContactFeature) : Prop :=
  FeatureForm r.edge1 r.edge1 (nextIndex r.edge1 r.poly1.vertices.length)
    (incidentFace MAX_FLOAT r.poly1 r.xf1 r.edge1 r.poly2 r.xf2)
    (nextIndex (incidentFace MAX_FLOAT r.poly1 r.xf1 r.edge1 r.poly2 r.xf2)
      r.poly2.normals.length) cf

/-- The reference choice of the run: polygon B is the reference polygon, with its face 3 (the
face towards A), and polygon A is the incident polygon. -/
def tiltedReference : Reference := ⟨unitBox, unitBox, xfAt 1 0, xfTilted, 3, .e_faceB, 1⟩

/-- The incident edge of the run: the edge of polygon A from its vertex 1 to its vertex 2, in
world coordinates. -/
def tiltedIncidentEdge : b2ClipVertex × b2ClipVertex :=
  (⟨⟨7/10, -1/10⟩, ⟨3, 1, .e_face, .e_vertex⟩⟩, ⟨⟨1/10, 7/10⟩, ⟨3, 2, .e_face, .e_vertex⟩⟩)

/-- The manifold the run writes into `zeroManifold`. -/
def tiltedManifold : b2Manifold where
  points := (⟨⟨1/2, -1/2⟩, 0, 0, ⟨1, 3, .e_vertex, .e_face⟩⟩, ⟨⟨0, 0⟩, 0, 0, default⟩)
  localNormal := ⟨-1, 0⟩
  localPoint := ⟨-1/2, 0⟩
  type := .e_faceB
  pointCount := 1

/-- The signed distance of the manifold point `p` from the reference face of the manifold `m`,
along the reference normal, in world coordinates: `xfRef` is the transform of the reference
polygon and `xfInc` that of the incident polygon, in whose frame `p.localPoint` is kept. -/
def pointSeparation (m : b2Manifold) (xfRef xfInc : b2Transform) (p : b2ManifoldPoint) : ℚ :=
  b2Dot (b2MulRot xfRef.q m.localNormal) (b2Mul xfInc p.localPoint - b2Mul xfRef m.localPoint)

/-! ## Distance proxy: the source -/

/-- The record `b2DistanceProxy`. -/
structure b2DistanceProxy where
  m_vertices : List b2Vec
  m_radius : ℚ
deriving DecidableEq, Repr

namespace b2DistanceProxy

/-- The method `b2DistanceProxy::GetVertexCount`. -/
def GetVertexCount (proxy : b2DistanceProxy) : Nat := proxy.m_vertices.length

/-- The method `b2DistanceProxy::GetVertex`. -/
def GetVertex (proxy : b2DistanceProxy) (index : Nat) : b2Vec :=
  proxy.m_vertices.getD index default

/-- The loop of `b2DistanceProxy::GetSupport`: the pair of `bestIndex` and `bestValue` after
the scan of the indices from 1. -/
def supportScan (proxy : b2DistanceProxy) (d : b2Vec) : Nat × ℚ :=
  (List.range' 1 (proxy.m_vertices.length - 1)).foldl
    (fun best i =>
      if b2Dot (proxy.m_vertices.getD i default) d > best.2 then
        (i, b2Dot (proxy.m_vertices.getD i default) d)
      else best)
    (0, b2Dot (proxy.m_vertices.getD 0 default) d)

/-- The method `b2DistanceProxy::GetSupport`. -/
def GetSupport (proxy : b2DistanceProxy) (d : b2Vec) : Nat := (supportScan proxy d).1

end b2DistanceProxy

end box2d

namespace b2d11

namespace BlockAllocator

/-- The block memory after `Allocate` has carved a chunk at `blocks` into `blockCount` blocks of
`blockSize` bytes: the linking loop followed by the write of the null link into the last
block. -/
def carvedMemory (next : Int → Int) (blocks : Int) (blockSize blockCount : Nat) : Int → Int :=
  Function.update (linkBlocks next blocks blockSize (blockCount - 1))
    (blocks + (blockSize : Int) * ((blockCount : Int) - 1)) 0

end BlockAllocator

end b2d11

namespace box2d

/-! ## Weld joint: the source -/

/-- Modelled from the spec: the vector type `b2Vec<float, 3>` of `b2Math.h`. -/
structure b2Vec3 where
  x : ℚ
  y : ℚ
  z : ℚ
deriving DecidableEq, Repr

instance : Add b2Vec3 := ⟨fun a b => ⟨a.x + b.x, a.y + b.y, a.z + b.z⟩⟩

instance : Neg b2Vec3 := ⟨fun a => ⟨-a.x, -a.y, -a.z⟩⟩

instance : HMul ℚ b2Vec3 b2Vec3 := ⟨fun s a => ⟨s * a.x, s * a.y, s * a.z⟩⟩

/-- Modelled from the spec: the matrix type `b2Mat33` of `b2Math.h`, stored by columns. -/
structure b2Mat33 where
  ex : b2Vec3
  ey : b2Vec3
  ez : b2Vec3
deriving DecidableEq, Repr

/-- Modelled from the spec: `b2Cross(a, b)` of `b2Math.h` on two vectors, the scalar cross
product. -/
def b2CrossVV (a b : b2Vec) : ℚ := a.x * b.y - a.y * b.x

/-- Modelled from the spec: `b2Cross(s, a)` of `b2Math.h`, the cross product of a scalar and a
vector. -/
def b2CrossSV (s : ℚ) (a : b2Vec) : b2Vec := ⟨-s * a.y, s * a.x⟩

/-- Modelled from the spec: `b2Dot` of `b2Math.h` on vectors of three components. -/
def b2Dot3 (a b : b2Vec3) : ℚ := a.x * b.x + a.y * b.y + a.z * b.z

/-- Modelled from the spec: `b2Cross` of `b2Math.h` on vectors of three components. -/
def b2Cross3 (a b : b2Vec3) : b2Vec3 :=
  ⟨a.y * b.z - a.z * b.y, a.z * b.x - a.x * b.z, a.x * b.y - a.y * b.x⟩

/-- Modelled from the spec: `b2Mul(A, v)` of `b2Math.h`, a 3x3 matrix times a vector. -/
def b2Mul33 (A : b2Mat33) (v : b2Vec3) : b2Vec3 := v.x * A.ex + v.y * A.ey + v.z * A.ez

/-- Modelled from the spec: `b2Mul22(A, v)` of `b2Math.h`, the upper left 2x2 block of a 3x3
matrix times a vector. -/
def b2Mul22 (A : b2Mat33) (v : b2Vec) : b2Vec :=
  ⟨A.ex.x * v.x + A.ey.x * v.y, A.ex.y * v.x + A.ey.y * v.y⟩

namespace b2Mat33

/-- Modelled from the spec: `b2Mat33::Solve22`, the solution `x` of `A x = b` for the upper left
2x2 block by Cramer's rule, with the determinant's inverse replaced by 0 when the determinant
is 0. -/
def Solve22 (A : b2Mat33) (b : b2Vec) : b2Vec :=
  let det := A.ex.x * A.ey.y - A.ey.x * A.ex.y
  let det := if det ≠ 0 then 1 / det else det
  ⟨det * (A.ey.y * b.x - A.ey.x * b.y), det * (A.ex.x * b.y - A.ex.y * b.x)⟩

/-- Modelled from the spec: `b2Mat33::Solve33`, the solution `x` of `A x = b` by Cramer's rule,
with the determinant's inverse replaced by 0 when the determinant is 0. -/
def Solve33 (A : b2Mat33) (b : b2Vec3) : b2Vec3 :=
  let det := b2Dot3 A.ex (b2Cross3 A.ey A.ez)
  let det := if det ≠ 0 then 1 / det else det
  ⟨det * b2Dot3 b (b2Cross3 A.ey A.ez), det * b2Dot3 A.ex (b2Cross3 b A.ez),
    det * b2Dot3 A.ex (b2Cross3 A.ey b)⟩

/-- Modelled from the spec: `b2Mat33::GetInverse22`, the inverse of the upper left 2x2 block,
the third row and column zero; the zero matrix when the block is singular. -/
def GetInverse22 (A : b2Mat33) : b2Mat33 :=
  let det := A.ex.x * A.ey.y - A.ey.x * A.ex.y
  let det := if det ≠ 0 then 1 / det else det
  { ex := ⟨det * A.ey.y, -det * A.ex.y, 0⟩
    ey := ⟨-det * A.ey.x, det * A.ex.x, 0⟩
    ez := ⟨0, 0, 0⟩ }

/-- Modelled from the spec: `b2Mat33::GetSymInverse33`, the inverse of a symmetric 3x3 matrix;
the zero matrix when it is singular. -/
def GetSymInverse33 (A : b2Mat33) : b2Mat33 :=
  let det := b2Dot3 A.ex (b2Cross3 A.ey A.ez)
  let det := if det ≠ 0 then 1 / det else det
  let a11 := A.ex.x
  let a12 := A.ey.x
  let a13 := A.ez.x
  let a22 := A.ey.y
  let a23 := A.ez.y
  let a33 := A.ez.z
  { ex := ⟨det * (a22 * a33 - a23 * a23), det * (a13 * a23 - a12 * a33),
      det * (a12 * a23 - a13 * a22)⟩
    ey := ⟨det * (a13 * a23 - a12 * a33), det * (a11 * a33 - a13 * a13),
      det * (a13 * a12 - a11 * a23)⟩
    ez := ⟨det * (a12 * a23 - a13 * a22), det * (a13 * a12 - a11 * a23),
      det * (a11 * a22 - a12 * a12)⟩ }

end b2Mat33

/-- Modelled from the spec: the record `b2Position` of `b2TimeStep.h`, centre and angle of a
body. -/
structure b2Position where
  c : b2Vec
  a : ℚ
deriving DecidableEq, Repr

/-- Modelled from the spec: the record `b2Velocity` of `b2TimeStep.h`, linear and angular
velocity of a body. -/
structure b2Velocity where
  v : b2Vec
  w : ℚ
deriving DecidableEq, Repr

/-- Modelled from the spec: the part of the record `b2TimeStep` (`b2TimeStep.h`) the joint
reads: the timestep, the ratio of the current to the previous timestep and the warm starting
flag. -/
structure b2TimeStep where
  dt : ℚ
  dtRatio : ℚ
  warmStarting : Bool
deriving DecidableEq, Repr

/-- Modelled from the spec: the record `b2SolverData` of `b2TimeStep.h`; the arrays `positions`
and `velocities` are indexed by island index. -/
structure b2SolverData where
  step : b2TimeStep
  positions : Nat → b2Position
  velocities : Nat → b2Velocity

/-- Modelled from the spec: the part of `b2Body` (`b2Body.h`) the joint reads: island index,
local centre of mass (`m_sweep.localCenter`), inverse mass and inverse inertia. -/
structure b2Body where
  m_islandIndex : Nat
  localCenter : b2Vec
  m_invMass : ℚ
  m_invI : ℚ
deriving DecidableEq, Repr

/-- Modelled from the spec: the class `b2WeldJoint` of `b2WeldJoint.h`, with the members the
source uses. -/
structure b2WeldJoint where
  m_bodyA : b2Body
  m_bodyB : b2Body
  m_frequencyHz : ℚ
  m_dampingRatio : ℚ
  m_bias : ℚ
  m_localAnchorA : b2Vec
  m_localAnchorB : b2Vec
  m_referenceAngle : ℚ
  m_gamma : ℚ
  m_impulse : b2Vec3
  m_indexA : Nat
  m_indexB : Nat
  m_rA : b2Vec
  m_rB : b2Vec
  m_localCenterA : b2Vec
  m_localCenterB : b2Vec
  m_invMassA : ℚ
  m_invMassB : ℚ
  m_invIA : ℚ
  m_invIB : ℚ
  m_mass : b2Mat33
deriving DecidableEq, Repr

/-- The matrix `K` that `InitVelocityConstraints` and `SolvePositionConstraints` assemble from
the inverse masses, inverse inertias and lever arms. -/
def weldK (mA mB iA iB : ℚ) (rA rB : b2Vec) : b2Mat33 :=
  { ex := ⟨mA + mB + rA.y * rA.y * iA + rB.y * rB.y * iB,
      -rA.y * rA.x * iA - rB.y * rB.x * iB, -rA.y * iA - rB.y * iB⟩
    ey := ⟨-rA.y * rA.x * iA - rB.y * rB.x * iB,
      mA + mB + rA.x * rA.x * iA + rB.x * rB.x * iB, rA.x * iA + rB.x * iB⟩
    ez := ⟨-rA.y * iA - rB.y * iB, rA.x * iA + rB.x * iB, iA + iB⟩ }

namespace b2WeldJoint

/-- The first part of `InitVelocityConstraints`: the body data are cached in the joint and the
lever arms are computed from the angles of the two bodies. `Rot` is the constructor
`b2Rot(angle)`, which takes the sine and cosine of the angle. -/
def cacheBodies (Rot : ℚ → b2Rot) (j : b2WeldJoint) (data : b2SolverData) : b2WeldJoint :=
  let j := { j with
    m_indexA := j.m_bodyA.m_islandIndex
    m_indexB := j.m_bodyB.m_islandIndex
    m_localCenterA := j.m_bodyA.localCenter
    m_localCenterB := j.m_bodyB.localCenter
    m_invMassA := j.m_bodyA.m_invMass
    m_invMassB := j.m_bodyB.m_invMass
    m_invIA := j.m_bodyA.m_invI
    m_invIB := j.m_bodyB.m_invI }
  { j with
    m_rA := b2MulRot (Rot (data.positions j.m_indexA).a) (j.m_localAnchorA - j.m_localCenterA)
    m_rB := b2MulRot (Rot (data.positions j.m_indexB).a) (j.m_localAnchorB - j.m_localCenterB) }

/-- The branch `m_frequencyHz > 0` of `InitVelocityConstraints`: the effective mass of the soft
mode, `m_gamma` and `m_bias`. `B2_PI` is a constant of the settings header. -/
def initSoft (B2_PI : ℚ) (j : b2WeldJoint) (K : b2Mat33) (aA aB dt : ℚ) : b2WeldJoint :=
  let mass := K.GetInverse22
  let invM := j.m_invIA + j.m_invIB
  let m := if invM > 0 then 1 / invM else 0
  let C := aB - aA - j.m_referenceAngle
  let omega := 2 * B2_PI * j.m_frequencyHz
  let d := 2 * m * j.m_dampingRatio * omega
  let k := m * omega * omega
  let h := dt
  let gamma := h * (d + h * k)
  let gamma := if gamma ≠ 0 then 1 / gamma else 0
  let bias := C * h * k * gamma
  let invM := invM + gamma
  { j with
    m_mass := { mass with ez := { mass.ez with z := if invM ≠ 0 then 1 / invM else 0 } }
    m_gamma := gamma
    m_bias := bias }

/-- The three-way branch of `InitVelocityConstraints` that fills `m_mass`, `m_gamma` and
`m_bias`. -/
def initMass (B2_PI : ℚ) (j : b2WeldJoint) (aA aB dt : ℚ) : b2WeldJoint :=
  let K := weldK j.m_invMassA j.m_invMassB j.m_invIA j.m_invIB j.m_rA j.m_rB
  if j.m_frequencyHz > 0 then initSoft B2_PI j K aA aB dt
  else if K.ez.z = 0 then { j with m_mass := K.GetInverse22, m_gamma := 0, m_bias := 0 }
  else { j with m_mass := K.GetSymInverse33, m_gamma := 0, m_bias := 0 }

/-- The method `b2WeldJoint::InitVelocityConstraints`: the joint and the solver data after the
call. -/
def InitVelocityConstraints (Rot : ℚ → b2Rot) (B2_PI : ℚ) (j : b2WeldJoint)
    (data : b2SolverData) : b2WeldJoint × b2SolverData :=
  let j := cacheBodies Rot j data
  let aA := (data.positions j.m_indexA).a
  let vA := (data.velocities j.m_indexA).v
  let wA := (data.velocities j.m_indexA).w
  let aB := (data.positions j.m_indexB).a
  let vB := (data.velocities j.m_indexB).v
  let wB := (data.velocities j.m_indexB).w
  let j := initMass B2_PI j aA aB data.step.dt
  let mA := j.m_invMassA
  let mB := j.m_invMassB
  let iA := j.m_invIA
  let iB := j.m_invIB
  if data.step.warmStarting then
    let impulse := data.step.dtRatio * j.m_impulse
    let P : b2Vec := ⟨impulse.x, impulse.y⟩
    let vA := vA - mA * P
    let wA := wA - iA * (b2CrossVV j.m_rA P + impulse.z)
    let vB := vB + mB * P
    let wB := wB + iB * (b2CrossVV j.m_rB P + impulse.z)
    ({ j with m_impulse := impulse },
      { data with
        velocities := Function.update (Function.update data.velocities j.m_indexA ⟨vA, wA⟩)
          j.m_indexB ⟨vB, wB⟩ })
  else
    ({ j with m_impulse := ⟨0, 0, 0⟩ },
      { data with
        velocities := Function.update (Function.update data.velocities j.m_indexA ⟨vA, wA⟩)
          j.m_indexB ⟨vB, wB⟩ })

/-- The branch `m_frequencyHz > 0` of `SolveVelocityConstraints`: the new accumulated impulse
and the new velocities `vA`, `wA`, `vB`, `wB`. -/
def solveVelocitySoft (j : b2WeldJoint) (vA : b2Vec) (wA : ℚ) (vB : b2Vec) (wB : ℚ) :
    b2Vec3 × (b2Velocity × b2Velocity) :=
  let Cdot2 := wB - wA
  let impulse2 := -j.m_mass.ez.z * (Cdot2 + j.m_bias + j.m_gamma * j.m_impulse.z)
  let wA := wA - j.m_invIA * impulse2
  let wB := wB + j.m_invIB * impulse2
  let Cdot1 := vB + b2CrossSV wB j.m_rB - vA - b2CrossSV wA j.m_rA
  let impulse1 := -b2Mul22 j.m_mass Cdot1
  let P := impulse1
  (⟨j.m_impulse.x + impulse1.x, j.m_impulse.y + impulse1.y, j.m_impulse.z + impulse2⟩,
    (⟨vA - j.m_invMassA * P, wA - j.m_invIA * b2CrossVV j.m_rA P⟩,
      ⟨vB + j.m_invMassB * P, wB + j.m_invIB * b2CrossVV j.m_rB P⟩))

/-- The other branch of `SolveVelocityConstraints`: the new accumulated impulse and the new
velocities `vA`, `wA`, `vB`, `wB`. -/
def solveVelocityRigid (j : b2WeldJoint) (vA : b2Vec) (wA : ℚ) (vB : b2Vec) (wB : ℚ) :
    b2Vec3 × (b2Velocity × b2Velocity) :=
  let Cdot1 := vB + b2CrossSV wB j.m_rB - vA - b2CrossSV wA j.m_rA
  let Cdot2 := wB - wA
  let Cdot : b2Vec3 := ⟨Cdot1.x, Cdot1.y, Cdot2⟩
  let impulse := -b2Mul33 j.m_mass Cdot
  let P : b2Vec := ⟨impulse.x, impulse.y⟩
  (j.m_impulse + impulse,
    (⟨vA - j.m_invMassA * P, wA - j.m_invIA * (b2CrossVV j.m_rA P + impulse.z)⟩,
      ⟨vB + j.m_invMassB * P, wB + j.m_invIB * (b2CrossVV j.m_rB P + impulse.z)⟩))

/-- The method `b2WeldJoint::SolveVelocityConstraints`: the joint and the solver data after the
call. -/
def SolveVelocityConstraints (j : b2WeldJoint) (data : b2SolverData) :
    b2WeldJoint × b2SolverData :=
  let vA := (data.velocities j.m_indexA).v
  let wA := (data.velocities j.m_indexA).w
  let vB := (data.velocities j.m_indexB).v
  let wB := (data.velocities j.m_indexB).w
  let r := if j.m_frequencyHz > 0 then solveVelocitySoft j vA wA vB wB
    else solveVelocityRigid j vA wA vB wB
  ({ j with m_impulse := r.1 },
    { data with
      velocities := Function.update (Function.update data.velocities j.m_indexA r.2.1)
        j.m_indexB r.2.2 })

/-- The branch `m_frequencyHz > 0` of `SolvePositionConstraints`: `positionError`,
`angularError` and the new positions of the two bodies. `Length` is the vector method of that
name, which takes a square root. -/
def solvePositionSoft (Length : b2Vec → ℚ) (j : b2WeldJoint) (K : b2Mat33) (rA rB : b2Vec)
    (cA : b2Vec) (aA : ℚ) (cB : b2Vec) (aB : ℚ) : (ℚ × ℚ) × (b2Position × b2Position) :=
  let C1 := cB + rB - cA - rA
  let P := -K.Solve22 C1
  ((Length C1, 0),
    (⟨cA - j.m_invMassA * P, aA - j.m_invIA * b2CrossVV rA P⟩,
      ⟨cB + j.m_invMassB * P, aB + j.m_invIB * b2CrossVV rB P⟩))

/-- The other branch of `SolvePositionConstraints`: `positionError`, `angularError` and the new
positions of the two bodies. -/
def solvePositionRigid (Length : b2Vec → ℚ) (j : b2WeldJoint) (K : b2Mat33) (rA rB : b2Vec)
    (cA : b2Vec) (aA : ℚ) (cB : b2Vec) (aB : ℚ) : (ℚ × ℚ) × (b2Position × b2Position) :=
  let C1 := cB + rB - cA - rA
  let C2 := aB - aA - j.m_referenceAngle
  let C : b2Vec3 := ⟨C1.x, C1.y, C2⟩
  let impulse : b2Vec3 :=
    if K.ez.z > 0 then -K.Solve33 C
    else ⟨(-K.Solve22 C1).x, (-K.Solve22 C1).y, 0⟩
  let P : b2Vec := ⟨impulse.x, impulse.y⟩
  ((Length C1, |C2|),
    (⟨cA - j.m_invMassA * P, aA - j.m_invIA * (b2CrossVV rA P + impulse.z)⟩,
      ⟨cB + j.m_invMassB * P, aB + j.m_invIB * (b2CrossVV rB P + impulse.z)⟩))

/-- The method `b2WeldJoint::SolvePositionConstraints`: the value returned and the solver data
after the call. `LINEAR_SLOP` and `ANGULAR_SLOP` are constants of the settings header. -/
def SolvePositionConstraints (Rot : ℚ → b2Rot) (Length : b2Vec → ℚ)
    (LINEAR_SLOP ANGULAR_SLOP : ℚ) (j : b2WeldJoint) (data : b2SolverData) :
    Bool × b2SolverData :=
  let cA := (data.positions j.m_indexA).c
  let aA := (data.positions j.m_indexA).a
  let cB := (data.positions j.m_indexB).c
  let aB := (data.positions j.m_indexB).a
  let rA := b2MulRot (Rot aA) (j.m_localAnchorA - j.m_localCenterA)
  let rB := b2MulRot (Rot aB) (j.m_localAnchorB - j.m_localCenterB)
  let K := weldK j.m_invMassA j.m_invMassB j.m_invIA j.m_invIB rA rB
  let r := if j.m_frequencyHz > 0 then solvePositionSoft Length j K rA rB cA aA cB aB
    else solvePositionRigid Length j K rA rB cA aA cB aB
  (decide (r.1.1 ≤ LINEAR_SLOP ∧ r.1.2 ≤ ANGULAR_SLOP),
    { data with
      positions := Function.update (Function.update data.positions j.m_indexA r.2.1)
        j.m_indexB r.2.2 })

end b2WeldJoint

/-! ## Weld joint: spec-side notions and concrete runs -/

namespace b2WeldJoint

/-- The constraint velocity error `(Cdot1, Cdot2)` of the joint at the velocities of the two
bodies, as `SolveVelocityConstraints` computes it from the cached lever arms. -/
def velocityError (j : b2WeldJoint) (data : b2SolverData) : b2Vec3 :=
  let vA := (data.velocities j.m_indexA).v
  let wA := (data.velocities j.m_indexA).w
  let vB := (data.velocities j.m_indexB).v
  let wB := (data.velocities j.m_indexB).w
  let Cdot1 := vB + b2CrossSV wB j.m_rB - vA - b2CrossSV wA j.m_rA
  ⟨Cdot1.x, Cdot1.y, wB - wA⟩

end b2WeldJoint

/-- A rotation constructor with rational sine and cosine for concrete runs: the rotation whose
half angle has tangent `a`. At `a = 0`, the only angle of the concrete runs, it is the identity,
as `b2Rot(0)` is. -/
def rotRational (a : ℚ) : b2Rot := ⟨2 * a / (1 + a * a), (1 - a * a) / (1 + a * a)⟩

/-- A rational stand-in for the constant `B2_PI` in concrete runs. -/
def PI_RATIONAL : ℚ := 355 / 113

/-- A stand-in for the vector method `Length` in concrete runs: it is the Euclidean length on
vectors along a coordinate axis, the only ones the concrete runs measure. -/
def lengthAxial (v : b2Vec) : ℚ := |v.x| + |v.y|

/-- A rigid weld joint between two bodies of unit inverse mass and inertia with island indices
0 and 1, anchored one unit to the right of A and one unit to the left of B, carrying the
accumulated impulse `(1, 0, 0)`. The cached members are what `InitVelocityConstraints`
computes for bodies at angle 0. -/
def weldPair : b2WeldJoint :=
  { m_bodyA := ⟨0, ⟨0, 0⟩, 1, 1⟩
    m_bodyB := ⟨1, ⟨0, 0⟩, 1, 1⟩
    m_frequencyHz := 0
    m_dampingRatio := 0
    m_bias := 0
    m_localAnchorA := ⟨1, 0⟩
    m_localAnchorB := ⟨-1, 0⟩
    m_referenceAngle := 0
    m_gamma := 0
    m_impulse := ⟨1, 0, 0⟩
    m_indexA := 0
    m_indexB := 1
    m_rA := ⟨1, 0⟩
    m_rB := ⟨-1, 0⟩
    m_localCenterA := ⟨0, 0⟩
    m_localCenterB := ⟨0, 0⟩
    m_invMassA := 1
    m_invMassB := 1
    m_invIA := 1
    m_invIB := 1
    m_mass := (weldK 1 1 1 1 ⟨1, 0⟩ ⟨-1, 0⟩).GetSymInverse33 }

/-- The joint `weldPair` with a spring frequency, which selects the soft mode, and with the
reference angle 1, so that bodies at equal angles have the angular error 1. -/
def weldPairSoft : b2WeldJoint :=
  { weldPair with m_frequencyHz := 1, m_dampingRatio := 1, m_referenceAngle := 1 }

/-- Solver data for `weldPair`: body A at `(-1, 0)` and body B at `(1, 0)`, both at angle 0, so
that the anchors coincide, with the linear velocities `vA` and `vB` and no angular velocity.
The timestep `dt`, the ratio `dtRatio` and the warm starting flag are given. -/
def pairData (dt dtRatio : ℚ) (warmStarting : Bool) (vA vB : b2Vec) : b2SolverData :=
  { step := ⟨dt, dtRatio, warmStarting⟩
    positions := fun i => if i = 0 then ⟨⟨-1, 0⟩, 0⟩ else ⟨⟨1, 0⟩, 0⟩
    velocities := fun i => if i = 0 then ⟨vA, 0⟩ else ⟨vB, 0⟩ }

namespace b2WeldJoint

/-- The matrix `K` that `InitVelocityConstraints` assembles for the joint: from the inverse
masses and inertias of the two bodies and the lever arms at the angles of the solver data. -/
def initK (Rot : ℚ → b2Rot) (j : b2WeldJoint) (data : b2SolverData) : b2Mat33 :=
  weldK j.m_bodyA.m_invMass j.m_bodyB.m_invMass j.m_bodyA.m_invI j.m_bodyB.m_invI
    (b2MulRot (Rot (data.positions j.m_bodyA.m_islandIndex).a)
      (j.m_localAnchorA - j.m_bodyA.localCenter))
    (b2MulRot (Rot (data.positions j.m_bodyB.m_islandIndex).a)
      (j.m_localAnchorB - j.m_bodyB.localCenter))

end b2WeldJoint

end box2d

namespace b2d11

/-! ## Block allocator: the chunk array, and a host with a small array -/

namespace BlockAllocator

variable {σ : Type}

/-- The chunk array is consistent: at most `m_chunkSpace` chunks are in use and the array holds
`m_chunkSpace` records. -/
def ChunkArrayInv (a : BlockAllocator σ) : Prop :=
  a.m_chunkCount ≤ a.m_chunkSpace ∧ a.chunks.length = a.m_chunkSpace

end BlockAllocator

/-- The host `bumpHost` with a chunk array that grows by one record at a time. -/
def unitHost : Host Nat := { bumpHost with CHUNK_ARRAY_INCREMENT := 1 }

end b2d11

namespace box2d

/-! ## Polygon collision: two triangles close at a corner -/

/-- A triangle with an acute corner at the origin: vertices counter-clockwise from `(0, 0)`,
with the outward unit normal of the face starting at each vertex, and polygon radius 0.01. -/
def cornerTriangle : b2PolygonShape where
  vertices := [⟨0, 0⟩, ⟨6, 0⟩, ⟨3, 4⟩]
  normals := [⟨0, -1⟩, ⟨4/5, 3/5⟩, ⟨-4/5, 3/5⟩]
  radius := 1/100

/-- A triangle whose tip `(-0.03, -0.018)` lies below and to the left of the corner of
`cornerTriangle`, further from it than the two radii together, the rest of the triangle
leading away from the corner: vertices counter-clockwise from the tip, with the outward unit
normal of the face starting at each vertex, and polygon radius 0.01. -/
def wedgeTriangle : b2PolygonShape where
  vertices := [⟨-3/100, -9/500⟩, ⟨-1109/300, -346/125⟩, ⟨-303/100, -2009/500⟩]
  normals := [⟨-3/5, 4/5⟩, ⟨-15/17, -8/17⟩, ⟨4/5, -3/5⟩]
  radius := 1/100

/-! ## Weld joint: the soft branch with checked divisions -/

/-- A division that fails when the divisor is zero. -/
def checkedDiv (a b : ℚ) : Option ℚ := if b = 0 then none else some (a / b)

namespace b2WeldJoint

/-- The branch `m_frequencyHz > 0` of `InitVelocityConstraints` with each of the three divisions
it writes out checked: the result is `none` if one of them divides by zero, and the joint that
`initSoft` gives otherwise. -/
def initSoftChecked (B2_PI : ℚ) (j : b2WeldJoint) (K : b2Mat33) (aA aB dt : ℚ) :
    Option b2WeldJoint :=
  let mass := K.GetInverse22
  let invM := j.m_invIA + j.m_invIB
  (if invM > 0 then checkedDiv 1 invM else some 0).bind fun m =>
  let C := aB - aA - j.m_referenceAngle
  let omega := 2 * B2_PI * j.m_frequencyHz
  let d := 2 * m * j.m_dampingRatio * omega
  let k := m * omega * omega
  let h := dt
  let gamma := h * (d + h * k)
  (if gamma ≠ 0 then checkedDiv 1 gamma else some 0).bind fun gamma =>
  let bias := C * h * k * gamma
  let invM := invM + gamma
  (if invM ≠ 0 then checkedDiv 1 invM else some 0).bind fun z =>
  some { j with
    m_mass := { mass with ez := { mass.ez with z := z } }
    m_gamma := gamma
    m_bias := bias }

end b2WeldJoint

/-! ## Polygon collision: regions and convex hulls -/

/-- The world-space region of a polygon placed by `xf`, as the intersection of its face
half-planes: the points `p` with `dot(n_i, p - v_i) ≤ 0` for every face `i`, where `n_i` and
`v_i` are the normal and the vertex of the face in world coordinates. -/
def b2PolygonShape.inRegion (poly : b2PolygonShape) (xf : b2Transform) (p : b2Vec) : Prop :=
  ∀ i, i < poly.vertices.length →
    b2Dot (b2MulRot xf.q (poly.normals.getD i default))
      (p - b2Mul xf (poly.vertices.getD i default)) ≤ 0

/-- The combination `w_1 * v_1 + ... + w_n * v_n` of a list of weighted points. -/
def combination (wv : List (ℚ × b2Vec)) : b2Vec :=
  wv.foldr (fun x acc => x.1 * x.2 + acc) ⟨0, 0⟩

/-- The point `p` lies in the convex hull of the points `vs`: it is a combination of points of
`vs` with weights that are not negative and sum to 1. -/
def inConvexHull (vs : List b2Vec) (p : b2Vec) : Prop :=
  ∃ wv : List (ℚ × b2Vec),
    (∀ x ∈ wv, 0 ≤ x.1 ∧ x.2 ∈ vs) ∧ (wv.map Prod.fst).sum = 1 ∧ p = combination wv

end box2d

namespace b2d11

/-! ## Block allocator: sequences of calls and the invariant of the pool -/

/-- The size of class `j`: the entry `s_blockSizes[j]`. -/
def sizeOfClass (j : Nat) : Nat := s_blockSizes.getD j 0

/-- A call in a sequence of calls of the allocator: `Allocate(size)` or `Free(p, size)`. -/
inductive Op where
  | allocate (size : Int)
  | free (p : Int) (size : Int)
deriving DecidableEq, Repr

namespace BlockAllocator

variable {σ : Type}

/-- The address `p` is a block of class `j`: block `k` of a chunk in use whose block size is the
size of class `j`, at the offset `k` times that size, with `k` below the block count of the
chunk. -/
def IsBlock (H : Host σ) (a : BlockAllocator σ) (j : Nat) (p : Int) : Prop :=
  ∃ (i k : Nat) (c : Chunk), i < a.m_chunkCount ∧ a.chunks[i]? = some c ∧
    c.blockSize = sizeOfClass j ∧ k < H.CHUNK_SIZE / sizeOfClass j ∧
    p = c.blocks + (sizeOfClass j : Int) * (k : Int)

/-- What the allocator relies on from the general-purpose allocator: the chunks in use are at
addresses above the null pointer and their regions of `CHUNK_SIZE` bytes do not overlap. -/
def ChunksDisjoint (H : Host σ) (a : BlockAllocator σ) : Prop :=
  ∀ (i : Nat) (c : Chunk), i < a.m_chunkCount → a.chunks[i]? = some c →
    0 < c.blocks ∧
    ∀ (i' : Nat) (c' : Chunk), i' < i → a.chunks[i']? = some c' →
      c.blocks + (H.CHUNK_SIZE : Int) ≤ c'.blocks ∨ c'.blocks + (H.CHUNK_SIZE : Int) ≤ c.blocks

/-- One call of a sequence, on the allocator state and the list of outstanding blocks, each
with the class index of the size it was allocated with. An `Allocate` of a size in `[1, 640]`
adds the block returned; a `Free` must release an outstanding block with a size of the class of
its `Allocate`, and removes it. The result is `none` for any other call. -/
def step (H : Host σ) (st : BlockAllocator σ × List (Int × Nat)) (op : Op) :
    Option (BlockAllocator σ × List (Int × Nat)) :=
  match op with
  | .allocate size =>
    if 1 ≤ size ∧ size ≤ 640 then
      (Allocate H st.1 size).map fun r => (r.2, (r.1, classIndex size) :: st.2)
    else none
  | .free p size =>
    if 1 ≤ size ∧ size ≤ 640 ∧ (p, classIndex size) ∈ st.2 then
      (Free H st.1 p size).map fun a => (a, st.2.erase (p, classIndex size))
    else none

/-- A sequence of calls run from a state and a list of outstanding blocks. -/
def runOps (H : Host σ) (st : BlockAllocator σ × List (Int × Nat)) (ops : List Op) :
    Option (BlockAllocator σ × List (Int × Nat)) :=
  ops.foldlM (step H) st

/-- The invariant of the pool for a state and its outstanding blocks: the chunk array is
consistent, the chunks do not overlap, the outstanding blocks are blocks of their classes at
different addresses, and the free list of every class is a null-terminated list without
repetition of blocks of that class, none of them outstanding. -/
def PoolInv (H : Host σ) (st : BlockAllocator σ × List (Int × Nat)) : Prop :=
  ChunkArrayInv st.1 ∧ ChunksDisjoint H st.1 ∧
  (st.2.map Prod.fst).Nodup ∧
  (∀ x ∈ st.2, x.2 < BLOCK_SIZES ∧ IsBlock H st.1 x.2 x.1) ∧
  ∀ j, j < BLOCK_SIZES → ∃ l : List Int, (∀ n, st.1.freeList j n = l.take n) ∧ l.Nodup ∧
    (∀ p ∈ l, IsBlock H st.1 j p) ∧ ∀ x ∈ st.2, x.1 ∉ l

end BlockAllocator

/-- The state `busyChunkState` after a second `Allocate(16)`: the block 8208 is handed out as
well and the free list of class 0 starts at the link of 8208. -/
def twoBlocksState : BlockAllocator Nat :=
  { busyChunkState with
    m_freeLists := Function.update busyChunkState.m_freeLists 0 (busyChunkState.next 8208) }

end b2d11

namespace box2d

/-! ## Distance proxy: the support vertex -/

namespace b2DistanceProxy

/-- The loop of `b2DistanceProxy::GetSupportVertex`: the pair of the position in `m_vertices`
of the vertex `bestVec` points to and `bestValue`, after the range-for over all the vertices,
the one at position 0 included. `bestVec` starts at the front of `m_vertices`, position 0. -/
def supportVertexScan (proxy : b2DistanceProxy) (d : b2Vec) : Nat × ℚ :=
  (List.range proxy.m_vertices.length).foldl
    (fun best i =>
      if b2Dot (proxy.m_vertices.getD i default) d > best.2 then
        (i, b2Dot (proxy.m_vertices.getD i default) d)
      else best)
    (0, b2Dot (proxy.m_vertices.getD 0 default) d)

/-- The method `b2DistanceProxy::GetSupportVertex`: the vertex `*bestVec`. -/
def GetSupportVertex (proxy : b2DistanceProxy) (d : b2Vec) : b2Vec :=
  proxy.m_vertices.getD (supportVertexScan proxy d).1 default

end b2DistanceProxy

/-! ## Weld joint: successive position passes -/

namespace b2WeldJoint

/-- The vector `C1 = cB + rB - cA - rA` that `SolvePositionConstraints` computes from the
positions of the solver data: the offset of the anchor on B from the anchor on A. -/
def positionC1 (Rot : ℚ → b2Rot) (j : b2WeldJoint) (data : b2SolverData) : b2Vec :=
  (data.positions j.m_indexB).c +
    b2MulRot (Rot (data.positions j.m_indexB).a) (j.m_localAnchorB - j.m_localCenterB) -
    (data.positions j.m_indexA).c -
    b2MulRot (Rot (data.positions j.m_indexA).a) (j.m_localAnchorA - j.m_localCenterA)

/-- The angle `C2 = aB - aA - m_referenceAngle` that the rigid branch of
`SolvePositionConstraints` computes from the positions of the solver data. -/
def positionC2 (j : b2WeldJoint) (data : b2SolverData) : ℚ :=
  (data.positions j.m_indexB).a - (data.positions j.m_indexA).a - j.m_referenceAngle

/-- The solver data after `n` successive calls of `SolvePositionConstraints` on the joint `j`,
each on the data the call before it leaves. -/
def positionPasses (Rot : ℚ → b2Rot) (Length : b2Vec → ℚ) (LINEAR_SLOP ANGULAR_SLOP : ℚ)
    (j : b2WeldJoint) (data : b2SolverData) : Nat → b2SolverData
  | 0 => data
  | n + 1 =>
    (SolvePositionConstraints Rot Length LINEAR_SLOP ANGULAR_SLOP j
      (positionPasses Rot Length LINEAR_SLOP ANGULAR_SLOP j data n)).2

end b2WeldJoint

/-- The joint `weldPair` between two bodies without rotational inertia: the inverse inertias
are zero and the effective mass is the 2x2 inverse. -/
def weldPairNoInertia : b2WeldJoint :=
  { weldPair with
    m_bodyA := ⟨0, ⟨0, 0⟩, 1, 0⟩
    m_bodyB := ⟨1, ⟨0, 0⟩, 1, 0⟩
    m_invIA := 0
    m_invIB := 0
    m_mass := (weldK 1 1 0 0 ⟨1, 0⟩ ⟨-1, 0⟩).GetInverse22 }

/-- Solver data for `weldPairNoInertia` with the anchors apart and an angular error: body A at
`(-1, 0)` with angle 0 and body B at `(3, 0)` with angle 1, which `rotRational` turns into a
quarter turn, so that the anchor on B is at `(3, -1)` and the anchor on A at `(0, 0)`. -/
def apartData : b2SolverData :=
  { step := ⟨1, 1, true⟩
    positions := fun i => if i = 0 then ⟨⟨-1, 0⟩, 0⟩ else ⟨⟨3, 0⟩, 1⟩
    velocities := fun _ => ⟨⟨0, 0⟩, 0⟩ }

end box2d

namespace b2d11

/-! ## Block allocator: `Free` as compiled with `_DEBUG` -/

namespace BlockAllocator

variable {σ : Type}

/-- The loop of the `_DEBUG` block of `Free` over the chunks in use, for the pointer `p` and
the block size of its class: the value of `found` after the loop, or `none` when the assertion
inside the loop fails, which it does when `p` overlaps a chunk of another block size. -/
def debugScan (H : Host σ) (a : BlockAllocator σ) (p : Int) (blockSize : Nat) : Option Bool :=
  (List.range a.m_chunkCount).foldlM
    (fun (found : Bool) (i : Nat) =>
      let chunk := a.chunks.getD i Chunk.zero
      if chunk.blockSize ≠ blockSize then
        if ¬ (p + (blockSize : Int) ≤ chunk.blocks ∨ chunk.blocks + (H.CHUNK_SIZE : Int) ≤ p)
        then none
        else some found
      else if chunk.blocks ≤ p ∧ p + (blockSize : Int) ≤ chunk.blocks + (H.CHUNK_SIZE : Int)
      then some true
      else some found)
    false

/-- The method `BlockAllocator::Free(void* p, int32 size)` as compiled with `_DEBUG`: before the
block is linked, the pointer is validated against the chunks in use, with `none` for a failing
assertion, and the block is filled by `memset(p, 0xfd, blockSize)`. The parameter `memset` is
what that call does to the link words of the memory, which depends on the width of a
pointer. -/
def FreeDebug (H : Host σ) (memset : (Int → Int) → Int → Nat → Int → Int)
    (a : BlockAllocator σ) (p : Int) (size : Int) : Option (BlockAllocator σ) :=
  if size = 0 then some a
  else if ¬ (0 < size) then none
  else if size > MAX_BLOCK_SIZE then some { a with sys := H.Free a.sys p }
  else
    let index := s_blockSizeLookup.getD size.toNat 0
    if ¬ (index < BLOCK_SIZES) then none
    else
      let blockSize := s_blockSizes.getD index 0
      match debugScan H a p blockSize with
      | none => none
      | some found =>
        if ¬ (found = true) then none
        else
          some { a with
            next := Function.update (memset a.next p blockSize) p (a.m_freeLists index)
            m_freeLists := Function.update a.m_freeLists index p }

/-- What the `_DEBUG` block of `Free` checks of a pointer `p` and the block size of its class:
`p` overlaps no chunk in use of another block size, and a block of that size at `p` lies inside
a chunk in use of its block size. -/
def DebugValid (H : Host σ) (a : BlockAllocator σ) (p : Int) (blockSize : Nat) : Prop :=
  (∀ i, i < a.m_chunkCount → (a.chunks.getD i Chunk.zero).blockSize ≠ blockSize →
    p + (blockSize : Int) ≤ (a.chunks.getD i Chunk.zero).blocks ∨
      (a.chunks.getD i Chunk.zero).blocks + (H.CHUNK_SIZE : Int) ≤ p) ∧
  ∃ i, i < a.m_chunkCount ∧ (a.chunks.getD i Chunk.zero).blockSize = blockSize ∧
    (a.chunks.getD i Chunk.zero).blocks ≤ p ∧
    p + (blockSize : Int) ≤ (a.chunks.getD i Chunk.zero).blocks + (H.CHUNK_SIZE : Int)

end BlockAllocator

/-- A stand-in for `memset(p, 0xfd, n)` on the link words, for pointers of 8 bytes: the word at
each address from `p` up to `p + n - 8` becomes the pointer whose bytes are all `0xfd`. -/
def memsetFd (next : Int → Int) (p : Int) (n : Nat) : Int → Int :=
  fun x => if p ≤ x ∧ x + 8 ≤ p + (n : Int) then 18302063728033398269 else next x

end b2d11

namespace box2d

/-! ## Single-precision arithmetic: the values of the type `float` and their operations -/

namespace ieee

/-- A value of the type `float`: a number, an infinity with its sign, or a NaN. A number is
held as a rational; the operations below produce only numbers the format represents. The two
zeros of the format are one value here, `fin 0`: the routines embedded never divide by an
unguarded zero, the one place where the sign of a zero shows. -/
inductive F32 where
  | fin (q : ℚ)
  | inf (negative : Bool)
  | nan
deriving DecidableEq, Repr

/-- The number of times `n` can be halved, rounding down, before it drops below 2: the position
of the leading bit of `n`. The first argument bounds the number of steps. -/
def halvings : Nat → Nat → Nat
  | 0, _ => 0
  | fuel + 1, n => if n < 2 then 0 else halvings fuel (n / 2) + 1

/-- The binary exponent of a rational `q` other than 0: the integer `e` with
`2 ^ e ≤ |q| < 2 ^ (e + 1)`. The difference of the leading-bit positions of numerator and
denominator is this exponent or exceeds it by one. -/
def ilog2 (q : ℚ) : ℤ :=
  let e : ℤ := (halvings q.num.natAbs q.num.natAbs : ℤ) - (halvings q.den q.den : ℤ)
  if (2 : ℚ) ^ e ≤ |q| then e else e - 1

/-- The integer nearest to `x`, the even one of the two when `x` lies half way between them. -/
def roundNearestEven (x : ℚ) : ℤ :=
  if x - ⌊x⌋ < 1 / 2 then ⌊x⌋
  else if 1 / 2 < x - ⌊x⌋ then ⌊x⌋ + 1
  else if ⌊x⌋ % 2 = 0 then ⌊x⌋ else ⌊x⌋ + 1

/-- The `float` nearest to the rational `q` (round to nearest, ties to even): `q` is rounded to
a multiple of `2 ^ e`, where `e` leaves 24 significant bits and is at least `-149`, the
exponent of the least subnormal number; a result of magnitude `2 ^ 128` or more is an
infinity. -/
def round32 (q : ℚ) : F32 :=
  let e := max (ilog2 q - 23) (-149)
  let r := (roundNearestEven (q / 2 ^ e) : ℚ) * 2 ^ e
  if 2 ^ 128 ≤ |r| then .inf (decide (r < 0)) else .fin r

namespace F32

/-- The operator `+` of the type `float`. -/
def add : F32 → F32 → F32
  | fin a, fin b => round32 (a + b)
  | fin _, inf s => inf s
  | inf s, fin _ => inf s
  | inf s, inf t => if s = t then inf s else nan
  | _, _ => nan

/-- The unary operator `-` of the type `float`. -/
def neg : F32 → F32
  | fin a => fin (-a)
  | inf s => inf (!s)
  | nan => nan

/-- The operator `-` of the type `float`. -/
def sub (a b : F32) : F32 := add a (neg b)

/-- The operator `*` of the type `float`. -/
def mul : F32 → F32 → F32
  | fin a, fin b => round32 (a * b)
  | fin a, inf s => if a = 0 then nan else inf (xor (decide (a < 0)) s)
  | inf s, fin b => if b = 0 then nan else inf (xor s (decide (b < 0)))
  | inf s, inf t => inf (xor s t)
  | _, _ => nan

/-- The operator `/` of the type `float`. A number other than 0 divided by 0 is the infinity of
its sign, the zero taken as positive. -/
def div : F32 → F32 → F32
  | fin a, fin b =>
    if b = 0 then (if a = 0 then nan else inf (decide (a < 0))) else round32 (a / b)
  | fin _, inf _ => fin 0
  | inf s, fin b => inf (xor s (decide (b < 0)))
  | _, _ => nan

/-- The comparison `<` of the type `float`: false when an operand is a NaN. -/
def lt : F32 → F32 → Bool
  | fin a, fin b => decide (a < b)
  | fin _, inf s => !s
  | inf s, fin _ => s
  | inf s, inf t => s && !t
  | _, _ => false

/-- The comparison `<=` of the type `float`: false when an operand is a NaN. -/
def le : F32 → F32 → Bool
  | fin a, fin b => decide (a ≤ b)
  | fin _, inf s => !s
  | inf s, fin _ => s
  | inf s, inf t => s || !t
  | _, _ => false

/-- The comparison `==` of the type `float`: false when an operand is a NaN. -/
def eq : F32 → F32 → Bool
  | fin a, fin b => decide (a = b)
  | inf s, inf t => decide (s = t)
  | _, _ => false

/-- The comparison `!=` of the type `float`: true when an operand is a NaN. -/
def ne (a b : F32) : Bool := !(eq a b)

/-- The function `std::abs` on the type `float`. -/
def abs : F32 → F32
  | fin a => fin |a|
  | inf _ => inf false
  | nan => nan

/-- Whether a value is one the format represents: an infinity, a NaN, or a number that
rounding leaves as it is. -/
def isFloat : F32 → Bool
  | fin q => decide (round32 q = fin q)
  | _ => true

/-- The rational a number holds; 0 for an infinity or a NaN. -/
def toRat : F32 → ℚ
  | fin q => q
  | _ => 0

instance (n : Nat) : OfNat F32 n := ⟨fin n⟩

instance : Add F32 := ⟨add⟩

instance : Sub F32 := ⟨sub⟩

instance : Mul F32 := ⟨mul⟩

instance : Div F32 := ⟨div⟩

instance : Neg F32 := ⟨neg⟩

instance : LT F32 := ⟨fun a b => lt a b = true⟩

instance : LE F32 := ⟨fun a b => le a b = true⟩

instance (a b : F32) : Decidable (a < b) := inferInstanceAs (Decidable (lt a b = true))

instance (a b : F32) : Decidable (a ≤ b) := inferInstanceAs (Decidable (le a b = true))

end F32

/-! ## Single-precision arithmetic: polygon collision and the distance proxy -/

/-- Modelled from the spec: the vector type `b2Vec<float, 2>` of `b2Math.h`, with components of
the type `float`. -/
structure b2Vec where
  x : F32
  y : F32
deriving DecidableEq, Repr

instance : Inhabited b2Vec := ⟨⟨.fin 0, .fin 0⟩⟩

instance : Add b2Vec := ⟨fun a b => ⟨a.x + b.x, a.y + b.y⟩⟩

instance : Sub b2Vec := ⟨fun a b => ⟨a.x - b.x, a.y - b.y⟩⟩

instance : Neg b2Vec := ⟨fun a => ⟨-a.x, -a.y⟩⟩

instance : HMul F32 b2Vec b2Vec := ⟨fun s a => ⟨s * a.x, s * a.y⟩⟩

/-- Modelled from the spec: the rotation `b2Rot` of `b2Math.h`, sine and cosine of the angle. -/
structure b2Rot where
  s : F32
  c : F32
deriving DecidableEq, Repr

/-- Modelled from the spec: the rigid transform `b2Transform` of `b2Math.h`. -/
structure b2Transform where
  p : b2Vec
  q : b2Rot
deriving DecidableEq, Repr

/-- Modelled from the spec: `b2Dot` of `b2Math.h`, `a.x * b.x + a.y * b.y` with each operation
rounded. -/
def b2Dot (a b : b2Vec) : F32 := a.x * b.x + a.y * b.y

/-- Modelled from the spec: `b2Mul(q, v)` of `b2Math.h`, the rotation of a vector. -/
def b2MulRot (q : b2Rot) (v : b2Vec) : b2Vec := ⟨q.c * v.x - q.s * v.y, q.s * v.x + q.c * v.y⟩

/-- Modelled from the spec: `b2MulT(q, v)` of `b2Math.h`, the inverse rotation of a vector. -/
def b2MulTRot (q : b2Rot) (v : b2Vec) : b2Vec := ⟨q.c * v.x + q.s * v.y, -q.s * v.x + q.c * v.y⟩

/-- Modelled from the spec: `b2Mul(T, v)` of `b2Math.h`, a transform applied to a point. -/
def b2Mul (T : b2Transform) (v : b2Vec) : b2Vec := b2MulRot T.q v + T.p

/-- Modelled from the spec: `b2MulT(T, v)` of `b2Math.h`, the inverse transform applied to a
point. -/
def b2MulT (T : b2Transform) (v : b2Vec) : b2Vec := b2MulTRot T.q (v - T.p)

/-- Modelled from the spec: `b2MulT(A, B)` of `b2Math.h` on two transforms, the transform `B`
followed by the inverse of `A`. -/
def b2MulTXf (A B : b2Transform) : b2Transform :=
  { q := ⟨A.q.c * B.q.s - A.q.s * B.q.c, A.q.c * B.q.c + A.q.s * B.q.s⟩
    p := b2MulTRot A.q (B.p - A.p) }

/-- Modelled from the spec: the part of `b2PolygonShape` (`b2PolygonShape.h`) the collision
routines read. -/
structure b2PolygonShape where
  vertices : List b2Vec
  normals : List b2Vec
  radius : F32
deriving DecidableEq, Repr

/-- The method `b2PolygonShape::GetVertexCount`. -/
def b2PolygonShape.GetVertexCount (poly : b2PolygonShape) : Nat := poly.vertices.length

/-- The inner loop of `b2FindMaxSeparation`, as `box2d.deepest`, in single precision. -/
def deepest (MAX_FLOAT : F32) (n v1 : b2Vec) (v2s : List b2Vec) : F32 :=
  v2s.foldl (fun si v2 => if b2Dot n (v2 - v1) < si then b2Dot n (v2 - v1) else si) MAX_FLOAT

/-- The value `si` that `b2FindMaxSeparation` computes for face `i` of `poly1`, in single
precision. -/
def faceSeparation (MAX_FLOAT : F32) (poly1 : b2PolygonShape) (xf1 : b2Transform)
    (poly2 : b2PolygonShape) (xf2 : b2Transform) (i : Nat) : F32 :=
  deepest MAX_FLOAT (b2MulRot (b2MulTXf xf2 xf1).q (poly1.normals.getD i default))
    (b2Mul (b2MulTXf xf2 xf1) (poly1.vertices.getD i default)) poly2.vertices

/-- The routine `b2FindMaxSeparation` in single precision: the pair of `*edgeIndex` and the
value returned. -/
def b2FindMaxSeparation (MAX_FLOAT : F32) (poly1 : b2PolygonShape) (xf1 : b2Transform)
    (poly2 : b2PolygonShape) (xf2 : b2Transform) : Nat × F32 :=
  (List.range poly1.vertices.length).foldl
    (fun best i =>
      if faceSeparation MAX_FLOAT poly1 xf1 poly2 xf2 i > best.2 then
        (i, faceSeparation MAX_FLOAT poly1 xf1 poly2 xf2 i)
      else best)
    (0, -MAX_FLOAT)

/-- The value of `dot(n, v2 - v1)` that `b2FindMaxSeparation` computes in single precision for
face `i` of `poly1` and the vertex `v2` of `poly2`: with `xf = b2MulT(xf2, xf1)`, the normal is
`n = b2Mul(xf.q, n1s[i])` and the vertex `v1 = b2Mul(xf, v1s[i])`, every operation rounded. -/
def computedSeparation (poly1 : b2PolygonShape) (xf1 xf2 : b2Transform) (i : Nat)
    (v2 : b2Vec) : F32 :=
  b2Dot (b2MulRot (b2MulTXf xf2 xf1).q (poly1.normals.getD i default))
    (v2 - b2Mul (b2MulTXf xf2 xf1) (poly1.vertices.getD i default))

/-- The search loop of `b2FindIncidentEdge` in single precision: the pair of `index` and
`minDot`. -/
def incidentIndex (MAX_FLOAT : F32) (normal1 : b2Vec) (normals2 : List b2Vec) : Nat × F32 :=
  (List.range normals2.length).foldl
    (fun best i =>
      if b2Dot normal1 (normals2.getD i default) < best.2 then
        (i, b2Dot normal1 (normals2.getD i default))
      else best)
    (0, MAX_FLOAT)

/-- The face `index` of `poly2` that `b2FindIncidentEdge` selects, in single precision. -/
def incidentFace (MAX_FLOAT : F32) (poly1 : b2PolygonShape) (xf1 : b2Transform) (edge1 : Nat)
    (poly2 : b2PolygonShape) (xf2 : b2Transform) : Nat :=
  (incidentIndex MAX_FLOAT (b2MulTRot xf2.q (b2MulRot xf1.q (poly1.normals.getD edge1 default)))
    poly2.normals).1

/-- Modelled from the spec: the record `b2ClipVertex` of `b2Collision.h`, a point with a contact
id. -/
structure b2ClipVertex where
  v : b2Vec
  id : b2ContactFeature
deriving DecidableEq, Repr

/-- The routine `b2FindIncidentEdge` in single precision: the two clip vertices written to
`c`. -/
def b2FindIncidentEdge (MAX_FLOAT : F32) (poly1 : b2PolygonShape) (xf1 : b2Transform)
    (edge1 : Nat) (poly2 : b2PolygonShape) (xf2 : b2Transform) :
    Option (b2ClipVertex × b2ClipVertex) :=
  if ¬ (edge1 < poly1.GetVertexCount) then none
  else
    let i1 := incidentFace MAX_FLOAT poly1 xf1 edge1 poly2 xf2
    let i2 := nextIndex i1 poly2.normals.length
    some
      (⟨b2Mul xf2 (poly2.vertices.getD i1 default), ⟨edge1 % 256, i1 % 256, .e_face, .e_vertex⟩⟩,
       ⟨b2Mul xf2 (poly2.vertices.getD i2 default), ⟨edge1 % 256, i2 % 256, .e_face, .e_vertex⟩⟩)

/-- The choice of reference and incident polygon made by `b2CollidePolygons`. -/
structure Reference where
  poly1 : b2PolygonShape
  poly2 : b2PolygonShape
  xf1 : b2Transform
  xf2 : b2Transform
  edge1 : Nat
  type : ManifoldType
  flip : Nat
deriving DecidableEq, Repr

/-- The literal `0.1f`: the `float` nearest to one tenth. -/
def tenth : F32 := .fin (13421773 / 134217728)

/-- The branch of `b2CollidePolygons` on `separationB > separationA + k_tol` in single
precision, with `k_tol = 0.1f * LINEAR_SLOP`. -/
def chooseReference (LINEAR_SLOP : F32) (polyA : b2PolygonShape) (xfA : b2Transform)
    (polyB : b2PolygonShape) (xfB : b2Transform) (edgeA : Nat) (separationA : F32)
    (edgeB : Nat) (separationB : F32) : Reference :=
  if separationB > separationA + tenth * LINEAR_SLOP then
    ⟨polyB, polyA, xfB, xfA, edgeB, .e_faceB, 1⟩
  else
    ⟨polyA, polyB, xfA, xfB, edgeA, .e_faceA, 0⟩

/-- The part of `b2CollidePolygons` up to the choice of the reference face, in single
precision: `none` when the routine returns at one of the two tests for a separating axis, and
the choice otherwise. -/
def referenceChoice (MAX_FLOAT LINEAR_SLOP : F32) (polyA : b2PolygonShape) (xfA : b2Transform)
    (polyB : b2PolygonShape) (xfB : b2Transform) : Option Reference :=
  let totalRadius := polyA.radius + polyB.radius
  let sepA := b2FindMaxSeparation MAX_FLOAT polyA xfA polyB xfB
  if sepA.2 > totalRadius then none
  else
    let sepB := b2FindMaxSeparation MAX_FLOAT polyB xfB polyA xfA
    if sepB.2 > totalRadius then none
    else some (chooseReference LINEAR_SLOP polyA xfA polyB xfB sepA.1 sepA.2 sepB.1 sepB.2)

/-- The record `b2DistanceProxy` with vertices of the type `float`. -/
structure b2DistanceProxy where
  m_vertices : List b2Vec
  m_radius : F32
deriving DecidableEq, Repr

namespace b2DistanceProxy

/-- The method `b2DistanceProxy::GetVertexCount`. -/
def GetVertexCount (proxy : b2DistanceProxy) : Nat := proxy.m_vertices.length

/-- The method `b2DistanceProxy::GetVertex`. -/
def GetVertex (proxy : b2DistanceProxy) (index : Nat) : b2Vec :=
  proxy.m_vertices.getD index default

/-- The loop of `b2DistanceProxy::GetSupport` in single precision: the pair of `bestIndex` and
`bestValue` after the scan of the indices from 1. -/
def supportScan (proxy : b2DistanceProxy) (d : b2Vec) : Nat × F32 :=
  (List.range' 1 (proxy.m_vertices.length - 1)).foldl
    (fun best i =>
      if b2Dot (proxy.m_vertices.getD i default) d > best.2 then
        (i, b2Dot (proxy.m_vertices.getD i default) d)
      else best)
    (0, b2Dot (proxy.m_vertices.getD 0 default) d)

/-- The method `b2DistanceProxy::GetSupport` in single precision. -/
def GetSupport (proxy : b2DistanceProxy) (d : b2Vec) : Nat := (supportScan proxy d).1

end b2DistanceProxy

/-! ## Single-precision arithmetic: the inputs read as exact numbers -/

/-- A vector of floats read as a vector of rationals. -/
def b2Vec.toExact (v : b2Vec) : box2d.b2Vec := ⟨v.x.toRat, v.y.toRat⟩

/-- A rotation of floats read as a rotation of rationals. -/
def b2Rot.toExact (q : b2Rot) : box2d.b2Rot := ⟨q.s.toRat, q.c.toRat⟩

/-- A transform of floats read as a transform of rationals. -/
def b2Transform.toExact (T : b2Transform) : box2d.b2Transform := ⟨T.p.toExact, T.q.toExact⟩

/-- A polygon of floats read as a polygon of rationals. -/
def b2PolygonShape.toExact (poly : b2PolygonShape) : box2d.b2PolygonShape :=
  ⟨poly.vertices.map b2Vec.toExact, poly.normals.map b2Vec.toExact, poly.radius.toRat⟩

/-- A proxy of floats read as a proxy of rationals. -/
def b2DistanceProxy.toExact (proxy : b2DistanceProxy) : box2d.b2DistanceProxy :=
  ⟨proxy.m_vertices.map b2Vec.toExact, proxy.m_radius.toRat⟩

/-! ## Single-precision arithmetic: the weld joint -/

/-- Modelled from the spec: the vector type `b2Vec<float, 3>` of `b2Math.h`. -/
structure b2Vec3 where
  x : F32
  y : F32
  z : F32
deriving DecidableEq, Repr

instance : Neg b2Vec3 := ⟨fun a => ⟨-a.x, -a.y, -a.z⟩⟩

/-- Modelled from the spec: the matrix type `b2Mat33` of `b2Math.h`, stored by columns. -/
structure b2Mat33 where
  ex : b2Vec3
  ey : b2Vec3
  ez : b2Vec3
deriving DecidableEq, Repr

/-- Modelled from the spec: `b2Cross(a, b)` of `b2Math.h` on two vectors. -/
def b2CrossVV (a b : b2Vec) : F32 := a.x * b.y - a.y * b.x

/-- Modelled from the spec: `b2Dot` of `b2Math.h` on vectors of three components. -/
def b2Dot3 (a b : b2Vec3) : F32 := a.x * b.x + a.y * b.y + a.z * b.z

/-- Modelled from the spec: `b2Cross` of `b2Math.h` on vectors of three components. -/
def b2Cross3 (a b : b2Vec3) : b2Vec3 :=
  ⟨a.y * b.z - a.z * b.y, a.z * b.x - a.x * b.z, a.x * b.y - a.y * b.x⟩

namespace b2Mat33

/-- Modelled from the spec: `b2Mat33::Solve22` in single precision; the determinant is
inverted under the test `det != 0.0f`. -/
def Solve22 (A : b2Mat33) (b : b2Vec) : b2Vec :=
  let det := A.ex.x * A.ey.y - A.ey.x * A.ex.y
  let det := if det.ne 0 then 1 / det else det
  ⟨det * (A.ey.y * b.x - A.ey.x * b.y), det * (A.ex.x * b.y - A.ex.y * b.x)⟩

/-- Modelled from the spec: `b2Mat33::Solve33` in single precision. -/
def Solve33 (A : b2Mat33) (b : b2Vec3) : b2Vec3 :=
  let det := b2Dot3 A.ex (b2Cross3 A.ey A.ez)
  let det := if det.ne 0 then 1 / det else det
  ⟨det * b2Dot3 b (b2Cross3 A.ey A.ez), det * b2Dot3 A.ex (b2Cross3 b A.ez),
    det * b2Dot3 A.ex (b2Cross3 A.ey b)⟩

/-- Modelled from the spec: `b2Mat33::GetInverse22` in single precision. -/
def GetInverse22 (A : b2Mat33) : b2Mat33 :=
  let det := A.ex.x * A.ey.y - A.ey.x * A.ex.y
  let det := if det.ne 0 then 1 / det else det
  { ex := ⟨det * A.ey.y, -det * A.ex.y, 0⟩
    ey := ⟨-det * A.ey.x, det * A.ex.x, 0⟩
    ez := ⟨0, 0, 0⟩ }

/-- Modelled from the spec: `b2Mat33::GetSymInverse33` in single precision. -/
def GetSymInverse33 (A : b2Mat33) : b2Mat33 :=
  let det := b2Dot3 A.ex (b2Cross3 A.ey A.ez)
  let det := if det.ne 0 then 1 / det else det
  let a11 := A.ex.x
  let a12 := A.ey.x
  let a13 := A.ez.x
  let a22 := A.ey.y
  let a23 := A.ez.y
  let a33 := A.ez.z
  { ex := ⟨det * (a22 * a33 - a23 * a23), det * (a13 * a23 - a12 * a33),
      det * (a12 * a23 - a13 * a22)⟩
    ey := ⟨det * (a13 * a23 - a12 * a33), det * (a11 * a33 - a13 * a13),
      det * (a13 * a12 - a11 * a23)⟩
    ez := ⟨det * (a12 * a23 - a13 * a22), det * (a13 * a12 - a11 * a23),
      det * (a11 * a22 - a12 * a12)⟩ }

end b2Mat33

/-- Modelled from the spec: the record `b2Position` of `b2TimeStep.h`. -/
structure b2Position where
  c : b2Vec
  a : F32
deriving DecidableEq, Repr

/-- Modelled from the spec: the record `b2Velocity` of `b2TimeStep.h`. -/
structure b2Velocity where
  v : b2Vec
  w : F32
deriving DecidableEq, Repr

/-- Modelled from the spec: the part of the record `b2TimeStep` (`b2TimeStep.h`) the joint
reads. -/
structure b2TimeStep where
  dt : F32
  dtRatio : F32
  warmStarting : Bool
deriving DecidableEq, Repr

/-- Modelled from the spec: the record `b2SolverData` of `b2TimeStep.h`; the arrays `positions`
and `velocities` are indexed by island index. -/
structure b2SolverData where
  step : b2TimeStep
  positions : Nat → b2Position
  velocities : Nat → b2Velocity

/-- Modelled from the spec: the part of `b2Body` (`b2Body.h`) the joint reads: island index,
local centre of mass (`m_sweep.localCenter`), inverse mass and inverse inertia. -/
structure b2Body where
  m_islandIndex : Nat
  localCenter : b2Vec
  m_invMass : F32
  m_invI : F32
deriving DecidableEq, Repr

/-- Modelled from the spec: the class `b2WeldJoint` of `b2WeldJoint.h`, with the members the
source uses. -/
structure b2WeldJoint where
  m_bodyA : b2Body
  m_bodyB : b2Body
  m_frequencyHz : F32
  m_dampingRatio : F32
  m_bias : F32
  m_localAnchorA : b2Vec
  m_localAnchorB : b2Vec
  m_referenceAngle : F32
  m_gamma : F32
  m_impulse : b2Vec3
  m_indexA : Nat
  m_indexB : Nat
  m_rA : b2Vec
  m_rB : b2Vec
  m_localCenterA : b2Vec
  m_localCenterB : b2Vec
  m_invMassA : F32
  m_invMassB : F32
  m_invIA : F32
  m_invIB : F32
  m_mass : b2Mat33
deriving DecidableEq, Repr

/-- The matrix `K` that `InitVelocityConstraints` and `SolvePositionConstraints` assemble, in
single precision. -/
def weldK (mA mB iA iB : F32) (rA rB : b2Vec) : b2Mat33 :=
  { ex := ⟨mA + mB + rA.y * rA.y * iA + rB.y * rB.y * iB,
      -rA.y * rA.x * iA - rB.y * rB.x * iB, -rA.y * iA - rB.y * iB⟩
    ey := ⟨-rA.y * rA.x * iA - rB.y * rB.x * iB,
      mA + mB + rA.x * rA.x * iA + rB.x * rB.x * iB, rA.x * iA + rB.x * iB⟩
    ez := ⟨-rA.y * iA - rB.y * iB, rA.x * iA + rB.x * iB, iA + iB⟩ }

namespace b2WeldJoint

/-- The first part of `InitVelocityConstraints` in single precision: the body data are cached
in the joint and the lever arms are computed from the angles of the two bodies. `Rot` is the
constructor `b2Rot(angle)`. -/
def cacheBodies (Rot : F32 → b2Rot) (j : b2WeldJoint) (data : b2SolverData) : b2WeldJoint :=
  let j := { j with
    m_indexA := j.m_bodyA.m_islandIndex
    m_indexB := j.m_bodyB.m_islandIndex
    m_localCenterA := j.m_bodyA.localCenter
    m_localCenterB := j.m_bodyB.localCenter
    m_invMassA := j.m_bodyA.m_invMass
    m_invMassB := j.m_bodyB.m_invMass
    m_invIA := j.m_bodyA.m_invI
    m_invIB := j.m_bodyB.m_invI }
  { j with
    m_rA := b2MulRot (Rot (data.positions j.m_indexA).a) (j.m_localAnchorA - j.m_localCenterA)
    m_rB := b2MulRot (Rot (data.positions j.m_indexB).a) (j.m_localAnchorB - j.m_localCenterB) }

/-- The branch `m_frequencyHz > 0` of `InitVelocityConstraints` in single precision: the
effective mass of the soft mode, `m_gamma` and `m_bias`. -/
def initSoft (B2_PI : F32) (j : b2WeldJoint) (K : b2Mat33) (aA aB dt : F32) : b2WeldJoint :=
  let mass := K.GetInverse22
  let invM := j.m_invIA + j.m_invIB
  let m := if invM > 0 then 1 / invM else 0
  let C := aB - aA - j.m_referenceAngle
  let omega := 2 * B2_PI * j.m_frequencyHz
  let d := 2 * m * j.m_dampingRatio * omega
  let k := m * omega * omega
  let h := dt
  let gamma := h * (d + h * k)
  let gamma := if gamma.ne 0 then 1 / gamma else 0
  let bias := C * h * k * gamma
  let invM := invM + gamma
  { j with
    m_mass := { mass with ez := { mass.ez with z := if invM.ne 0 then 1 / invM else 0 } }
    m_gamma := gamma
    m_bias := bias }

/-- A division that fails when the divisor compares equal to zero. -/
def checkedDiv (a b : F32) : Option F32 := if b.eq 0 then none else some (a / b)

/-- The branch `m_frequencyHz > 0` of `InitVelocityConstraints` in single precision with each
of the three divisions it writes out checked: the result is `none` if one of them divides by
zero, and the joint that `initSoft` gives otherwise. -/
def initSoftChecked (B2_PI : F32) (j : b2WeldJoint) (K : b2Mat33) (aA aB dt : F32) :
    Option b2WeldJoint :=
  let mass := K.GetInverse22
  let invM := j.m_invIA + j.m_invIB
  (if invM > 0 then checkedDiv 1 invM else some 0).bind fun m =>
  let C := aB - aA - j.m_referenceAngle
  let omega := 2 * B2_PI * j.m_frequencyHz
  let d := 2 * m * j.m_dampingRatio * omega
  let k := m * omega * omega
  let h := dt
  let gamma := h * (d + h * k)
  (if gamma.ne 0 then checkedDiv 1 gamma else some 0).bind fun gamma =>
  let bias := C * h * k * gamma
  let invM := invM + gamma
  (if invM.ne 0 then checkedDiv 1 invM else some 0).bind fun z =>
  some { j with
    m_mass := { mass with ez := { mass.ez with z := z } }
    m_gamma := gamma
    m_bias := bias }

/-- The three-way branch of `InitVelocityConstraints` that fills `m_mass`, `m_gamma` and
`m_bias`, in single precision. -/
def initMass (B2_PI : F32) (j : b2WeldJoint) (aA aB dt : F32) : b2WeldJoint :=
  let K := weldK j.m_invMassA j.m_invMassB j.m_invIA j.m_invIB j.m_rA j.m_rB
  if j.m_frequencyHz > 0 then initSoft B2_PI j K aA aB dt
  else if K.ez.z.eq 0 then { j with m_mass := K.GetInverse22, m_gamma := 0, m_bias := 0 }
  else { j with m_mass := K.GetSymInverse33, m_gamma := 0, m_bias := 0 }

/-- The method `b2WeldJoint::InitVelocityConstraints` in single precision: the joint and the
solver data after the call. -/
def InitVelocityConstraints (Rot : F32 → b2Rot) (B2_PI : F32) (j : b2WeldJoint)
    (data : b2SolverData) : b2WeldJoint × b2SolverData :=
  let j := cacheBodies Rot j data
  let aA := (data.positions j.m_indexA).a
  let vA := (data.velocities j.m_indexA).v
  let wA := (data.velocities j.m_indexA).w
  let aB := (data.positions j.m_indexB).a
  let vB := (data.velocities j.m_indexB).v
  let wB := (data.velocities j.m_indexB).w
  let j := initMass B2_PI j aA aB data.step.dt
  let mA := j.m_invMassA
  let mB := j.m_invMassB
  let iA := j.m_invIA
  let iB := j.m_invIB
  if data.step.warmStarting then
    let impulse : b2Vec3 := ⟨j.m_impulse.x * data.step.dtRatio,
      j.m_impulse.y * data.step.dtRatio, j.m_impulse.z * data.step.dtRatio⟩
    let P : b2Vec := ⟨impulse.x, impulse.y⟩
    let vA := vA - mA * P
    let wA := wA - iA * (b2CrossVV j.m_rA P + impulse.z)
    let vB := vB + mB * P
    let wB := wB + iB * (b2CrossVV j.m_rB P + impulse.z)
    ({ j with m_impulse := impulse },
      { data with
        velocities := Function.update (Function.update data.velocities j.m_indexA ⟨vA, wA⟩)
          j.m_indexB ⟨vB, wB⟩ })
  else
    ({ j with m_impulse := ⟨0, 0, 0⟩ },
      { data with
        velocities := Function.update (Function.update data.velocities j.m_indexA ⟨vA, wA⟩)
          j.m_indexB ⟨vB, wB⟩ })

/-- The matrix `K` that `InitVelocityConstraints` assembles for the joint, in single precision:
from the inverse masses and inertias of the two bodies and the lever arms at the angles of the
solver data. -/
def initK (Rot : F32 → b2Rot) (j : b2WeldJoint) (data : b2SolverData) : b2Mat33 :=
  weldK j.m_bodyA.m_invMass j.m_bodyB.m_invMass j.m_bodyA.m_invI j.m_bodyB.m_invI
    (b2MulRot (Rot (data.positions j.m_bodyA.m_islandIndex).a)
      (j.m_localAnchorA - j.m_bodyA.localCenter))
    (b2MulRot (Rot (data.positions j.m_bodyB.m_islandIndex).a)
      (j.m_localAnchorB - j.m_bodyB.localCenter))

/-- The branch `m_frequencyHz > 0` of `SolvePositionConstraints` in single precision. -/
def solvePositionSoft (Length : b2Vec → F32) (j : b2WeldJoint) (K : b2Mat33) (rA rB : b2Vec)
    (cA : b2Vec) (aA : F32) (cB : b2Vec) (aB : F32) :
    (F32 × F32) × (b2Position × b2Position) :=
  let C1 := cB + rB - cA - rA
  let P := -K.Solve22 C1
  ((Length C1, 0),
    (⟨cA - j.m_invMassA * P, aA - j.m_invIA * b2CrossVV rA P⟩,
      ⟨cB + j.m_invMassB * P, aB + j.m_invIB * b2CrossVV rB P⟩))

/-- The other branch of `SolvePositionConstraints` in single precision. -/
def solvePositionRigid (Length : b2Vec → F32) (j : b2WeldJoint) (K : b2Mat33) (rA rB : b2Vec)
    (cA : b2Vec) (aA : F32) (cB : b2Vec) (aB : F32) :
    (F32 × F32) × (b2Position × b2Position) :=
  let C1 := cB + rB - cA - rA
  let C2 := aB - aA - j.m_referenceAngle
  let C : b2Vec3 := ⟨C1.x, C1.y, C2⟩
  let impulse : b2Vec3 :=
    if K.ez.z > 0 then -K.Solve33 C
    else ⟨(-K.Solve22 C1).x, (-K.Solve22 C1).y, 0⟩
  let P : b2Vec := ⟨impulse.x, impulse.y⟩
  ((Length C1, C2.abs),
    (⟨cA - j.m_invMassA * P, aA - j.m_invIA * (b2CrossVV rA P + impulse.z)⟩,
      ⟨cB + j.m_invMassB * P, aB + j.m_invIB * (b2CrossVV rB P + impulse.z)⟩))

/-- The method `b2WeldJoint::SolvePositionConstraints` in single precision: the value returned
and the solver data after the call. `Rot` is the constructor `b2Rot(angle)` and `Length` the
vector method of that name. -/
def SolvePositionConstraints (Rot : F32 → b2Rot) (Length : b2Vec → F32)
    (LINEAR_SLOP ANGULAR_SLOP : F32) (j : b2WeldJoint) (data : b2SolverData) :
    Bool × b2SolverData :=
  let cA := (data.positions j.m_indexA).c
  let aA := (data.positions j.m_indexA).a
  let cB := (data.positions j.m_indexB).c
  let aB := (data.positions j.m_indexB).a
  let rA := b2MulRot (Rot aA) (j.m_localAnchorA - j.m_localCenterA)
  let rB := b2MulRot (Rot aB) (j.m_localAnchorB - j.m_localCenterB)
  let K := weldK j.m_invMassA j.m_invMassB j.m_invIA j.m_invIB rA rB
  let r := if j.m_frequencyHz > 0 then solvePositionSoft Length j K rA rB cA aA cB aB
    else solvePositionRigid Length j K rA rB cA aA cB aB
  (decide (r.1.1 ≤ LINEAR_SLOP ∧ r.1.2 ≤ ANGULAR_SLOP),
    { data with
      positions := Function.update (Function.update data.positions j.m_indexA r.2.1)
        j.m_indexB r.2.2 })

end b2WeldJoint

end ieee

end box2d

namespace box2d

namespace ieee

/-! ## Single-precision arithmetic: concrete inputs -/

/-- The largest finite `float`, `FLT_MAX`. -/
def FLT_MAX : F32 := .fin 340282346638528859811704183484516925440

/-- The literal `0.005f`, the value of `LINEAR_SLOP` in the concrete runs. -/
def slop : F32 := .fin (5368709 / 1073741824)

/-- The rotation by no angle, `b2Rot(0.0f)`. -/
def noRotation : b2Rot := ⟨0, 1⟩

/-- The box of half-extent `h` with polygon radius `0.01f`: vertices counter-clockwise from
`(-h, -h)`, with the outward normal of the face starting at each vertex. -/
def boxOf (h : F32) : b2PolygonShape where
  vertices := [⟨-h, -h⟩, ⟨h, -h⟩, ⟨h, h⟩, ⟨-h, h⟩]
  normals := [⟨0, -1⟩, ⟨1, 0⟩, ⟨0, 1⟩, ⟨-1, 0⟩]
  radius := .fin (5368709 / 536870912)

/-- The literal `0.3f`. -/
def threeTenths : F32 := .fin (5033165 / 16777216)

/-- The literal `0.5f`. -/
def half : F32 := .fin (1 / 2)

/-- The transform with no rotation that moves the origin to `(6235325 / 2 ^ 22,
12470651 / 2 ^ 23)`, two floats next to `1.4866`. -/
def xfCorner : b2Transform := ⟨⟨.fin (6235325 / 4194304), .fin (12470651 / 8388608)⟩, noRotation⟩

/-- The transform with no rotation and no translation. -/
def xfOrigin : b2Transform := ⟨⟨0, 0⟩, noRotation⟩

/-- The transform with no rotation that moves the origin to `(FLT_MAX, 0)`. -/
def xfFarRight : b2Transform := ⟨⟨FLT_MAX, 0⟩, noRotation⟩

/-- The transform with no rotation that moves the origin to `(-FLT_MAX, 0)`. -/
def xfFarLeft : b2Transform := ⟨⟨-FLT_MAX, 0⟩, noRotation⟩

/-- The box of half-extent `0.5f` with a NaN as the normal of face 0. -/
def nanNormalBox : b2PolygonShape :=
  { boxOf half with normals := [⟨.nan, .nan⟩, ⟨1, 0⟩, ⟨0, 1⟩, ⟨-1, 0⟩] }

/-- The rotation by `0.3 + pi / 4`, sine and cosine rounded to `float`. -/
def rotRef : b2Rot := ⟨.fin (14839267 / 16777216), .fin (15655175 / 33554432)⟩

/-- The rotation by `0.3`, sine and cosine rounded to `float`. -/
def rotInc : b2Rot := ⟨.fin (9916013 / 33554432), .fin (16027887 / 16777216)⟩

/-- The rotation by `0.2`, sine and cosine rounded to `float`, about the point
`(4360957 / 2 ^ 22, 1792447 / 2 ^ 24)`, next to `(1.0397, 0.1068)`. -/
def xfTurned : b2Transform :=
  ⟨⟨.fin (4360957 / 4194304), .fin (1792447 / 16777216)⟩,
    ⟨.fin (13332473 / 67108864), .fin (16442789 / 16777216)⟩⟩

/-- A proxy of two vertices, `(1, 0)` and `(1, 1)`. -/
def nearTieProxy : b2DistanceProxy := ⟨[⟨1, 0⟩, ⟨1, 1⟩], 0⟩

/-- The direction `(1, 2 ^ -30)`: the dot product of `(1, 1)` with it, `1 + 2 ^ -30`, rounds
to 1. -/
def nearTieDirection : b2Vec := ⟨1, .fin (1 / 2 ^ 30)⟩

/-- A proxy of two vertices, `(2 ^ 127, -2 ^ 127)` and `(0, 0)`: the products of the first
with `(2, 2)` overflow to the two infinities, whose sum is a NaN. -/
def overflowProxy : b2DistanceProxy := ⟨[⟨.fin (2 ^ 127), .fin (-2 ^ 127)⟩, ⟨0, 0⟩], 0⟩

/-- The proxy of the four vertices of the box of half-extent `0.5f`. -/
def boxProxy : b2DistanceProxy := ⟨(boxOf half).vertices, 0⟩

/-- The literal `3.14159265359f`, the value of `B2_PI` in the concrete runs. -/
def pi32 : F32 := .fin (13176795 / 4194304)

/-- The value `2.0f / 180.0f * B2_PI` of `ANGULAR_SLOP` in the concrete runs. -/
def angularSlop : F32 := F32.fin 2 / F32.fin 180 * pi32

/-- The constructor `b2Rot(angle)` at the angle 0, the only angle of the concrete runs: sine 0
and cosine 1; at any other angle the stand-in gives NaN. -/
def rotAtZero (a : F32) : b2Rot := if a.eq 0 then ⟨0, 1⟩ else ⟨.nan, .nan⟩

/-- The vector method `Length` on a vector along the x axis, the only vectors the concrete runs
measure: the magnitude of `x`, which is what `sqrt(x * x + 0 * 0)` rounds to; for any other
vector the stand-in gives NaN. -/
def lengthOnAxis (v : b2Vec) : F32 := if v.y.eq 0 then v.x.abs else .nan

/-- A body with unit inverse mass and unit inverse inertia, its centre of mass at its origin,
at the island index `i`. -/
def unitBody (i : Nat) : b2Body := ⟨i, ⟨0, 0⟩, 1, 1⟩

/-- A soft weld joint between two bodies with unit inverse masses and inertias, with the
damping ratio 1 and the frequency `1e19f`, whose square exceeds the largest float. -/
def stiffJoint : b2WeldJoint :=
  { m_bodyA := unitBody 0
    m_bodyB := unitBody 1
    m_frequencyHz := .fin 9999999980506447872
    m_dampingRatio := 1
    m_bias := 0
    m_localAnchorA := ⟨1, 0⟩
    m_localAnchorB := ⟨-1, 0⟩
    m_referenceAngle := 0
    m_gamma := 0
    m_impulse := ⟨0, 0, 0⟩
    m_indexA := 0
    m_indexB := 1
    m_rA := ⟨1, 0⟩
    m_rB := ⟨-1, 0⟩
    m_localCenterA := ⟨0, 0⟩
    m_localCenterB := ⟨0, 0⟩
    m_invMassA := 1
    m_invMassB := 1
    m_invIA := 1
    m_invIB := 1
    m_mass := ⟨⟨0, 0, 0⟩, ⟨0, 0, 0⟩, ⟨0, 0, 0⟩⟩ }

/-- The joint `stiffJoint` with the frequency 1 and the reference angle `1 / 8`. -/
def softJoint : b2WeldJoint :=
  { stiffJoint with
    m_frequencyHz := 1
    m_referenceAngle := .fin (1 / 8) }

/-- A rigid weld joint between two bodies of unit inverse mass without rotational inertia,
anchored at `(1.03f, 0)` on A and at `(-1, 0)` on B. -/
def farJoint : b2WeldJoint :=
  { stiffJoint with
    m_bodyA := ⟨0, ⟨0, 0⟩, 1, 0⟩
    m_bodyB := ⟨1, ⟨0, 0⟩, 1, 0⟩
    m_frequencyHz := 0
    m_dampingRatio := 0
    m_localAnchorA := ⟨.fin (4320133 / 4194304), 0⟩
    m_rA := ⟨.fin (4320133 / 4194304), 0⟩
    m_invIA := 0
    m_invIB := 0 }

/-- Solver data with the time step `dt`, no warm starting, body 0 at rest at the origin with
the angle `aA` and every other body at rest at the origin with the angle `aB`. -/
def restData (dt aA aB : F32) : b2SolverData :=
  { step := ⟨dt, 1, false⟩
    positions := fun i => if i = 0 then ⟨⟨0, 0⟩, aA⟩ else ⟨⟨0, 0⟩, aB⟩
    velocities := fun _ => ⟨⟨0, 0⟩, 0⟩ }

/-- Solver data for `farJoint` far from the origin: body A at `(1000000, 0)` and body B at
`(1000003, 0)`, both at angle 0, so that the anchor on B is about `0.97` to the right of the
anchor on A. Neighbouring floats at these coordinates are `0.0625` apart. -/
def farData : b2SolverData :=
  { step := ⟨.fin (1 / 64), 1, false⟩
    positions := fun i => if i = 0 then ⟨⟨1000000, 0⟩, 0⟩ else ⟨⟨1000003, 0⟩, 0⟩
    velocities := fun _ => ⟨⟨0, 0⟩, 0⟩ }

end ieee

end box2d

/-! # Theorems -/

namespace b2d11

/-! ## Block allocator: the lookup table (C1) -/

set_option maxRecDepth 100000 in
theorem classOf_lt : ∀ n, n < 641 → classOf n < BLOCK_SIZES := by decide

set_option maxRecDepth 100000 in
theorem classOf_succ : ∀ n, n < 640 →
    classOf (n + 1) = if n + 1 ≤ s_blockSizes.getD (classOf n) 0 then classOf n
      else classOf n + 1 := by decide

theorem lookupStep_inv (n : Nat) (st : Nat × List Nat) (hn : n < 640)
    (h : LookupInv n st) :
    ∃ st', lookupStep st (n + 1) = some st' ∧ LookupInv (n + 1) st' := by
  obtain ⟨hlen, hj, htbl⟩ := h
  have hlt : st.1 < BLOCK_SIZES := hj ▸ classOf_lt n (by omega)
  have hsucc := classOf_succ n hn
  have hlt' : classOf (n + 1) < BLOCK_SIZES := classOf_lt (n + 1) (by omega)
  have hB : BLOCK_SIZES = 14 := rfl
  have hM : MAX_BLOCK_SIZE = 640 := rfl
  have key : ∀ (v : Nat), v = classOf (n + 1) →
      LookupInv (n + 1) (v, st.2.set (n + 1) (v % 256)) := by
    intro v hv
    refine ⟨by simpa using hlen, hv, ?_⟩
    intro s h2
    simp only [List.getD_eq_getElem?_getD, List.getElem?_set]
    by_cases hs : n + 1 = s
    · subst hs
      have : n + 1 < st.2.length := by omega
      simp only [if_true, this, Option.getD_some]
      omega
    · have := htbl s (by omega)
      simp only [List.getD_eq_getElem?_getD] at this
      simp only [hs, if_false, this]
  unfold lookupStep
  rw [if_pos hlt]
  by_cases hc : n + 1 ≤ s_blockSizes.getD st.1 0
  · rw [if_pos hc]
    refine ⟨_, rfl, key _ ?_⟩
    rw [hsucc, ← hj, if_pos hc]
  · rw [if_neg hc]
    refine ⟨_, rfl, key _ ?_⟩
    rw [hsucc, ← hj, if_neg hc]

theorem lookupLoop_inv (m : Nat) : ∀ (n : Nat) (st : Nat × List Nat), n + m ≤ 640 →
    LookupInv n st →
    ∃ st', (List.range' (n + 1) m).foldlM lookupStep st = some st' ∧ LookupInv (n + m) st' := by
  induction m with
  | zero => intro n st _ h; exact ⟨st, rfl, h⟩
  | succ m ih =>
    intro n st hnm h
    obtain ⟨st1, h1, hinv1⟩ := lookupStep_inv n st (by omega) h
    obtain ⟨st2, h2, hinv2⟩ := ih (n + 1) st1 (by omega) hinv1
    refine ⟨st2, ?_, by rw [show n + (m + 1) = n + 1 + m by omega]; exact hinv2⟩
    rw [List.range'_succ, List.foldlM_cons, h1]
    exact h2

theorem buildLookup_inv : ∃ st, buildLookup = some st ∧ LookupInv 640 st := by
  have h0 : LookupInv 0 (0, List.replicate (MAX_BLOCK_SIZE + 1) 0) :=
    ⟨by simp, by decide, fun s h2 => by
      have : s = 0 := by omega
      subst this; decide⟩
  obtain ⟨st, h1, h2⟩ := lookupLoop_inv 640 0 _ (by omega) h0
  exact ⟨st, h1, h2⟩

/-- Every entry of the lookup table for a size in `1..640` is the least adequate class. -/
theorem lookup_eq_classOf (s : Nat) (h2 : s ≤ 640) :
    s_blockSizeLookup.getD s 0 = classOf s := by
  obtain ⟨st, hst, -, -, htbl⟩ := buildLookup_inv
  unfold s_blockSizeLookup
  rw [hst]
  exact htbl s h2

set_option maxRecDepth 100000 in
theorem classOf_ge : ∀ n, n < 641 → n ≤ s_blockSizes.getD (classOf n) 0 := by decide

set_option maxRecDepth 100000 in
theorem classOf_step_mono : ∀ n, n < 640 →
    s_blockSizes.getD (classOf n) 0 ≤ s_blockSizes.getD (classOf (n + 1)) 0 := by decide

theorem classOf_mono (a b : Nat) (hab : a ≤ b) (hb : b ≤ 640) :
    s_blockSizes.getD (classOf a) 0 ≤ s_blockSizes.getD (classOf b) 0 := by
  induction b with
  | zero => have : a = 0 := by omega
            subst this; exact le_refl _
  | succ b ih =>
    rcases Nat.eq_or_lt_of_le hab with h | h
    · subst h; exact le_refl _
    · exact le_trans (ih (by omega) (by omega)) (classOf_step_mono b (by omega))

/-- C1. For every size `s` with `1 ≤ s ≤ 640` the class size the lookup table resolves `s` to,
`s_blockSizes[s_blockSizeLookup[s]]`, is at least `s`; and for all sizes `s1 < s2 ≤ 640` the
class size resolved for `s1` is at most the one resolved for `s2`. -/
theorem C1_resolved_size_ge_and_monotone :
    (∀ s, 1 ≤ s → s ≤ 640 → s ≤ resolvedSize s) ∧
    (∀ s1 s2, s1 < s2 → s2 ≤ 640 → resolvedSize s1 ≤ resolvedSize s2) := by
  constructor
  · intro s _ h2
    unfold resolvedSize
    rw [lookup_eq_classOf s h2]
    exact classOf_ge s (by omega)
  · intro s1 s2 h12 h2
    unfold resolvedSize
    rw [lookup_eq_classOf s1 (by omega), lookup_eq_classOf s2 h2]
    exact classOf_mono s1 s2 (by omega) h2

/-- C1 at the sizes 100 and 300. -/
theorem C1_resolved_size_witness :
    100 ≤ resolvedSize 100 ∧ resolvedSize 100 ≤ resolvedSize 300 :=
  ⟨C1_resolved_size_ge_and_monotone.1 100 (by decide) (by decide),
    C1_resolved_size_ge_and_monotone.2 100 300 (by decide) (by decide)⟩

/-! ## Block allocator: `Allocate`, `Free` and `Clear` (C2 to C5) -/

theorem chain_update (next : Int → Int) (p v : Int) (n : Nat) : ∀ head : Int,
    p ∉ chain next n head → chain (Function.update next p v) n head = chain next n head := by
  induction n with
  | zero => intro _ _; rfl
  | succ n ih =>
    intro head h
    unfold chain at h ⊢
    by_cases h0 : head = 0
    · simp [h0]
    · simp only [h0, if_false, List.mem_cons, not_or] at h ⊢
      have hne : head ≠ p := fun e => h.1 e.symm
      rw [Function.update_noteq hne, ih _ h.2]

namespace BlockAllocator

variable {σ : Type}

theorem classIndex_lt (size : Int) (h : size ≤ 640) : classIndex size < BLOCK_SIZES := by
  unfold classIndex
  have : size.toNat ≤ 640 := by omega
  rw [lookup_eq_classOf _ this]
  exact classOf_lt _ (by omega)

theorem Free_pooled (H : Host σ) (a : BlockAllocator σ) (p size : Int)
    (h1 : 1 ≤ size) (h2 : size ≤ 640) :
    Free H a p size = some { a with
      next := Function.update a.next p (a.m_freeLists (classIndex size))
      m_freeLists := Function.update a.m_freeLists (classIndex size) p } := by
  have hlt := classIndex_lt size h2
  have hM : ¬ size > (MAX_BLOCK_SIZE : Int) := by simp [MAX_BLOCK_SIZE]; omega
  unfold Free
  rw [if_neg (by omega), if_neg (by omega), if_neg hM]
  simp only [classIndex] at hlt
  simp only [hlt, not_true_eq_false, if_false, classIndex]

theorem Allocate_hit (H : Host σ) (a : BlockAllocator σ) (size : Int)
    (h1 : 1 ≤ size) (h2 : size ≤ 640) (hne : a.m_freeLists (classIndex size) ≠ 0) :
    Allocate H a size = some (a.m_freeLists (classIndex size),
      { a with m_freeLists := (Function.update a.m_freeLists (classIndex size)
          (a.next (a.m_freeLists (classIndex size)))) }) := by
  have hlt := classIndex_lt size h2
  have hM : ¬ size > (MAX_BLOCK_SIZE : Int) := by simp [MAX_BLOCK_SIZE]; omega
  unfold Allocate
  rw [if_neg (by omega), if_neg (by omega), if_neg hM]
  simp only [classIndex] at hlt hne
  simp only [hlt, not_true_eq_false, if_false, hne, ne_eq, not_false_eq_true, if_true,
    classIndex]

theorem Allocate_miss (H : Host σ) (a : BlockAllocator σ) (size : Int)
    (h1 : 1 ≤ size) (h2 : size ≤ 640) (he : a.m_freeLists (classIndex size) = 0) :
    Allocate H a size = allocateChunk H a (classIndex size) := by
  have hlt := classIndex_lt size h2
  have hM : ¬ size > (MAX_BLOCK_SIZE : Int) := by simp [MAX_BLOCK_SIZE]; omega
  unfold Allocate
  rw [if_neg (by omega), if_neg (by omega), if_neg hM]
  simp only [classIndex] at hlt he
  simp only [hlt, not_true_eq_false, if_false, he, ne_eq, not_true_eq_false, classIndex]

theorem classIndex_16 : classIndex 16 = 0 := by
  unfold classIndex
  rw [lookup_eq_classOf _ (by decide)]
  decide

/-- The state after `Free(p, s)` and the result of a following `Allocate(s')` of the same
class. -/
theorem Free_Allocate (H : Host σ) (a : BlockAllocator σ) (p s s' : Int)
    (hp : p ≠ 0) (hs1 : 1 ≤ s) (hs2 : s ≤ 640) (hs1' : 1 ≤ s') (hs2' : s' ≤ 640)
    (hcls : classIndex s = classIndex s') :
    Free H a p s = some { a with
      next := Function.update a.next p (a.m_freeLists (classIndex s))
      m_freeLists := Function.update a.m_freeLists (classIndex s) p } ∧
    Allocate H { a with
      next := Function.update a.next p (a.m_freeLists (classIndex s))
      m_freeLists := Function.update a.m_freeLists (classIndex s) p } s' =
      some (p, { a with next := Function.update a.next p (a.m_freeLists (classIndex s)) }) := by
  refine ⟨Free_pooled H a p s hs1 hs2, ?_⟩
  have hhit := Allocate_hit H
    { a with
      next := Function.update a.next p (a.m_freeLists (classIndex s))
      m_freeLists := Function.update a.m_freeLists (classIndex s) p } s' hs1' hs2'
  rw [← hcls] at hhit
  generalize classIndex s = i at hhit ⊢
  have hh := hhit (by show Function.update a.m_freeLists i p i ≠ 0
                      rw [Function.update_same]; exact hp)
  simp only [Function.update_idem] at hh
  rw [Function.update_same, Function.update_same, Function.update_eq_self] at hh
  exact hh

/-- The pool-miss branch never fails its assertion; its result, spelled out. -/
theorem allocateChunk_some (H : Host σ) (a : BlockAllocator σ) (index : Nat) :
    allocateChunk H a index = some
      ((H.Alloc (growChunks H a).sys H.CHUNK_SIZE).1,
        { growChunks H a with
          chunks := (growChunks H a).chunks.set (growChunks H a).m_chunkCount
            ⟨s_blockSizes.getD index 0, (H.Alloc (growChunks H a).sys H.CHUNK_SIZE).1⟩
          m_chunkCount := (growChunks H a).m_chunkCount + 1
          m_freeLists := Function.update (growChunks H a).m_freeLists index
            (Function.update
              (linkBlocks (growChunks H a).next (H.Alloc (growChunks H a).sys H.CHUNK_SIZE).1
                (s_blockSizes.getD index 0) (H.CHUNK_SIZE / s_blockSizes.getD index 0 - 1))
              ((H.Alloc (growChunks H a).sys H.CHUNK_SIZE).1 +
                (s_blockSizes.getD index 0 : Int) *
                  (((H.CHUNK_SIZE / s_blockSizes.getD index 0 : Nat) : Int) - 1)) 0
              (H.Alloc (growChunks H a).sys H.CHUNK_SIZE).1)
          next := Function.update
              (linkBlocks (growChunks H a).next (H.Alloc (growChunks H a).sys H.CHUNK_SIZE).1
                (s_blockSizes.getD index 0) (H.CHUNK_SIZE / s_blockSizes.getD index 0 - 1))
              ((H.Alloc (growChunks H a).sys H.CHUNK_SIZE).1 +
                (s_blockSizes.getD index 0 : Int) *
                  (((H.CHUNK_SIZE / s_blockSizes.getD index 0 : Nat) : Int) - 1)) 0
          sys := (H.Alloc (growChunks H a).sys H.CHUNK_SIZE).2 }) := by
  unfold allocateChunk
  simp only []
  rw [if_neg (not_not.mpr (Nat.div_mul_le_self _ _))]

/-- The memory after the linking loop of `Allocate`: each of the first `n` blocks holds the
address of the block after it. -/
theorem linkBlocks_apply (next : Int → Int) (b : Int) (blockSize : Nat) (n : Nat) (x : Int) :
    linkBlocks next b blockSize n x =
      if ∃ i : Nat, i < n ∧ x = b + (blockSize : Int) * i then x + blockSize else next x := by
  induction n with
  | zero => simp [linkBlocks]
  | succ n ih =>
    unfold linkBlocks at ih ⊢
    rw [List.range_succ, List.foldl_append, List.foldl_cons, List.foldl_nil]
    by_cases hx : x = b + (blockSize : Int) * n
    · rw [hx, Function.update_same, if_pos ⟨n, Nat.lt_succ_self n, rfl⟩]
      ring
    · rw [Function.update_noteq hx, ih]
      by_cases he : ∃ i : Nat, i < n ∧ x = b + (blockSize : Int) * i
      · obtain ⟨i, hi, hxi⟩ := he
        rw [if_pos ⟨i, hi, hxi⟩, if_pos ⟨i, Nat.lt_succ_of_lt hi, hxi⟩]
      · rw [if_neg he, if_neg]
        rintro ⟨i, hi, hxi⟩
        rcases Nat.lt_succ_iff_lt_or_eq.mp hi with hi | hi
        · exact he ⟨i, hi, hxi⟩
        · exact hx (hi ▸ hxi)

/-- The state `busyChunkState` is the one the code reaches from the constructor by
`Allocate(16)`, which returns the block 8192. -/
theorem busyChunkState_reached :
    Allocate bumpHost (new bumpHost (fun _ => 0) 6144) 16 = some (8192, busyChunkState) := by
  rw [Allocate_miss _ _ _ (by decide) (by decide) rfl, allocateChunk_some, classIndex_16]
  have hb : s_blockSizes.getD 0 0 = 16 := rfl
  have hg : growChunks bumpHost (new bumpHost (fun _ => 0) 6144) =
      new bumpHost (fun _ => 0) 6144 := by
    unfold growChunks
    rw [if_neg (by decide)]
  rw [hg, hb]
  have hmem : (fun x : Int =>
      if 8192 ≤ x ∧ x < 8192 + 16368 ∧ (x - 8192) % 16 = 0 then x + 16 else 0) =
      Function.update (linkBlocks (fun _ => 0) 8192 16 1023) 24560 0 := by
    funext x
    by_cases hx : x = 24560
    · subst hx; simp
    · rw [Function.update_noteq hx, linkBlocks_apply]
      by_cases hc : 8192 ≤ x ∧ x < 8192 + 16368 ∧ (x - 8192) % 16 = 0
      · rw [if_pos hc, if_pos ⟨((x - 8192) / 16).toNat, by omega, by omega⟩]
        rfl
      · rw [if_neg hc, if_neg]
        rintro ⟨i, hi, hxi⟩
        exact hc (by omega)
  have hhead : (fun i : Nat => if i = 0 then (8208 : Int) else 0) =
      Function.update (fun _ => (0 : Int)) 0
        (Function.update (linkBlocks (fun _ => 0) 8192 16 1023) 24560 0 8192) := by
    rw [← hmem]
    funext i
    by_cases hi : i = 0
    · subst hi; simp
    · rw [Function.update_noteq hi, if_neg hi]
  simp only [new, bumpHost, busyChunkState]
  rw [hmem, hhead]
  norm_num
  decide

/-- The state `oneChunkState` is the one the code reaches from `busyChunkState` by
`Free(8192, 16)`. -/
theorem oneChunkState_reached :
    Free bumpHost busyChunkState 8192 16 = some oneChunkState := by
  rw [Free_pooled _ _ _ _ (by decide) (by decide), classIndex_16]
  have hmem : Function.update busyChunkState.next 8192 (busyChunkState.m_freeLists 0) =
      busyChunkState.next := by
    funext x
    by_cases hx : x = 8192
    · subst hx; simp [busyChunkState]
    · rw [Function.update_noteq hx]
  have hhead : Function.update busyChunkState.m_freeLists 0 8192 =
      fun i => if i = 0 then 8192 else 0 := by
    funext i
    by_cases hi : i = 0
    · subst hi; simp
    · rw [Function.update_noteq hi]; simp [busyChunkState, hi]
  rw [hmem, hhead]
  rfl

/-- C2, the claim as stated fails on a double free. `oneChunkState` is reached from the
constructor by `Allocate(16)`, which returns 8192, and `Free(8192, 16)`; in it the block 8192
heads the free list of the 16-byte class, followed by 8208. A second `Free(8192, 16)` followed
by `Allocate(16)` returns 8192, but the free list now starts 8192, 8192: the block is linked
to itself and the block 8208 is no longer reachable. -/
theorem C2_double_free_changes_free_list :
    Allocate bumpHost (new bumpHost (fun _ => 0) 6144) 16 = some (8192, busyChunkState) ∧
    Free bumpHost busyChunkState 8192 16 = some oneChunkState ∧
    ∃ a1 a2, Free bumpHost oneChunkState 8192 16 = some a1 ∧
      Allocate bumpHost a1 16 = some (8192, a2) ∧
      oneChunkState.freeList (classIndex 16) 2 = [8192, 8208] ∧
      a2.freeList (classIndex 16) 2 = [8192, 8192] := by
  refine ⟨busyChunkState_reached, oneChunkState_reached, ?_⟩
  have h := Free_Allocate bumpHost oneChunkState 8192 16 16 (by decide) (by decide) (by decide)
    (by decide) (by decide) rfl
  rw [classIndex_16] at h ⊢
  refine ⟨_, _, h.1, h.2, ?_, ?_⟩
  · simp [freeList, chain, oneChunkState, busyChunkState]
  · simp [freeList, chain, oneChunkState, busyChunkState]

/-- C2, amended. For every allocator state, every non-null block `p` and all sizes `s`, `s'` in
`[1, 640]` of one size class, `Free(p, s)` followed by `Allocate(s')` returns `p`, leaves
`m_chunkCount` unchanged and restores every free-list head `m_freeLists[i]`; the state after
the two calls is the state before them except for the link stored in `p`, so the blocks of
the class's free list are again what they were provided `p` was not already on that list. -/
theorem C2_free_then_allocate (H : Host σ) (a : BlockAllocator σ) (p s s' : Int)
    (hp : p ≠ 0) (hs1 : 1 ≤ s) (hs2 : s ≤ 640) (hs1' : 1 ≤ s') (hs2' : s' ≤ 640)
    (hcls : classIndex s = classIndex s') :
    ∃ a1 a2, Free H a p s = some a1 ∧ Allocate H a1 s' = some (p, a2) ∧
      a2.m_chunkCount = a.m_chunkCount ∧
      a2.m_freeLists = a.m_freeLists ∧
      a2 = { a with next := Function.update a.next p (a.m_freeLists (classIndex s)) } ∧
      ∀ n, p ∉ a.freeList (classIndex s) n →
        a2.freeList (classIndex s) n = a.freeList (classIndex s) n := by
  have h := Free_Allocate H a p s s' hp hs1 hs2 hs1' hs2' hcls
  refine ⟨_, _, h.1, h.2, rfl, rfl, rfl, ?_⟩
  intro n hn
  exact chain_update a.next p _ n _ hn

theorem classIndex_10 : classIndex 10 = 0 := by
  unfold classIndex
  rw [lookup_eq_classOf _ (by decide)]
  decide

/-- C2, amended, at a block that is handed out: in `busyChunkState` the block 8192 is freed
with size 10 and a block of size 16 is allocated; the free list again starts 8208, 8224,
8240. -/
theorem C2_free_then_allocate_witness :
    ∃ a1 a2, Free bumpHost busyChunkState 8192 10 = some a1 ∧
      Allocate bumpHost a1 16 = some (8192, a2) ∧
      a2.m_chunkCount = busyChunkState.m_chunkCount ∧
      a2.m_freeLists = busyChunkState.m_freeLists ∧
      a2.freeList (classIndex 10) 3 = busyChunkState.freeList (classIndex 10) 3 ∧
      busyChunkState.freeList (classIndex 10) 3 = [8208, 8224, 8240] :=
  have hlist : busyChunkState.freeList (classIndex 10) 3 = [8208, 8224, 8240] := by
    rw [classIndex_10]
    norm_num [freeList, chain, busyChunkState]
  match C2_free_then_allocate bumpHost busyChunkState 8192 10 16 (by decide) (by decide)
    (by decide) (by decide) (by decide) (by rw [classIndex_10, classIndex_16]) with
  | ⟨a1, a2, h1, h2, h3, h4, _, h6⟩ =>
    ⟨a1, a2, h1, h2, h3, h4, h6 3 (by rw [hlist]; decide), hlist⟩

/-- C3. `Allocate(0)` returns the null pointer and `Free(p, 0)` returns; after either call the
whole allocator state (free lists, chunk count, chunk space, chunk records, memory) is the
state before the call. -/
theorem C3_size_zero_is_noop (H : Host σ) (a : BlockAllocator σ) (p : Int) :
    Allocate H a 0 = some (0, a) ∧ Free H a p 0 = some a := by
  simp [Allocate, Free]

/-- C4. For every size above 640, `Allocate(size)` returns what the general-purpose allocator
`Alloc(size)` returns and `Free(p, size)` hands `p` to the general-purpose `Free`; the only
part of the state either call changes is the state of the general-purpose allocator, so every
free list, `m_chunkCount`, `m_chunkSpace` and every chunk record stay as they were. -/
theorem C4_large_sizes_bypass_pool (H : Host σ) (a : BlockAllocator σ) (p size : Int)
    (h : 640 < size) :
    Allocate H a size = some ((H.Alloc a.sys size).1, { a with sys := (H.Alloc a.sys size).2 }) ∧
    Free H a p size = some { a with sys := H.Free a.sys p } := by
  have hM : size > (MAX_BLOCK_SIZE : Int) := by simp [MAX_BLOCK_SIZE]; omega
  unfold Allocate Free
  rw [if_neg (by omega), if_neg (by omega), if_pos hM, if_neg (by omega), if_neg (by omega),
    if_pos hM]
  exact ⟨rfl, rfl⟩

/-- C4 at size 641 in `oneChunkState`. -/
theorem C4_large_sizes_bypass_pool_witness :
    Allocate bumpHost oneChunkState 641 =
      some ((bumpHost.Alloc oneChunkState.sys 641).1,
        { oneChunkState with sys := (bumpHost.Alloc oneChunkState.sys 641).2 }) ∧
    Free bumpHost oneChunkState 30000 641 =
      some { oneChunkState with sys := bumpHost.Free oneChunkState.sys 30000 } :=
  C4_large_sizes_bypass_pool bumpHost oneChunkState 30000 641 (by decide)

theorem growChunks_of_count_zero (H : Host σ) (a : BlockAllocator σ)
    (hinc : 0 < H.CHUNK_ARRAY_INCREMENT) (hc : a.m_chunkCount = 0)
    (hlen : a.chunks.length = a.m_chunkSpace) :
    (growChunks H a).m_chunkCount = 0 ∧ 0 < (growChunks H a).chunks.length := by
  unfold growChunks
  by_cases h : a.m_chunkCount = a.m_chunkSpace
  · rw [if_pos h]
    refine ⟨hc, ?_⟩
    simp only [List.length_append, List.length_replicate]
    omega
  · rw [if_neg h]
    exact ⟨hc, by omega⟩

/-- C5. `Clear()` leaves `m_chunkCount = 0`, every free list empty and `m_chunkSpace` as it
was: the state is the one a constructor leaves for a chunk array of that many records
(`fresh`, which for `CHUNK_ARRAY_INCREMENT` records is the constructor's own result). A
following `Allocate(s)` with `1 ≤ s ≤ 640` therefore runs on a fresh state: it succeeds,
`m_chunkCount` becomes 1, chunk record 0 holds the class size of `s` and the new chunk, and
the pointer returned is the start of that chunk. -/
theorem C5_clear_then_allocate (H : Host σ) (a : BlockAllocator σ) (s : Int)
    (hinc : 0 < H.CHUNK_ARRAY_INCREMENT) (h1 : 1 ≤ s) (h2 : s ≤ 640) :
    (Clear H a).m_chunkCount = 0 ∧
    (∀ i, (Clear H a).m_freeLists i = 0) ∧
    (Clear H a).m_chunkSpace = a.m_chunkSpace ∧
    Clear H a = fresh a.m_chunks a.m_chunkSpace a.next (Clear H a).sys ∧
    (∀ next sys, new H next sys =
      fresh (H.Alloc sys ((H.CHUNK_ARRAY_INCREMENT : Int) * H.sizeofChunk)).1
        H.CHUNK_ARRAY_INCREMENT next
        (H.Alloc sys ((H.CHUNK_ARRAY_INCREMENT : Int) * H.sizeofChunk)).2) ∧
    ∃ st, Allocate H (Clear H a) s =
        some ((H.Alloc (growChunks H (Clear H a)).sys H.CHUNK_SIZE).1, st) ∧
      st.m_chunkCount = 1 ∧
      st.chunks[0]? = some ⟨resolvedSize s.toNat,
        (H.Alloc (growChunks H (Clear H a)).sys H.CHUNK_SIZE).1⟩ := by
  refine ⟨rfl, fun _ => rfl, rfl, rfl, fun _ _ => rfl, ?_⟩
  have hg := growChunks_of_count_zero H (Clear H a) hinc rfl
    (by simp only [Clear, List.length_replicate])
  rw [Allocate_miss H (Clear H a) s h1 h2 rfl, allocateChunk_some]
  refine ⟨_, rfl, ?_, ?_⟩
  · show (growChunks H (Clear H a)).m_chunkCount + 1 = 1
    rw [hg.1]
  · show ((growChunks H (Clear H a)).chunks.set (growChunks H (Clear H a)).m_chunkCount _)[0]?
      = _
    rw [hg.1, List.getElem?_set_self hg.2]
    rfl

/-- C5 for `oneChunkState` and a request of 16 bytes. -/
theorem C5_clear_then_allocate_witness :
    (Clear bumpHost oneChunkState).m_chunkCount = 0 ∧
    ∃ st, Allocate bumpHost (Clear bumpHost oneChunkState) 16 =
        some ((bumpHost.Alloc (growChunks bumpHost (Clear bumpHost oneChunkState)).sys
          bumpHost.CHUNK_SIZE).1, st) ∧
      st.m_chunkCount = 1 ∧
      st.chunks[0]? = some ⟨resolvedSize (16 : Int).toNat,
        (bumpHost.Alloc (growChunks bumpHost (Clear bumpHost oneChunkState)).sys
          bumpHost.CHUNK_SIZE).1⟩ :=
  have h := C5_clear_then_allocate bumpHost oneChunkState 16 (by decide) (by decide)
    (by decide)
  ⟨h.1, h.2.2.2.2.2⟩

end BlockAllocator

end b2d11

namespace box2d

/-! ## Polygon collision: the separation search (C6, C7) -/

theorem b2Vec.add_def (a b : b2Vec) : a + b = ⟨a.x + b.x, a.y + b.y⟩ := rfl

theorem b2Vec.sub_def (a b : b2Vec) : a - b = ⟨a.x - b.x, a.y - b.y⟩ := rfl

theorem b2Vec.neg_def (a : b2Vec) : -a = ⟨-a.x, -a.y⟩ := rfl

theorem b2Vec.smul_def (s : ℚ) (a : b2Vec) : s * a = ⟨s * a.x, s * a.y⟩ := rfl

theorem b2MulTXf_rot (xf1 xf2 : b2Transform) (v : b2Vec) :
    b2MulRot (b2MulTXf xf2 xf1).q v = b2MulTRot xf2.q (b2MulRot xf1.q v) := by
  simp only [b2MulRot, b2MulTRot, b2MulTXf, b2Vec.mk.injEq]
  constructor <;> ring

theorem b2MulTXf_point (xf1 xf2 : b2Transform) (v : b2Vec) :
    b2Mul (b2MulTXf xf2 xf1) v = b2MulT xf2 (b2Mul xf1 v) := by
  simp only [b2Mul, b2MulT, b2MulRot, b2MulTRot, b2MulTXf, b2Vec.add_def, b2Vec.sub_def,
    b2Vec.mk.injEq]
  constructor <;> ring

theorem foldl_min_spec {α : Type} (f : α → ℚ) (l : List α) : ∀ M : ℚ,
    l.foldl (fun si v => if f v < si then f v else si) M ≤ M ∧
    (∀ v ∈ l, l.foldl (fun si v => if f v < si then f v else si) M ≤ f v) ∧
    (l.foldl (fun si v => if f v < si then f v else si) M = M ∨
      ∃ v ∈ l, l.foldl (fun si v => if f v < si then f v else si) M = f v) := by
  induction l with
  | nil => intro M; simp
  | cons a l ih =>
    intro M
    simp only [List.foldl_cons, List.mem_cons, forall_eq_or_imp, exists_eq_or_imp]
    obtain ⟨h1, h2, h3⟩ := ih (if f a < M then f a else M)
    by_cases h : f a < M
    · simp only [h, if_true] at h1 h2 h3 ⊢
      refine ⟨by linarith, ⟨h1, h2⟩, ?_⟩
      rcases h3 with h3 | h3
      · exact Or.inr (Or.inl h3)
      · exact Or.inr (Or.inr h3)
    · simp only [h, if_false] at h1 h2 h3 ⊢
      refine ⟨h1, ⟨by linarith, h2⟩, ?_⟩
      rcases h3 with h3 | h3
      · exact Or.inl h3
      · exact Or.inr (Or.inr h3)

theorem foldl_argmax_spec (g : Nat → ℚ) (L : ℚ) (n : Nat) :
    L ≤ ((List.range n).foldl (fun best i => if g i > best.2 then (i, g i) else best) (0, L)).2 ∧
    (∀ i < n, g i ≤
      ((List.range n).foldl (fun best i => if g i > best.2 then (i, g i) else best) (0, L)).2) ∧
    (((List.range n).foldl (fun best i => if g i > best.2 then (i, g i) else best) (0, L)
        = (0, L) ∧ ∀ i < n, g i ≤ L) ∨
      (((List.range n).foldl (fun best i => if g i > best.2 then (i, g i) else best) (0, L)).1
          < n ∧
        g ((List.range n).foldl (fun best i => if g i > best.2 then (i, g i) else best) (0, L)).1
          = ((List.range n).foldl
              (fun best i => if g i > best.2 then (i, g i) else best) (0, L)).2 ∧
        ∀ i < ((List.range n).foldl
              (fun best i => if g i > best.2 then (i, g i) else best) (0, L)).1,
          g i < ((List.range n).foldl
              (fun best i => if g i > best.2 then (i, g i) else best) (0, L)).2)) := by
  induction n with
  | zero => simp
  | succ n ih =>
    rw [List.range_succ, List.foldl_append]
    generalize (List.range n).foldl (fun best i => if g i > best.2 then (i, g i) else best)
      (0, L) = r at ih ⊢
    obtain ⟨h1, h2, h3⟩ := ih
    simp only [List.foldl_cons, List.foldl_nil]
    by_cases h : g n > r.2
    · rw [if_pos h]
      refine ⟨by show L ≤ g n; linarith, ?_, Or.inr ⟨Nat.lt_succ_self n, rfl, ?_⟩⟩
      · intro i hi
        rcases Nat.lt_succ_iff_lt_or_eq.mp hi with hi | hi
        · have := h2 i hi
          show g i ≤ g n
          linarith
        · subst hi; exact le_refl _
      · intro i hi
        have := h2 i hi
        show g i < g n
        linarith
    · rw [if_neg h]
      have hle : g n ≤ r.2 := not_lt.mp h
      refine ⟨h1, ?_, ?_⟩
      · intro i hi
        rcases Nat.lt_succ_iff_lt_or_eq.mp hi with hi | hi
        · exact h2 i hi
        · subst hi; exact hle
      · rcases h3 with ⟨h3, h4⟩ | ⟨h3, h4, h5⟩
        · refine Or.inl ⟨h3, ?_⟩
          intro i hi
          rcases Nat.lt_succ_iff_lt_or_eq.mp hi with hi | hi
          · exact h4 i hi
          · subst hi; rw [h3] at hle; exact hle
        · exact Or.inr ⟨Nat.lt_succ_of_lt h3, h4, h5⟩

/-- The index found by `b2FindMaxSeparation` is a face of `poly1` when there is one. -/
theorem b2FindMaxSeparation_index_lt (MAX_FLOAT : ℚ) (poly1 : b2PolygonShape)
    (xf1 : b2Transform) (poly2 : b2PolygonShape) (xf2 : b2Transform)
    (h : poly1.vertices ≠ []) :
    (b2FindMaxSeparation MAX_FLOAT poly1 xf1 poly2 xf2).1 < poly1.vertices.length := by
  have hpos : 0 < poly1.vertices.length := List.length_pos.mpr h
  obtain ⟨-, -, h3⟩ := foldl_argmax_spec (faceSeparation MAX_FLOAT poly1 xf1 poly2 xf2)
    (-MAX_FLOAT) poly1.vertices.length
  unfold b2FindMaxSeparation
  rcases h3 with ⟨h3, -⟩ | ⟨h3, -, -⟩
  · rw [h3]; exact hpos
  · exact h3

theorem faceSeparation_eq (MAX_FLOAT : ℚ) (poly1 : b2PolygonShape) (xf1 : b2Transform)
    (poly2 : b2PolygonShape) (xf2 : b2Transform) (i : Nat) :
    faceSeparation MAX_FLOAT poly1 xf1 poly2 xf2 i =
      poly2.vertices.foldl
        (fun si v => if projectedSeparation poly1 xf1 xf2 i v < si
          then projectedSeparation poly1 xf1 xf2 i v else si) MAX_FLOAT := by
  unfold faceSeparation deepest projectedSeparation
  rw [b2MulTXf_rot, b2MulTXf_point]

/-- The value `si` of a face is the least projected separation over the vertices of `poly2`,
when `poly2` has a vertex and no projected separation exceeds `MAX_FLOAT`. -/
theorem faceSeparation_is_min (MAX_FLOAT : ℚ) (poly1 : b2PolygonShape) (xf1 : b2Transform)
    (poly2 : b2PolygonShape) (xf2 : b2Transform) (i : Nat) (h2 : poly2.vertices ≠ [])
    (hfin : ∀ v2 ∈ poly2.vertices, projectedSeparation poly1 xf1 xf2 i v2 ≤ MAX_FLOAT) :
    (∃ v2 ∈ poly2.vertices,
      faceSeparation MAX_FLOAT poly1 xf1 poly2 xf2 i = projectedSeparation poly1 xf1 xf2 i v2) ∧
    ∀ v2 ∈ poly2.vertices,
      faceSeparation MAX_FLOAT poly1 xf1 poly2 xf2 i ≤ projectedSeparation poly1 xf1 xf2 i v2 := by
  rw [faceSeparation_eq]
  obtain ⟨-, hle, hor⟩ :=
    foldl_min_spec (projectedSeparation poly1 xf1 xf2 i) poly2.vertices MAX_FLOAT
  refine ⟨?_, hle⟩
  rcases hor with hM | hex
  · obtain ⟨v, hv⟩ := List.exists_mem_of_ne_nil _ h2
    refine ⟨v, hv, le_antisymm (hle v hv) ?_⟩
    rw [hM]
    exact hfin v hv
  · exact hex

/-- The early returns of `b2CollidePolygons`. -/
theorem b2CollidePolygons_axis_found (MAX_FLOAT LINEAR_SLOP : ℚ)
    (Normalize : b2Vec → b2Vec) (manifold : b2Manifold) (polyA : b2PolygonShape)
    (xfA : b2Transform) (polyB : b2PolygonShape) (xfB : b2Transform)
    (h : (b2FindMaxSeparation MAX_FLOAT polyA xfA polyB xfB).2 > polyA.radius + polyB.radius ∨
      (b2FindMaxSeparation MAX_FLOAT polyB xfB polyA xfA).2 > polyA.radius + polyB.radius) :
    b2CollidePolygons MAX_FLOAT LINEAR_SLOP Normalize manifold polyA xfA polyB xfB =
      some { manifold with pointCount := 0 } := by
  unfold b2CollidePolygons
  by_cases hA : (b2FindMaxSeparation MAX_FLOAT polyA xfA polyB xfB).2 >
      polyA.radius + polyB.radius
  · simp only [hA, if_true]
  · have hB := h.resolve_left hA
    simp only [hA, if_false, hB, if_true]

/-- C7 over exact arithmetic. For polygons with at least one vertex each, all of whose projected
separations are finite floats (between `-MAX_FLOAT` and `MAX_FLOAT`), `b2FindMaxSeparation`
returns the maximum over the faces `i` of `poly1` of `m i`, the minimum over the vertices `v2` of
`poly2` of `dot(n_i', v2 - v1_i')`, and the edge index it reports is the lowest face index
attaining that maximum. -/
theorem exact_max_over_faces_of_min_over_vertices (MAX_FLOAT : ℚ) (poly1 : b2PolygonShape)
    (xf1 : b2Transform) (poly2 : b2PolygonShape) (xf2 : b2Transform)
    (h1 : poly1.vertices ≠ []) (h2 : poly2.vertices ≠ [])
    (hfin : ∀ i < poly1.vertices.length, ∀ v2 ∈ poly2.vertices,
      -MAX_FLOAT ≤ projectedSeparation poly1 xf1 xf2 i v2 ∧
      projectedSeparation poly1 xf1 xf2 i v2 ≤ MAX_FLOAT) :
    ∃ m : Nat → ℚ,
      (∀ i < poly1.vertices.length,
        (∃ v2 ∈ poly2.vertices, m i = projectedSeparation poly1 xf1 xf2 i v2) ∧
        ∀ v2 ∈ poly2.vertices, m i ≤ projectedSeparation poly1 xf1 xf2 i v2) ∧
      (b2FindMaxSeparation MAX_FLOAT poly1 xf1 poly2 xf2).1 < poly1.vertices.length ∧
      (b2FindMaxSeparation MAX_FLOAT poly1 xf1 poly2 xf2).2 =
        m (b2FindMaxSeparation MAX_FLOAT poly1 xf1 poly2 xf2).1 ∧
      (∀ i < poly1.vertices.length,
        m i ≤ (b2FindMaxSeparation MAX_FLOAT poly1 xf1 poly2 xf2).2) ∧
      (∀ i < (b2FindMaxSeparation MAX_FLOAT poly1 xf1 poly2 xf2).1,
        m i < (b2FindMaxSeparation MAX_FLOAT poly1 xf1 poly2 xf2).2) := by
  have hmin := fun i (hi : i < poly1.vertices.length) =>
    faceSeparation_is_min MAX_FLOAT poly1 xf1 poly2 xf2 i h2 (fun v hv => (hfin i hi v hv).2)
  have hpos : 0 < poly1.vertices.length := List.length_pos.mpr h1
  refine ⟨faceSeparation MAX_FLOAT poly1 xf1 poly2 xf2, hmin, ?_⟩
  obtain ⟨hL, hall, hcase⟩ := foldl_argmax_spec (faceSeparation MAX_FLOAT poly1 xf1 poly2 xf2)
    (-MAX_FLOAT) poly1.vertices.length
  unfold b2FindMaxSeparation
  rcases hcase with ⟨heq, hle⟩ | ⟨hlt, hval, hlow⟩
  · rw [heq]
    refine ⟨hpos, ?_, fun i hi => hle i hi, fun i hi => absurd hi (Nat.not_lt_zero i)⟩
    obtain ⟨⟨v, hv, hv'⟩, -⟩ := hmin 0 hpos
    have hlo := (hfin 0 hpos v hv).1
    have hhi := hle 0 hpos
    show -MAX_FLOAT = faceSeparation MAX_FLOAT poly1 xf1 poly2 xf2 0
    rw [hv'] at hhi ⊢
    exact le_antisymm hlo hhi
  · exact ⟨hlt, hval.symm, hall, hlow⟩

theorem range_four : List.range 4 = [0, 1, 2, 3] := by decide

theorem unitBox_length : unitBox.vertices.length = 4 := rfl

theorem unitBox_ne_nil : unitBox.vertices ≠ [] := by simp [unitBox]

/-- Two unit boxes centred at `(0, 0)` and `(5, 0)`: the best axis of the first is its face 1,
with separation 4. -/
theorem separation_far_boxes :
    b2FindMaxSeparation FLT_MAX unitBox (xfAt 0 0) unitBox (xfAt 5 0) = (1, 4) := by
  simp only [b2FindMaxSeparation, unitBox_length, range_four, List.foldl_cons, List.foldl_nil]
  norm_num [faceSeparation, deepest, unitBox, xfAt, b2Dot, b2MulRot, b2Mul,
    b2MulTXf, b2MulTRot, b2Vec.sub_def, b2Vec.add_def, FLT_MAX]

theorem projectedSeparation_far_boxes_finite :
    ∀ i < unitBox.vertices.length, ∀ v2 ∈ unitBox.vertices,
      -FLT_MAX ≤ projectedSeparation unitBox (xfAt 0 0) (xfAt 5 0) i v2 ∧
      projectedSeparation unitBox (xfAt 0 0) (xfAt 5 0) i v2 ≤ FLT_MAX := by
  intro i hi v2 hv2
  rw [unitBox_length] at hi
  simp only [unitBox, List.mem_cons, List.mem_singleton, List.not_mem_nil, or_false] at hv2
  interval_cases i <;> rcases hv2 with rfl | rfl | rfl | rfl <;>
    norm_num [projectedSeparation, unitBox, xfAt, b2Dot, b2MulRot, b2Mul, b2MulT,
      b2MulTRot, b2Vec.sub_def, b2Vec.add_def, FLT_MAX]

/-- C7 over exact arithmetic, for two unit boxes centred at `(0, 0)` and `(5, 0)`. -/
theorem exact_max_over_faces_witness :
    ∃ m : Nat → ℚ,
      (∀ i < unitBox.vertices.length,
        (∃ v2 ∈ unitBox.vertices, m i = projectedSeparation unitBox (xfAt 0 0) (xfAt 5 0) i v2) ∧
        ∀ v2 ∈ unitBox.vertices, m i ≤ projectedSeparation unitBox (xfAt 0 0) (xfAt 5 0) i v2) ∧
      (b2FindMaxSeparation FLT_MAX unitBox (xfAt 0 0) unitBox (xfAt 5 0)).1 <
        unitBox.vertices.length ∧
      (b2FindMaxSeparation FLT_MAX unitBox (xfAt 0 0) unitBox (xfAt 5 0)).2 =
        m (b2FindMaxSeparation FLT_MAX unitBox (xfAt 0 0) unitBox (xfAt 5 0)).1 ∧
      (∀ i < unitBox.vertices.length,
        m i ≤ (b2FindMaxSeparation FLT_MAX unitBox (xfAt 0 0) unitBox (xfAt 5 0)).2) ∧
      (∀ i < (b2FindMaxSeparation FLT_MAX unitBox (xfAt 0 0) unitBox (xfAt 5 0)).1,
        m i < (b2FindMaxSeparation FLT_MAX unitBox (xfAt 0 0) unitBox (xfAt 5 0)).2) :=
  exact_max_over_faces_of_min_over_vertices FLT_MAX unitBox (xfAt 0 0) unitBox (xfAt 5 0)
    unitBox_ne_nil unitBox_ne_nil projectedSeparation_far_boxes_finite

/-! ## Polygon collision: reference choice, manifold points and contact ids (C8 to C10) -/

theorem chooseReference_edge_lt (MAX_FLOAT LINEAR_SLOP : ℚ) (polyA : b2PolygonShape)
    (xfA : b2Transform) (polyB : b2PolygonShape) (xfB : b2Transform)
    (hnA : polyA.vertices ≠ []) (hnB : polyB.vertices ≠ []) :
    (chooseReference LINEAR_SLOP polyA xfA polyB xfB
      (b2FindMaxSeparation MAX_FLOAT polyA xfA polyB xfB).1
      (b2FindMaxSeparation MAX_FLOAT polyA xfA polyB xfB).2
      (b2FindMaxSeparation MAX_FLOAT polyB xfB polyA xfA).1
      (b2FindMaxSeparation MAX_FLOAT polyB xfB polyA xfA).2).edge1 <
    (chooseReference LINEAR_SLOP polyA xfA polyB xfB
      (b2FindMaxSeparation MAX_FLOAT polyA xfA polyB xfB).1
      (b2FindMaxSeparation MAX_FLOAT polyA xfA polyB xfB).2
      (b2FindMaxSeparation MAX_FLOAT polyB xfB polyA xfA).1
      (b2FindMaxSeparation MAX_FLOAT polyB xfB polyA xfA).2).poly1.GetVertexCount := by
  unfold chooseReference b2PolygonShape.GetVertexCount
  split
  · exact b2FindMaxSeparation_index_lt MAX_FLOAT polyB xfB polyA xfA hnB
  · exact b2FindMaxSeparation_index_lt MAX_FLOAT polyA xfA polyB xfB hnA

theorem b2FindIncidentEdge_some (MAX_FLOAT : ℚ) (poly1 : b2PolygonShape) (xf1 : b2Transform)
    (edge1 : Nat) (poly2 : b2PolygonShape) (xf2 : b2Transform)
    (h : edge1 < poly1.GetVertexCount) :
    b2FindIncidentEdge MAX_FLOAT poly1 xf1 edge1 poly2 xf2 = some
      (⟨b2Mul xf2 (poly2.vertices.getD (incidentFace MAX_FLOAT poly1 xf1 edge1 poly2 xf2) default),
          ⟨edge1 % 256, incidentFace MAX_FLOAT poly1 xf1 edge1 poly2 xf2 % 256,
            .e_face, .e_vertex⟩⟩,
       ⟨b2Mul xf2 (poly2.vertices.getD
            (nextIndex (incidentFace MAX_FLOAT poly1 xf1 edge1 poly2 xf2) poly2.normals.length)
            default),
          ⟨edge1 % 256,
            nextIndex (incidentFace MAX_FLOAT poly1 xf1 edge1 poly2 xf2) poly2.normals.length
              % 256,
            .e_face, .e_vertex⟩⟩) := by
  unfold b2FindIncidentEdge
  rw [if_neg (not_not.mpr h)]

/-- The result of `b2CollidePolygons` when neither separation exceeds the combined radius. -/
theorem b2CollidePolygons_no_axis (MAX_FLOAT LINEAR_SLOP : ℚ) (Normalize : b2Vec → b2Vec)
    (manifold : b2Manifold) (polyA : b2PolygonShape) (xfA : b2Transform)
    (polyB : b2PolygonShape) (xfB : b2Transform)
    (hA : ¬ (b2FindMaxSeparation MAX_FLOAT polyA xfA polyB xfB).2 >
      polyA.radius + polyB.radius)
    (hB : ¬ (b2FindMaxSeparation MAX_FLOAT polyB xfB polyA xfA).2 >
      polyA.radius + polyB.radius) (r : Reference)
    (hr : r = chooseReference LINEAR_SLOP polyA xfA polyB xfB
      (b2FindMaxSeparation MAX_FLOAT polyA xfA polyB xfB).1
      (b2FindMaxSeparation MAX_FLOAT polyA xfA polyB xfB).2
      (b2FindMaxSeparation MAX_FLOAT polyB xfB polyA xfA).1
      (b2FindMaxSeparation MAX_FLOAT polyB xfB polyA xfA).2) :
    b2CollidePolygons MAX_FLOAT LINEAR_SLOP Normalize manifold polyA xfA polyB xfB =
      (b2FindIncidentEdge MAX_FLOAT r.poly1 r.xf1 r.edge1 r.poly2 r.xf2).map
        (clipAndWrite Normalize (polyA.radius + polyB.radius)
          { manifold with pointCount := 0, type := r.type } r) := by
  subst hr
  unfold b2CollidePolygons
  simp only [hA, hB, if_false]
  split <;> rename_i h <;> rw [h] <;> rfl

theorem addPoint_fold_two (normal : b2Vec) (frontOffset totalRadius : ℚ) (xf2 : b2Transform)
    (flip : Nat) (m : b2Manifold) (e1 e2 : b2ClipVertex) :
    ([e1, e2].foldl (addPoint normal frontOffset totalRadius xf2 flip) (m, 0)).2 =
      ([e1, e2].filter (keepPoint normal frontOffset totalRadius)).length ∧
    ([([e1, e2].foldl (addPoint normal frontOffset totalRadius xf2 flip) (m, 0)).1.points.1,
      ([e1, e2].foldl (addPoint normal frontOffset totalRadius xf2 flip) (m, 0)).1.points.2].take
        ([e1, e2].foldl (addPoint normal frontOffset totalRadius xf2 flip) (m, 0)).2).map
        (fun p => (p.localPoint, p.id)) =
      ([e1, e2].filter (keepPoint normal frontOffset totalRadius)).map
        (fun e => (b2MulT xf2 e.v, if flip ≠ 0 then swapFeatures e.id else e.id)) ∧
    ([e1, e2].foldl (addPoint normal frontOffset totalRadius xf2 flip) (m, 0)).1.type = m.type ∧
    ([e1, e2].foldl (addPoint normal frontOffset totalRadius xf2 flip) (m, 0)).1.localNormal =
      m.localNormal ∧
    ([e1, e2].foldl (addPoint normal frontOffset totalRadius xf2 flip) (m, 0)).1.localPoint =
      m.localPoint := by
  by_cases h1 : b2Dot normal e1.v - frontOffset ≤ totalRadius <;>
    by_cases h2 : b2Dot normal e2.v - frontOffset ≤ totalRadius <;>
    simp [addPoint, keepPoint, getAt, setAt, h1, h2, List.filter]

theorem filter_two_length_le {α : Type} (p : α → Bool) (a b : α) :
    ([a, b].filter p).length ≤ 2 :=
  le_trans (List.length_filter_le p [a, b]) (le_refl 2)

theorem clipAndWrite_type (Normalize : b2Vec → b2Vec) (totalRadius : ℚ) (m : b2Manifold)
    (r : Reference) (ie : b2ClipVertex × b2ClipVertex) :
    (clipAndWrite Normalize totalRadius m r ie).type = m.type := by
  unfold clipAndWrite
  simp only []
  split
  · rfl
  · split
    · rfl
    · exact (addPoint_fold_two _ _ _ _ _ _ _ _).2.2.1

theorem clipAndWrite_pointCount_le (Normalize : b2Vec → b2Vec) (totalRadius : ℚ)
    (m : b2Manifold) (r : Reference) (ie : b2ClipVertex × b2ClipVertex)
    (hm : m.pointCount = 0) :
    (clipAndWrite Normalize totalRadius m r ie).pointCount ≤ 2 := by
  unfold clipAndWrite
  simp only []
  split
  · rw [hm]; exact Nat.zero_le 2
  · split
    · rw [hm]; exact Nat.zero_le 2
    · exact le_of_eq_of_le (addPoint_fold_two _ _ _ _ _ _ _ _).1 (filter_two_length_le _ _ _)

theorem FeatureForm.indexB {edge1 iv1 iv2 i1 i2 : Nat} {cf : b2ContactFeature}
    (h : FeatureForm edge1 iv1 iv2 i1 i2 cf) : cf.indexB = i1 % 256 ∨ cf.indexB = i2 % 256 := by
  rcases h with ⟨-, -, -, h⟩ | ⟨-, -, -, h⟩ <;> exact h

theorem b2ClipSegmentToLine_ids (edge1 iv1 iv2 i1 i2 : Nat)
    (vOut vIn : b2ClipVertex × b2ClipVertex) (normal : b2Vec) (offset : ℚ) (iv : Nat)
    (h1 : FeatureForm edge1 iv1 iv2 i1 i2 vIn.1.id)
    (h2 : FeatureForm edge1 iv1 iv2 i1 i2 vIn.2.id) (hiv : iv = iv1 ∨ iv = iv2)
    (hnp : 2 ≤ (b2ClipSegmentToLine vOut vIn normal offset iv).1) :
    FeatureForm edge1 iv1 iv2 i1 i2 (b2ClipSegmentToLine vOut vIn normal offset iv).2.1.id ∧
    FeatureForm edge1 iv1 iv2 i1 i2 (b2ClipSegmentToLine vOut vIn normal offset iv).2.2.id := by
  have hnew : FeatureForm edge1 iv1 iv2 i1 i2 ⟨iv % 256, vIn.1.id.indexB, .e_vertex, .e_face⟩ := by
    refine Or.inr ⟨rfl, ?_, rfl, h1.indexB⟩
    rcases hiv with h | h
    · exact Or.inl (by rw [h])
    · exact Or.inr (by rw [h])
  unfold b2ClipSegmentToLine at hnp ⊢
  by_cases c0 : b2Dot normal vIn.1.v - offset ≤ 0 <;>
    by_cases c1 : b2Dot normal vIn.2.v - offset ≤ 0 <;>
    by_cases c2 : (b2Dot normal vIn.1.v - offset) * (b2Dot normal vIn.2.v - offset) < 0 <;>
    simp only [c0, c1, c2, if_true, if_false, setAt, Nat.zero_add, Nat.reduceAdd,
      Nat.succ_ne_zero, one_ne_zero, OfNat.ofNat_ne_zero] at hnp ⊢ <;>
    first
      | exact ⟨h1, h2⟩
      | exact ⟨h1, hnew⟩
      | exact ⟨h2, hnew⟩
      | exact absurd hnp (by decide)

theorem swapFeatures_swapFeatures (cf : b2ContactFeature) :
    swapFeatures (swapFeatures cf) = cf := rfl

theorem addPoint_fold_two_ids (normal : b2Vec) (frontOffset totalRadius : ℚ)
    (xf2 : b2Transform) (flip : Nat) (m : b2Manifold) (e1 e2 : b2ClipVertex) (k : Nat)
    (hk : k < ([e1, e2].foldl (addPoint normal frontOffset totalRadius xf2 flip) (m, 0)).2) :
    ∃ e, (e = e1 ∨ e = e2) ∧
      (getAt ([e1, e2].foldl (addPoint normal frontOffset totalRadius xf2 flip) (m, 0)).1.points
        k).id = if flip ≠ 0 then swapFeatures e.id else e.id := by
  by_cases h1 : b2Dot normal e1.v - frontOffset ≤ totalRadius <;>
    by_cases h2 : b2Dot normal e2.v - frontOffset ≤ totalRadius <;>
    simp only [addPoint, List.foldl_cons, List.foldl_nil, h1, h2, if_true, if_false,
      Nat.zero_add] at hk ⊢
  · rcases Nat.lt_succ_iff_lt_or_eq.mp hk with hk | hk
    · have : k = 0 := by omega
      subst this
      exact ⟨e1, Or.inl rfl, by simp [getAt, setAt]⟩
    · subst hk
      exact ⟨e2, Or.inr rfl, by simp [getAt, setAt]⟩
  · have : k = 0 := by omega
    subst this
    exact ⟨e1, Or.inl rfl, by simp [getAt, setAt]⟩
  · have : k = 0 := by omega
    subst this
    exact ⟨e2, Or.inr rfl, by simp [getAt, setAt]⟩
  · exact absurd hk (Nat.not_lt_zero k)

/-- The ids of the two points left by the two clips of `b2CollidePolygons`, when both clips
give two points. -/
theorem clipIncidentEdge_ids (MAX_FLOAT : ℚ) (Normalize : b2Vec → b2Vec) (totalRadius : ℚ)
    (r : Reference) (ie : b2ClipVertex × b2ClipVertex)
    (hie : b2FindIncidentEdge MAX_FLOAT r.poly1 r.xf1 r.edge1 r.poly2 r.xf2 = some ie)
    (h1 : ¬ (clipIncidentEdge Normalize totalRadius r ie).np1 < 2)
    (h2 : ¬ (clipIncidentEdge Normalize totalRadius r ie).np2 < 2) :
    ReferenceThenIncident MAX_FLOAT r (clipIncidentEdge Normalize totalRadius r ie).clipPoints2.1.id ∧
    ReferenceThenIncident MAX_FLOAT r
      (clipIncidentEdge Normalize totalRadius r ie).clipPoints2.2.id := by
  have hlt : r.edge1 < r.poly1.GetVertexCount := by
    by_contra hc
    unfold b2FindIncidentEdge at hie
    rw [if_pos hc] at hie
    exact Option.noConfusion hie
  rw [b2FindIncidentEdge_some _ _ _ _ _ _ hlt] at hie
  have hie' := (Option.some.inj hie).symm
  have f1 : ReferenceThenIncident MAX_FLOAT r ie.1.id := by
    rw [hie']; exact Or.inl ⟨rfl, rfl, rfl, Or.inl rfl⟩
  have f2 : ReferenceThenIncident MAX_FLOAT r ie.2.id := by
    rw [hie']; exact Or.inl ⟨rfl, rfl, rfl, Or.inr rfl⟩
  unfold ReferenceThenIncident at f1 f2 ⊢
  unfold clipIncidentEdge at h1 h2 ⊢
  simp only [not_lt] at h1 h2
  have c1 := b2ClipSegmentToLine_ids _ _ _ _ _ _ _ _ _ _ f1 f2 (Or.inl rfl) h1
  exact b2ClipSegmentToLine_ids _ _ _ _ _ _ _ _ _ _ c1.1 c1.2 (Or.inr rfl) h2

/-- C8 over exact arithmetic. When neither separation exceeds the combined radius,
`b2CollidePolygons` takes the face of B as reference (reference polygon B, incident polygon A,
reference edge `edgeB`, manifold type `e_faceB`, `flip = 1`) if and only if
`separationB > separationA + 0.1 * LINEAR_SLOP`, and otherwise the face of A (reference edge
`edgeA`, type `e_faceA`, `flip = 0`); so for `LINEAR_SLOP ≥ 0` a tie `separationA = separationB`
gives A. The rest of the routine runs on that choice, every manifold it returns carries the type
of the choice, and it does return one when both polygons have a vertex. -/
theorem exact_reference_face_choice (MAX_FLOAT LINEAR_SLOP : ℚ) (Normalize : b2Vec → b2Vec)
    (manifold : b2Manifold) (polyA : b2PolygonShape) (xfA : b2Transform)
    (polyB : b2PolygonShape) (xfB : b2Transform) (edgeA edgeB : Nat)
    (separationA separationB : ℚ)
    (hsA : b2FindMaxSeparation MAX_FLOAT polyA xfA polyB xfB = (edgeA, separationA))
    (hsB : b2FindMaxSeparation MAX_FLOAT polyB xfB polyA xfA = (edgeB, separationB))
    (hA : ¬ separationA > polyA.radius + polyB.radius)
    (hB : ¬ separationB > polyA.radius + polyB.radius) :
    (separationB > separationA + 1 / 10 * LINEAR_SLOP ↔
      chooseReference LINEAR_SLOP polyA xfA polyB xfB edgeA separationA edgeB separationB =
        ⟨polyB, polyA, xfB, xfA, edgeB, .e_faceB, 1⟩) ∧
    (¬ separationB > separationA + 1 / 10 * LINEAR_SLOP ↔
      chooseReference LINEAR_SLOP polyA xfA polyB xfB edgeA separationA edgeB separationB =
        ⟨polyA, polyB, xfA, xfB, edgeA, .e_faceA, 0⟩) ∧
    (0 ≤ LINEAR_SLOP → separationA = separationB →
      chooseReference LINEAR_SLOP polyA xfA polyB xfB edgeA separationA edgeB separationB =
        ⟨polyA, polyB, xfA, xfB, edgeA, .e_faceA, 0⟩) ∧
    (∀ r, r = chooseReference LINEAR_SLOP polyA xfA polyB xfB edgeA separationA edgeB
        separationB →
      b2CollidePolygons MAX_FLOAT LINEAR_SLOP Normalize manifold polyA xfA polyB xfB =
          (b2FindIncidentEdge MAX_FLOAT r.poly1 r.xf1 r.edge1 r.poly2 r.xf2).map
            (clipAndWrite Normalize (polyA.radius + polyB.radius)
              { manifold with pointCount := 0, type := r.type } r) ∧
      (∀ m', b2CollidePolygons MAX_FLOAT LINEAR_SLOP Normalize manifold polyA xfA polyB xfB
          = some m' → m'.type = r.type) ∧
      (polyA.vertices ≠ [] → polyB.vertices ≠ [] →
        ∃ m', b2CollidePolygons MAX_FLOAT LINEAR_SLOP Normalize manifold polyA xfA polyB xfB
          = some m')) := by
  have hA' : ¬ (b2FindMaxSeparation MAX_FLOAT polyA xfA polyB xfB).2 >
      polyA.radius + polyB.radius := by rw [hsA]; exact hA
  have hB' : ¬ (b2FindMaxSeparation MAX_FLOAT polyB xfB polyA xfA).2 >
      polyA.radius + polyB.radius := by rw [hsB]; exact hB
  refine ⟨?_, ?_, ?_, ?_⟩
  · unfold chooseReference
    constructor
    · intro h; rw [if_pos h]
    · intro h
      by_contra hc
      rw [if_neg hc] at h
      have hflip : (0 : Nat) = 1 := congrArg Reference.flip h
      exact absurd hflip (by decide)
  · unfold chooseReference
    constructor
    · intro h; rw [if_neg h]
    · intro h hc
      rw [if_pos hc] at h
      have hflip : (1 : Nat) = 0 := congrArg Reference.flip h
      exact absurd hflip (by decide)
  · intro hslop heq
    unfold chooseReference
    rw [if_neg]
    rw [heq]
    have : 0 ≤ 1 / 10 * LINEAR_SLOP := by positivity
    linarith
  · intro r hr
    have hr' : r = chooseReference LINEAR_SLOP polyA xfA polyB xfB
        (b2FindMaxSeparation MAX_FLOAT polyA xfA polyB xfB).1
        (b2FindMaxSeparation MAX_FLOAT polyA xfA polyB xfB).2
        (b2FindMaxSeparation MAX_FLOAT polyB xfB polyA xfA).1
        (b2FindMaxSeparation MAX_FLOAT polyB xfB polyA xfA).2 := by rw [hsA, hsB]; exact hr
    have hunf := b2CollidePolygons_no_axis MAX_FLOAT LINEAR_SLOP Normalize manifold polyA xfA
      polyB xfB hA' hB' r hr'
    refine ⟨hunf, ?_, ?_⟩
    · intro m' hm'
      rw [hunf] at hm'
      obtain ⟨ie, -, hie⟩ := Option.map_eq_some'.mp hm'
      rw [← hie, clipAndWrite_type]
    · intro hnA hnB
      have hlt := chooseReference_edge_lt MAX_FLOAT LINEAR_SLOP polyA xfA polyB xfB hnA hnB
      rw [← hr'] at hlt
      rw [hunf, b2FindIncidentEdge_some _ _ _ _ _ _ hlt]
      exact ⟨_, rfl⟩

/-- Every manifold `b2CollidePolygons` returns has at most two points, and the routine returns
one whenever both polygons have a vertex. -/
theorem b2CollidePolygons_total (MAX_FLOAT LINEAR_SLOP : ℚ) (Normalize : b2Vec → b2Vec)
    (manifold : b2Manifold) (polyA : b2PolygonShape) (xfA : b2Transform)
    (polyB : b2PolygonShape) (xfB : b2Transform) :
    (∀ m', b2CollidePolygons MAX_FLOAT LINEAR_SLOP Normalize manifold polyA xfA polyB xfB
        = some m' → m'.pointCount ≤ 2) ∧
    (polyA.vertices ≠ [] → polyB.vertices ≠ [] →
      ∃ m', b2CollidePolygons MAX_FLOAT LINEAR_SLOP Normalize manifold polyA xfA polyB xfB
        = some m') := by
  by_cases hax : (b2FindMaxSeparation MAX_FLOAT polyA xfA polyB xfB).2 >
        polyA.radius + polyB.radius ∨
      (b2FindMaxSeparation MAX_FLOAT polyB xfB polyA xfA).2 > polyA.radius + polyB.radius
  · have h := b2CollidePolygons_axis_found MAX_FLOAT LINEAR_SLOP Normalize
      manifold polyA xfA polyB xfB hax
    refine ⟨?_, fun _ _ => ⟨_, h⟩⟩
    intro m' hm'
    rw [h] at hm'
    rw [← Option.some.inj hm']
    exact Nat.zero_le 2
  · rw [not_or] at hax
    have hunf := b2CollidePolygons_no_axis MAX_FLOAT LINEAR_SLOP Normalize manifold polyA xfA
      polyB xfB hax.1 hax.2 _ rfl
    refine ⟨?_, ?_⟩
    · intro m' hm'
      rw [hunf] at hm'
      obtain ⟨ie, -, hie⟩ := Option.map_eq_some'.mp hm'
      rw [← hie]
      exact clipAndWrite_pointCount_le _ _ _ _ _ rfl
    · intro hnA hnB
      have hlt := chooseReference_edge_lt MAX_FLOAT LINEAR_SLOP polyA xfA polyB xfB hnA hnB
      rw [hunf, b2FindIncidentEdge_some _ _ _ _ _ _ hlt]
      exact ⟨_, rfl⟩

/-- C10, amended. For every manifold point written by `b2CollidePolygons`, with `r` the
reference choice: when `flip = 0` the contact id is (reference feature, incident feature);
when `flip = 1` it is that pair exchanged, (incident feature, reference feature). As the
incident polygon of a flipped choice is A and the reference polygon B, `indexA`/`typeA`
always name a feature of polygon A and `indexB`/`typeB` a feature of polygon B. The routine
writes a manifold whenever both polygons have a vertex. -/
theorem C10_contact_id_after_flip (MAX_FLOAT LINEAR_SLOP : ℚ) (Normalize : b2Vec → b2Vec)
    (manifold : b2Manifold) (polyA : b2PolygonShape) (xfA : b2Transform)
    (polyB : b2PolygonShape) (xfB : b2Transform) (r : Reference)
    (hr : r = chooseReference LINEAR_SLOP polyA xfA polyB xfB
      (b2FindMaxSeparation MAX_FLOAT polyA xfA polyB xfB).1
      (b2FindMaxSeparation MAX_FLOAT polyA xfA polyB xfB).2
      (b2FindMaxSeparation MAX_FLOAT polyB xfB polyA xfA).1
      (b2FindMaxSeparation MAX_FLOAT polyB xfB polyA xfA).2) :
    ((r.flip = 0 ∧ r.poly1 = polyA ∧ r.poly2 = polyB) ∨
      (r.flip = 1 ∧ r.poly1 = polyB ∧ r.poly2 = polyA)) ∧
    (∀ m', b2CollidePolygons MAX_FLOAT LINEAR_SLOP Normalize manifold polyA xfA polyB xfB
        = some m' → ∀ i, i < m'.pointCount →
      (r.flip = 0 → ReferenceThenIncident MAX_FLOAT r (getAt m'.points i).id) ∧
      (r.flip = 1 → ReferenceThenIncident MAX_FLOAT r (swapFeatures (getAt m'.points i).id))) ∧
    (polyA.vertices ≠ [] → polyB.vertices ≠ [] →
      ∃ m', b2CollidePolygons MAX_FLOAT LINEAR_SLOP Normalize manifold polyA xfA polyB xfB
        = some m') := by
  obtain ⟨-, hex⟩ := b2CollidePolygons_total MAX_FLOAT LINEAR_SLOP Normalize manifold polyA
    xfA polyB xfB
  refine ⟨?_, ?_, hex⟩
  · rw [hr]
    unfold chooseReference
    split
    · exact Or.inr ⟨rfl, rfl, rfl⟩
    · exact Or.inl ⟨rfl, rfl, rfl⟩
  intro m' hm' i hi
  by_cases hax : (b2FindMaxSeparation MAX_FLOAT polyA xfA polyB xfB).2 >
        polyA.radius + polyB.radius ∨
      (b2FindMaxSeparation MAX_FLOAT polyB xfB polyA xfA).2 > polyA.radius + polyB.radius
  · have h := b2CollidePolygons_axis_found MAX_FLOAT LINEAR_SLOP Normalize
      manifold polyA xfA polyB xfB hax
    rw [h] at hm'
    rw [← Option.some.inj hm'] at hi
    exact absurd hi (Nat.not_lt_zero i)
  · rw [not_or] at hax
    have hunf := b2CollidePolygons_no_axis MAX_FLOAT LINEAR_SLOP Normalize manifold polyA xfA
      polyB xfB hax.1 hax.2 r hr
    rw [hunf] at hm'
    obtain ⟨ie, hie, hm⟩ := Option.map_eq_some'.mp hm'
    subst hm
    unfold clipAndWrite at hi ⊢
    by_cases h1 : (clipIncidentEdge Normalize (polyA.radius + polyB.radius) r ie).np1 < 2
    · simp only [h1, if_true] at hi
      exact absurd hi (Nat.not_lt_zero i)
    by_cases h2 : (clipIncidentEdge Normalize (polyA.radius + polyB.radius) r ie).np2 < 2
    · simp only [h1, h2, if_true, if_false] at hi
      exact absurd hi (Nat.not_lt_zero i)
    simp only [h1, h2, if_false] at hi ⊢
    obtain ⟨e, he, hid⟩ := addPoint_fold_two_ids _ _ _ _ _ _ _ _ i hi
    have hids := clipIncidentEdge_ids MAX_FLOAT Normalize (polyA.radius + polyB.radius) r ie hie
      h1 h2
    have hform : ReferenceThenIncident MAX_FLOAT r e.id := by
      rcases he with he | he
      · rw [he]; exact hids.1
      · rw [he]; exact hids.2
    rw [hid]
    constructor
    · intro hf
      rw [hf]
      exact hform
    · intro hf
      rw [hf]
      exact hform

/-! ## Polygon collision: the tilted box against the box at `(1, 0)` -/

theorem separation_tilted_AB :
    b2FindMaxSeparation FLT_MAX unitBox xfTilted unitBox (xfAt 1 0) = (1, -2/5) := by
  simp only [b2FindMaxSeparation, unitBox_length, range_four, List.foldl_cons, List.foldl_nil]
  norm_num [faceSeparation, deepest, unitBox, xfAt, xfTilted, b2Dot, b2MulRot, b2Mul,
    b2MulTXf, b2MulTRot, b2Vec.sub_def, b2Vec.add_def, FLT_MAX]

theorem separation_tilted_BA :
    b2FindMaxSeparation FLT_MAX unitBox (xfAt 1 0) unitBox xfTilted = (3, -1/5) := by
  simp only [b2FindMaxSeparation, unitBox_length, range_four, List.foldl_cons, List.foldl_nil]
  norm_num [faceSeparation, deepest, unitBox, xfAt, xfTilted, b2Dot, b2MulRot, b2Mul,
    b2MulTXf, b2MulTRot, b2Vec.sub_def, b2Vec.add_def, FLT_MAX]

theorem unitBox_normals_length : unitBox.normals.length = 4 := rfl

theorem incidentFace_tilted :
    incidentFace FLT_MAX unitBox (xfAt 1 0) 3 unitBox xfTilted = 1 := by
  simp only [incidentFace, incidentIndex, unitBox_normals_length, range_four, List.foldl_cons,
    List.foldl_nil]
  norm_num [unitBox, xfAt, xfTilted, b2Dot, b2MulRot, b2MulTRot, FLT_MAX]

theorem tilted_no_axis_AB :
    ¬ (b2FindMaxSeparation FLT_MAX unitBox xfTilted unitBox (xfAt 1 0)).2 >
      unitBox.radius + unitBox.radius := by
  rw [separation_tilted_AB]; norm_num [unitBox]

theorem tilted_no_axis_BA :
    ¬ (b2FindMaxSeparation FLT_MAX unitBox (xfAt 1 0) unitBox xfTilted).2 >
      unitBox.radius + unitBox.radius := by
  rw [separation_tilted_BA]; norm_num [unitBox]

theorem tilted_reference :
    tiltedReference = chooseReference (1 / 200) unitBox xfTilted unitBox (xfAt 1 0)
      (b2FindMaxSeparation FLT_MAX unitBox xfTilted unitBox (xfAt 1 0)).1
      (b2FindMaxSeparation FLT_MAX unitBox xfTilted unitBox (xfAt 1 0)).2
      (b2FindMaxSeparation FLT_MAX unitBox (xfAt 1 0) unitBox xfTilted).1
      (b2FindMaxSeparation FLT_MAX unitBox (xfAt 1 0) unitBox xfTilted).2 := by
  rw [separation_tilted_AB, separation_tilted_BA]
  norm_num [chooseReference, tiltedReference]

theorem tilted_incident_edge :
    b2FindIncidentEdge FLT_MAX tiltedReference.poly1 tiltedReference.xf1 tiltedReference.edge1
      tiltedReference.poly2 tiltedReference.xf2 = some tiltedIncidentEdge := by
  show b2FindIncidentEdge FLT_MAX unitBox (xfAt 1 0) 3 unitBox xfTilted = _
  rw [b2FindIncidentEdge_some _ _ _ _ _ _ (by decide), incidentFace_tilted]
  norm_num [tiltedIncidentEdge, nextIndex, unitBox, xfTilted, b2Mul, b2MulRot, b2Vec.add_def]

theorem tilted_result :
    b2CollidePolygons FLT_MAX (1 / 200) normalizeAxial zeroManifold unitBox xfTilted unitBox
      (xfAt 1 0) = some tiltedManifold := by
  rw [b2CollidePolygons_no_axis FLT_MAX (1 / 200) normalizeAxial zeroManifold unitBox xfTilted
    unitBox (xfAt 1 0) tilted_no_axis_AB tilted_no_axis_BA _ tilted_reference,
    tilted_incident_edge]
  simp only [Option.map_some']
  norm_num [clipAndWrite, clipIncidentEdge, b2ClipSegmentToLine, addPoint, nextIndex,
    tiltedReference, tiltedIncidentEdge, tiltedManifold, normalizeAxial, unitBox, xfAt,
    xfTilted, zeroManifold, b2Dot, b2Cross, b2MulRot, b2Mul, b2MulT, b2MulTRot,
    b2Vec.sub_def, b2Vec.add_def, b2Vec.neg_def, b2Vec.smul_def, getAt, setAt, swapFeatures]

/-- C8 over exact arithmetic, for the tilted box against the box at `(1, 0)`: the separation of B,
`-1/5`, exceeds that of A, `-2/5`, by more than the tolerance, and polygon B is the reference. -/
theorem exact_reference_face_choice_witness :
    chooseReference (1 / 200) unitBox xfTilted unitBox (xfAt 1 0) 1 (-2/5) 3 (-1/5) =
      ⟨unitBox, unitBox, xfAt 1 0, xfTilted, 3, .e_faceB, 1⟩ :=
  (exact_reference_face_choice FLT_MAX (1 / 200) normalizeAxial zeroManifold unitBox xfTilted
    unitBox (xfAt 1 0) 1 3 (-2/5) (-1/5) separation_tilted_AB separation_tilted_BA
    (by norm_num [unitBox]) (by norm_num [unitBox])).1.mp (by norm_num)

/-- C10, the claim as stated fails when polygon B is the reference. For the tilted box A against
the box B at `(1, 0)` the reference face is face 3 of B and the incident edge runs from vertex
1 to vertex 2 of A. The manifold point written has `typeA = e_vertex`, `indexA = 1`,
`typeB = e_face`, `indexB = 3`: `indexA`/`typeA` name the vertex of the incident polygon and
`indexB`/`typeB` the face of the reference polygon, so the id is not (reference feature,
incident feature). -/
theorem C10_flipped_id_is_incident_then_reference :
    ∃ m', b2CollidePolygons FLT_MAX (1 / 200) normalizeAxial zeroManifold unitBox xfTilted
        unitBox (xfAt 1 0) = some m' ∧
      0 < m'.pointCount ∧
      (getAt m'.points 0).id = ⟨1, 3, .e_vertex, .e_face⟩ ∧
      tiltedReference.edge1 = 3 ∧ tiltedReference.poly1 = unitBox ∧
      tiltedReference.xf1 = xfAt 1 0 ∧ tiltedReference.flip = 1 ∧
      incidentFace FLT_MAX tiltedReference.poly1 tiltedReference.xf1 tiltedReference.edge1
        tiltedReference.poly2 tiltedReference.xf2 = 1 ∧
      ¬ ReferenceThenIncident FLT_MAX tiltedReference (getAt m'.points 0).id := by
  refine ⟨tiltedManifold, tilted_result, by decide, rfl, rfl, rfl, rfl, rfl,
    incidentFace_tilted, ?_⟩
  unfold ReferenceThenIncident
  have hi : incidentFace FLT_MAX tiltedReference.poly1 tiltedReference.xf1
      tiltedReference.edge1 tiltedReference.poly2 tiltedReference.xf2 = 1 := incidentFace_tilted
  rw [hi]
  simp [FeatureForm, tiltedManifold, getAt, tiltedReference, nextIndex, unitBox]

/-- C10, amended, for the tilted box against the box at `(1, 0)`: `flip = 1`, and the id of the
manifold point is (reference feature, incident feature) once its sides are exchanged. -/
theorem C10_contact_id_after_flip_witness :
    ReferenceThenIncident FLT_MAX tiltedReference
      (swapFeatures (getAt tiltedManifold.points 0).id) :=
  ((C10_contact_id_after_flip FLT_MAX (1 / 200) normalizeAxial zeroManifold unitBox xfTilted
    unitBox (xfAt 1 0) tiltedReference tilted_reference).2.1 tiltedManifold tilted_result 0
    (by decide)).2 rfl

/-! ## Polygon collision: the two test cases of the specification (C11, C12) -/

/-- The separation of a vertex of the second unit box, centred at `(d, 0)`, from face 1 of the
first, centred at the origin. -/
theorem projectedSeparation_face1 (d : ℚ) (v : b2Vec) :
    projectedSeparation unitBox (xfAt 0 0) (xfAt d 0) 1 v = v.x + d - 1 / 2 := by
  simp only [projectedSeparation, unitBox, xfAt, b2Dot, b2MulRot, b2Mul, b2MulT, b2MulTRot,
    b2Vec.sub_def, b2Vec.add_def, List.getD_cons_zero, List.getD_cons_succ]
  ring

/-- For unit boxes centred at `(0, 0)` and `(d, 0)` the separation found for the first
exceeds the combined radius as soon as `d - 1` does. -/
theorem separation_boxes_gt (d : ℚ) (h : d - 1 > unitBox.radius + unitBox.radius) :
    (b2FindMaxSeparation FLT_MAX unitBox (xfAt 0 0) unitBox (xfAt d 0)).2 >
      unitBox.radius + unitBox.radius := by
  obtain ⟨-, hall, -⟩ := foldl_argmax_spec
    (faceSeparation FLT_MAX unitBox (xfAt 0 0) unitBox (xfAt d 0)) (-FLT_MAX)
    unitBox.vertices.length
  have h1 := hall 1 (by decide)
  have hface : faceSeparation FLT_MAX unitBox (xfAt 0 0) unitBox (xfAt d 0) 1 >
      unitBox.radius + unitBox.radius := by
    rw [faceSeparation_eq]
    obtain ⟨-, -, hor⟩ := foldl_min_spec (projectedSeparation unitBox (xfAt 0 0) (xfAt d 0) 1)
      unitBox.vertices FLT_MAX
    rcases hor with hM | ⟨v, hv, hval⟩
    · rw [hM]; norm_num [unitBox, FLT_MAX]
    · rw [hval, projectedSeparation_face1]
      simp only [unitBox, List.mem_cons, List.mem_singleton, List.not_mem_nil, or_false] at hv
      have hr : unitBox.radius + unitBox.radius = 1 / 50 := by norm_num [unitBox]
      rw [hr] at h ⊢
      rcases hv with rfl | rfl | rfl | rfl <;> norm_num <;> linarith
  exact lt_of_lt_of_le hface h1

/-- C11. For two axis-aligned boxes of half-extent 0.5 and polygon radius 0.01 with identity
rotation, centred at `(0, 0)` and `(5, 0)`, `b2FindMaxSeparation(A, B)` is 4 and
`b2CollidePolygons` leaves `pointCount = 0`; and the manifold is empty for every centre offset
`(d, 0)` with `d - 1 > radiusA + radiusB`. -/
theorem C11_separated_boxes (LINEAR_SLOP : ℚ) (Normalize : b2Vec → b2Vec)
    (manifold : b2Manifold) :
    (b2FindMaxSeparation FLT_MAX unitBox (xfAt 0 0) unitBox (xfAt 5 0)).2 = 4 ∧
    b2CollidePolygons FLT_MAX LINEAR_SLOP Normalize manifold unitBox (xfAt 0 0) unitBox
      (xfAt 5 0) = some { manifold with pointCount := 0 } ∧
    ∀ d : ℚ, d - 1 > unitBox.radius + unitBox.radius →
      b2CollidePolygons FLT_MAX LINEAR_SLOP Normalize manifold unitBox (xfAt 0 0) unitBox
        (xfAt d 0) = some { manifold with pointCount := 0 } := by
  refine ⟨by rw [separation_far_boxes], ?_, ?_⟩
  · exact b2CollidePolygons_axis_found _ _ _ _ _ _ _ _
      (Or.inl (by rw [separation_far_boxes]; norm_num [unitBox]))
  · intro d hd
    exact b2CollidePolygons_axis_found _ _ _ _ _ _ _ _ (Or.inl (separation_boxes_gt d hd))

/-- C11 at the centre offset `(3, 0)`. -/
theorem C11_separated_boxes_witness :
    b2CollidePolygons FLT_MAX (1 / 200) normalizeAxial zeroManifold unitBox (xfAt 0 0) unitBox
      (xfAt 3 0) = some { zeroManifold with pointCount := 0 } :=
  (C11_separated_boxes (1 / 200) normalizeAxial zeroManifold).2.2 3 (by norm_num [unitBox])

theorem separation_near_AB :
    b2FindMaxSeparation FLT_MAX unitBox (xfAt 0 0) unitBox (xfAt (9 / 10) 0) = (1, -1 / 10) := by
  simp only [b2FindMaxSeparation, unitBox_length, range_four, List.foldl_cons, List.foldl_nil]
  norm_num [faceSeparation, deepest, unitBox, xfAt, b2Dot, b2MulRot, b2Mul,
    b2MulTXf, b2MulTRot, b2Vec.sub_def, b2Vec.add_def, FLT_MAX]

theorem separation_near_BA :
    b2FindMaxSeparation FLT_MAX unitBox (xfAt (9 / 10) 0) unitBox (xfAt 0 0) = (3, -1 / 10) := by
  simp only [b2FindMaxSeparation, unitBox_length, range_four, List.foldl_cons, List.foldl_nil]
  norm_num [faceSeparation, deepest, unitBox, xfAt, b2Dot, b2MulRot, b2Mul,
    b2MulTXf, b2MulTRot, b2Vec.sub_def, b2Vec.add_def, FLT_MAX]

theorem incidentFace_near :
    incidentFace FLT_MAX unitBox (xfAt 0 0) 1 unitBox (xfAt (9 / 10) 0) = 3 := by
  simp only [incidentFace, incidentIndex, unitBox_normals_length, range_four, List.foldl_cons,
    List.foldl_nil]
  norm_num [unitBox, xfAt, b2Dot, b2MulRot, b2MulTRot, FLT_MAX]

/-- C12. For two boxes of half-extent 0.5 and polygon radius 0.01 with identity rotation,
centred at `(0, 0)` and `(0.9, 0)`, `b2CollidePolygons` writes exactly two manifold points,
the manifold type `e_faceA`, `localNormal = (1, 0)` and `localPoint = (0.5, 0)`, and each of
the two points lies at separation `-0.1` along the normal. This holds for every
`LINEAR_SLOP ≥ 0` and every `Normalize` that keeps the unit vector `(0, 1)`. -/
theorem C12_overlapping_boxes (LINEAR_SLOP : ℚ) (Normalize : b2Vec → b2Vec)
    (manifold : b2Manifold) (hslop : 0 ≤ LINEAR_SLOP) (hN : Normalize ⟨0, 1⟩ = ⟨0, 1⟩) :
    ∃ m', b2CollidePolygons FLT_MAX LINEAR_SLOP Normalize manifold unitBox (xfAt 0 0) unitBox
        (xfAt (9 / 10) 0) = some m' ∧
      m'.pointCount = 2 ∧ m'.type = .e_faceA ∧
      m'.localNormal = ⟨1, 0⟩ ∧ m'.localPoint = ⟨1 / 2, 0⟩ ∧
      m'.points.1.localPoint = ⟨-1 / 2, 1 / 2⟩ ∧ m'.points.2.localPoint = ⟨-1 / 2, -1 / 2⟩ ∧
      pointSeparation m' (xfAt 0 0) (xfAt (9 / 10) 0) m'.points.1 = -1 / 10 ∧
      pointSeparation m' (xfAt 0 0) (xfAt (9 / 10) 0) m'.points.2 = -1 / 10 := by
  have hA : ¬ (b2FindMaxSeparation FLT_MAX unitBox (xfAt 0 0) unitBox (xfAt (9 / 10) 0)).2 >
      unitBox.radius + unitBox.radius := by
    rw [separation_near_AB]; norm_num [unitBox]
  have hB : ¬ (b2FindMaxSeparation FLT_MAX unitBox (xfAt (9 / 10) 0) unitBox (xfAt 0 0)).2 >
      unitBox.radius + unitBox.radius := by
    rw [separation_near_BA]; norm_num [unitBox]
  have hr : (⟨unitBox, unitBox, xfAt 0 0, xfAt (9 / 10) 0, 1, .e_faceA, 0⟩ : Reference) =
      chooseReference LINEAR_SLOP unitBox (xfAt 0 0) unitBox (xfAt (9 / 10) 0)
        (b2FindMaxSeparation FLT_MAX unitBox (xfAt 0 0) unitBox (xfAt (9 / 10) 0)).1
        (b2FindMaxSeparation FLT_MAX unitBox (xfAt 0 0) unitBox (xfAt (9 / 10) 0)).2
        (b2FindMaxSeparation FLT_MAX unitBox (xfAt (9 / 10) 0) unitBox (xfAt 0 0)).1
        (b2FindMaxSeparation FLT_MAX unitBox (xfAt (9 / 10) 0) unitBox (xfAt 0 0)).2 := by
    rw [separation_near_AB, separation_near_BA]
    unfold chooseReference
    rw [if_neg]
    have : 0 ≤ 1 / 10 * LINEAR_SLOP := by positivity
    simp only [not_lt, gt_iff_lt]
    linarith
  rw [b2CollidePolygons_no_axis FLT_MAX LINEAR_SLOP Normalize manifold unitBox (xfAt 0 0)
    unitBox (xfAt (9 / 10) 0) hA hB _ hr]
  simp only []
  rw [b2FindIncidentEdge_some _ _ _ _ _ _ (by decide), incidentFace_near]
  refine ⟨_, rfl, ?_⟩
  have hN' : Normalize ({ x := 1 / 2, y := 1 / 2 } - { x := 1 / 2, y := -1 / 2 }) = ⟨0, 1⟩ := by
    rw [← hN]; congr 1; norm_num [b2Vec.sub_def]
  norm_num [pointSeparation, clipAndWrite, clipIncidentEdge, b2ClipSegmentToLine, addPoint,
    nextIndex, unitBox, xfAt, b2Dot, b2Cross, b2MulRot, b2Mul, b2MulT, b2MulTRot, hN',
    b2Vec.sub_def, b2Vec.add_def, b2Vec.neg_def, b2Vec.smul_def, getAt, setAt, hN]

/-- C12 for `LINEAR_SLOP = 0.005` and the axial `Normalize`. -/
theorem C12_overlapping_boxes_witness :
    ∃ m', b2CollidePolygons FLT_MAX (1 / 200) normalizeAxial zeroManifold unitBox (xfAt 0 0)
        unitBox (xfAt (9 / 10) 0) = some m' ∧
      m'.pointCount = 2 ∧ m'.type = .e_faceA ∧
      m'.localNormal = ⟨1, 0⟩ ∧ m'.localPoint = ⟨1 / 2, 0⟩ ∧
      m'.points.1.localPoint = ⟨-1 / 2, 1 / 2⟩ ∧ m'.points.2.localPoint = ⟨-1 / 2, -1 / 2⟩ ∧
      pointSeparation m' (xfAt 0 0) (xfAt (9 / 10) 0) m'.points.1 = -1 / 10 ∧
      pointSeparation m' (xfAt 0 0) (xfAt (9 / 10) 0) m'.points.2 = -1 / 10 :=
  C12_overlapping_boxes (1 / 200) normalizeAxial zeroManifold (by norm_num)
    (by norm_num [normalizeAxial, b2Vec.smul_def])

/-! ## Distance proxy: the support scan (C13) -/

/-- The scan that starts from index 0 and takes a later index only on a strictly greater
value ends on the first index of the greatest value. -/
theorem foldl_argmax_from_first (g : Nat → ℚ) (m : Nat) :
    ((List.range' 1 m).foldl (fun best i => if g i > best.2 then (i, g i) else best)
        (0, g 0)).1 < m + 1 ∧
    g ((List.range' 1 m).foldl (fun best i => if g i > best.2 then (i, g i) else best)
        (0, g 0)).1 =
      ((List.range' 1 m).foldl (fun best i => if g i > best.2 then (i, g i) else best)
        (0, g 0)).2 ∧
    (∀ i < m + 1, g i ≤
      ((List.range' 1 m).foldl (fun best i => if g i > best.2 then (i, g i) else best)
        (0, g 0)).2) ∧
    ∀ i < ((List.range' 1 m).foldl (fun best i => if g i > best.2 then (i, g i) else best)
        (0, g 0)).1,
      g i < ((List.range' 1 m).foldl (fun best i => if g i > best.2 then (i, g i) else best)
        (0, g 0)).2 := by
  induction m with
  | zero =>
    refine ⟨Nat.zero_lt_one, rfl, ?_, fun i hi => absurd hi (Nat.not_lt_zero i)⟩
    intro i hi
    have : i = 0 := by omega
    subst this
    exact le_refl _
  | succ m ih =>
    rw [List.range'_concat, List.foldl_append]
    generalize (List.range' 1 m).foldl (fun best i => if g i > best.2 then (i, g i) else best)
      (0, g 0) = r at ih ⊢
    obtain ⟨h1, h2, h3, h4⟩ := ih
    simp only [List.foldl_cons, List.foldl_nil, Nat.one_mul]
    by_cases h : g (1 + m) > r.2
    · rw [if_pos h]
      refine ⟨by show 1 + m < m + 1 + 1; omega, rfl, ?_, ?_⟩
      · intro i hi
        show g i ≤ g (1 + m)
        rcases Nat.lt_succ_iff_lt_or_eq.mp hi with hi | hi
        · have := h3 i hi; linarith
        · rw [hi, Nat.add_comm]
      · intro i hi
        show g i < g (1 + m)
        have := h3 i (by show i < m + 1; change i < 1 + m at hi; omega)
        linarith
    · rw [if_neg h]
      refine ⟨Nat.lt_succ_of_lt h1, h2, ?_, h4⟩
      intro i hi
      rcases Nat.lt_succ_iff_lt_or_eq.mp hi with hi | hi
      · exact h3 i hi
      · rw [hi, Nat.add_comm]; exact not_lt.mp h

namespace b2DistanceProxy

/-- C13 over exact arithmetic. For every proxy with at least one vertex and every direction `d`,
`GetSupport(d)` returns an index `i < GetVertexCount()` with
`dot(vertex[i], d) ≥ dot(vertex[k], d)` for every `k`, and every index below `i` has a strictly
smaller dot product: `i` is the lowest index attaining the maximum. -/
theorem exact_GetSupport_first_maximum (proxy : b2DistanceProxy) (d : b2Vec)
    (h : 1 ≤ proxy.GetVertexCount) :
    proxy.GetSupport d < proxy.GetVertexCount ∧
    (∀ k < proxy.GetVertexCount,
      b2Dot (proxy.GetVertex k) d ≤ b2Dot (proxy.GetVertex (proxy.GetSupport d)) d) ∧
    ∀ k < proxy.GetSupport d,
      b2Dot (proxy.GetVertex k) d < b2Dot (proxy.GetVertex (proxy.GetSupport d)) d := by
  obtain ⟨h1, h2, h3, h4⟩ := foldl_argmax_from_first
    (fun i => b2Dot (proxy.m_vertices.getD i default) d) (proxy.m_vertices.length - 1)
  unfold GetVertexCount at h ⊢
  have hlen : proxy.m_vertices.length - 1 + 1 = proxy.m_vertices.length := by omega
  rw [hlen] at h1 h3
  unfold GetSupport GetVertex supportScan
  refine ⟨h1, ?_, ?_⟩
  · intro k hk
    exact le_of_le_of_eq (h3 k hk) h2.symm
  · intro k hk
    exact lt_of_lt_of_eq (h4 k hk) h2.symm

/-- C13 over exact arithmetic, for the four corners of the unit box and the direction `(1, 0)`,
which two corners maximise: the support index is 1, the first of them. -/
theorem exact_GetSupport_witness :
    (⟨unitBox.vertices, 0⟩ : b2DistanceProxy).GetSupport ⟨1, 0⟩ <
      (⟨unitBox.vertices, 0⟩ : b2DistanceProxy).GetVertexCount ∧
    (⟨unitBox.vertices, 0⟩ : b2DistanceProxy).GetSupport ⟨1, 0⟩ = 1 :=
  ⟨(exact_GetSupport_first_maximum ⟨unitBox.vertices, 0⟩ ⟨1, 0⟩ (by decide)).1, by
    simp only [GetSupport, supportScan, unitBox, List.length_cons, List.length_nil]
    norm_num [List.range', b2Dot]⟩

end b2DistanceProxy

end box2d

namespace b2d11

/-! ## Block allocator: the pool miss (C20) -/

theorem classSize_ge : ∀ i, i < 14 → 16 ≤ s_blockSizes.getD i 0 := by decide

theorem chain_null (next : Int → Int) (n : Nat) : chain next n 0 = [] := by
  cases n <;> simp [chain]

/-- Two memories that agree on the blocks of a list give the same list. -/
theorem chain_congr (next next' : Int → Int) (n : Nat) : ∀ head : Int,
    (∀ x ∈ chain next n head, next' x = next x) → chain next' n head = chain next n head := by
  induction n with
  | zero => intro _ _; rfl
  | succ n ih =>
    intro head h
    unfold chain at h ⊢
    by_cases h0 : head = 0
    · simp [h0]
    · simp only [h0, if_false, List.mem_cons, forall_eq_or_imp] at h ⊢
      rw [h.1, ih _ h.2]

namespace BlockAllocator

variable {σ : Type}

/-- The link stored in block `i` of a carved chunk: the next block, or null in the last. -/
theorem carvedMemory_block (next : Int → Int) (B : Int) (b N : Nat) (hb : 0 < b) (i : Nat)
    (hi : i < N) :
    carvedMemory next B b N (B + (b : Int) * i) =
      if i + 1 < N then B + (b : Int) * ((i + 1 : Nat) : Int) else 0 := by
  unfold carvedMemory
  have hbI : (0 : Int) < b := by exact_mod_cast hb
  by_cases hlast : i + 1 < N
  · rw [if_pos hlast, Function.update_noteq, linkBlocks_apply, if_pos ⟨i, by omega, rfl⟩]
    · push_cast; ring
    · intro he
      have : (b : Int) * i = (b : Int) * ((N : Int) - 1) := by linarith
      have := Int.eq_of_mul_eq_mul_left (ne_of_gt hbI) this
      omega
  · rw [if_neg hlast]
    have hiN : (i : Int) = (N : Int) - 1 := by omega
    rw [hiN, Function.update_same]

/-- Outside the blocks of the new chunk the memory is as before. -/
theorem carvedMemory_other (next : Int → Int) (B : Int) (b N : Nat) (hN : 1 ≤ N) (x : Int)
    (hx : ∀ i : Nat, i < N → x ≠ B + (b : Int) * i) :
    carvedMemory next B b N x = next x := by
  unfold carvedMemory
  rw [Function.update_noteq, linkBlocks_apply, if_neg]
  · rintro ⟨i, hi, hxi⟩
    exact hx i (by omega) hxi
  · have := hx (N - 1) (by omega)
    intro he
    apply this
    rw [he]
    have : ((N - 1 : Nat) : Int) = (N : Int) - 1 := by omega
    rw [this]

/-- The list that starts at block `i` of a carved chunk runs through the blocks after it, in
ascending order, and ends at the last block. -/
theorem carvedMemory_chain (next : Int → Int) (B : Int) (b N : Nat) (hb : 0 < b) (hB : 0 < B)
    (m : Nat) : ∀ (i n : Nat), i + m + 1 = N →
      chain (carvedMemory next B b N) n (B + (b : Int) * i) =
        ((List.range' i (m + 1)).map (fun j : Nat => B + (b : Int) * j)).take n := by
  have hbI : (0 : Int) < b := by exact_mod_cast hb
  induction m with
  | zero =>
    intro i n hN
    cases n with
    | zero => rfl
    | succ n =>
      have hne : B + (b : Int) * i ≠ 0 := by
        have : (0 : Int) ≤ (b : Int) * i := by positivity
        omega
      unfold chain
      rw [if_neg hne, carvedMemory_block next B b N hb i (by omega), if_neg (by omega),
        chain_null]
      simp [List.range']
  | succ m ih =>
    intro i n hN
    cases n with
    | zero => rfl
    | succ n =>
      have hne : B + (b : Int) * i ≠ 0 := by
        have : (0 : Int) ≤ (b : Int) * i := by positivity
        omega
      unfold chain
      rw [if_neg hne, carvedMemory_block next B b N hb i (by omega), if_pos (by omega),
        ih (i + 1) n (by omega)]
      rw [List.range'_succ i (m + 1)]
      simp

end BlockAllocator

theorem classSize_le : ∀ i, i < 14 → s_blockSizes.getD i 0 ≤ 640 := by decide

namespace BlockAllocator

variable {σ : Type}

/-- What the growth branch of `Allocate` keeps: the chunk count, the free lists, the block
memory and the chunk records in use; and the chunk array has room for one more record when the
array held `m_chunkSpace` records, of which at most all were in use. -/
theorem growChunks_keeps (H : Host σ) (a : BlockAllocator σ)
    (hlen : a.chunks.length = a.m_chunkSpace) (hcount : a.m_chunkCount ≤ a.m_chunkSpace)
    (hinc : 0 < H.CHUNK_ARRAY_INCREMENT) :
    (growChunks H a).m_chunkCount = a.m_chunkCount ∧
    (growChunks H a).m_freeLists = a.m_freeLists ∧
    (growChunks H a).next = a.next ∧
    a.m_chunkCount < (growChunks H a).chunks.length ∧
    ∀ i < a.m_chunkCount, (growChunks H a).chunks[i]? = a.chunks[i]? := by
  unfold growChunks
  by_cases h : a.m_chunkCount = a.m_chunkSpace
  · rw [if_pos h]
    refine ⟨rfl, rfl, rfl, ?_, ?_⟩
    · simp only [List.length_append, List.length_take, List.length_replicate]
      omega
    · intro i hi
      simp only []
      rw [List.getElem?_append_left (by simp only [List.length_take]; omega),
        List.getElem?_take_of_lt hi]
  · rw [if_neg h]
    exact ⟨rfl, rfl, rfl, by omega, fun _ _ => rfl⟩

/-- C20. When `Allocate(s)`, `1 ≤ s ≤ 640`, finds the free list of the class of `s` empty, in a
state whose chunk array holds `m_chunkSpace` records with `m_chunkCount` of them in use, and
the general-purpose allocator returns the chunk at an address `B > 0`: `m_chunkCount` grows by
one, the new chunk record holds the class size `b` and `B`, the records in use before are
kept, the call returns `B` (the block at offset 0), and the free list of the class is exactly
the blocks at offsets `b, 2b, ..., (N - 1) b` of the chunk, `N = CHUNK_SIZE / b`, in ascending
order and ended by the null link. The heads of all other free lists are unchanged, and so is
every other free list none of whose blocks lies in the new chunk. -/
theorem C20_pool_miss (H : Host σ) (a : BlockAllocator σ) (s B : Int) (b N : Nat)
    (h1 : 1 ≤ s) (h2 : s ≤ 640) (hempty : a.m_freeLists (classIndex s) = 0)
    (hlen : a.chunks.length = a.m_chunkSpace) (hcount : a.m_chunkCount ≤ a.m_chunkSpace)
    (hinc : 0 < H.CHUNK_ARRAY_INCREMENT) (hsize : 640 ≤ H.CHUNK_SIZE)
    (hb : b = resolvedSize s.toNat) (hN : N = H.CHUNK_SIZE / b)
    (hBdef : B = (H.Alloc (growChunks H a).sys H.CHUNK_SIZE).1) (hB : 0 < B) :
    ∃ st, Allocate H a s = some (B, st) ∧
      st.m_chunkCount = a.m_chunkCount + 1 ∧
      st.chunks[a.m_chunkCount]? = some ⟨b, B⟩ ∧
      (∀ i < a.m_chunkCount, st.chunks[i]? = a.chunks[i]?) ∧
      1 ≤ N ∧
      (∀ n, st.freeList (classIndex s) n =
        ((List.range' 1 (N - 1)).map (fun j : Nat => B + (b : Int) * j)).take n) ∧
      (∀ j, j ≠ classIndex s → st.m_freeLists j = a.m_freeLists j) ∧
      (∀ j n, j ≠ classIndex s →
        (∀ x ∈ a.freeList j n, ∀ i : Nat, i < N → x ≠ B + (b : Int) * i) →
        st.freeList j n = a.freeList j n) := by
  have hidx : classIndex s < 14 := classIndex_lt s h2
  have hb' : b = s_blockSizes.getD (classIndex s) 0 := hb
  have hb16 : 16 ≤ b := hb' ▸ classSize_ge _ hidx
  have hb640 : b ≤ 640 := hb' ▸ classSize_le _ hidx
  have hbpos : 0 < b := by omega
  have hN1 : 1 ≤ N := by
    rw [hN]
    exact Nat.div_pos (by omega) hbpos
  obtain ⟨g1, g2, g3, g4, g5⟩ := growChunks_keeps H a hlen hcount hinc
  rw [Allocate_miss H a s h1 h2 hempty, allocateChunk_some, ← hb', ← hBdef, ← hN]
  have hmem : Function.update (linkBlocks (growChunks H a).next B b (N - 1))
      (B + (b : Int) * ((N : Int) - 1)) 0 = carvedMemory a.next B b N := by
    rw [g3]; rfl
  rw [hmem, g1, g2]
  generalize classIndex s = idx
  refine ⟨_, rfl, rfl, ?_, ?_, hN1, ?_, ?_, ?_⟩
  · show ((growChunks H a).chunks.set a.m_chunkCount _)[a.m_chunkCount]? = _
    rw [List.getElem?_set_self g4]
  · intro i hi
    show ((growChunks H a).chunks.set a.m_chunkCount _)[i]? = _
    rw [List.getElem?_set_ne (by omega), g5 i hi]
  · intro n
    show chain (carvedMemory a.next B b N) n
      (Function.update a.m_freeLists idx (carvedMemory a.next B b N B) idx) = _
    rw [Function.update_same]
    have h0 := carvedMemory_block a.next B b N hbpos 0 (by omega)
    simp only [Nat.cast_zero, mul_zero, add_zero, Nat.zero_add] at h0
    rw [h0]
    by_cases hN2 : 1 < N
    · rw [if_pos hN2]
      have hc := carvedMemory_chain a.next B b N hbpos hB (N - 2) 1 n (by omega)
      rw [hc]
      have : N - 2 + 1 = N - 1 := by omega
      rw [this]
    · rw [if_neg hN2, chain_null]
      have : N - 1 = 0 := by omega
      rw [this]
      simp
  · intro j hj
    show Function.update a.m_freeLists idx _ j = _
    rw [Function.update_noteq hj]
  · intro j n hj hfresh
    show chain (carvedMemory a.next B b N) n
      (Function.update a.m_freeLists idx (carvedMemory a.next B b N B) j) = _
    rw [Function.update_noteq hj]
    exact chain_congr a.next (carvedMemory a.next B b N) n _
      (fun x hx => carvedMemory_other a.next B b N hN1 x (hfresh x hx))

theorem resolvedSize_16 : resolvedSize 16 = 16 := by
  unfold resolvedSize
  rw [lookup_eq_classOf 16 (by decide)]
  decide

/-- C20 for the first `Allocate(16)` of an allocator over `bumpHost`: the chunk lands at 8192
and is carved into 1024 blocks of 16 bytes. -/
theorem C20_pool_miss_witness :
    ∃ st, Allocate bumpHost (new bumpHost (fun _ => 0) 6144) 16 = some (8192, st) ∧
      st.m_chunkCount = (new bumpHost (fun _ => 0) 6144).m_chunkCount + 1 ∧
      st.chunks[(new bumpHost (fun _ => 0) 6144).m_chunkCount]? = some ⟨16, 8192⟩ ∧
      ∀ n, st.freeList (classIndex 16) n =
        ((List.range' 1 (1024 - 1)).map (fun j : Nat => (8192 : Int) + ((16 : Nat) : Int) * j)).take
          n :=
  match C20_pool_miss bumpHost (new bumpHost (fun _ => 0) 6144) 16 8192 16 1024 (by decide)
    (by decide) rfl (by simp [new, bumpHost]) (by decide) (by decide) (by decide)
    resolvedSize_16.symm (by decide) (by decide) (by decide) with
  | ⟨st, h1, h2, h3, _, _, h6, _⟩ => ⟨st, h1, h2, h3, h6⟩

end BlockAllocator

end b2d11

namespace box2d

/-! ## Weld joint: warm starting and the velocity solve (C14 to C16) -/

theorem b2Vec3.smul_eq (s : ℚ) (a : b2Vec3) : s * a = ⟨s * a.x, s * a.y, s * a.z⟩ := rfl

theorem b2Vec3.add_eq (a b : b2Vec3) : a + b = ⟨a.x + b.x, a.y + b.y, a.z + b.z⟩ := rfl

theorem b2Vec3.neg_eq (a : b2Vec3) : -a = ⟨-a.x, -a.y, -a.z⟩ := rfl

namespace b2WeldJoint

/-- The mode branch of `InitVelocityConstraints` writes `m_mass`, `m_gamma` and `m_bias`
only. -/
theorem initMass_keeps (B2_PI : ℚ) (j : b2WeldJoint) (aA aB dt : ℚ) :
    (initMass B2_PI j aA aB dt).m_impulse = j.m_impulse ∧
    (initMass B2_PI j aA aB dt).m_rA = j.m_rA ∧
    (initMass B2_PI j aA aB dt).m_rB = j.m_rB ∧
    (initMass B2_PI j aA aB dt).m_indexA = j.m_indexA ∧
    (initMass B2_PI j aA aB dt).m_indexB = j.m_indexB ∧
    (initMass B2_PI j aA aB dt).m_invMassA = j.m_invMassA ∧
    (initMass B2_PI j aA aB dt).m_invMassB = j.m_invMassB ∧
    (initMass B2_PI j aA aB dt).m_invIA = j.m_invIA ∧
    (initMass B2_PI j aA aB dt).m_invIB = j.m_invIB ∧
    (initMass B2_PI j aA aB dt).m_frequencyHz = j.m_frequencyHz := by
  unfold initMass initSoft
  simp only []
  split_ifs <;> exact ⟨rfl, rfl, rfl, rfl, rfl, rfl, rfl, rfl, rfl, rfl⟩

/-- C14. Warm starting in `InitVelocityConstraints`, for bodies A and B with island indices
`indexA` and `indexB`, inverse masses `mA`, `mB`, inverse inertias `iA`, `iB` and the lever
arms `rA`, `rB` computed by the call. If `step.warmStarting` is set, the accumulated impulse
becomes `dtRatio` times its previous value in all three components and, with `P` its linear
part and `L` its angular part after scaling, the velocity of B becomes `vB + mB * P`,
`wB + iB * (cross(rB, P) + L)` and that of A becomes `vA - mA * P`,
`wA - iA * (cross(rA, P) + L)` (A and B being different bodies). If it is not set, the
accumulated impulse becomes `(0, 0, 0)` and the velocity array is what it was. -/
theorem C14_warm_starting (Rot : ℚ → b2Rot) (B2_PI : ℚ) (j : b2WeldJoint)
    (data : b2SolverData) :
    (InitVelocityConstraints Rot B2_PI j data).1.m_rA =
        b2MulRot (Rot (data.positions j.m_bodyA.m_islandIndex).a)
          (j.m_localAnchorA - j.m_bodyA.localCenter) ∧
    (InitVelocityConstraints Rot B2_PI j data).1.m_rB =
        b2MulRot (Rot (data.positions j.m_bodyB.m_islandIndex).a)
          (j.m_localAnchorB - j.m_bodyB.localCenter) ∧
    (data.step.warmStarting = true →
      (InitVelocityConstraints Rot B2_PI j data).1.m_impulse =
        ⟨data.step.dtRatio * j.m_impulse.x, data.step.dtRatio * j.m_impulse.y,
          data.step.dtRatio * j.m_impulse.z⟩ ∧
      (InitVelocityConstraints Rot B2_PI j data).2.velocities j.m_bodyB.m_islandIndex =
        ⟨(data.velocities j.m_bodyB.m_islandIndex).v + j.m_bodyB.m_invMass *
            (⟨(InitVelocityConstraints Rot B2_PI j data).1.m_impulse.x,
              (InitVelocityConstraints Rot B2_PI j data).1.m_impulse.y⟩ : b2Vec),
          (data.velocities j.m_bodyB.m_islandIndex).w + j.m_bodyB.m_invI *
            (b2CrossVV (InitVelocityConstraints Rot B2_PI j data).1.m_rB
                ⟨(InitVelocityConstraints Rot B2_PI j data).1.m_impulse.x,
                  (InitVelocityConstraints Rot B2_PI j data).1.m_impulse.y⟩ +
              (InitVelocityConstraints Rot B2_PI j data).1.m_impulse.z)⟩ ∧
      (j.m_bodyA.m_islandIndex ≠ j.m_bodyB.m_islandIndex →
        (InitVelocityConstraints Rot B2_PI j data).2.velocities j.m_bodyA.m_islandIndex =
          ⟨(data.velocities j.m_bodyA.m_islandIndex).v - j.m_bodyA.m_invMass *
              (⟨(InitVelocityConstraints Rot B2_PI j data).1.m_impulse.x,
                (InitVelocityConstraints Rot B2_PI j data).1.m_impulse.y⟩ : b2Vec),
            (data.velocities j.m_bodyA.m_islandIndex).w - j.m_bodyA.m_invI *
              (b2CrossVV (InitVelocityConstraints Rot B2_PI j data).1.m_rA
                  ⟨(InitVelocityConstraints Rot B2_PI j data).1.m_impulse.x,
                    (InitVelocityConstraints Rot B2_PI j data).1.m_impulse.y⟩ +
                (InitVelocityConstraints Rot B2_PI j data).1.m_impulse.z)⟩)) ∧
    (data.step.warmStarting = false →
      (InitVelocityConstraints Rot B2_PI j data).1.m_impulse = ⟨0, 0, 0⟩ ∧
      (InitVelocityConstraints Rot B2_PI j data).2.velocities = data.velocities) := by
  obtain ⟨k1, k2, k3, k4, k5, k6, k7, k8, k9, -⟩ := initMass_keeps B2_PI (cacheBodies Rot j data)
    (data.positions (cacheBodies Rot j data).m_indexA).a
    (data.positions (cacheBodies Rot j data).m_indexB).a data.step.dt
  unfold InitVelocityConstraints
  simp only [k1, k2, k3, k4, k5, k6, k7, k8, k9]
  cases hw : data.step.warmStarting
  · simp only [Bool.false_eq_true, if_false, false_implies, true_and, true_implies]
    refine ⟨rfl, rfl, ?_⟩
    funext i
    simp only [Function.update_apply]
    split_ifs with h1 h2 <;> simp_all
  · simp only [if_true, true_implies, Bool.true_eq_false, false_implies, and_true]
    refine ⟨rfl, rfl, rfl, ?_, ?_⟩
    · show Function.update _ (cacheBodies Rot j data).m_indexB _ j.m_bodyB.m_islandIndex = _
      exact Function.update_same _ _ _
    · intro hne
      show Function.update (Function.update _ (cacheBodies Rot j data).m_indexA _)
        (cacheBodies Rot j data).m_indexB _ j.m_bodyA.m_islandIndex = _
      rw [Function.update_noteq (show j.m_bodyA.m_islandIndex ≠
        (cacheBodies Rot j data).m_indexB from hne)]
      exact Function.update_same _ _ _

/-- The velocities `SolveVelocityConstraints` writes and the impulse it accumulates, in terms
of the two branches. -/
theorem SolveVelocityConstraints_writes (j : b2WeldJoint) (data : b2SolverData)
    (r : b2Vec3 × (b2Velocity × b2Velocity))
    (hr : r = if j.m_frequencyHz > 0 then
        solveVelocitySoft j (data.velocities j.m_indexA).v (data.velocities j.m_indexA).w
          (data.velocities j.m_indexB).v (data.velocities j.m_indexB).w
      else
        solveVelocityRigid j (data.velocities j.m_indexA).v (data.velocities j.m_indexA).w
          (data.velocities j.m_indexB).v (data.velocities j.m_indexB).w) :
    (SolveVelocityConstraints j data).1 = { j with m_impulse := r.1 } ∧
    (SolveVelocityConstraints j data).2.velocities j.m_indexB = r.2.2 ∧
    (j.m_indexA ≠ j.m_indexB →
      (SolveVelocityConstraints j data).2.velocities j.m_indexA = r.2.1) ∧
    (∀ i, i ≠ j.m_indexA → i ≠ j.m_indexB →
      (SolveVelocityConstraints j data).2.velocities i = data.velocities i) ∧
    (SolveVelocityConstraints j data).2.positions = data.positions ∧
    (SolveVelocityConstraints j data).2.step = data.step := by
  subst hr
  unfold SolveVelocityConstraints
  refine ⟨rfl, Function.update_same _ _ _, ?_, ?_, rfl, rfl⟩
  · intro hne
    show Function.update (Function.update _ j.m_indexA _) j.m_indexB _ j.m_indexA = _
    rw [Function.update_noteq hne]
    exact Function.update_same _ _ _
  · intro i hA hB
    show Function.update (Function.update _ j.m_indexA _) j.m_indexB _ i = _
    rw [Function.update_noteq hB, Function.update_noteq hA]

/-- C15. In both solving modes of `SolveVelocityConstraints` there are a linear impulse `P` and
an angular impulse `L` such that the velocity of B becomes `vB + mB * P`,
`wB + iB * (cross(rB, P) + L)`, that of A (a different body) becomes `vA - mA * P`,
`wA - iA * (cross(rA, P) + L)`, so that `invMassB * dvA + invMassA * dvB = 0`, and the
accumulated impulse grows by exactly `(P, L)`. -/
theorem C15_symmetric_impulse (j : b2WeldJoint) (data : b2SolverData) :
    ∃ (P : b2Vec) (L : ℚ),
      (SolveVelocityConstraints j data).2.velocities j.m_indexB =
        ⟨(data.velocities j.m_indexB).v + j.m_invMassB * P,
          (data.velocities j.m_indexB).w + j.m_invIB * (b2CrossVV j.m_rB P + L)⟩ ∧
      (j.m_indexA ≠ j.m_indexB →
        (SolveVelocityConstraints j data).2.velocities j.m_indexA =
          ⟨(data.velocities j.m_indexA).v - j.m_invMassA * P,
            (data.velocities j.m_indexA).w - j.m_invIA * (b2CrossVV j.m_rA P + L)⟩ ∧
        j.m_invMassB * (((SolveVelocityConstraints j data).2.velocities j.m_indexA).v -
            (data.velocities j.m_indexA).v) +
          j.m_invMassA * (((SolveVelocityConstraints j data).2.velocities j.m_indexB).v -
            (data.velocities j.m_indexB).v) = ⟨0, 0⟩) ∧
      (SolveVelocityConstraints j data).1.m_impulse = j.m_impulse + ⟨P.x, P.y, L⟩ := by
  obtain ⟨h1, h2, h3, -, -, -⟩ := SolveVelocityConstraints_writes j data _ rfl
  rw [h1, h2]
  by_cases hf : j.m_frequencyHz > 0
  · simp only [if_pos hf] at h3 ⊢
    refine ⟨-b2Mul22 j.m_mass
        ((data.velocities j.m_indexB).v +
          b2CrossSV ((data.velocities j.m_indexB).w + j.m_invIB *
            (-j.m_mass.ez.z * ((data.velocities j.m_indexB).w - (data.velocities j.m_indexA).w +
              j.m_bias + j.m_gamma * j.m_impulse.z))) j.m_rB -
          (data.velocities j.m_indexA).v -
          b2CrossSV ((data.velocities j.m_indexA).w - j.m_invIA *
            (-j.m_mass.ez.z * ((data.velocities j.m_indexB).w - (data.velocities j.m_indexA).w +
              j.m_bias + j.m_gamma * j.m_impulse.z))) j.m_rA),
      -j.m_mass.ez.z * ((data.velocities j.m_indexB).w - (data.velocities j.m_indexA).w +
        j.m_bias + j.m_gamma * j.m_impulse.z), ?_, ?_, ?_⟩
    · simp only [solveVelocitySoft, b2Velocity.mk.injEq, true_and]
      ring
    · intro hne
      rw [h3 hne]
      refine ⟨?_, ?_⟩
      · simp only [solveVelocitySoft, b2Velocity.mk.injEq, true_and]
        ring
      · simp only [solveVelocitySoft, b2Vec.sub_def, b2Vec.add_def, b2Vec.smul_def,
          b2Vec.mk.injEq]
        constructor <;> ring
    · simp only [solveVelocitySoft, b2Vec3.add_eq]
  · simp only [if_neg hf] at h3 ⊢
    refine ⟨⟨(-b2Mul33 j.m_mass
        ⟨((data.velocities j.m_indexB).v + b2CrossSV (data.velocities j.m_indexB).w j.m_rB -
            (data.velocities j.m_indexA).v -
            b2CrossSV (data.velocities j.m_indexA).w j.m_rA).x,
          ((data.velocities j.m_indexB).v + b2CrossSV (data.velocities j.m_indexB).w j.m_rB -
            (data.velocities j.m_indexA).v -
            b2CrossSV (data.velocities j.m_indexA).w j.m_rA).y,
          (data.velocities j.m_indexB).w - (data.velocities j.m_indexA).w⟩).x,
      (-b2Mul33 j.m_mass
        ⟨((data.velocities j.m_indexB).v + b2CrossSV (data.velocities j.m_indexB).w j.m_rB -
            (data.velocities j.m_indexA).v -
            b2CrossSV (data.velocities j.m_indexA).w j.m_rA).x,
          ((data.velocities j.m_indexB).v + b2CrossSV (data.velocities j.m_indexB).w j.m_rB -
            (data.velocities j.m_indexA).v -
            b2CrossSV (data.velocities j.m_indexA).w j.m_rA).y,
          (data.velocities j.m_indexB).w - (data.velocities j.m_indexA).w⟩).y⟩,
      (-b2Mul33 j.m_mass
        ⟨((data.velocities j.m_indexB).v + b2CrossSV (data.velocities j.m_indexB).w j.m_rB -
            (data.velocities j.m_indexA).v -
            b2CrossSV (data.velocities j.m_indexA).w j.m_rA).x,
          ((data.velocities j.m_indexB).v + b2CrossSV (data.velocities j.m_indexB).w j.m_rB -
            (data.velocities j.m_indexA).v -
            b2CrossSV (data.velocities j.m_indexA).w j.m_rA).y,
          (data.velocities j.m_indexB).w - (data.velocities j.m_indexA).w⟩).z, ?_, ?_, ?_⟩
    · rfl
    · intro hne
      rw [h3 hne]
      refine ⟨rfl, ?_⟩
      simp only [solveVelocityRigid, b2Vec.sub_def, b2Vec.add_def, b2Vec.smul_def,
        b2Vec.mk.injEq]
      constructor <;> ring
    · rfl

/-- C14 for the joint `weldPair`, which carries the impulse `(1, 0, 0)`, with warm starting and
`dtRatio = 2`: the accumulated impulse becomes `(2, 0, 0)`. -/
theorem C14_warm_starting_witness :
    (pairData (1 / 60) 2 true ⟨1, 0⟩ ⟨1, 0⟩).step.warmStarting = true ∧
    (InitVelocityConstraints rotRational PI_RATIONAL weldPair
      (pairData (1 / 60) 2 true ⟨1, 0⟩ ⟨1, 0⟩)).1.m_impulse = ⟨2, 0, 0⟩ :=
  ⟨rfl, by
    rw [((C14_warm_starting rotRational PI_RATIONAL weldPair
      (pairData (1 / 60) 2 true ⟨1, 0⟩ ⟨1, 0⟩)).2.2.1 rfl).1]
    norm_num [weldPair, pairData]⟩

/-- C15 for the joint `weldPair` with body A at rest and body B moving at unit speed: the
changes of the two linear velocities, weighted by the inverse mass of the other body, cancel. -/
theorem C15_symmetric_impulse_witness :
    weldPair.m_indexA ≠ weldPair.m_indexB ∧
    weldPair.m_invMassB *
        (((SolveVelocityConstraints weldPair
            (pairData (1 / 60) 1 true ⟨0, 0⟩ ⟨1, 0⟩)).2.velocities weldPair.m_indexA).v -
          ((pairData (1 / 60) 1 true ⟨0, 0⟩ ⟨1, 0⟩).velocities weldPair.m_indexA).v) +
      weldPair.m_invMassA *
        (((SolveVelocityConstraints weldPair
            (pairData (1 / 60) 1 true ⟨0, 0⟩ ⟨1, 0⟩)).2.velocities weldPair.m_indexB).v -
          ((pairData (1 / 60) 1 true ⟨0, 0⟩ ⟨1, 0⟩).velocities weldPair.m_indexB).v) =
      ⟨0, 0⟩ := by
  obtain ⟨P, L, -, hA, -⟩ :=
    C15_symmetric_impulse weldPair (pairData (1 / 60) 1 true ⟨0, 0⟩ ⟨1, 0⟩)
  exact ⟨by decide, (hA (by decide)).2⟩

/-- What `InitVelocityConstraints` leaves in the members of the joint that
`SolveVelocityConstraints` reads, apart from `m_mass`, `m_gamma` and `m_bias`. -/
theorem InitVelocityConstraints_fields (Rot : ℚ → b2Rot) (B2_PI : ℚ) (j : b2WeldJoint)
    (data : b2SolverData) :
    (InitVelocityConstraints Rot B2_PI j data).1.m_indexA = j.m_bodyA.m_islandIndex ∧
    (InitVelocityConstraints Rot B2_PI j data).1.m_indexB = j.m_bodyB.m_islandIndex ∧
    (InitVelocityConstraints Rot B2_PI j data).1.m_invMassA = j.m_bodyA.m_invMass ∧
    (InitVelocityConstraints Rot B2_PI j data).1.m_invMassB = j.m_bodyB.m_invMass ∧
    (InitVelocityConstraints Rot B2_PI j data).1.m_invIA = j.m_bodyA.m_invI ∧
    (InitVelocityConstraints Rot B2_PI j data).1.m_invIB = j.m_bodyB.m_invI ∧
    (InitVelocityConstraints Rot B2_PI j data).1.m_rA =
      b2MulRot (Rot (data.positions j.m_bodyA.m_islandIndex).a)
        (j.m_localAnchorA - j.m_bodyA.localCenter) ∧
    (InitVelocityConstraints Rot B2_PI j data).1.m_rB =
      b2MulRot (Rot (data.positions j.m_bodyB.m_islandIndex).a)
        (j.m_localAnchorB - j.m_bodyB.localCenter) ∧
    (InitVelocityConstraints Rot B2_PI j data).1.m_frequencyHz = j.m_frequencyHz ∧
    (InitVelocityConstraints Rot B2_PI j data).1.m_impulse =
      (if data.step.warmStarting then data.step.dtRatio * j.m_impulse else ⟨0, 0, 0⟩) ∧
    (InitVelocityConstraints Rot B2_PI j data).2.step = data.step ∧
    (InitVelocityConstraints Rot B2_PI j data).2.positions = data.positions := by
  obtain ⟨k1, k2, k3, k4, k5, k6, k7, k8, k9, k10⟩ :=
    initMass_keeps B2_PI (cacheBodies Rot j data)
      (data.positions (cacheBodies Rot j data).m_indexA).a
      (data.positions (cacheBodies Rot j data).m_indexB).a data.step.dt
  unfold InitVelocityConstraints
  simp only []
  split_ifs
  · exact ⟨k4, k5, k6, k7, k8, k9, k2, k3, k10, by rw [k1]; rfl, rfl, rfl⟩
  · exact ⟨k4, k5, k6, k7, k8, k9, k2, k3, k10, rfl, rfl, rfl⟩

end b2WeldJoint

/-- The matrix `GetInverse22` gives is the inverse of the upper left 2x2 block when the
determinant of the block is not zero. -/
theorem b2Mat33.GetInverse22_mul (A : b2Mat33) (v : b2Vec)
    (hdet : A.ex.x * A.ey.y - A.ey.x * A.ex.y ≠ 0) :
    b2Mul22 A.GetInverse22 (b2Mul22 A v) = v := by
  obtain ⟨x, y⟩ := v
  simp only [b2Mat33.GetInverse22, b2Mul22, if_pos hdet, b2Vec.mk.injEq]
  constructor <;> field_simp <;> ring

/-- The matrix `GetSymInverse33` gives is the inverse of a symmetric matrix whose determinant
is not zero. -/
theorem b2Mat33.GetSymInverse33_mul (A : b2Mat33) (v : b2Vec3)
    (h1 : A.ex.y = A.ey.x) (h2 : A.ex.z = A.ez.x) (h3 : A.ey.z = A.ez.y)
    (hdet : b2Dot3 A.ex (b2Cross3 A.ey A.ez) ≠ 0) :
    b2Mul33 A.GetSymInverse33 (b2Mul33 A v) = v := by
  obtain ⟨x, y, z⟩ := v
  obtain ⟨⟨a11, a21, a31⟩, ⟨a12, a22, a32⟩, ⟨a13, a23, a33⟩⟩ := A
  simp only at h1 h2 h3
  subst h1 h2 h3
  simp only [b2Dot3, b2Cross3] at hdet
  simp only [b2Mat33.GetSymInverse33, b2Mul33, b2Dot3, b2Cross3, if_pos hdet,
    b2Vec3.smul_eq, b2Vec3.add_eq, b2Vec3.mk.injEq]
  refine ⟨?_, ?_, ?_⟩ <;> field_simp <;> ring

namespace b2WeldJoint

/-- The members `m_mass`, `m_gamma` and `m_bias` that `InitVelocityConstraints` leaves are those
of its mode branch. -/
theorem InitVelocityConstraints_mass (Rot : ℚ → b2Rot) (B2_PI : ℚ) (j : b2WeldJoint)
    (data : b2SolverData) :
    (InitVelocityConstraints Rot B2_PI j data).1.m_mass =
      (initMass B2_PI (cacheBodies Rot j data) (data.positions j.m_bodyA.m_islandIndex).a
        (data.positions j.m_bodyB.m_islandIndex).a data.step.dt).m_mass ∧
    (InitVelocityConstraints Rot B2_PI j data).1.m_gamma =
      (initMass B2_PI (cacheBodies Rot j data) (data.positions j.m_bodyA.m_islandIndex).a
        (data.positions j.m_bodyB.m_islandIndex).a data.step.dt).m_gamma ∧
    (InitVelocityConstraints Rot B2_PI j data).1.m_bias =
      (initMass B2_PI (cacheBodies Rot j data) (data.positions j.m_bodyA.m_islandIndex).a
        (data.positions j.m_bodyB.m_islandIndex).a data.step.dt).m_bias := by
  unfold InitVelocityConstraints
  simp only []
  split_ifs <;> exact ⟨rfl, rfl, rfl⟩

/-- C19. Mode selection of the weld joint. In `InitVelocityConstraints`, with `K` the matrix the
call assembles: if `frequencyHz > 0` the effective mass `m_mass` has the columns `ex`, `ey` of
the 2x2 inverse of `K` and the separately computed entry `1 / (iA + iB + m_gamma)` (0 when the
sum is 0) as its only other entry; else if `iA + iB = 0` it is the 2x2 inverse of `K`;
otherwise it is the symmetric 3x3 inverse of `K`; in both rigid modes `m_gamma = 0` and
`m_bias = 0`. The two inverses are inverses of `K` when the determinant is not zero.
`SolveVelocityConstraints` and `SolvePositionConstraints` give the results of their soft
branch if `frequencyHz > 0` and those of their rigid branch otherwise, and
`InitVelocityConstraints` leaves `frequencyHz` as it is. -/
theorem C19_mode_selection (Rot : ℚ → b2Rot) (B2_PI : ℚ) (Length : b2Vec → ℚ)
    (LINEAR_SLOP ANGULAR_SLOP : ℚ) (j : b2WeldJoint) (data : b2SolverData) :
    (j.m_frequencyHz > 0 →
      (InitVelocityConstraints Rot B2_PI j data).1.m_mass.ex =
        (initK Rot j data).GetInverse22.ex ∧
      (InitVelocityConstraints Rot B2_PI j data).1.m_mass.ey =
        (initK Rot j data).GetInverse22.ey ∧
      (InitVelocityConstraints Rot B2_PI j data).1.m_mass.ez =
        ⟨0, 0,
          if j.m_bodyA.m_invI + j.m_bodyB.m_invI +
              (InitVelocityConstraints Rot B2_PI j data).1.m_gamma ≠ 0 then
            1 / (j.m_bodyA.m_invI + j.m_bodyB.m_invI +
              (InitVelocityConstraints Rot B2_PI j data).1.m_gamma)
          else 0⟩) ∧
    (¬ j.m_frequencyHz > 0 → j.m_bodyA.m_invI + j.m_bodyB.m_invI = 0 →
      (InitVelocityConstraints Rot B2_PI j data).1.m_mass = (initK Rot j data).GetInverse22 ∧
      (InitVelocityConstraints Rot B2_PI j data).1.m_gamma = 0 ∧
      (InitVelocityConstraints Rot B2_PI j data).1.m_bias = 0) ∧
    (¬ j.m_frequencyHz > 0 → j.m_bodyA.m_invI + j.m_bodyB.m_invI ≠ 0 →
      (InitVelocityConstraints Rot B2_PI j data).1.m_mass =
        (initK Rot j data).GetSymInverse33 ∧
      (InitVelocityConstraints Rot B2_PI j data).1.m_gamma = 0 ∧
      (InitVelocityConstraints Rot B2_PI j data).1.m_bias = 0) ∧
    ((initK Rot j data).ex.x * (initK Rot j data).ey.y -
        (initK Rot j data).ey.x * (initK Rot j data).ex.y ≠ 0 →
      ∀ v, b2Mul22 (initK Rot j data).GetInverse22 (b2Mul22 (initK Rot j data) v) = v) ∧
    (b2Dot3 (initK Rot j data).ex (b2Cross3 (initK Rot j data).ey (initK Rot j data).ez) ≠ 0 →
      ∀ v, b2Mul33 (initK Rot j data).GetSymInverse33 (b2Mul33 (initK Rot j data) v) = v) ∧
    (InitVelocityConstraints Rot B2_PI j data).1.m_frequencyHz = j.m_frequencyHz ∧
    (j.m_frequencyHz > 0 →
      (SolveVelocityConstraints j data).1.m_impulse =
        (solveVelocitySoft j (data.velocities j.m_indexA).v (data.velocities j.m_indexA).w
          (data.velocities j.m_indexB).v (data.velocities j.m_indexB).w).1 ∧
      (SolveVelocityConstraints j data).2.velocities =
        Function.update (Function.update data.velocities j.m_indexA
          (solveVelocitySoft j (data.velocities j.m_indexA).v (data.velocities j.m_indexA).w
            (data.velocities j.m_indexB).v (data.velocities j.m_indexB).w).2.1) j.m_indexB
          (solveVelocitySoft j (data.velocities j.m_indexA).v (data.velocities j.m_indexA).w
            (data.velocities j.m_indexB).v (data.velocities j.m_indexB).w).2.2 ∧
      SolvePositionConstraints Rot Length LINEAR_SLOP ANGULAR_SLOP j data =
        (decide ((solvePositionSoft Length j
              (weldK j.m_invMassA j.m_invMassB j.m_invIA j.m_invIB
                (b2MulRot (Rot (data.positions j.m_indexA).a)
                  (j.m_localAnchorA - j.m_localCenterA))
                (b2MulRot (Rot (data.positions j.m_indexB).a)
                  (j.m_localAnchorB - j.m_localCenterB)))
              (b2MulRot (Rot (data.positions j.m_indexA).a)
                (j.m_localAnchorA - j.m_localCenterA))
              (b2MulRot (Rot (data.positions j.m_indexB).a)
                (j.m_localAnchorB - j.m_localCenterB))
              (data.positions j.m_indexA).c (data.positions j.m_indexA).a
              (data.positions j.m_indexB).c (data.positions j.m_indexB).a).1.1 ≤ LINEAR_SLOP ∧
            (0 : ℚ) ≤ ANGULAR_SLOP),
          { data with
            positions := Function.update (Function.update data.positions j.m_indexA
              (solvePositionSoft Length j
                (weldK j.m_invMassA j.m_invMassB j.m_invIA j.m_invIB
                  (b2MulRot (Rot (data.positions j.m_indexA).a)
                    (j.m_localAnchorA - j.m_localCenterA))
                  (b2MulRot (Rot (data.positions j.m_indexB).a)
                    (j.m_localAnchorB - j.m_localCenterB)))
                (b2MulRot (Rot (data.positions j.m_indexA).a)
                  (j.m_localAnchorA - j.m_localCenterA))
                (b2MulRot (Rot (data.positions j.m_indexB).a)
                  (j.m_localAnchorB - j.m_localCenterB))
                (data.positions j.m_indexA).c (data.positions j.m_indexA).a
                (data.positions j.m_indexB).c (data.positions j.m_indexB).a).2.1) j.m_indexB
              (solvePositionSoft Length j
                (weldK j.m_invMassA j.m_invMassB j.m_invIA j.m_invIB
                  (b2MulRot (Rot (data.positions j.m_indexA).a)
                    (j.m_localAnchorA - j.m_localCenterA))
                  (b2MulRot (Rot (data.positions j.m_indexB).a)
                    (j.m_localAnchorB - j.m_localCenterB)))
                (b2MulRot (Rot (data.positions j.m_indexA).a)
                  (j.m_localAnchorA - j.m_localCenterA))
                (b2MulRot (Rot (data.positions j.m_indexB).a)
                  (j.m_localAnchorB - j.m_localCenterB))
                (data.positions j.m_indexA).c (data.positions j.m_indexA).a
                (data.positions j.m_indexB).c (data.positions j.m_indexB).a).2.2 })) ∧
    (¬ j.m_frequencyHz > 0 →
      (SolveVelocityConstraints j data).1.m_impulse =
        (solveVelocityRigid j (data.velocities j.m_indexA).v (data.velocities j.m_indexA).w
          (data.velocities j.m_indexB).v (data.velocities j.m_indexB).w).1 ∧
      (SolveVelocityConstraints j data).2.velocities =
        Function.update (Function.update data.velocities j.m_indexA
          (solveVelocityRigid j (data.velocities j.m_indexA).v (data.velocities j.m_indexA).w
            (data.velocities j.m_indexB).v (data.velocities j.m_indexB).w).2.1) j.m_indexB
          (solveVelocityRigid j (data.velocities j.m_indexA).v (data.velocities j.m_indexA).w
            (data.velocities j.m_indexB).v (data.velocities j.m_indexB).w).2.2 ∧
      SolvePositionConstraints Rot Length LINEAR_SLOP ANGULAR_SLOP j data =
        (decide ((solvePositionRigid Length j
              (weldK j.m_invMassA j.m_invMassB j.m_invIA j.m_invIB
                (b2MulRot (Rot (data.positions j.m_indexA).a)
                  (j.m_localAnchorA - j.m_localCenterA))
                (b2MulRot (Rot (data.positions j.m_indexB).a)
                  (j.m_localAnchorB - j.m_localCenterB)))
              (b2MulRot (Rot (data.positions j.m_indexA).a)
                (j.m_localAnchorA - j.m_localCenterA))
              (b2MulRot (Rot (data.positions j.m_indexB).a)
                (j.m_localAnchorB - j.m_localCenterB))
              (data.positions j.m_indexA).c (data.positions j.m_indexA).a
              (data.positions j.m_indexB).c (data.positions j.m_indexB).a).1.1 ≤ LINEAR_SLOP ∧
            |(data.positions j.m_indexB).a - (data.positions j.m_indexA).a -
              j.m_referenceAngle| ≤ ANGULAR_SLOP),
          { data with
            positions := Function.update (Function.update data.positions j.m_indexA
              (solvePositionRigid Length j
                (weldK j.m_invMassA j.m_invMassB j.m_invIA j.m_invIB
                  (b2MulRot (Rot (data.positions j.m_indexA).a)
                    (j.m_localAnchorA - j.m_localCenterA))
                  (b2MulRot (Rot (data.positions j.m_indexB).a)
                    (j.m_localAnchorB - j.m_localCenterB)))
                (b2MulRot (Rot (data.positions j.m_indexA).a)
                  (j.m_localAnchorA - j.m_localCenterA))
                (b2MulRot (Rot (data.positions j.m_indexB).a)
                  (j.m_localAnchorB - j.m_localCenterB))
                (data.positions j.m_indexA).c (data.positions j.m_indexA).a
                (data.positions j.m_indexB).c (data.positions j.m_indexB).a).2.1) j.m_indexB
              (solvePositionRigid Length j
                (weldK j.m_invMassA j.m_invMassB j.m_invIA j.m_invIB
                  (b2MulRot (Rot (data.positions j.m_indexA).a)
                    (j.m_localAnchorA - j.m_localCenterA))
                  (b2MulRot (Rot (data.positions j.m_indexB).a)
                    (j.m_localAnchorB - j.m_localCenterB)))
                (b2MulRot (Rot (data.positions j.m_indexA).a)
                  (j.m_localAnchorA - j.m_localCenterA))
                (b2MulRot (Rot (data.positions j.m_indexB).a)
                  (j.m_localAnchorB - j.m_localCenterB))
                (data.positions j.m_indexA).c (data.positions j.m_indexA).a
                (data.positions j.m_indexB).c (data.positions j.m_indexB).a).2.2 })) := by
  obtain ⟨m1, m2, m3⟩ := InitVelocityConstraints_mass Rot B2_PI j data
  obtain ⟨-, -, -, -, -, -, -, -, k9, -, -, -⟩ := InitVelocityConstraints_fields Rot B2_PI j data
  have hK : weldK (cacheBodies Rot j data).m_invMassA (cacheBodies Rot j data).m_invMassB
      (cacheBodies Rot j data).m_invIA (cacheBodies Rot j data).m_invIB
      (cacheBodies Rot j data).m_rA (cacheBodies Rot j data).m_rB = initK Rot j data := rfl
  have hfreq : (cacheBodies Rot j data).m_frequencyHz = j.m_frequencyHz := rfl
  refine ⟨?_, ?_, ?_, ?_, ?_, k9, ?_, ?_⟩
  · intro hf
    rw [m1, m2]
    unfold initMass
    simp only [hK, hfreq, if_pos hf]
    exact ⟨rfl, rfl, rfl⟩
  · intro hf h0
    rw [m1, m2, m3]
    unfold initMass
    have hz : (initK Rot j data).ez.z = 0 := h0
    simp only [hK, hfreq, if_neg hf, hz, if_true]
    exact ⟨trivial, trivial, trivial⟩
  · intro hf h0
    rw [m1, m2, m3]
    unfold initMass
    have hz : ¬ (initK Rot j data).ez.z = 0 := h0
    simp only [hK, hfreq, if_neg hf, hz, if_false]
    exact ⟨trivial, trivial, trivial⟩
  · intro hdet v
    exact b2Mat33.GetInverse22_mul _ v hdet
  · intro hdet v
    exact b2Mat33.GetSymInverse33_mul _ v rfl rfl rfl hdet
  · intro hf
    unfold SolveVelocityConstraints SolvePositionConstraints
    simp only [if_pos hf]
    exact ⟨trivial, trivial, rfl⟩
  · intro hf
    unfold SolveVelocityConstraints SolvePositionConstraints
    simp only [if_neg hf]
    exact ⟨trivial, trivial, rfl⟩

/-- C19 for the rigid joint `weldPair`, whose bodies have inverse inertia 1: the effective mass
is the symmetric 3x3 inverse of `K`. -/
theorem C19_mode_selection_witness :
    ¬ weldPair.m_frequencyHz > 0 ∧
    weldPair.m_bodyA.m_invI + weldPair.m_bodyB.m_invI ≠ 0 ∧
    (InitVelocityConstraints rotRational PI_RATIONAL weldPair
      (pairData (1 / 60) 1 true ⟨0, 0⟩ ⟨1, 0⟩)).1.m_mass =
      ⟨⟨1 / 2, 0, 0⟩, ⟨0, 1 / 4, 0⟩, ⟨0, 0, 1 / 2⟩⟩ := by
  have h1 : ¬ weldPair.m_frequencyHz > 0 := by norm_num [weldPair]
  have h2 : weldPair.m_bodyA.m_invI + weldPair.m_bodyB.m_invI ≠ 0 := by norm_num [weldPair]
  refine ⟨h1, h2, ?_⟩
  rw [((C19_mode_selection rotRational PI_RATIONAL lengthAxial (1 / 200)
    (2 / 180 * PI_RATIONAL) weldPair (pairData (1 / 60) 1 true ⟨0, 0⟩ ⟨1, 0⟩)).2.2.1 h1 h2).1]
  norm_num [initK, weldK, b2Mat33.GetSymInverse33, b2Dot3, b2Cross3, b2MulRot, rotRational,
    weldPair, pairData, b2Vec.sub_def]

end b2WeldJoint

end box2d

namespace b2d11

/-! ## Block allocator: tightest fit, assertions and the chunk array (C25 to C27) -/

set_option maxRecDepth 100000 in
theorem classOf_least : ∀ n, n < 641 → ∀ j, j < classOf n → s_blockSizes.getD j 0 < n := by
  decide

theorem classOf_classSize : ∀ j, j < 14 → classOf (s_blockSizes.getD j 0) = j := by decide

theorem classOf_classSize_succ :
    ∀ j, j < 13 → classOf (s_blockSizes.getD j 0 + 1) = j + 1 := by decide

/-- C27. Tightest fit: for every size `s` with `1 ≤ s ≤ 640` the entry `s_blockSizeLookup[s]`
is a class index whose class size is at least `s`, and every class of a smaller index has a
size below `s`; every class size maps to its own class, and a class size plus one maps to the
next class. -/
theorem C27_tightest_fit :
    (∀ s, 1 ≤ s → s ≤ 640 →
      s_blockSizeLookup.getD s 0 < BLOCK_SIZES ∧
      s ≤ s_blockSizes.getD (s_blockSizeLookup.getD s 0) 0 ∧
      ∀ j, j < s_blockSizeLookup.getD s 0 → s_blockSizes.getD j 0 < s) ∧
    (∀ j, j < BLOCK_SIZES → s_blockSizeLookup.getD (s_blockSizes.getD j 0) 0 = j) ∧
    (∀ j, j + 1 < BLOCK_SIZES → s_blockSizeLookup.getD (s_blockSizes.getD j 0 + 1) 0 = j + 1) := by
  refine ⟨?_, ?_, ?_⟩
  · intro s _ h2
    rw [lookup_eq_classOf s h2]
    exact ⟨classOf_lt s (by omega), classOf_ge s (by omega), classOf_least s (by omega)⟩
  · intro j hj
    have hj' : j < 14 := hj
    rw [lookup_eq_classOf _ (classSize_le j hj')]
    exact classOf_classSize j hj'
  · intro j hj
    have hj' : j + 1 < 14 := hj
    have h1 := classOf_classSize_succ j (by omega)
    have h2 : s_blockSizes.getD j 0 + 1 ≤ 640 := by
      by_contra hc
      have h3 : s_blockSizes.getD j 0 = 640 := by
        have := classSize_le j (by omega)
        omega
      have h4 := classOf_classSize j (by omega)
      have h5 : classOf 640 = 13 := by decide
      rw [h3, h5] at h4
      omega
    rw [lookup_eq_classOf _ h2]
    exact h1

/-- C27 for the sizes 96, 97 and 100: size 96 is class 3, sizes 97 and 100 are class 4, and
class 3 is too small for 100. -/
theorem C27_tightest_fit_witness :
    s_blockSizeLookup.getD 96 0 = 3 ∧ s_blockSizeLookup.getD 97 0 = 4 ∧
    s_blockSizeLookup.getD 100 0 < BLOCK_SIZES ∧
    100 ≤ s_blockSizes.getD (s_blockSizeLookup.getD 100 0) 0 ∧
    ∀ j, j < s_blockSizeLookup.getD 100 0 → s_blockSizes.getD j 0 < 100 :=
  ⟨C27_tightest_fit.2.1 3 (by decide), C27_tightest_fit.2.2 3 (by decide),
    C27_tightest_fit.1 100 (by decide) (by decide)⟩

/-- The table construction passes the assertion `j < BLOCK_SIZES` in every pass: after any number
`n ≤ 640` of passes the loop has not failed and the running index is below `BLOCK_SIZES`. -/
theorem lookupLoop_index_lt (n : Nat) (hn : n ≤ 640) :
    ∃ st, (List.range' 1 n).foldlM lookupStep (0, List.replicate (MAX_BLOCK_SIZE + 1) 0) =
      some st ∧ st.1 < BLOCK_SIZES := by
  have h0 : LookupInv 0 (0, List.replicate (MAX_BLOCK_SIZE + 1) 0) :=
    ⟨by simp, by decide, fun s h2 => by
      have : s = 0 := by omega
      subst this; decide⟩
  obtain ⟨st, h1, -, h2, -⟩ := lookupLoop_inv n 0 _ (by omega) h0
  refine ⟨st, h1, ?_⟩
  rw [h2, Nat.zero_add]
  exact classOf_lt n (by omega)

namespace BlockAllocator

variable {σ : Type}

/-- The only assertion of `Allocate` that can fail is `0 < size`, for a negative size. -/
theorem Allocate_none_iff (H : Host σ) (a : BlockAllocator σ) (size : Int) :
    Allocate H a size = none ↔ size < 0 := by
  constructor
  · intro h
    by_contra hc
    rcases eq_or_lt_of_le (show (0 : Int) ≤ size by omega) with h1 | h1
    · subst h1
      simp [Allocate] at h
    · by_cases hM : size ≤ 640
      · by_cases hf : a.m_freeLists (classIndex size) = 0
        · rw [Allocate_miss H a size (by omega) hM hf, allocateChunk_some] at h
          cases h
        · rw [Allocate_hit H a size (by omega) hM hf] at h
          cases h
      · have hM' : size > (MAX_BLOCK_SIZE : Int) := by simp [MAX_BLOCK_SIZE]; omega
        unfold Allocate at h
        rw [if_neg (by omega), if_neg (by omega), if_pos hM'] at h
        cases h
  · intro h
    unfold Allocate
    rw [if_neg (by omega), if_pos (by omega)]

/-- The only assertion of `Free` that can fail is `0 < size`, for a negative size. -/
theorem Free_none_iff (H : Host σ) (a : BlockAllocator σ) (p size : Int) :
    Free H a p size = none ↔ size < 0 := by
  constructor
  · intro h
    by_contra hc
    rcases eq_or_lt_of_le (show (0 : Int) ≤ size by omega) with h1 | h1
    · subst h1
      simp [Free] at h
    · by_cases hM : size ≤ 640
      · rw [Free_pooled H a p size (by omega) hM] at h
        cases h
      · have hM' : size > (MAX_BLOCK_SIZE : Int) := by simp [MAX_BLOCK_SIZE]; omega
        unfold Free at h
        rw [if_neg (by omega), if_neg (by omega), if_pos hM'] at h
        cases h
  · intro h
    unfold Free
    rw [if_neg (by omega), if_pos (by omega)]

theorem growChunks_space (H : Host σ) (a : BlockAllocator σ) :
    (growChunks H a).m_chunkSpace =
      if a.m_chunkCount = a.m_chunkSpace then a.m_chunkSpace + H.CHUNK_ARRAY_INCREMENT
      else a.m_chunkSpace := by
  unfold growChunks
  split_ifs <;> rfl

theorem growChunks_inv (H : Host σ) (a : BlockAllocator σ)
    (hinc : 0 < H.CHUNK_ARRAY_INCREMENT) (h : ChunkArrayInv a) :
    (growChunks H a).m_chunkCount = a.m_chunkCount ∧
    (growChunks H a).m_chunkCount < (growChunks H a).m_chunkSpace ∧
    (growChunks H a).chunks.length = (growChunks H a).m_chunkSpace := by
  obtain ⟨h1, h2⟩ := h
  unfold growChunks
  split_ifs with hc
  · refine ⟨rfl, ?_, ?_⟩
    · show a.m_chunkCount < a.m_chunkSpace + H.CHUNK_ARRAY_INCREMENT
      omega
    · show (a.chunks.take a.m_chunkCount ++
        List.replicate H.CHUNK_ARRAY_INCREMENT Chunk.zero).length = _
      rw [List.length_append, List.length_take, List.length_replicate, h2, hc]
      simp
  · exact ⟨rfl, by omega, h2⟩

/-- C26. Chunk-array growth, for a positive `CHUNK_ARRAY_INCREMENT`. The chunk array is
consistent (`m_chunkCount ≤ m_chunkSpace`, with `m_chunkSpace` records in the array) after the
constructor, and `Allocate`, `Free` and `Clear` keep it so. When `Allocate` misses the pool with
`m_chunkCount = m_chunkSpace`, `m_chunkSpace` grows by exactly `CHUNK_ARRAY_INCREMENT`, the
first `m_chunkCount` chunk records are kept in order, the new chunk, with the class size and
the block pointer returned, is recorded at index `m_chunkCount`, and `m_chunkCount` grows by
one. In every other call `m_chunkSpace` stays as it is. -/
theorem C26_chunk_array_growth (H : Host σ) (hinc : 0 < H.CHUNK_ARRAY_INCREMENT) :
    (∀ next sys, ChunkArrayInv (new H next sys)) ∧
    (∀ (a : BlockAllocator σ) size p a', ChunkArrayInv a → Allocate H a size = some (p, a') →
      ChunkArrayInv a') ∧
    (∀ (a : BlockAllocator σ) p size a', ChunkArrayInv a → Free H a p size = some a' →
      ChunkArrayInv a' ∧ a'.m_chunkSpace = a.m_chunkSpace ∧ a'.m_chunkCount = a.m_chunkCount) ∧
    (∀ a : BlockAllocator σ, ChunkArrayInv a →
      ChunkArrayInv (Clear H a) ∧ (Clear H a).m_chunkSpace = a.m_chunkSpace) ∧
    (∀ (a : BlockAllocator σ) size, ChunkArrayInv a → 1 ≤ size → size ≤ 640 →
      a.m_freeLists (classIndex size) = 0 →
      ∃ p a', Allocate H a size = some (p, a') ∧
        a'.m_chunkCount = a.m_chunkCount + 1 ∧
        (a.m_chunkCount = a.m_chunkSpace →
          a'.m_chunkSpace = a.m_chunkSpace + H.CHUNK_ARRAY_INCREMENT) ∧
        (a.m_chunkCount ≠ a.m_chunkSpace → a'.m_chunkSpace = a.m_chunkSpace) ∧
        (∀ i < a.m_chunkCount, a'.chunks[i]? = a.chunks[i]?) ∧
        a'.chunks[a.m_chunkCount]? = some ⟨resolvedSize size.toNat, p⟩) ∧
    (∀ (a : BlockAllocator σ) size p a', Allocate H a size = some (p, a') →
      ¬ (1 ≤ size ∧ size ≤ 640 ∧ a.m_freeLists (classIndex size) = 0) →
      a'.m_chunkSpace = a.m_chunkSpace ∧ a'.m_chunkCount = a.m_chunkCount ∧
      a'.chunks = a.chunks) := by
  have hmiss : ∀ (a : BlockAllocator σ) size, ChunkArrayInv a → 1 ≤ size → size ≤ 640 →
      a.m_freeLists (classIndex size) = 0 →
      ∃ p a', Allocate H a size = some (p, a') ∧ ChunkArrayInv a' ∧
        a'.m_chunkCount = a.m_chunkCount + 1 ∧
        (a.m_chunkCount = a.m_chunkSpace →
          a'.m_chunkSpace = a.m_chunkSpace + H.CHUNK_ARRAY_INCREMENT) ∧
        (a.m_chunkCount ≠ a.m_chunkSpace → a'.m_chunkSpace = a.m_chunkSpace) ∧
        (∀ i < a.m_chunkCount, a'.chunks[i]? = a.chunks[i]?) ∧
        a'.chunks[a.m_chunkCount]? = some ⟨resolvedSize size.toNat, p⟩ := by
    intro a size hinv h1 h2 hf
    obtain ⟨g1, g2, g3⟩ := growChunks_inv H a hinc hinv
    obtain ⟨k1, -, -, k4, k5⟩ := growChunks_keeps H a hinv.2 hinv.1 hinc
    have hsp := growChunks_space H a
    rw [Allocate_miss H a size h1 h2 hf, allocateChunk_some]
    refine ⟨_, _, rfl, ⟨?_, ?_⟩, ?_, ?_, ?_, ?_, ?_⟩
    · show (growChunks H a).m_chunkCount + 1 ≤ (growChunks H a).m_chunkSpace
      omega
    · show ((growChunks H a).chunks.set _ _).length = (growChunks H a).m_chunkSpace
      rw [List.length_set]
      exact g3
    · show (growChunks H a).m_chunkCount + 1 = _
      rw [g1]
    · intro hc
      show (growChunks H a).m_chunkSpace = _
      rw [hsp, if_pos hc]
    · intro hc
      show (growChunks H a).m_chunkSpace = _
      rw [hsp, if_neg hc]
    · intro i hi
      show ((growChunks H a).chunks.set _ _)[i]? = _
      rw [g1, List.getElem?_set_ne (by omega)]
      exact k5 i hi
    · show ((growChunks H a).chunks.set _ _)[a.m_chunkCount]? = _
      rw [g1, List.getElem?_set_self k4]
      rfl
  have hother : ∀ (a : BlockAllocator σ) size p a', Allocate H a size = some (p, a') →
      ¬ (1 ≤ size ∧ size ≤ 640 ∧ a.m_freeLists (classIndex size) = 0) →
      a'.m_chunkSpace = a.m_chunkSpace ∧ a'.m_chunkCount = a.m_chunkCount ∧
      a'.chunks = a.chunks := by
    intro a size p a' h hn
    have hneg : ¬ size < 0 := fun hc => by
      rw [(Allocate_none_iff H a size).mpr hc] at h
      cases h
    rcases eq_or_lt_of_le (show (0 : Int) ≤ size by omega) with h1 | h1
    · subst h1
      simp only [Allocate, if_true, Option.some.injEq, Prod.mk.injEq] at h
      rw [← h.2]
      exact ⟨rfl, rfl, rfl⟩
    · by_cases hM : size ≤ 640
      · have hf : a.m_freeLists (classIndex size) ≠ 0 := fun hc => hn ⟨by omega, hM, hc⟩
        rw [Allocate_hit H a size (by omega) hM hf] at h
        simp only [Option.some.injEq, Prod.mk.injEq] at h
        rw [← h.2]
        exact ⟨rfl, rfl, rfl⟩
      · have hM' : size > (MAX_BLOCK_SIZE : Int) := by simp [MAX_BLOCK_SIZE]; omega
        unfold Allocate at h
        rw [if_neg (by omega), if_neg (by omega), if_pos hM'] at h
        simp only [Option.some.injEq, Prod.mk.injEq] at h
        rw [← h.2]
        exact ⟨rfl, rfl, rfl⟩
  refine ⟨?_, ?_, ?_, ?_, ?_, hother⟩
  · intro next sys
    exact ⟨Nat.zero_le _, List.length_replicate _ _⟩
  · intro a size p a' hinv h
    by_cases hc : 1 ≤ size ∧ size ≤ 640 ∧ a.m_freeLists (classIndex size) = 0
    · obtain ⟨p', a'', e, hi, -⟩ := hmiss a size hinv hc.1 hc.2.1 hc.2.2
      rw [e] at h
      simp only [Option.some.injEq, Prod.mk.injEq] at h
      rw [← h.2]
      exact hi
    · obtain ⟨e1, e2, e3⟩ := hother a size p a' h hc
      exact ⟨by rw [e1, e2]; exact hinv.1, by rw [e1, e3]; exact hinv.2⟩
  · intro a p size a' hinv h
    have hneg : ¬ size < 0 := fun hc => by
      rw [(Free_none_iff H a p size).mpr hc] at h
      cases h
    rcases eq_or_lt_of_le (show (0 : Int) ≤ size by omega) with h1 | h1
    · subst h1
      simp only [Free, if_true, Option.some.injEq] at h
      rw [← h]
      exact ⟨hinv, rfl, rfl⟩
    · by_cases hM : size ≤ 640
      · rw [Free_pooled H a p size (by omega) hM] at h
        simp only [Option.some.injEq] at h
        rw [← h]
        exact ⟨hinv, rfl, rfl⟩
      · have hM' : size > (MAX_BLOCK_SIZE : Int) := by simp [MAX_BLOCK_SIZE]; omega
        unfold Free at h
        rw [if_neg (by omega), if_neg (by omega), if_pos hM'] at h
        simp only [Option.some.injEq] at h
        rw [← h]
        exact ⟨hinv, rfl, rfl⟩
  · intro a _
    exact ⟨⟨Nat.zero_le _, List.length_replicate _ _⟩, rfl⟩
  · intro a size hinv h1 h2 hf
    obtain ⟨p, a', e, -, r⟩ := hmiss a size hinv h1 h2 hf
    exact ⟨p, a', e, r⟩

theorem classIndex_32 : classIndex 32 = 1 := by
  unfold classIndex
  rw [lookup_eq_classOf _ (by decide)]
  decide

/-- C26 for the host `unitHost`, whose chunk array grows by one record: after the constructor
and `Allocate(16)` the array is full, and `Allocate(32)` then misses the pool, grows the array
from one record to two and records the new chunk at index 1. -/
theorem C26_chunk_array_growth_witness :
    0 < unitHost.CHUNK_ARRAY_INCREMENT ∧
    ∃ p1 a1 p2 a2, Allocate unitHost (new unitHost (fun _ => 0) 6144) 16 = some (p1, a1) ∧
      a1.m_chunkCount = 1 ∧ a1.m_chunkSpace = 1 ∧
      Allocate unitHost a1 32 = some (p2, a2) ∧
      a2.m_chunkSpace = 1 + unitHost.CHUNK_ARRAY_INCREMENT ∧
      a2.chunks[1]? = some ⟨resolvedSize (32 : Int).toNat, p2⟩ := by
  have hinc : 0 < unitHost.CHUNK_ARRAY_INCREMENT := by decide
  refine ⟨hinc, ?_⟩
  have hinv0 := (C26_chunk_array_growth unitHost hinc).1 (fun _ => 0) 6144
  obtain ⟨p1, a1, e1, c1, -, s1, -, -⟩ := (C26_chunk_array_growth unitHost hinc).2.2.2.2.1
    (new unitHost (fun _ => 0) 6144) 16 hinv0 (by decide) (by decide) rfl
  have hc1 : a1.m_chunkCount = 1 := c1
  have hs1 : a1.m_chunkSpace = 1 := s1 (by decide)
  have hinv1 := (C26_chunk_array_growth unitHost hinc).2.1 _ 16 p1 a1 hinv0 e1
  have hf : a1.m_freeLists (classIndex 32) = 0 := by
    have e := e1
    rw [Allocate_miss unitHost _ 16 (by decide) (by decide) rfl, allocateChunk_some] at e
    simp only [Option.some.injEq, Prod.mk.injEq] at e
    rw [← e.2]
    have hne : classIndex 32 ≠ classIndex 16 := by
      rw [classIndex_16, classIndex_32]
      decide
    generalize classIndex 32 = i32 at hne ⊢
    generalize classIndex 16 = i16 at hne ⊢
    dsimp only
    rw [Function.update_noteq hne,
      (growChunks_keeps unitHost _ hinv0.2 hinv0.1 hinc).2.1]
    rfl
  obtain ⟨p2, a2, e2, -, s2, -, -, r2⟩ := (C26_chunk_array_growth unitHost hinc).2.2.2.2.1
    a1 32 hinv1 (by decide) (by decide) hf
  refine ⟨p1, a1, p2, a2, e1, hc1, hs1, e2, ?_, ?_⟩
  · rw [s2 (by rw [hc1, hs1]), hs1]
  · rw [← hc1]
    exact r2

end BlockAllocator

end b2d11

namespace box2d

/-! ## Polygon collision: incident edge, clip exits and the output stage (C21 to C23) -/

/-- A scan that keeps the first strictly smaller value, as the loop of `b2FindIncidentEdge`
does, ends on the first index of the least value, or on its start `(0, L)` when no value is
below `L`. -/
theorem foldl_argmin_spec (g : Nat → ℚ) (L : ℚ) (n : Nat) :
    ((List.range n).foldl (fun best i => if g i < best.2 then (i, g i) else best) (0, L)).2 ≤ L ∧
    (∀ i < n,
      ((List.range n).foldl (fun best i => if g i < best.2 then (i, g i) else best) (0, L)).2
        ≤ g i) ∧
    (((List.range n).foldl (fun best i => if g i < best.2 then (i, g i) else best) (0, L)
        = (0, L) ∧ ∀ i < n, L ≤ g i) ∨
      (((List.range n).foldl (fun best i => if g i < best.2 then (i, g i) else best) (0, L)).1
          < n ∧
        g ((List.range n).foldl (fun best i => if g i < best.2 then (i, g i) else best) (0, L)).1
          = ((List.range n).foldl
              (fun best i => if g i < best.2 then (i, g i) else best) (0, L)).2 ∧
        ∀ i < ((List.range n).foldl
              (fun best i => if g i < best.2 then (i, g i) else best) (0, L)).1,
          ((List.range n).foldl
              (fun best i => if g i < best.2 then (i, g i) else best) (0, L)).2 < g i)) := by
  induction n with
  | zero => simp
  | succ n ih =>
    rw [List.range_succ, List.foldl_append]
    generalize (List.range n).foldl (fun best i => if g i < best.2 then (i, g i) else best)
      (0, L) = r at ih ⊢
    obtain ⟨h1, h2, h3⟩ := ih
    simp only [List.foldl_cons, List.foldl_nil]
    by_cases h : g n < r.2
    · rw [if_pos h]
      refine ⟨by show g n ≤ L; linarith, ?_, Or.inr ⟨Nat.lt_succ_self n, rfl, ?_⟩⟩
      · intro i hi
        rcases Nat.lt_succ_iff_lt_or_eq.mp hi with hi | hi
        · have := h2 i hi
          show g n ≤ g i
          linarith
        · subst hi; exact le_refl _
      · intro i hi
        have := h2 i hi
        show g n < g i
        linarith
    · rw [if_neg h]
      have hle : r.2 ≤ g n := not_lt.mp h
      refine ⟨h1, ?_, ?_⟩
      · intro i hi
        rcases Nat.lt_succ_iff_lt_or_eq.mp hi with hi | hi
        · exact h2 i hi
        · subst hi; exact hle
      · rcases h3 with ⟨h3, h4⟩ | ⟨h3, h4, h5⟩
        · refine Or.inl ⟨h3, ?_⟩
          intro i hi
          rcases Nat.lt_succ_iff_lt_or_eq.mp hi with hi | hi
          · exact h4 i hi
          · subst hi; rw [h3] at hle; exact hle
        · exact Or.inr ⟨Nat.lt_succ_of_lt h3, h4, h5⟩

/-- C21 over exact arithmetic. `b2FindIncidentEdge`, for a reference edge `edge1` of `poly1` and a
polygon `poly2` with at least one normal, the dot products being finite floats (at most
`MAX_FLOAT`): with `n1'` the reference normal rotated into the frame of `poly2`, the face `i1`
selected is the lowest index that minimises `dot(n1', normals2[i])`; the routine writes
`c[0].v = xf2 * vertices2[i1]` and `c[1].v = xf2 * vertices2[i2]`, where `i2 = i1 + 1` wrapped to
0 at the end, and both contact features are (face, `edge1`, vertex, `i1` resp. `i2`), the indices
as bytes, which are the indices themselves below 256. -/
theorem exact_incident_edge (MAX_FLOAT : ℚ) (poly1 : b2PolygonShape) (xf1 : b2Transform)
    (edge1 : Nat) (poly2 : b2PolygonShape) (xf2 : b2Transform)
    (he : edge1 < poly1.GetVertexCount) (h2 : poly2.normals ≠ [])
    (hfin : ∀ i < poly2.normals.length,
      b2Dot (b2MulTRot xf2.q (b2MulRot xf1.q (poly1.normals.getD edge1 default)))
        (poly2.normals.getD i default) ≤ MAX_FLOAT) :
    ∃ i1 i2 c,
      i1 = incidentFace MAX_FLOAT poly1 xf1 edge1 poly2 xf2 ∧
      i1 < poly2.normals.length ∧
      (∀ i < poly2.normals.length,
        b2Dot (b2MulTRot xf2.q (b2MulRot xf1.q (poly1.normals.getD edge1 default)))
            (poly2.normals.getD i1 default) ≤
          b2Dot (b2MulTRot xf2.q (b2MulRot xf1.q (poly1.normals.getD edge1 default)))
            (poly2.normals.getD i default)) ∧
      (∀ i < i1,
        b2Dot (b2MulTRot xf2.q (b2MulRot xf1.q (poly1.normals.getD edge1 default)))
            (poly2.normals.getD i1 default) <
          b2Dot (b2MulTRot xf2.q (b2MulRot xf1.q (poly1.normals.getD edge1 default)))
            (poly2.normals.getD i default)) ∧
      i2 = (if i1 + 1 < poly2.normals.length then i1 + 1 else 0) ∧
      b2FindIncidentEdge MAX_FLOAT poly1 xf1 edge1 poly2 xf2 = some c ∧
      c.1.v = b2Mul xf2 (poly2.vertices.getD i1 default) ∧
      c.2.v = b2Mul xf2 (poly2.vertices.getD i2 default) ∧
      c.1.id = ⟨edge1 % 256, i1 % 256, .e_face, .e_vertex⟩ ∧
      c.2.id = ⟨edge1 % 256, i2 % 256, .e_face, .e_vertex⟩ ∧
      (edge1 < 256 → poly2.normals.length ≤ 256 →
        c.1.id = ⟨edge1, i1, .e_face, .e_vertex⟩ ∧ c.2.id = ⟨edge1, i2, .e_face, .e_vertex⟩) := by
  have hpos : 0 < poly2.normals.length := List.length_pos.mpr h2
  obtain ⟨-, g2, g3⟩ := foldl_argmin_spec
    (fun i => b2Dot (b2MulTRot xf2.q (b2MulRot xf1.q (poly1.normals.getD edge1 default)))
      (poly2.normals.getD i default)) MAX_FLOAT poly2.normals.length
  have hidx : incidentFace MAX_FLOAT poly1 xf1 edge1 poly2 xf2 =
      ((List.range poly2.normals.length).foldl
        (fun best i =>
          if (fun i => b2Dot (b2MulTRot xf2.q (b2MulRot xf1.q (poly1.normals.getD edge1 default)))
            (poly2.normals.getD i default)) i < best.2
          then (i, (fun i => b2Dot
            (b2MulTRot xf2.q (b2MulRot xf1.q (poly1.normals.getD edge1 default)))
            (poly2.normals.getD i default)) i)
          else best) (0, MAX_FLOAT)).1 := rfl
  have key : incidentFace MAX_FLOAT poly1 xf1 edge1 poly2 xf2 < poly2.normals.length ∧
      (∀ i < poly2.normals.length,
        b2Dot (b2MulTRot xf2.q (b2MulRot xf1.q (poly1.normals.getD edge1 default)))
            (poly2.normals.getD (incidentFace MAX_FLOAT poly1 xf1 edge1 poly2 xf2) default) ≤
          b2Dot (b2MulTRot xf2.q (b2MulRot xf1.q (poly1.normals.getD edge1 default)))
            (poly2.normals.getD i default)) ∧
      (∀ i < incidentFace MAX_FLOAT poly1 xf1 edge1 poly2 xf2,
        b2Dot (b2MulTRot xf2.q (b2MulRot xf1.q (poly1.normals.getD edge1 default)))
            (poly2.normals.getD (incidentFace MAX_FLOAT poly1 xf1 edge1 poly2 xf2) default) <
          b2Dot (b2MulTRot xf2.q (b2MulRot xf1.q (poly1.normals.getD edge1 default)))
            (poly2.normals.getD i default)) := by
    rw [hidx]
    generalize (List.range poly2.normals.length).foldl _ (0, MAX_FLOAT) = r at g2 g3 ⊢
    rcases g3 with ⟨g3, g4⟩ | ⟨g3, g4, g5⟩
    · rw [g3]
      refine ⟨hpos, ?_, ?_⟩
      · intro i hi
        have a1 := hfin 0 hpos
        have a2 := g4 i hi
        simp only at a2
        linarith
      · intro i hi
        exact absurd hi (Nat.not_lt_zero _)
    · refine ⟨g3, ?_, ?_⟩
      · intro i hi
        rw [g4]
        exact g2 i hi
      · intro i hi
        rw [g4]
        exact g5 i hi
  refine ⟨_, _, _, rfl, key.1, key.2.1, key.2.2, rfl,
    b2FindIncidentEdge_some MAX_FLOAT poly1 xf1 edge1 poly2 xf2 he, rfl, rfl, rfl, rfl, ?_⟩
  intro h256 hlen
  have hi1 : incidentFace MAX_FLOAT poly1 xf1 edge1 poly2 xf2 < 256 := by
    have := key.1
    omega
  have hi2 : nextIndex (incidentFace MAX_FLOAT poly1 xf1 edge1 poly2 xf2)
      poly2.normals.length < 256 := by
    unfold nextIndex
    split_ifs <;> omega
  have hnext : (if incidentFace MAX_FLOAT poly1 xf1 edge1 poly2 xf2 + 1 < poly2.normals.length
      then incidentFace MAX_FLOAT poly1 xf1 edge1 poly2 xf2 + 1 else 0) =
      nextIndex (incidentFace MAX_FLOAT poly1 xf1 edge1 poly2 xf2) poly2.normals.length := rfl
  rw [hnext]
  simp only [Nat.mod_eq_of_lt h256, Nat.mod_eq_of_lt hi1, Nat.mod_eq_of_lt hi2, and_self]

/-- C21 over exact arithmetic, for the two boxes of the near test: for the reference face 1 of the
box at the origin the incident face of the box at `(0.9, 0)` is face 3, and the incident edge runs
from its vertex 3 to its vertex 0. -/
theorem exact_incident_edge_witness :
    ∃ c, b2FindIncidentEdge FLT_MAX unitBox (xfAt 0 0) 1 unitBox (xfAt (9 / 10) 0) = some c ∧
      c.1.v = ⟨2 / 5, 1 / 2⟩ ∧ c.2.v = ⟨2 / 5, -1 / 2⟩ ∧
      c.1.id = ⟨1, 3, .e_face, .e_vertex⟩ ∧ c.2.id = ⟨1, 0, .e_face, .e_vertex⟩ := by
  have hfin : ∀ i < unitBox.normals.length,
      b2Dot (b2MulTRot (xfAt (9 / 10) 0).q (b2MulRot (xfAt 0 0).q
        (unitBox.normals.getD 1 default))) (unitBox.normals.getD i default) ≤ FLT_MAX := by
    intro i hi
    rw [unitBox_normals_length] at hi
    interval_cases i <;>
      norm_num [unitBox, xfAt, b2Dot, b2MulTRot, b2MulRot, FLT_MAX]
  obtain ⟨i1, i2, c, e1, -, -, -, e2, e3, e4, e5, -, -, e6⟩ :=
    exact_incident_edge FLT_MAX unitBox (xfAt 0 0) 1 unitBox (xfAt (9 / 10) 0) (by decide)
      (by decide) hfin
  rw [incidentFace_near] at e1
  subst e1
  have e2' : i2 = 0 := by rw [e2, unitBox_normals_length]; rfl
  subst e2'
  refine ⟨c, e3, ?_, ?_, (e6 (by decide) (by decide)).1, (e6 (by decide) (by decide)).2⟩
  · rw [e4]
    norm_num [unitBox, xfAt, b2Mul, b2MulRot, b2Vec.add_def]
  · rw [e5]
    norm_num [unitBox, xfAt, b2Mul, b2MulRot, b2Vec.add_def]

theorem b2Mul_b2MulT (xf : b2Transform) (v : b2Vec)
    (hq : xf.q.s * xf.q.s + xf.q.c * xf.q.c = 1) : b2Mul xf (b2MulT xf v) = v := by
  obtain ⟨x, y⟩ := v
  simp only [b2Mul, b2MulT, b2MulRot, b2MulTRot, b2Vec.sub_def, b2Vec.add_def, b2Vec.mk.injEq]
  constructor
  · have : xf.q.c * (xf.q.c * (x - xf.p.x) + xf.q.s * (y - xf.p.y)) -
        xf.q.s * (-xf.q.s * (x - xf.p.x) + xf.q.c * (y - xf.p.y)) =
        (xf.q.s * xf.q.s + xf.q.c * xf.q.c) * (x - xf.p.x) := by ring
    rw [this, hq]
    ring
  · have : xf.q.s * (xf.q.c * (x - xf.p.x) + xf.q.s * (y - xf.p.y)) +
        xf.q.c * (-xf.q.s * (x - xf.p.x) + xf.q.c * (y - xf.p.y)) =
        (xf.q.s * xf.q.s + xf.q.c * xf.q.c) * (y - xf.p.y) := by ring
    rw [this, hq]
    ring

/-- C22. In `b2CollidePolygons`, when no separating axis is found, with `tangent` the
normalized reference edge in world coordinates and `v11`, `v12` the ends of the reference edge
in world coordinates: if the clip of the incident edge against `-tangent` with offset
`-dot(tangent, v11) + totalRadius` returns fewer than 2 points, or the clip of its result
against `tangent` with offset `dot(tangent, v12) + totalRadius` does, the routine returns the
manifold it was given with `pointCount = 0` and the manifold type written, and with
`localNormal`, `localPoint` and both manifold points as they were. -/
theorem C22_clip_early_exit (MAX_FLOAT LINEAR_SLOP : ℚ) (Normalize : b2Vec → b2Vec)
    (manifold : b2Manifold) (polyA : b2PolygonShape) (xfA : b2Transform)
    (polyB : b2PolygonShape) (xfB : b2Transform) (r : Reference)
    (ie : b2ClipVertex × b2ClipVertex) (tangent v11 v12 : b2Vec)
    (hA : ¬ (b2FindMaxSeparation MAX_FLOAT polyA xfA polyB xfB).2 >
      polyA.radius + polyB.radius)
    (hB : ¬ (b2FindMaxSeparation MAX_FLOAT polyB xfB polyA xfA).2 >
      polyA.radius + polyB.radius)
    (hr : r = chooseReference LINEAR_SLOP polyA xfA polyB xfB
      (b2FindMaxSeparation MAX_FLOAT polyA xfA polyB xfB).1
      (b2FindMaxSeparation MAX_FLOAT polyA xfA polyB xfB).2
      (b2FindMaxSeparation MAX_FLOAT polyB xfB polyA xfA).1
      (b2FindMaxSeparation MAX_FLOAT polyB xfB polyA xfA).2)
    (hie : b2FindIncidentEdge MAX_FLOAT r.poly1 r.xf1 r.edge1 r.poly2 r.xf2 = some ie)
    (hv11 : v11 = b2Mul r.xf1 (r.poly1.vertices.getD r.edge1 default))
    (hv12 : v12 = b2Mul r.xf1
      (r.poly1.vertices.getD (nextIndex r.edge1 r.poly1.vertices.length) default))
    (ht : tangent = b2MulRot r.xf1.q
      (Normalize (r.poly1.vertices.getD (nextIndex r.edge1 r.poly1.vertices.length) default -
        r.poly1.vertices.getD r.edge1 default)))
    (hnp : (b2ClipSegmentToLine default ie (-tangent)
          (-b2Dot tangent v11 + (polyA.radius + polyB.radius)) r.edge1).1 < 2 ∨
      (b2ClipSegmentToLine default
          (b2ClipSegmentToLine default ie (-tangent)
            (-b2Dot tangent v11 + (polyA.radius + polyB.radius)) r.edge1).2
          tangent (b2Dot tangent v12 + (polyA.radius + polyB.radius))
          (nextIndex r.edge1 r.poly1.vertices.length)).1 < 2) :
    ∃ m', b2CollidePolygons MAX_FLOAT LINEAR_SLOP Normalize manifold polyA xfA polyB xfB =
        some m' ∧
      m' = { manifold with pointCount := 0, type := r.type } ∧
      m'.pointCount = 0 ∧ m'.localNormal = manifold.localNormal ∧
      m'.localPoint = manifold.localPoint ∧ m'.points = manifold.points := by
  rw [b2CollidePolygons_no_axis MAX_FLOAT LINEAR_SLOP Normalize manifold polyA xfA polyB xfB
    hA hB r hr, hie]
  refine ⟨_, rfl, ?_⟩
  have hcw : clipAndWrite Normalize (polyA.radius + polyB.radius)
      { manifold with pointCount := 0, type := r.type } r ie =
      { manifold with pointCount := 0, type := r.type } := by
    unfold clipAndWrite clipIncidentEdge
    simp only []
    rw [← hv11, ← hv12, ← ht]
    rcases hnp with h | h
    · rw [if_pos h]
    · by_cases h' : (b2ClipSegmentToLine default ie (-tangent)
          (-b2Dot tangent v11 + (polyA.radius + polyB.radius)) r.edge1).1 < 2
      · rw [if_pos h']
      · rw [if_neg h', if_pos h]
  rw [hcw]
  exact ⟨rfl, rfl, rfl, rfl, rfl⟩

theorem range_three : List.range 3 = [0, 1, 2] := rfl

theorem separation_corner_AB :
    b2FindMaxSeparation FLT_MAX cornerTriangle (xfAt 0 0) wedgeTriangle (xfAt 0 0) =
      (0, 9 / 500) := by
  have hl : cornerTriangle.vertices.length = 3 := rfl
  simp only [b2FindMaxSeparation, hl, range_three, List.foldl_cons, List.foldl_nil]
  norm_num [faceSeparation, deepest, cornerTriangle, wedgeTriangle, xfAt, b2Dot, b2MulRot,
    b2Mul, b2MulTXf, b2MulTRot, b2Vec.sub_def, b2Vec.add_def, FLT_MAX]

theorem separation_corner_BA :
    b2FindMaxSeparation FLT_MAX wedgeTriangle (xfAt 0 0) cornerTriangle (xfAt 0 0) =
      (2, 33 / 2500) := by
  have hl : wedgeTriangle.vertices.length = 3 := rfl
  simp only [b2FindMaxSeparation, hl, range_three, List.foldl_cons, List.foldl_nil]
  norm_num [faceSeparation, deepest, cornerTriangle, wedgeTriangle, xfAt, b2Dot, b2MulRot,
    b2Mul, b2MulTXf, b2MulTRot, b2Vec.sub_def, b2Vec.add_def, FLT_MAX]

theorem incidentFace_corner :
    incidentFace FLT_MAX cornerTriangle (xfAt 0 0) 0 wedgeTriangle (xfAt 0 0) = 0 := by
  have hl : wedgeTriangle.normals.length = 3 := rfl
  simp only [incidentFace, incidentIndex, hl, range_three, List.foldl_cons, List.foldl_nil]
  norm_num [cornerTriangle, wedgeTriangle, xfAt, b2Dot, b2MulRot, b2MulTRot, FLT_MAX]

/-- C22 for `cornerTriangle` and `wedgeTriangle`: no face of either triangle separates them by
more than the two radii, the reference face is the bottom face of `cornerTriangle`, and both
ends of the incident edge lie more than the two radii beyond its first side plane, so the first
clip returns no point and the manifold is returned with `pointCount = 0`. -/
theorem C22_clip_early_exit_witness :
    (b2ClipSegmentToLine default
        ((⟨⟨-3/100, -9/500⟩, ⟨0, 0, .e_face, .e_vertex⟩⟩,
          ⟨⟨-1109/300, -346/125⟩, ⟨0, 1, .e_face, .e_vertex⟩⟩) : b2ClipVertex × b2ClipVertex)
        (-(⟨1, 0⟩ : b2Vec))
        (-b2Dot ⟨1, 0⟩ ⟨0, 0⟩ + (cornerTriangle.radius + wedgeTriangle.radius)) 0).1 = 0 ∧
    b2CollidePolygons FLT_MAX (1 / 200) normalizeAxial zeroManifold cornerTriangle (xfAt 0 0)
      wedgeTriangle (xfAt 0 0) = some { zeroManifold with pointCount := 0, type := .e_faceA } := by
  have hA : ¬ (b2FindMaxSeparation FLT_MAX cornerTriangle (xfAt 0 0) wedgeTriangle
      (xfAt 0 0)).2 > cornerTriangle.radius + wedgeTriangle.radius := by
    rw [separation_corner_AB]; norm_num [cornerTriangle, wedgeTriangle]
  have hB : ¬ (b2FindMaxSeparation FLT_MAX wedgeTriangle (xfAt 0 0) cornerTriangle
      (xfAt 0 0)).2 > cornerTriangle.radius + wedgeTriangle.radius := by
    rw [separation_corner_BA]; norm_num [cornerTriangle, wedgeTriangle]
  have hr : (⟨cornerTriangle, wedgeTriangle, xfAt 0 0, xfAt 0 0, 0, .e_faceA, 0⟩ : Reference) =
      chooseReference (1 / 200) cornerTriangle (xfAt 0 0) wedgeTriangle (xfAt 0 0)
        (b2FindMaxSeparation FLT_MAX cornerTriangle (xfAt 0 0) wedgeTriangle (xfAt 0 0)).1
        (b2FindMaxSeparation FLT_MAX cornerTriangle (xfAt 0 0) wedgeTriangle (xfAt 0 0)).2
        (b2FindMaxSeparation FLT_MAX wedgeTriangle (xfAt 0 0) cornerTriangle (xfAt 0 0)).1
        (b2FindMaxSeparation FLT_MAX wedgeTriangle (xfAt 0 0) cornerTriangle (xfAt 0 0)).2 := by
    rw [separation_corner_AB, separation_corner_BA]
    unfold chooseReference
    rw [if_neg (by norm_num)]
  have hie : b2FindIncidentEdge FLT_MAX cornerTriangle (xfAt 0 0) 0 wedgeTriangle (xfAt 0 0) =
      some ((⟨⟨-3/100, -9/500⟩, ⟨0, 0, .e_face, .e_vertex⟩⟩,
        ⟨⟨-1109/300, -346/125⟩, ⟨0, 1, .e_face, .e_vertex⟩⟩) : b2ClipVertex × b2ClipVertex) := by
    rw [b2FindIncidentEdge_some _ _ _ _ _ _ (by decide), incidentFace_corner]
    norm_num [wedgeTriangle, xfAt, b2Mul, b2MulRot, nextIndex, b2Vec.add_def]
  have hnp : (b2ClipSegmentToLine default
        ((⟨⟨-3/100, -9/500⟩, ⟨0, 0, .e_face, .e_vertex⟩⟩,
          ⟨⟨-1109/300, -346/125⟩, ⟨0, 1, .e_face, .e_vertex⟩⟩) : b2ClipVertex × b2ClipVertex)
        (-(⟨1, 0⟩ : b2Vec))
        (-b2Dot ⟨1, 0⟩ ⟨0, 0⟩ + (cornerTriangle.radius + wedgeTriangle.radius)) 0).1 = 0 := by
    norm_num [b2ClipSegmentToLine, b2Dot, b2Vec.neg_def, cornerTriangle, wedgeTriangle]
  obtain ⟨m', e1, e2, -⟩ := C22_clip_early_exit FLT_MAX (1 / 200) normalizeAxial zeroManifold
    cornerTriangle (xfAt 0 0) wedgeTriangle (xfAt 0 0)
    ⟨cornerTriangle, wedgeTriangle, xfAt 0 0, xfAt 0 0, 0, .e_faceA, 0⟩ _ ⟨1, 0⟩ ⟨0, 0⟩ ⟨6, 0⟩
    hA hB hr hie
    (by norm_num [cornerTriangle, xfAt, b2Mul, b2MulRot, b2Vec.add_def])
    (by norm_num [cornerTriangle, xfAt, b2Mul, b2MulRot, b2Vec.add_def, nextIndex])
    (by norm_num [cornerTriangle, xfAt, b2MulRot, nextIndex, normalizeAxial, b2Vec.sub_def,
      b2Vec.smul_def])
    (Or.inl (by rw [hnp]; decide))
  rw [e1, e2]
  exact ⟨hnp, rfl⟩

/-- C23. When `b2CollidePolygons` reaches the output stage (no separating axis, both clips with
two points), with `v11`, `v12` the ends of the reference edge in the local frame of the
reference polygon: `localNormal` is `cross(normalize(v12 - v11), 1)`, `localPoint` is the
midpoint `(v11 + v12) / 2`, and the manifold points written hold, in order, the clipped world
points that pass the separation test, each mapped by the inverse of the transform `xf2` of the
incident polygon; so, `xf2` being a rigid transform, `xf2 * localPoint` is the clipped world
point. -/
theorem C23_output_stage (MAX_FLOAT LINEAR_SLOP : ℚ) (Normalize : b2Vec → b2Vec)
    (manifold : b2Manifold) (polyA : b2PolygonShape) (xfA : b2Transform)
    (polyB : b2PolygonShape) (xfB : b2Transform) (r : Reference)
    (ie : b2ClipVertex × b2ClipVertex) (k : Clipped) (v11 v12 : b2Vec)
    (hA : ¬ (b2FindMaxSeparation MAX_FLOAT polyA xfA polyB xfB).2 >
      polyA.radius + polyB.radius)
    (hB : ¬ (b2FindMaxSeparation MAX_FLOAT polyB xfB polyA xfA).2 >
      polyA.radius + polyB.radius)
    (hr : r = chooseReference LINEAR_SLOP polyA xfA polyB xfB
      (b2FindMaxSeparation MAX_FLOAT polyA xfA polyB xfB).1
      (b2FindMaxSeparation MAX_FLOAT polyA xfA polyB xfB).2
      (b2FindMaxSeparation MAX_FLOAT polyB xfB polyA xfA).1
      (b2FindMaxSeparation MAX_FLOAT polyB xfB polyA xfA).2)
    (hie : b2FindIncidentEdge MAX_FLOAT r.poly1 r.xf1 r.edge1 r.poly2 r.xf2 = some ie)
    (hk : k = clipIncidentEdge Normalize (polyA.radius + polyB.radius) r ie)
    (h1 : 2 ≤ k.np1) (h2 : 2 ≤ k.np2)
    (hv11 : v11 = r.poly1.vertices.getD r.edge1 default)
    (hv12 : v12 = r.poly1.vertices.getD (nextIndex r.edge1 r.poly1.vertices.length) default) :
    ∃ m', b2CollidePolygons MAX_FLOAT LINEAR_SLOP Normalize manifold polyA xfA polyB xfB =
        some m' ∧
      m'.localNormal = b2Cross (Normalize (v12 - v11)) 1 ∧
      m'.localPoint = (1 / 2 : ℚ) * (v11 + v12) ∧
      m'.pointCount = ([k.clipPoints2.1, k.clipPoints2.2].filter
        (keepPoint k.normal k.frontOffset (polyA.radius + polyB.radius))).length ∧
      ([m'.points.1, m'.points.2].take m'.pointCount).map (fun p => p.localPoint) =
        ([k.clipPoints2.1, k.clipPoints2.2].filter
          (keepPoint k.normal k.frontOffset (polyA.radius + polyB.radius))).map
          (fun e => b2MulT r.xf2 e.v) ∧
      (r.xf2.q.s * r.xf2.q.s + r.xf2.q.c * r.xf2.q.c = 1 →
        ([m'.points.1, m'.points.2].take m'.pointCount).map
            (fun p => b2Mul r.xf2 p.localPoint) =
          ([k.clipPoints2.1, k.clipPoints2.2].filter
            (keepPoint k.normal k.frontOffset (polyA.radius + polyB.radius))).map
            (fun e => e.v)) := by
  rw [b2CollidePolygons_no_axis MAX_FLOAT LINEAR_SLOP Normalize manifold polyA xfA polyB xfB
    hA hB r hr, hie]
  refine ⟨_, rfl, ?_⟩
  have hf := addPoint_fold_two k.normal k.frontOffset (polyA.radius + polyB.radius) r.xf2 r.flip
    ⟨manifold.points, k.localNormal, k.planePoint, r.type, 0⟩ k.clipPoints2.1 k.clipPoints2.2
  have hcw : clipAndWrite Normalize (polyA.radius + polyB.radius)
      { manifold with pointCount := 0, type := r.type } r ie =
      { ([k.clipPoints2.1, k.clipPoints2.2].foldl
          (addPoint k.normal k.frontOffset (polyA.radius + polyB.radius) r.xf2 r.flip)
          (⟨manifold.points, k.localNormal, k.planePoint, r.type, 0⟩, 0)).1 with
        pointCount := ([k.clipPoints2.1, k.clipPoints2.2].foldl
          (addPoint k.normal k.frontOffset (polyA.radius + polyB.radius) r.xf2 r.flip)
          (⟨manifold.points, k.localNormal, k.planePoint, r.type, 0⟩, 0)).2 } := by
    unfold clipAndWrite
    rw [← hk]
    simp only [not_lt.mpr h1, not_lt.mpr h2, if_false]
  rw [hcw]
  have hmap := congrArg (List.map Prod.fst) hf.2.1
  simp only [List.map_map] at hmap
  have hloc : ([([k.clipPoints2.1, k.clipPoints2.2].foldl
          (addPoint k.normal k.frontOffset (polyA.radius + polyB.radius) r.xf2 r.flip)
          (⟨manifold.points, k.localNormal, k.planePoint, r.type, 0⟩, 0)).1.points.1,
        ([k.clipPoints2.1, k.clipPoints2.2].foldl
          (addPoint k.normal k.frontOffset (polyA.radius + polyB.radius) r.xf2 r.flip)
          (⟨manifold.points, k.localNormal, k.planePoint, r.type, 0⟩, 0)).1.points.2].take
        ([k.clipPoints2.1, k.clipPoints2.2].foldl
          (addPoint k.normal k.frontOffset (polyA.radius + polyB.radius) r.xf2 r.flip)
          (⟨manifold.points, k.localNormal, k.planePoint, r.type, 0⟩, 0)).2).map
        (fun p => p.localPoint) =
      ([k.clipPoints2.1, k.clipPoints2.2].filter
        (keepPoint k.normal k.frontOffset (polyA.radius + polyB.radius))).map
        (fun e => b2MulT r.xf2 e.v) := hmap
  refine ⟨?_, ?_, hf.1, hloc, ?_⟩
  · refine Eq.trans hf.2.2.2.1 ?_
    rw [hk, hv11, hv12]
    rfl
  · refine Eq.trans hf.2.2.2.2 ?_
    rw [hk, hv11, hv12]
    rfl
  · intro hq
    have h3 := congrArg (List.map (b2Mul r.xf2)) hloc
    simp only [List.map_map] at h3
    have h4 : (b2Mul r.xf2 ∘ fun e : b2ClipVertex => b2MulT r.xf2 e.v) = fun e => e.v := by
      funext e
      exact b2Mul_b2MulT r.xf2 e.v hq
    rw [h4] at h3
    exact h3

/-- C23 for the two boxes of the near test, the box at the origin being the reference polygon
with its face 1: the normal is `(1, 0)`, the plane point `(0.5, 0)`, and the two manifold
points, mapped by the transform of the box at `(0.9, 0)`, are the clipped world points
`(0.4, 0.5)` and `(0.4, -0.5)`. -/
theorem C23_output_stage_witness :
    ∃ m', b2CollidePolygons FLT_MAX (1 / 200) normalizeAxial zeroManifold unitBox (xfAt 0 0)
        unitBox (xfAt (9 / 10) 0) = some m' ∧
      m'.localNormal = ⟨1, 0⟩ ∧ m'.localPoint = ⟨1 / 2, 0⟩ ∧
      ([m'.points.1, m'.points.2].take m'.pointCount).map
          (fun p => b2Mul (xfAt (9 / 10) 0) p.localPoint) = [⟨2 / 5, 1 / 2⟩, ⟨2 / 5, -1 / 2⟩] := by
  have hA : ¬ (b2FindMaxSeparation FLT_MAX unitBox (xfAt 0 0) unitBox (xfAt (9 / 10) 0)).2 >
      unitBox.radius + unitBox.radius := by
    rw [separation_near_AB]; norm_num [unitBox]
  have hB : ¬ (b2FindMaxSeparation FLT_MAX unitBox (xfAt (9 / 10) 0) unitBox (xfAt 0 0)).2 >
      unitBox.radius + unitBox.radius := by
    rw [separation_near_BA]; norm_num [unitBox]
  have hr : (⟨unitBox, unitBox, xfAt 0 0, xfAt (9 / 10) 0, 1, .e_faceA, 0⟩ : Reference) =
      chooseReference (1 / 200) unitBox (xfAt 0 0) unitBox (xfAt (9 / 10) 0)
        (b2FindMaxSeparation FLT_MAX unitBox (xfAt 0 0) unitBox (xfAt (9 / 10) 0)).1
        (b2FindMaxSeparation FLT_MAX unitBox (xfAt 0 0) unitBox (xfAt (9 / 10) 0)).2
        (b2FindMaxSeparation FLT_MAX unitBox (xfAt (9 / 10) 0) unitBox (xfAt 0 0)).1
        (b2FindMaxSeparation FLT_MAX unitBox (xfAt (9 / 10) 0) unitBox (xfAt 0 0)).2 := by
    rw [separation_near_AB, separation_near_BA]
    unfold chooseReference
    rw [if_neg (by norm_num)]
  have hie : b2FindIncidentEdge FLT_MAX unitBox (xfAt 0 0) 1 unitBox (xfAt (9 / 10) 0) =
      some ((⟨⟨2 / 5, 1 / 2⟩, ⟨1, 3, .e_face, .e_vertex⟩⟩,
        ⟨⟨2 / 5, -1 / 2⟩, ⟨1, 0, .e_face, .e_vertex⟩⟩) : b2ClipVertex × b2ClipVertex) := by
    rw [b2FindIncidentEdge_some _ _ _ _ _ _ (by decide), incidentFace_near]
    norm_num [unitBox, xfAt, b2Mul, b2MulRot, nextIndex, b2Vec.add_def]
  have hk : clipIncidentEdge normalizeAxial (unitBox.radius + unitBox.radius)
      ⟨unitBox, unitBox, xfAt 0 0, xfAt (9 / 10) 0, 1, .e_faceA, 0⟩
      ((⟨⟨2 / 5, 1 / 2⟩, ⟨1, 3, .e_face, .e_vertex⟩⟩,
        ⟨⟨2 / 5, -1 / 2⟩, ⟨1, 0, .e_face, .e_vertex⟩⟩) : b2ClipVertex × b2ClipVertex) =
      ⟨⟨1, 0⟩, ⟨1 / 2, 0⟩, ⟨1, 0⟩, 1 / 2, 2,
        (⟨⟨2 / 5, 1 / 2⟩, ⟨1, 3, .e_face, .e_vertex⟩⟩,
          ⟨⟨2 / 5, -1 / 2⟩, ⟨1, 0, .e_face, .e_vertex⟩⟩), 2,
        (⟨⟨2 / 5, 1 / 2⟩, ⟨1, 3, .e_face, .e_vertex⟩⟩,
          ⟨⟨2 / 5, -1 / 2⟩, ⟨1, 0, .e_face, .e_vertex⟩⟩)⟩ := by
    norm_num [clipIncidentEdge, b2ClipSegmentToLine, nextIndex, unitBox, xfAt, b2Dot, b2Cross,
      b2MulRot, b2Mul, normalizeAxial, b2Vec.sub_def, b2Vec.add_def, b2Vec.neg_def,
      b2Vec.smul_def, getAt, setAt]
  obtain ⟨m', e1, e2, e3, e4, -, e6⟩ := C23_output_stage FLT_MAX (1 / 200) normalizeAxial
    zeroManifold unitBox (xfAt 0 0) unitBox (xfAt (9 / 10) 0)
    ⟨unitBox, unitBox, xfAt 0 0, xfAt (9 / 10) 0, 1, .e_faceA, 0⟩ _ _ ⟨1 / 2, -1 / 2⟩
    ⟨1 / 2, 1 / 2⟩ hA hB hr hie hk.symm (le_refl 2) (le_refl 2)
    (by norm_num [unitBox]) (by norm_num [unitBox, nextIndex])
  refine ⟨m', e1, ?_, ?_, ?_⟩
  · rw [e2]
    norm_num [normalizeAxial, b2Cross, b2Vec.sub_def, b2Vec.smul_def]
  · rw [e3]
    norm_num [b2Vec.add_def, b2Vec.smul_def]
  · rw [e6 (by norm_num [xfAt])]
    norm_num [keepPoint, b2Dot, unitBox]

namespace b2WeldJoint

/-! ## Weld joint: the soft coefficients and the velocity error after the solve (C24, C30) -/

theorem initSoftChecked_eq (B2_PI : ℚ) (j : b2WeldJoint) (K : b2Mat33) (aA aB dt : ℚ) :
    initSoftChecked B2_PI j K aA aB dt = some (initSoft B2_PI j K aA aB dt) := by
  unfold initSoftChecked initSoft checkedDiv
  simp only []
  by_cases h1 : j.m_invIA + j.m_invIB > 0
  · have h1' : ¬ (j.m_invIA + j.m_invIB = 0) := ne_of_gt h1
    simp only [if_pos h1, if_neg h1', Option.some_bind]
    by_cases h2 : dt * (2 * (1 / (j.m_invIA + j.m_invIB)) * j.m_dampingRatio *
        (2 * B2_PI * j.m_frequencyHz) + dt * (1 / (j.m_invIA + j.m_invIB) *
        (2 * B2_PI * j.m_frequencyHz) * (2 * B2_PI * j.m_frequencyHz))) = 0
    · simp only [h2, ne_eq, not_true_eq_false, if_false, Option.some_bind]
      by_cases h3 : j.m_invIA + j.m_invIB + 0 = 0
      · simp only [h3, not_true_eq_false, if_false, Option.some_bind]
      · simp only [h3, not_false_eq_true, if_true, if_false, Option.some_bind]
    · simp only [h2, ne_eq, not_false_eq_true, if_true, if_false, Option.some_bind]
      by_cases h3 : j.m_invIA + j.m_invIB + 1 / (dt * (2 * (1 / (j.m_invIA + j.m_invIB)) *
          j.m_dampingRatio * (2 * B2_PI * j.m_frequencyHz) + dt *
          (1 / (j.m_invIA + j.m_invIB) * (2 * B2_PI * j.m_frequencyHz) *
          (2 * B2_PI * j.m_frequencyHz)))) = 0
      · simp only [h3, not_true_eq_false, if_false, Option.some_bind]
      · simp only [h3, not_false_eq_true, if_true, if_false, Option.some_bind]
  · simp only [if_neg h1, Option.some_bind]
    by_cases h2 : dt * (2 * 0 * j.m_dampingRatio * (2 * B2_PI * j.m_frequencyHz) +
        dt * (0 * (2 * B2_PI * j.m_frequencyHz) * (2 * B2_PI * j.m_frequencyHz))) = 0
    · simp only [h2, ne_eq, not_true_eq_false, if_false, Option.some_bind]
      by_cases h3 : j.m_invIA + j.m_invIB + 0 = 0
      · simp only [h3, not_true_eq_false, if_false, Option.some_bind]
      · simp only [h3, not_false_eq_true, if_true, if_false, Option.some_bind]
    · exfalso
      apply h2
      ring

/-- C24 over exact arithmetic. Soft-mode coefficients in `InitVelocityConstraints`
(`frequencyHz > 0`), with `invM = iA + iB`, `m = 1 / invM` if `invM > 0` and 0 otherwise,
`omega = 2 * pi * frequencyHz`, `d = 2 * m * dampingRatio * omega`, `k = m * omega^2`, `h = dt`
and `C = aB - aA - referenceAngle`: the joint stores `gamma = 1 / (h * (d + h * k))` if
`h * (d + h * k) ≠ 0` and 0 otherwise, `bias = C * h * k * gamma` and the angular effective mass
`1 / (invM + gamma)` if `invM + gamma ≠ 0` and 0 otherwise; no division divides by zero; and for
`h = 0` both `gamma` and `bias` are 0. -/
theorem exact_soft_coefficients (Rot : ℚ → b2Rot) (B2_PI : ℚ) (j : b2WeldJoint)
    (data : b2SolverData) (invM m omega d k h C gamma : ℚ)
    (hf : j.m_frequencyHz > 0)
    (hinvM : invM = j.m_bodyA.m_invI + j.m_bodyB.m_invI)
    (hm : m = if invM > 0 then 1 / invM else 0)
    (homega : omega = 2 * B2_PI * j.m_frequencyHz)
    (hd : d = 2 * m * j.m_dampingRatio * omega)
    (hk : k = m * omega ^ 2)
    (hh : h = data.step.dt)
    (hC : C = (data.positions j.m_bodyB.m_islandIndex).a -
      (data.positions j.m_bodyA.m_islandIndex).a - j.m_referenceAngle)
    (hgamma : gamma = if h * (d + h * k) ≠ 0 then 1 / (h * (d + h * k)) else 0) :
    (InitVelocityConstraints Rot B2_PI j data).1.m_gamma = gamma ∧
    (InitVelocityConstraints Rot B2_PI j data).1.m_bias = C * h * k * gamma ∧
    (InitVelocityConstraints Rot B2_PI j data).1.m_mass.ez.z =
      (if invM + gamma ≠ 0 then 1 / (invM + gamma) else 0) ∧
    (∃ j', initSoftChecked B2_PI (cacheBodies Rot j data) (initK Rot j data)
        (data.positions j.m_bodyA.m_islandIndex).a (data.positions j.m_bodyB.m_islandIndex).a
        data.step.dt = some j' ∧
      j'.m_gamma = gamma ∧ j'.m_bias = C * h * k * gamma ∧
      j'.m_mass = (InitVelocityConstraints Rot B2_PI j data).1.m_mass) ∧
    (h = 0 → (InitVelocityConstraints Rot B2_PI j data).1.m_gamma = 0 ∧
      (InitVelocityConstraints Rot B2_PI j data).1.m_bias = 0) := by
  obtain ⟨m1, m2, m3⟩ := InitVelocityConstraints_mass Rot B2_PI j data
  have hfreq : (cacheBodies Rot j data).m_frequencyHz > 0 := hf
  have hK : weldK (cacheBodies Rot j data).m_invMassA (cacheBodies Rot j data).m_invMassB
      (cacheBodies Rot j data).m_invIA (cacheBodies Rot j data).m_invIB
      (cacheBodies Rot j data).m_rA (cacheBodies Rot j data).m_rB = initK Rot j data := rfl
  have hinit : initMass B2_PI (cacheBodies Rot j data)
      (data.positions j.m_bodyA.m_islandIndex).a (data.positions j.m_bodyB.m_islandIndex).a
      data.step.dt = initSoft B2_PI (cacheBodies Rot j data) (initK Rot j data)
      (data.positions j.m_bodyA.m_islandIndex).a (data.positions j.m_bodyB.m_islandIndex).a
      data.step.dt := by
    unfold initMass
    simp only [hK, if_pos hfreq]
  rw [hinit] at m1 m2 m3
  have hk' : k = m * omega * omega := by rw [hk]; ring
  have g1 : (initSoft B2_PI (cacheBodies Rot j data) (initK Rot j data)
      (data.positions j.m_bodyA.m_islandIndex).a (data.positions j.m_bodyB.m_islandIndex).a
      data.step.dt).m_gamma = gamma := by
    rw [hgamma, hh, hd, hk', homega, hm, hinvM]
    rfl
  have g2 : (initSoft B2_PI (cacheBodies Rot j data) (initK Rot j data)
      (data.positions j.m_bodyA.m_islandIndex).a (data.positions j.m_bodyB.m_islandIndex).a
      data.step.dt).m_bias = C * h * k * gamma := by
    rw [hgamma, hC, hh, hd, hk', homega, hm, hinvM]
    rfl
  have g3 : (initSoft B2_PI (cacheBodies Rot j data) (initK Rot j data)
      (data.positions j.m_bodyA.m_islandIndex).a (data.positions j.m_bodyB.m_islandIndex).a
      data.step.dt).m_mass.ez.z = (if invM + gamma ≠ 0 then 1 / (invM + gamma) else 0) := by
    rw [hgamma, hh, hd, hk', homega, hm, hinvM]
    rfl
  refine ⟨m2.trans g1, m3.trans g2, (congrArg (fun M => M.ez.z) m1).trans g3,
    ⟨_, initSoftChecked_eq _ _ _ _ _ _, g1, g2, m1.symm⟩, ?_⟩
  intro h0
  rw [m2, m3, g1, g2, hgamma, h0]
  simp

/-- C24 over exact arithmetic, for the soft joint `weldPairSoft` (unit inverse inertias, frequency
1, damping ratio 1) with a timestep of 1 and `pi` taken as 355/113: the coefficients the joint
stores. -/
theorem exact_soft_coefficients_witness :
    weldPairSoft.m_frequencyHz > 0 ∧
    (InitVelocityConstraints rotRational PI_RATIONAL weldPairSoft
      (pairData 1 1 false ⟨0, 0⟩ ⟨0, 0⟩)).1.m_gamma =
      1 / (2 * (1 / 2) * 1 * (2 * PI_RATIONAL) + 1 * (1 / 2 * (2 * PI_RATIONAL) ^ 2)) := by
  have hf : weldPairSoft.m_frequencyHz > 0 := by norm_num [weldPairSoft, weldPair]
  refine ⟨hf, ?_⟩
  rw [(exact_soft_coefficients rotRational PI_RATIONAL weldPairSoft
    (pairData 1 1 false ⟨0, 0⟩ ⟨0, 0⟩) 2 (1 / 2) (2 * PI_RATIONAL)
    (2 * (1 / 2) * 1 * (2 * PI_RATIONAL)) (1 / 2 * (2 * PI_RATIONAL) ^ 2) 1 (-1)
    (1 / (2 * (1 / 2) * 1 * (2 * PI_RATIONAL) + 1 * (1 / 2 * (2 * PI_RATIONAL) ^ 2)))
    hf (by norm_num [weldPairSoft, weldPair]) (by norm_num)
    (by norm_num [weldPairSoft, weldPair]) (by norm_num [weldPairSoft, weldPair]) rfl rfl
    (by norm_num [weldPairSoft, weldPair, pairData])
    (by norm_num [PI_RATIONAL])).1]

end b2WeldJoint

/-- The matrix `GetInverse22` gives is a right inverse of the upper left 2x2 block when the
determinant of the block is not zero. -/
theorem b2Mat33.mul_GetInverse22 (A : b2Mat33) (v : b2Vec)
    (hdet : A.ex.x * A.ey.y - A.ey.x * A.ex.y ≠ 0) :
    b2Mul22 A (b2Mul22 A.GetInverse22 v) = v := by
  obtain ⟨x, y⟩ := v
  simp only [b2Mat33.GetInverse22, b2Mul22, if_pos hdet, b2Vec.mk.injEq]
  constructor <;> field_simp <;> ring

/-- The matrix `GetSymInverse33` gives is a right inverse of a symmetric matrix whose
determinant is not zero. -/
theorem b2Mat33.mul_GetSymInverse33 (A : b2Mat33) (v : b2Vec3)
    (h1 : A.ex.y = A.ey.x) (h2 : A.ex.z = A.ez.x) (h3 : A.ey.z = A.ez.y)
    (hdet : b2Dot3 A.ex (b2Cross3 A.ey A.ez) ≠ 0) :
    b2Mul33 A (b2Mul33 A.GetSymInverse33 v) = v := by
  obtain ⟨x, y, z⟩ := v
  obtain ⟨⟨a11, a21, a31⟩, ⟨a12, a22, a32⟩, ⟨a13, a23, a33⟩⟩ := A
  simp only at h1 h2 h3
  subst h1 h2 h3
  simp only [b2Dot3, b2Cross3] at hdet
  simp only [b2Mat33.GetSymInverse33, b2Mul33, b2Dot3, b2Cross3, if_pos hdet,
    b2Vec3.smul_eq, b2Vec3.add_eq, b2Vec3.mk.injEq]
  refine ⟨?_, ?_, ?_⟩ <;> field_simp <;> ring

namespace b2WeldJoint

/-- The velocity error after the rigid branch of `SolveVelocityConstraints`, for two different
bodies: the error before the call plus `K` times the impulse applied. -/
theorem solveVelocityRigid_error (j : b2WeldJoint) (data : b2SolverData)
    (hne : j.m_indexA ≠ j.m_indexB) (hf : ¬ j.m_frequencyHz > 0) :
    velocityError j (SolveVelocityConstraints j data).2 =
      velocityError j data +
        b2Mul33 (weldK j.m_invMassA j.m_invMassB j.m_invIA j.m_invIB j.m_rA j.m_rB)
          (-b2Mul33 j.m_mass (velocityError j data)) := by
  obtain ⟨-, h2, h3, -, -, -⟩ := SolveVelocityConstraints_writes j data _ rfl
  have h3' := h3 hne
  rw [if_neg hf] at h2 h3'
  unfold velocityError
  simp only [h2, h3']
  simp only [solveVelocityRigid, weldK, b2Mul33, b2CrossSV, b2CrossVV, b2Vec.sub_def,
    b2Vec.add_def, b2Vec.smul_def, b2Vec3.smul_eq, b2Vec3.add_eq, b2Vec3.neg_eq,
    b2Vec3.mk.injEq]
  refine ⟨?_, ?_, ?_⟩ <;> ring

/-- The relative velocity of the anchors after the soft branch of `SolveVelocityConstraints`,
for two different bodies: with `Cdot1` the relative anchor velocity after the angular impulse
and `P = -b2Mul22(m_mass, Cdot1)` the linear impulse, it is `Cdot1 + K22 * P`. -/
theorem solveVelocitySoft_error (j : b2WeldJoint) (data : b2SolverData)
    (hne : j.m_indexA ≠ j.m_indexB) (hf : j.m_frequencyHz > 0) (c : b2Vec)
    (hc : c = (data.velocities j.m_indexB).v +
      b2CrossSV ((data.velocities j.m_indexB).w + j.m_invIB *
        (-j.m_mass.ez.z * ((data.velocities j.m_indexB).w - (data.velocities j.m_indexA).w +
          j.m_bias + j.m_gamma * j.m_impulse.z))) j.m_rB -
      (data.velocities j.m_indexA).v -
      b2CrossSV ((data.velocities j.m_indexA).w - j.m_invIA *
        (-j.m_mass.ez.z * ((data.velocities j.m_indexB).w - (data.velocities j.m_indexA).w +
          j.m_bias + j.m_gamma * j.m_impulse.z))) j.m_rA) :
    (⟨(velocityError j (SolveVelocityConstraints j data).2).x,
      (velocityError j (SolveVelocityConstraints j data).2).y⟩ : b2Vec) =
      c + b2Mul22 (weldK j.m_invMassA j.m_invMassB j.m_invIA j.m_invIB j.m_rA j.m_rB)
        (-b2Mul22 j.m_mass c) := by
  obtain ⟨-, h2, h3, -, -, -⟩ := SolveVelocityConstraints_writes j data _ rfl
  have h3' := h3 hne
  rw [if_pos hf] at h2 h3'
  unfold velocityError
  simp only [h2, h3', hc]
  simp only [solveVelocitySoft, weldK, b2Mul22, b2CrossSV, b2CrossVV, b2Vec.sub_def,
    b2Vec.add_def, b2Vec.smul_def, b2Vec.neg_def, b2Vec.mk.injEq]
  refine ⟨?_, ?_⟩ <;> ring

/-- C30. The velocity solve cancels the error it measures, for a joint between two different
bodies whose `m_mass` is the inverse that `InitVelocityConstraints` computes of the matrix `K`
of its cached lever arms, inverse masses and inverse inertias. In the full rigid 3x3 mode
(`m_mass` the symmetric inverse of `K`, `K` invertible) the velocities after
`SolveVelocityConstraints` satisfy `vB + cross(wB, rB) - vA - cross(wA, rA) = 0` and
`wB - wA = 0`. In the soft mode (`frequencyHz > 0`) and in the 2x2-only mode (`m_mass` the 2x2
inverse, the 2x2 block invertible) the relative anchor velocity
`vB + cross(wB, rB) - vA - cross(wA, rA)` is 0 after the call. -/
theorem C30_velocity_solve_cancels_error (j : b2WeldJoint) (data : b2SolverData)
    (K : b2Mat33) (hne : j.m_indexA ≠ j.m_indexB)
    (hK : K = weldK j.m_invMassA j.m_invMassB j.m_invIA j.m_invIB j.m_rA j.m_rB) :
    (¬ j.m_frequencyHz > 0 → j.m_mass = K.GetSymInverse33 →
      b2Dot3 K.ex (b2Cross3 K.ey K.ez) ≠ 0 →
      velocityError j (SolveVelocityConstraints j data).2 = ⟨0, 0, 0⟩) ∧
    (j.m_frequencyHz > 0 → j.m_mass.ex = K.GetInverse22.ex →
      j.m_mass.ey = K.GetInverse22.ey → K.ex.x * K.ey.y - K.ey.x * K.ex.y ≠ 0 →
      (velocityError j (SolveVelocityConstraints j data).2).x = 0 ∧
      (velocityError j (SolveVelocityConstraints j data).2).y = 0) ∧
    (¬ j.m_frequencyHz > 0 → j.m_mass = K.GetInverse22 →
      K.ex.x * K.ey.y - K.ey.x * K.ex.y ≠ 0 →
      (velocityError j (SolveVelocityConstraints j data).2).x = 0 ∧
      (velocityError j (SolveVelocityConstraints j data).2).y = 0) := by
  refine ⟨?_, ?_, ?_⟩
  · intro hf hM hdet
    rw [solveVelocityRigid_error j data hne hf, ← hK, hM]
    have key := b2Mat33.mul_GetSymInverse33 K (velocityError j data)
      (by rw [hK]; rfl) (by rw [hK]; rfl) (by rw [hK]; rfl) hdet
    have lin : ∀ w : b2Vec3, b2Mul33 K (-w) = -(b2Mul33 K w) := by
      intro w
      simp only [b2Mul33, b2Vec3.smul_eq, b2Vec3.add_eq, b2Vec3.neg_eq, b2Vec3.mk.injEq]
      refine ⟨?_, ?_, ?_⟩ <;> ring
    rw [lin, key]
    simp only [b2Vec3.add_eq, b2Vec3.neg_eq, add_neg_cancel]
  · intro hf hex hey hdet
    have h := solveVelocitySoft_error j data hne hf _ rfl
    rw [← hK] at h
    generalize (data.velocities j.m_indexB).v +
      b2CrossSV ((data.velocities j.m_indexB).w + j.m_invIB *
        (-j.m_mass.ez.z * ((data.velocities j.m_indexB).w - (data.velocities j.m_indexA).w +
          j.m_bias + j.m_gamma * j.m_impulse.z))) j.m_rB -
      (data.velocities j.m_indexA).v -
      b2CrossSV ((data.velocities j.m_indexA).w - j.m_invIA *
        (-j.m_mass.ez.z * ((data.velocities j.m_indexB).w - (data.velocities j.m_indexA).w +
          j.m_bias + j.m_gamma * j.m_impulse.z))) j.m_rA = c at h
    have hM : b2Mul22 j.m_mass c = b2Mul22 K.GetInverse22 c := by
      simp only [b2Mul22, hex, hey]
    have key := b2Mat33.mul_GetInverse22 K c hdet
    have lin : ∀ w : b2Vec, b2Mul22 K (-w) = -(b2Mul22 K w) := by
      intro w
      simp only [b2Mul22, b2Vec.neg_def, b2Vec.mk.injEq]
      refine ⟨?_, ?_⟩ <;> ring
    rw [hM, lin, key] at h
    simp only [b2Vec.add_def, b2Vec.neg_def, add_neg_cancel, b2Vec.mk.injEq] at h
    exact h
  · intro hf hM hdet
    rw [solveVelocityRigid_error j data hne hf, ← hK, hM]
    generalize velocityError j data = e
    obtain ⟨e1, e2, e3⟩ := e
    simp only [b2Mat33.GetInverse22, b2Mul33, if_pos hdet, b2Vec3.smul_eq, b2Vec3.add_eq,
      b2Vec3.neg_eq]
    constructor <;> field_simp <;> ring

/-- C30 for the rigid joint `weldPair`, whose `m_mass` is the symmetric inverse of its `K`, with
body A at rest and body B moving: after `SolveVelocityConstraints` the velocity error is
zero. -/
theorem C30_velocity_solve_cancels_error_witness :
    weldPair.m_indexA ≠ weldPair.m_indexB ∧
    velocityError weldPair (pairData (1 / 60) 1 true ⟨0, 0⟩ ⟨1, 0⟩) = ⟨1, 0, 0⟩ ∧
    velocityError weldPair (SolveVelocityConstraints weldPair
      (pairData (1 / 60) 1 true ⟨0, 0⟩ ⟨1, 0⟩)).2 = ⟨0, 0, 0⟩ := by
  refine ⟨by decide, ?_, ?_⟩
  · norm_num [velocityError, weldPair, pairData, b2CrossSV, b2Vec.sub_def, b2Vec.add_def]
  · exact (C30_velocity_solve_cancels_error weldPair (pairData (1 / 60) 1 true ⟨0, 0⟩ ⟨1, 0⟩)
      _ (by decide) rfl).1 (by norm_num [weldPair]) rfl
      (by norm_num [weldK, b2Dot3, b2Cross3, weldPair])

end b2WeldJoint

/-! ## Polygon collision: soundness of the separation search (C29) -/

/-- For a rigid `xf2`, the separation that `b2FindMaxSeparation` measures in the frame of
`poly2` is the separation in world coordinates. -/
theorem projectedSeparation_world (poly1 : b2PolygonShape) (xf1 xf2 : b2Transform) (i : Nat)
    (v2 : b2Vec) (hq : xf2.q.s * xf2.q.s + xf2.q.c * xf2.q.c = 1) :
    projectedSeparation poly1 xf1 xf2 i v2 =
      b2Dot (b2MulRot xf1.q (poly1.normals.getD i default))
        (b2Mul xf2 v2 - b2Mul xf1 (poly1.vertices.getD i default)) := by
  unfold projectedSeparation
  generalize b2MulRot xf1.q (poly1.normals.getD i default) = n
  generalize b2Mul xf1 (poly1.vertices.getD i default) = c
  obtain ⟨nx, ny⟩ := n
  obtain ⟨cx, cy⟩ := c
  obtain ⟨vx, vy⟩ := v2
  obtain ⟨⟨px, py⟩, ⟨s, co⟩⟩ := xf2
  simp only at hq
  simp only [b2Dot, b2MulT, b2MulTRot, b2Mul, b2MulRot, b2Vec.sub_def,
    b2Vec.add_def]
  have e : (co * nx + s * ny) * (vx - (co * (cx - px) + s * (cy - py))) +
      (-s * nx + co * ny) * (vy - (-s * (cx - px) + co * (cy - py))) =
      nx * (co * vx - s * vy + px - cx) + ny * (s * vx + co * vy + py - cy) +
        (1 - (s * s + co * co)) * (nx * (cx - px) + ny * (cy - py)) := by ring
  rw [e, hq]
  ring

/-- A combination of points that all lie at least `s` beyond a line, with weights that are not
negative, lies at least the sum of the weights times `s` beyond it. -/
theorem combination_separated (n c : b2Vec) (s : ℚ) : ∀ wv : List (ℚ × b2Vec),
    (∀ x ∈ wv, 0 ≤ x.1 ∧ s ≤ b2Dot n (x.2 - c)) →
    (wv.map Prod.fst).sum * s ≤
      b2Dot n (combination wv) - (wv.map Prod.fst).sum * b2Dot n c := by
  intro wv
  induction wv with
  | nil => intro _; simp [combination, b2Dot]
  | cons x wv ih =>
    intro h
    have hx := h x (List.mem_cons_self _ _)
    have ih' := ih (fun y hy => h y (List.mem_cons_of_mem _ hy))
    have e : combination (x :: wv) = x.1 * x.2 + combination wv := rfl
    rw [e]
    simp only [List.map_cons, List.sum_cons]
    have h1 : b2Dot n (x.1 * x.2 + combination wv) =
        x.1 * b2Dot n x.2 + b2Dot n (combination wv) := by
      simp only [b2Dot, b2Vec.smul_def, b2Vec.add_def]
      ring
    have h2 : b2Dot n (x.2 - c) = b2Dot n x.2 - b2Dot n c := by
      simp only [b2Dot, b2Vec.sub_def]
      ring
    rw [h1]
    have h3 : x.1 * s ≤ x.1 * (b2Dot n x.2 - b2Dot n c) := by
      rw [← h2]
      exact mul_le_mul_of_nonneg_left hx.2 hx.1
    nlinarith [h3, ih']

/-- C29. Soundness of the separation search over exact arithmetic, for a rigid `xf2` and a
`MAX_FLOAT` that is not negative: if `b2FindMaxSeparation(poly1, xf1, poly2, xf2)` returns a
value `s > 0` with the edge index `e`, then `e` is a face of `poly1` and every point `p` of the
convex hull of the world-space vertices of `poly2` lies at least `s` beyond that face,
`dot(n_e, p - v_e) ≥ s` in world coordinates, so that no such point lies in the world-space
region of `poly1`, the intersection of its face half-planes. -/
theorem C29_sat_soundness (MAX_FLOAT : ℚ) (poly1 : b2PolygonShape) (xf1 : b2Transform)
    (poly2 : b2PolygonShape) (xf2 : b2Transform) (hM : 0 ≤ MAX_FLOAT)
    (hq : xf2.q.s * xf2.q.s + xf2.q.c * xf2.q.c = 1)
    (hs : (b2FindMaxSeparation MAX_FLOAT poly1 xf1 poly2 xf2).2 > 0) :
    (b2FindMaxSeparation MAX_FLOAT poly1 xf1 poly2 xf2).1 < poly1.vertices.length ∧
    ∀ p, inConvexHull (poly2.vertices.map (b2Mul xf2)) p →
      (b2FindMaxSeparation MAX_FLOAT poly1 xf1 poly2 xf2).2 ≤
        b2Dot (b2MulRot xf1.q (poly1.normals.getD
            (b2FindMaxSeparation MAX_FLOAT poly1 xf1 poly2 xf2).1 default))
          (p - b2Mul xf1 (poly1.vertices.getD
            (b2FindMaxSeparation MAX_FLOAT poly1 xf1 poly2 xf2).1 default)) ∧
      ¬ poly1.inRegion xf1 p := by
  obtain ⟨-, -, h3⟩ := foldl_argmax_spec (faceSeparation MAX_FLOAT poly1 xf1 poly2 xf2)
    (-MAX_FLOAT) poly1.vertices.length
  have hdef : b2FindMaxSeparation MAX_FLOAT poly1 xf1 poly2 xf2 =
      (List.range poly1.vertices.length).foldl
        (fun best i => if faceSeparation MAX_FLOAT poly1 xf1 poly2 xf2 i > best.2
          then (i, faceSeparation MAX_FLOAT poly1 xf1 poly2 xf2 i) else best)
        (0, -MAX_FLOAT) := rfl
  rw [← hdef] at h3
  generalize b2FindMaxSeparation MAX_FLOAT poly1 xf1 poly2 xf2 = r at h3 hs ⊢
  rcases h3 with ⟨h3, -⟩ | ⟨h3, h4, -⟩
  · rw [h3] at hs
    simp only [gt_iff_lt] at hs
    linarith
  · refine ⟨h3, ?_⟩
    intro p hp
    obtain ⟨wv, hw, hsum, hp⟩ := hp
    have hvert : ∀ x ∈ wv, 0 ≤ x.1 ∧
        r.2 ≤ b2Dot (b2MulRot xf1.q (poly1.normals.getD r.1 default))
          (x.2 - b2Mul xf1 (poly1.vertices.getD r.1 default)) := by
      intro x hx
      obtain ⟨hx1, hx2⟩ := hw x hx
      refine ⟨hx1, ?_⟩
      obtain ⟨v2, hv2, e⟩ := List.mem_map.mp hx2
      rw [← e, ← projectedSeparation_world poly1 xf1 xf2 r.1 v2 hq, ← h4,
        faceSeparation_eq]
      exact (foldl_min_spec (projectedSeparation poly1 xf1 xf2 r.1) poly2.vertices
        MAX_FLOAT).2.1 v2 hv2
    have hc := combination_separated (b2MulRot xf1.q (poly1.normals.getD r.1 default))
      (b2Mul xf1 (poly1.vertices.getD r.1 default)) r.2 wv hvert
    rw [hsum, ← hp] at hc
    have hsub : b2Dot (b2MulRot xf1.q (poly1.normals.getD r.1 default))
        (p - b2Mul xf1 (poly1.vertices.getD r.1 default)) =
        b2Dot (b2MulRot xf1.q (poly1.normals.getD r.1 default)) p -
          b2Dot (b2MulRot xf1.q (poly1.normals.getD r.1 default))
            (b2Mul xf1 (poly1.vertices.getD r.1 default)) := by
      simp only [b2Dot, b2Vec.sub_def]
      ring
    have hge : r.2 ≤ b2Dot (b2MulRot xf1.q (poly1.normals.getD r.1 default))
        (p - b2Mul xf1 (poly1.vertices.getD r.1 default)) := by
      rw [hsub]
      linarith
    refine ⟨hge, ?_⟩
    intro hreg
    have := hreg r.1 h3
    simp only [gt_iff_lt] at hs
    linarith

/-- C29 for the two boxes of the far test: the search returns the separation 4, and the centre
`(5, 0)` of the second box, the midpoint of two of its corners, lies at least 4 beyond face 1
of the first box and outside its region. -/
theorem C29_sat_soundness_witness :
    (b2FindMaxSeparation FLT_MAX unitBox (xfAt 0 0) unitBox (xfAt 5 0)).2 > 0 ∧
    inConvexHull (unitBox.vertices.map (b2Mul (xfAt 5 0))) ⟨5, 0⟩ ∧
    ¬ unitBox.inRegion (xfAt 0 0) ⟨5, 0⟩ := by
  have hs : (b2FindMaxSeparation FLT_MAX unitBox (xfAt 0 0) unitBox (xfAt 5 0)).2 > 0 := by
    rw [separation_far_boxes]; norm_num
  have hp : inConvexHull (unitBox.vertices.map (b2Mul (xfAt 5 0))) ⟨5, 0⟩ := by
    refine ⟨[(1 / 2, ⟨9 / 2, -1 / 2⟩), (1 / 2, ⟨11 / 2, 1 / 2⟩)], ?_, ?_, ?_⟩
    · intro x hx
      simp only [List.mem_cons, List.mem_singleton, List.not_mem_nil, or_false] at hx
      rcases hx with hx | hx
      · subst hx
        refine ⟨by norm_num, ?_⟩
        refine List.mem_map.mpr ⟨⟨-1 / 2, -1 / 2⟩, by simp [unitBox], ?_⟩
        norm_num [xfAt, b2Mul, b2MulRot, b2Vec.add_def]
      · subst hx
        refine ⟨by norm_num, ?_⟩
        refine List.mem_map.mpr ⟨⟨1 / 2, 1 / 2⟩, by simp [unitBox], ?_⟩
        norm_num [xfAt, b2Mul, b2MulRot, b2Vec.add_def]
    · norm_num
    · norm_num [combination, b2Vec.add_def, b2Vec.smul_def]
  exact ⟨hs, hp, ((C29_sat_soundness FLT_MAX unitBox (xfAt 0 0) unitBox (xfAt 5 0)
    (by norm_num [FLT_MAX]) (by norm_num [xfAt]) hs).2 ⟨5, 0⟩ hp).2⟩

end box2d

namespace b2d11

/-! ## Block allocator: outstanding blocks never overlap (C28) -/

theorem sizeOfClass_bounds (j : Nat) (hj : j < 14) : 16 ≤ sizeOfClass j ∧ sizeOfClass j ≤ 640 :=
  ⟨classSize_ge j hj, classSize_le j hj⟩

theorem sizeOfClass_inj : ∀ j, j < 14 → ∀ j', j' < 14 →
    s_blockSizes.getD j 0 = s_blockSizes.getD j' 0 → j = j' := by decide

theorem chain_zero (next : Int → Int) (h : Int) : chain next 0 h = [] := rfl

theorem chain_succ (next : Int → Int) (n : Nat) (h : Int) (hh : h ≠ 0) :
    chain next (n + 1) h = h :: chain next n (next h) := by
  show (if h = 0 then [] else h :: chain next n (next h)) = _
  rw [if_neg hh]

/-- A list that starts at the null pointer is empty. -/
theorem chain_list_null (next : Int → Int) (l : List Int)
    (h : ∀ n, chain next n 0 = l.take n) : l = [] := by
  have := h l.length
  rw [chain_null, List.take_length] at this
  exact this.symm

/-- A list that starts at a block `h` consists of `h` and the list that starts at its link. -/
theorem chain_list_pop (next : Int → Int) (h : Int) (l : List Int) (hh : h ≠ 0)
    (hl : ∀ n, chain next n h = l.take n) :
    ∃ t, l = h :: t ∧ ∀ n, chain next n (next h) = t.take n := by
  cases l with
  | nil =>
    have := hl 1
    rw [chain_succ next 0 h hh] at this
    simp at this
  | cons x t =>
    have h1 := hl 1
    rw [chain_succ next 0 h hh, chain_zero] at h1
    simp only [List.take_succ_cons, List.take_zero, List.cons.injEq, and_true] at h1
    subst h1
    refine ⟨t, rfl, fun n => ?_⟩
    have h2 := hl (n + 1)
    rw [chain_succ next n h hh] at h2
    simp only [List.take_succ_cons, List.cons.injEq, true_and] at h2
    exact h2

/-- Linking a block that is not on a list in front of it gives the list with the block in
front. -/
theorem chain_list_push (next : Int → Int) (h p : Int) (l : List Int) (hp : p ≠ 0)
    (hnot : p ∉ l) (hl : ∀ n, chain next n h = l.take n) :
    ∀ n, chain (Function.update next p h) n p = (p :: l).take n := by
  intro n
  cases n with
  | zero => rfl
  | succ n =>
    rw [chain_succ _ n p hp, Function.update_same, List.take_succ_cons]
    congr 1
    rw [chain_update next p h n h (by rw [hl n]; exact fun hc => hnot (List.mem_of_mem_take hc))]
    exact hl n

/-- A write to a block that is not on a list leaves the list as it is. -/
theorem chain_list_update (next : Int → Int) (h p v : Int) (l : List Int) (hnot : p ∉ l)
    (hl : ∀ n, chain next n h = l.take n) :
    ∀ n, chain (Function.update next p v) n h = l.take n := by
  intro n
  rw [chain_update next p v n h (by rw [hl n]; exact fun hc => hnot (List.mem_of_mem_take hc))]
  exact hl n

namespace BlockAllocator

variable {σ : Type}

/-- A block lies in the region of its chunk. -/
theorem block_range (CS : Nat) (B : Int) (j k : Nat) (hj : j < 14)
    (hk : k < CS / sizeOfClass j) :
    B ≤ B + (sizeOfClass j : Int) * (k : Int) ∧
    B + (sizeOfClass j : Int) * (k : Int) + (sizeOfClass j : Int) ≤ B + (CS : Int) := by
  obtain ⟨h16, -⟩ := sizeOfClass_bounds j hj
  have hpos : 0 < sizeOfClass j := by omega
  have h1 : (k + 1) * sizeOfClass j ≤ CS := (Nat.le_div_iff_mul_le hpos).mp hk
  have h2 : (((k + 1) * sizeOfClass j : Nat) : Int) ≤ (CS : Int) := Int.ofNat_le.mpr h1
  push_cast at h2
  have h3 : (0 : Int) ≤ (sizeOfClass j : Int) * (k : Int) := by positivity
  constructor
  · linarith
  · nlinarith

/-- The blocks of a class in a state with disjoint chunks lie above the null pointer and, for
any chunk in use other than their own, outside its region. -/
theorem IsBlock.pos {H : Host σ} {a : BlockAllocator σ} {j : Nat} {p : Int}
    (h : IsBlock H a j p) (hj : j < 14) (hd : ChunksDisjoint H a) : 0 < p := by
  obtain ⟨i, k, c, hi, hc, -, hk, rfl⟩ := h
  have := (hd i c hi hc).1
  have := (block_range H.CHUNK_SIZE c.blocks j k hj hk).1
  omega

/-- In a state with disjoint chunks an address is a block of at most one class. -/
theorem IsBlock.class_unique {H : Host σ} {a : BlockAllocator σ} {j j' : Nat} {p : Int}
    (h : IsBlock H a j p) (h' : IsBlock H a j' p) (hj : j < 14) (hj' : j' < 14)
    (hd : ChunksDisjoint H a) : j = j' := by
  obtain ⟨i, k, c, hi, hc, hs, hk, e⟩ := h
  obtain ⟨i', k', c', hi', hc', hs', hk', e'⟩ := h'
  obtain ⟨r1, r2⟩ := block_range H.CHUNK_SIZE c.blocks j k hj hk
  obtain ⟨r1', r2'⟩ := block_range H.CHUNK_SIZE c'.blocks j' k' hj' hk'
  obtain ⟨b16, -⟩ := sizeOfClass_bounds j hj
  obtain ⟨b16', -⟩ := sizeOfClass_bounds j' hj'
  rw [← e] at r1 r2
  rw [← e'] at r1' r2'
  have hii : i = i' := by
    rcases Nat.lt_trichotomy i i' with hlt | heq | hgt
    · rcases (hd i' c' hi' hc').2 i c hlt hc with hh | hh <;> omega
    · exact heq
    · rcases (hd i c hi hc).2 i' c' hgt hc' with hh | hh <;> omega
  subst hii
  rw [hc] at hc'
  have hcc : c = c' := Option.some.inj hc'
  subst hcc
  exact sizeOfClass_inj j hj j' hj' (hs.symm.trans hs')

/-- Two blocks at different addresses occupy disjoint address ranges. -/
theorem IsBlock.disjoint {H : Host σ} {a : BlockAllocator σ} {j j' : Nat} {p p' : Int}
    (h : IsBlock H a j p) (h' : IsBlock H a j' p') (hj : j < 14) (hj' : j' < 14)
    (hd : ChunksDisjoint H a) (hne : p ≠ p') :
    p + (sizeOfClass j : Int) ≤ p' ∨ p' + (sizeOfClass j' : Int) ≤ p := by
  obtain ⟨i, k, c, hi, hc, hs, hk, e⟩ := h
  obtain ⟨i', k', c', hi', hc', hs', hk', e'⟩ := h'
  obtain ⟨r1, r2⟩ := block_range H.CHUNK_SIZE c.blocks j k hj hk
  obtain ⟨r1', r2'⟩ := block_range H.CHUNK_SIZE c'.blocks j' k' hj' hk'
  rw [← e] at r1 r2
  rw [← e'] at r1' r2'
  rcases Nat.lt_trichotomy i i' with hlt | heq | hgt
  · rcases (hd i' c' hi' hc').2 i c hlt hc with hh | hh
    · right; omega
    · left; omega
  · subst heq
    rw [hc] at hc'
    have hcc : c = c' := Option.some.inj hc'
    subst hcc
    have hjj : j = j' := sizeOfClass_inj j hj j' hj' (hs.symm.trans hs')
    subst hjj
    have hkk : k ≠ k' := fun hkk => hne (by rw [e, e', hkk])
    rcases Nat.lt_or_gt_of_ne hkk with hlt | hgt
    · left
      have : (sizeOfClass j : Int) * ((k : Int) + 1) ≤ (sizeOfClass j : Int) * (k' : Int) :=
        mul_le_mul_of_nonneg_left (by exact_mod_cast hlt) (by positivity)
      rw [e, e']
      linarith
    · right
      have : (sizeOfClass j : Int) * ((k' : Int) + 1) ≤ (sizeOfClass j : Int) * (k : Int) :=
        mul_le_mul_of_nonneg_left (by exact_mod_cast hgt) (by positivity)
      rw [e, e']
      linarith
  · rcases (hd i c hi hc).2 i' c' hgt hc' with hh | hh
    · left; omega
    · right; omega

/-- `Free` of an outstanding block keeps the invariant of the pool. -/
theorem PoolInv_free (H : Host σ) (a : BlockAllocator σ) (out : List (Int × Nat))
    (p size : Int) (h1 : 1 ≤ size) (h2 : size ≤ 640) (hmem : (p, classIndex size) ∈ out)
    (hinv : PoolInv H (a, out)) :
    ∃ a', Free H a p size = some a' ∧ PoolInv H (a', out.erase (p, classIndex size)) := by
  have hj : classIndex size < 14 := classIndex_lt size h2
  rw [Free_pooled H a p size h1 h2]
  refine ⟨_, rfl, ?_⟩
  generalize classIndex size = j at hj hmem ⊢
  obtain ⟨hca, hd, hnd, hout, hfl⟩ := hinv
  have hb : IsBlock H a j p := (hout _ hmem).2
  have hp0 : p ≠ 0 := ne_of_gt (hb.pos hj hd)
  refine ⟨hca, hd, ?_, ?_, ?_⟩
  · exact List.Nodup.sublist ((List.erase_sublist _ _).map _) hnd
  · intro x hx
    exact hout x (List.mem_of_mem_erase hx)
  · intro j' hj'
    obtain ⟨l, hl, hlnd, hlb, hlo⟩ := hfl j' hj'
    by_cases hjj : j' = j
    · subst hjj
      refine ⟨p :: l, ?_, List.nodup_cons.mpr ⟨hlo _ hmem, hlnd⟩, ?_, ?_⟩
      · intro n
        show chain (Function.update a.next p (a.m_freeLists j'))
          n (Function.update a.m_freeLists j' p j') = _
        rw [Function.update_same]
        exact chain_list_push a.next _ p l hp0 (hlo _ hmem) hl n
      · intro q hq
        rcases List.mem_cons.mp hq with e | hq
        · rw [e]; exact hb
        · exact hlb q hq
      · intro x hx hq
        have hx' := List.mem_of_mem_erase hx
        rcases List.mem_cons.mp hq with e | hq
        · have hxe : x = (p, j') := List.inj_on_of_nodup_map hnd hx' hmem e
          have := ((List.Nodup.of_map _ hnd).mem_erase_iff).mp hx
          exact this.1 hxe
        · exact hlo x hx' hq
    · refine ⟨l, ?_, hlnd, hlb, fun x hx => hlo x (List.mem_of_mem_erase hx)⟩
      intro n
      show chain (Function.update a.next p (a.m_freeLists j))
        n (Function.update a.m_freeLists j p j') = _
      rw [Function.update_noteq hjj]
      exact chain_list_update a.next _ p _ l (hlo _ hmem) hl n

/-- `Allocate` from a free list that is not empty keeps the invariant of the pool. -/
theorem PoolInv_hit (H : Host σ) (a : BlockAllocator σ) (out : List (Int × Nat))
    (size : Int) (h1 : 1 ≤ size) (h2 : size ≤ 640)
    (hne : a.m_freeLists (classIndex size) ≠ 0) (hinv : PoolInv H (a, out)) :
    ∃ p a', Allocate H a size = some (p, a') ∧
      PoolInv H (a', (p, classIndex size) :: out) := by
  have hj : classIndex size < 14 := classIndex_lt size h2
  rw [Allocate_hit H a size h1 h2 hne]
  refine ⟨_, _, rfl, ?_⟩
  generalize classIndex size = j at hj hne ⊢
  obtain ⟨hca, hd, hnd, hout, hfl⟩ := hinv
  obtain ⟨l, hl, hlnd, hlb, hlo⟩ := hfl j hj
  obtain ⟨t, rfl, ht⟩ := chain_list_pop a.next _ l hne hl
  have hxb : IsBlock H a j (a.m_freeLists j) := hlb _ (List.mem_cons_self _ _)
  refine ⟨hca, hd, ?_, ?_, ?_⟩
  · show (a.m_freeLists j :: out.map Prod.fst).Nodup
    refine List.nodup_cons.mpr ⟨?_, hnd⟩
    intro hc
    obtain ⟨x, hx, e⟩ := List.mem_map.mp hc
    exact hlo x hx (by rw [e]; exact List.mem_cons_self _ _)
  · intro x hx
    rcases List.mem_cons.mp hx with e | hx
    · rw [e]; exact ⟨hj, hxb⟩
    · exact hout x hx
  · intro j' hj'
    by_cases hjj : j' = j
    · subst hjj
      refine ⟨t, ?_, (List.nodup_cons.mp hlnd).2, fun q hq => hlb q (List.mem_cons_of_mem _ hq),
        ?_⟩
      · intro n
        show chain a.next n (Function.update a.m_freeLists j'
          (a.next (a.m_freeLists j')) j') = _
        rw [Function.update_same]
        exact ht n
      · intro x hx hq
        rcases List.mem_cons.mp hx with e | hx
        · rw [e] at hq
          exact (List.nodup_cons.mp hlnd).1 hq
        · exact hlo x hx (List.mem_cons_of_mem _ hq)
    · obtain ⟨l', hl', hlnd', hlb', hlo'⟩ := hfl j' hj'
      refine ⟨l', ?_, hlnd', hlb', ?_⟩
      · intro n
        show chain a.next n (Function.update a.m_freeLists j
          (a.next (a.m_freeLists j)) j') = _
        rw [Function.update_noteq hjj]
        exact hl' n
      · intro x hx hq
        rcases List.mem_cons.mp hx with e | hx
        · rw [e] at hq
          exact hjj (IsBlock.class_unique (hlb' _ hq) hxb hj' hj hd)
        · exact hlo' x hx hq

/-- A state that differs from a state with the invariant of the pool by one more chunk, carved
for class `j` with its first block handed out and the others on the free list of the class,
has the invariant as well when its chunks do not overlap. -/
theorem PoolInv_new_chunk (H : Host σ) (a a' : BlockAllocator σ) (out : List (Int × Nat))
    (j : Nat) (B : Int) (hj : j < 14) (hsize : 640 ≤ H.CHUNK_SIZE)
    (hinv : PoolInv H (a, out))
    (hcount : a'.m_chunkCount = a.m_chunkCount + 1)
    (hnew : a'.chunks[a.m_chunkCount]? = some ⟨sizeOfClass j, B⟩)
    (hold : ∀ i < a.m_chunkCount, a'.chunks[i]? = a.chunks[i]?)
    (hnext : a'.next = carvedMemory a.next B (sizeOfClass j) (H.CHUNK_SIZE / sizeOfClass j))
    (hlists : a'.m_freeLists = Function.update a.m_freeLists j
      (carvedMemory a.next B (sizeOfClass j) (H.CHUNK_SIZE / sizeOfClass j) B))
    (hca' : ChunkArrayInv a') (hd' : ChunksDisjoint H a') :
    PoolInv H (a', (B, j) :: out) := by
  obtain ⟨hca, hd, hnd, hout, hfl⟩ := hinv
  obtain ⟨b16, b640⟩ := sizeOfClass_bounds j hj
  have hbpos : 0 < sizeOfClass j := by omega
  have hN1 : 1 ≤ H.CHUNK_SIZE / sizeOfClass j := Nat.div_pos (by omega) hbpos
  have hlt : a.m_chunkCount < a'.m_chunkCount := by omega
  obtain ⟨hB, hdis⟩ := hd' a.m_chunkCount _ hlt hnew
  have hmono : ∀ j' q, IsBlock H a j' q → IsBlock H a' j' q := by
    intro j' q ⟨i, k, c, hi, hc, hs, hk, e⟩
    exact ⟨i, k, c, by omega, by rw [hold i hi]; exact hc, hs, hk, e⟩
  have hout_new : ∀ j' q, j' < 14 → IsBlock H a j' q →
      ∀ i : Nat, i < H.CHUNK_SIZE / sizeOfClass j → q ≠ B + (sizeOfClass j : Int) * (i : Int) := by
    intro j' q hj' ⟨i', k, c, hi', hc, hs, hk, e⟩ i hi hq
    obtain ⟨r1, r2⟩ := block_range H.CHUNK_SIZE c.blocks j' k hj' hk
    obtain ⟨r1', r2'⟩ := block_range H.CHUNK_SIZE B j i hj hi
    obtain ⟨c16, -⟩ := sizeOfClass_bounds j' hj'
    rw [← e] at r1 r2
    rw [← hq] at r1' r2'
    have hc' : a'.chunks[i']? = some c := by rw [hold i' hi']; exact hc
    rcases hdis i' c hi' hc' with hh | hh
    · simp only at hh; omega
    · simp only at hh; omega
  have hBblock : IsBlock H a' j B :=
    ⟨a.m_chunkCount, 0, _, hlt, hnew, rfl, hN1, by simp⟩
  refine ⟨hca', hd', ?_, ?_, ?_⟩
  · show (B :: out.map Prod.fst).Nodup
    refine List.nodup_cons.mpr ⟨?_, hnd⟩
    intro hc
    obtain ⟨x, hx, e⟩ := List.mem_map.mp hc
    exact hout_new x.2 x.1 (hout x hx).1 (hout x hx).2 0 hN1 (by rw [e]; simp)
  · intro x hx
    rcases List.mem_cons.mp hx with e | hx
    · rw [e]; exact ⟨hj, hBblock⟩
    · exact ⟨(hout x hx).1, hmono _ _ (hout x hx).2⟩
  · intro j' hj'
    by_cases hjj : j' = j
    · subst hjj
      refine ⟨(List.range' 1 (H.CHUNK_SIZE / sizeOfClass j' - 1)).map
        (fun k : Nat => B + (sizeOfClass j' : Int) * k), ?_, ?_, ?_, ?_⟩
      · intro n
        show chain a'.next n (a'.m_freeLists j') = _
        rw [hnext, hlists, Function.update_same]
        have h0 := carvedMemory_block a.next B (sizeOfClass j')
          (H.CHUNK_SIZE / sizeOfClass j') hbpos 0 (by omega)
        simp only [Nat.cast_zero, mul_zero, add_zero, Nat.zero_add] at h0
        rw [h0]
        by_cases hN2 : 1 < H.CHUNK_SIZE / sizeOfClass j'
        · rw [if_pos hN2]
          have hc := carvedMemory_chain a.next B (sizeOfClass j')
            (H.CHUNK_SIZE / sizeOfClass j') hbpos hB
            (H.CHUNK_SIZE / sizeOfClass j' - 2) 1 n (by omega)
          rw [hc]
          have : H.CHUNK_SIZE / sizeOfClass j' - 2 + 1 = H.CHUNK_SIZE / sizeOfClass j' - 1 := by
            omega
          rw [this]
        · rw [if_neg hN2, chain_null]
          have : H.CHUNK_SIZE / sizeOfClass j' - 1 = 0 := by omega
          rw [this]
          simp
      · refine List.Nodup.map ?_ (List.nodup_range' _ _)
        intro k k' hkk
        simp only at hkk
        have h1 : (sizeOfClass j' : Int) * (k : Int) = (sizeOfClass j' : Int) * (k' : Int) := by
          linarith
        have h2 : (sizeOfClass j' : Int) ≠ 0 := by
          have : (0 : Int) < (sizeOfClass j' : Int) := by exact_mod_cast hbpos
          exact ne_of_gt this
        exact_mod_cast mul_left_cancel₀ h2 h1
      · intro q hq
        obtain ⟨k, hk, e⟩ := List.mem_map.mp hq
        have hk' := List.mem_range'_1.mp hk
        exact ⟨a.m_chunkCount, k, _, hlt, hnew, rfl, by omega, e.symm⟩
      · intro x hx hq
        obtain ⟨k, hk, e⟩ := List.mem_map.mp hq
        have hk' := List.mem_range'_1.mp hk
        rcases List.mem_cons.mp hx with ex | hx
        · rw [ex] at e
          simp only at e
          have h1 : (0 : Int) < (sizeOfClass j' : Int) * (k : Int) := by
            apply mul_pos
            · exact_mod_cast hbpos
            · exact_mod_cast hk'.1
          linarith
        · exact hout_new x.2 x.1 (hout x hx).1 (hout x hx).2 k (by omega) e.symm
    · obtain ⟨l, hl, hlnd, hlb, hlo⟩ := hfl j' hj'
      refine ⟨l, ?_, hlnd, fun q hq => hmono _ _ (hlb q hq), ?_⟩
      · intro n
        show chain a'.next n (a'.m_freeLists j') = _
        rw [hnext, hlists, Function.update_noteq hjj, ← hl n]
        refine chain_congr a.next _ n _ (fun x hx => ?_)
        have hx' : x ∈ l := by
          have : x ∈ l.take n := by rw [← hl n]; exact hx
          exact List.mem_of_mem_take this
        exact carvedMemory_other a.next B (sizeOfClass j) (H.CHUNK_SIZE / sizeOfClass j) hN1 x
          (hout_new j' x hj' (hlb x hx'))
      · intro x hx hq
        rcases List.mem_cons.mp hx with ex | hx
        · rw [ex] at hq
          exact hout_new j' B hj' (hlb B hq) 0 hN1 (by simp)
        · exact hlo x hx hq

/-- `Allocate` that misses the pool keeps the invariant of the pool when the chunk the
general-purpose allocator returns does not overlap the chunks in use. -/
theorem PoolInv_miss (H : Host σ) (a a' : BlockAllocator σ) (out : List (Int × Nat))
    (size p : Int) (hinc : 0 < H.CHUNK_ARRAY_INCREMENT) (hsize : 640 ≤ H.CHUNK_SIZE)
    (h1 : 1 ≤ size) (h2 : size ≤ 640) (hempty : a.m_freeLists (classIndex size) = 0)
    (hinv : PoolInv H (a, out)) (hA : Allocate H a size = some (p, a'))
    (hd' : ChunksDisjoint H a') :
    PoolInv H (a', (p, classIndex size) :: out) := by
  have hj : classIndex size < 14 := classIndex_lt size h2
  obtain ⟨g1, g2, g3, g4, g5⟩ := growChunks_keeps H a hinv.1.2 hinv.1.1 hinc
  obtain ⟨-, q2, q3⟩ := growChunks_inv H a hinc hinv.1
  rw [Allocate_miss H a size h1 h2 hempty, allocateChunk_some] at hA
  simp only [Option.some.injEq, Prod.mk.injEq] at hA
  obtain ⟨hp, ha'⟩ := hA
  generalize classIndex size = j at hj hp ha' ⊢
  subst hp
  refine PoolInv_new_chunk H a a' out j _ hj hsize hinv ?_ ?_ ?_ ?_ ?_ ?_ hd'
  · rw [← ha']
    show (growChunks H a).m_chunkCount + 1 = _
    rw [g1]
  · rw [← ha']
    show ((growChunks H a).chunks.set (growChunks H a).m_chunkCount _)[a.m_chunkCount]? = _
    rw [g1, List.getElem?_set_self g4]
    rfl
  · intro i hi
    rw [← ha']
    show ((growChunks H a).chunks.set (growChunks H a).m_chunkCount _)[i]? = _
    rw [g1, List.getElem?_set_ne (by omega), g5 i hi]
  · rw [← ha']
    show Function.update (linkBlocks (growChunks H a).next _ _ _) _ 0 = _
    rw [g3]
    rfl
  · rw [← ha']
    show Function.update (growChunks H a).m_freeLists j _ = _
    rw [g2, g3]
    rfl
  · rw [← ha']
    refine ⟨?_, ?_⟩
    · show (growChunks H a).m_chunkCount + 1 ≤ (growChunks H a).m_chunkSpace
      omega
    · show ((growChunks H a).chunks.set _ _).length = (growChunks H a).m_chunkSpace
      rw [List.length_set]
      exact q3

/-- A call of a valid sequence keeps the invariant of the pool when the chunks of the state
after it do not overlap. -/
theorem PoolInv_step (H : Host σ) (st st' : BlockAllocator σ × List (Int × Nat)) (op : Op)
    (hinc : 0 < H.CHUNK_ARRAY_INCREMENT) (hsize : 640 ≤ H.CHUNK_SIZE)
    (hinv : PoolInv H st) (hs : step H st op = some st') (hd' : ChunksDisjoint H st'.1) :
    PoolInv H st' := by
  obtain ⟨a, out⟩ := st
  cases op with
  | allocate size =>
    unfold step at hs
    by_cases hc : 1 ≤ size ∧ size ≤ 640
    · simp only [if_pos hc, Option.map_eq_some'] at hs
      obtain ⟨r, hr, e⟩ := hs
      subst e
      by_cases hf : a.m_freeLists (classIndex size) = 0
      · exact PoolInv_miss H a r.2 out size r.1 hinc hsize hc.1 hc.2 hf hinv hr hd'
      · obtain ⟨p, a', e, hi⟩ := PoolInv_hit H a out size hc.1 hc.2 hf hinv
        rw [hr] at e
        have e' : r = (p, a') := Option.some.inj e
        subst e'
        exact hi
    · simp only [if_neg hc] at hs
      cases hs
  | free p size =>
    unfold step at hs
    by_cases hc : 1 ≤ size ∧ size ≤ 640 ∧ (p, classIndex size) ∈ out
    · simp only [if_pos hc, Option.map_eq_some'] at hs
      obtain ⟨r, hr, e⟩ := hs
      subst e
      obtain ⟨a', e, hi⟩ := PoolInv_free H a out p size hc.1 hc.2.1 hc.2.2 hinv
      rw [hr] at e
      have e' : r = a' := Option.some.inj e
      subst e'
      exact hi
    · simp only [if_neg hc] at hs
      cases hs

theorem runOps_cons (H : Host σ) (st : BlockAllocator σ × List (Int × Nat)) (op : Op)
    (ops : List Op) :
    runOps H st (op :: ops) = (step H st op).bind fun st1 => runOps H st1 ops := by
  unfold runOps
  rw [List.foldlM_cons]
  rfl

/-- A valid sequence of calls keeps the invariant of the pool when the chunks of every state
it passes through do not overlap. -/
theorem PoolInv_run (H : Host σ) (hinc : 0 < H.CHUNK_ARRAY_INCREMENT)
    (hsize : 640 ≤ H.CHUNK_SIZE) (ops : List Op) :
    ∀ st st' : BlockAllocator σ × List (Int × Nat), PoolInv H st →
      (∀ k st1, runOps H st (ops.take k) = some st1 → ChunksDisjoint H st1.1) →
      runOps H st ops = some st' → PoolInv H st' := by
  induction ops with
  | nil =>
    intro st st' hinv _ hrun
    have : st = st' := Option.some.inj hrun
    rw [← this]
    exact hinv
  | cons op ops ih =>
    intro st st' hinv hfresh hrun
    rw [runOps_cons] at hrun
    cases hs : step H st op with
    | none =>
      rw [hs] at hrun
      cases hrun
    | some st1 =>
      rw [hs] at hrun
      have hd1 : ChunksDisjoint H st1.1 := by
        apply hfresh 1 st1
        show runOps H st (op :: List.take 0 ops) = some st1
        rw [List.take_zero, runOps_cons, hs]
        rfl
      have hinv1 := PoolInv_step H st st1 op hinc hsize hinv hs hd1
      refine ih st1 st' hinv1 ?_ hrun
      intro k st2 hk
      apply hfresh (k + 1) st2
      show runOps H st (op :: List.take k ops) = some st2
      rw [runOps_cons, hs]
      exact hk

/-- The state the constructor leaves, with no block outstanding, has the invariant of the
pool. -/
theorem PoolInv_new (H : Host σ) (next : Int → Int) (sys : σ) :
    PoolInv H (new H next sys, []) := by
  refine ⟨⟨Nat.zero_le _, List.length_replicate _ _⟩, ?_, List.nodup_nil, ?_, ?_⟩
  · intro i c hi
    exact absurd hi (Nat.not_lt_zero _)
  · intro x hx
    cases hx
  · intro j _
    refine ⟨[], fun n => ?_, List.nodup_nil, ?_, ?_⟩
    · show chain next n 0 = _
      rw [chain_null]
      simp
    · intro p hp
      cases hp
    · intro x hx
      cases hx

/-- C28. Outstanding blocks never overlap. For a sequence of `Allocate` and `Free` calls with
sizes in `[1, 640]`, started after the constructor, in which each `Free` releases an
outstanding block with a size of the class of its `Allocate`, and during which the chunks the
general-purpose allocator hands out are above the null pointer and do not overlap: the
outstanding blocks occupy pairwise disjoint address ranges of their class sizes; each of them
is a block of a chunk of its class size, at a multiple of the class size; none of them is on a
free list; and the free list of every class `j` is a null-terminated list, without repetition,
of blocks of chunks whose block size is `s_blockSizes[j]`. -/
theorem C28_outstanding_blocks_disjoint (H : Host σ) (next : Int → Int) (sys : σ)
    (ops : List Op) (a : BlockAllocator σ) (out : List (Int × Nat))
    (hinc : 0 < H.CHUNK_ARRAY_INCREMENT) (hsize : 640 ≤ H.CHUNK_SIZE)
    (hfresh : ∀ k st, runOps H (new H next sys, []) (ops.take k) = some st →
      ChunksDisjoint H st.1)
    (hrun : runOps H (new H next sys, []) ops = some (a, out)) :
    out.Pairwise (fun x y =>
      x.1 + (sizeOfClass x.2 : Int) ≤ y.1 ∨ y.1 + (sizeOfClass y.2 : Int) ≤ x.1) ∧
    (∀ x ∈ out, x.2 < BLOCK_SIZES ∧ IsBlock H a x.2 x.1) ∧
    (∀ j, j < BLOCK_SIZES → ∃ l : List Int,
      (∀ n, a.freeList j n = l.take n) ∧ l.Nodup ∧ (∀ p ∈ l, IsBlock H a j p) ∧
      ∀ x ∈ out, x.1 ∉ l) := by
  obtain ⟨-, hd, hnd, hout, hfl⟩ := PoolInv_run H hinc hsize ops _ _ (PoolInv_new H next sys)
    hfresh hrun
  refine ⟨?_, hout, hfl⟩
  have hne : out.Pairwise (fun x y => x.1 ≠ y.1) := (List.pairwise_map).mp hnd
  refine List.Pairwise.imp_of_mem ?_ hne
  intro x y hx hy hxy
  exact IsBlock.disjoint (hout x hx).2 (hout y hy).2 (hout x hx).1 (hout y hy).1 hd hxy

theorem busyChunkState_disjoint : ChunksDisjoint bumpHost busyChunkState := by
  intro i c hi hc
  have hi0 : i = 0 := by
    have : i < 1 := hi
    omega
  subst hi0
  have hc' : c = ⟨16, 8192⟩ := by
    have h0 : busyChunkState.chunks[0]? = some ⟨16, 8192⟩ := by
      unfold busyChunkState
      exact List.getElem?_set_self (by simp)
    rw [h0] at hc
    exact (Option.some.inj hc).symm
  subst hc'
  exact ⟨by decide, fun i' c' hi' _ => absurd hi' (Nat.not_lt_zero _)⟩

theorem runOps_one_block :
    runOps bumpHost (new bumpHost (fun _ => 0) 6144, []) [.allocate 16] =
      some (busyChunkState, [(8192, 0)]) := by
  rw [runOps_cons]
  unfold step
  simp only [busyChunkState_reached, classIndex_16]
  rfl

theorem runOps_two_blocks :
    runOps bumpHost (new bumpHost (fun _ => 0) 6144, []) [.allocate 16, .allocate 16] =
      some (twoBlocksState, [(8208, 0), (8192, 0)]) := by
  have hne : busyChunkState.m_freeLists (classIndex 16) ≠ 0 := by
    rw [classIndex_16]
    decide
  have hhit := Allocate_hit bumpHost busyChunkState 16 (by decide) (by decide) hne
  rw [classIndex_16] at hhit
  rw [runOps_cons]
  unfold step
  simp only [busyChunkState_reached, classIndex_16]
  have e : (if (1 : Int) ≤ 16 ∧ (16 : Int) ≤ 640 then
      Option.map (fun r : Int × BlockAllocator Nat => (r.2, [(r.1, 0)]))
        (some (8192, busyChunkState)) else none) = some (busyChunkState, [(8192, 0)]) := rfl
  rw [e, Option.some_bind, runOps_cons]
  unfold step
  simp only [hhit, classIndex_16]
  rfl

/-- C28 for the host `bumpHost` and the sequence `Allocate(16)`, `Allocate(16)` after the
constructor: the two outstanding blocks are 8192 and 8208, blocks 0 and 1 of the chunk at 8192,
and their ranges of 16 bytes are disjoint. -/
theorem C28_outstanding_blocks_disjoint_witness :
    0 < bumpHost.CHUNK_ARRAY_INCREMENT ∧ 640 ≤ bumpHost.CHUNK_SIZE ∧
    runOps bumpHost (new bumpHost (fun _ => 0) 6144, []) [.allocate 16, .allocate 16] =
      some (twoBlocksState, [(8208, 0), (8192, 0)]) ∧
    ((8208 : Int) + (sizeOfClass 0 : Int) ≤ 8192 ∨ (8192 : Int) + (sizeOfClass 0 : Int) ≤ 8208) ∧
    IsBlock bumpHost twoBlocksState 0 8208 := by
  have hfresh : ∀ k st, runOps bumpHost (new bumpHost (fun _ => 0) 6144, [])
      (([.allocate 16, .allocate 16] : List Op).take k) = some st →
      ChunksDisjoint bumpHost st.1 := by
    intro k st hk
    rcases k with _ | _ | k
    · have e : st = (new bumpHost (fun _ => 0) 6144, []) := (Option.some.inj hk).symm
      rw [e]
      exact (PoolInv_new bumpHost _ _).2.1
    · rw [List.take_succ_cons, List.take_zero, runOps_one_block] at hk
      rw [← Option.some.inj hk]
      exact busyChunkState_disjoint
    · rw [List.take_succ_cons, List.take_succ_cons, List.take_nil, runOps_two_blocks] at hk
      rw [← Option.some.inj hk]
      exact busyChunkState_disjoint
  have h := C28_outstanding_blocks_disjoint bumpHost (fun _ => 0) 6144
    [.allocate 16, .allocate 16] twoBlocksState [(8208, 0), (8192, 0)] (by decide) (by decide)
    hfresh runOps_two_blocks
  refine ⟨by decide, by decide, runOps_two_blocks, ?_, ?_⟩
  · exact (List.pairwise_cons.mp h.1).1 (8192, 0) (List.mem_singleton.mpr rfl)
  · exact (h.2.1 (8208, 0) (List.mem_cons_self _ _)).2

end BlockAllocator

end b2d11

namespace box2d

/-! ## Distance proxy: the support vertex (C34) -/

namespace b2DistanceProxy

/-- C34. For every proxy with at least one vertex and every direction `d`, the scan of
`GetSupportVertex`, which visits position 0 again, ends on the same position and the same value
as the scan of `GetSupport`, which starts at position 1; so `GetSupportVertex(d)` returns the
vertex `GetVertex(GetSupport(d))`, and that vertex is the first maximiser: its dot product
with `d` is at least that of every vertex and strictly greater than that of every vertex
before it. -/
theorem C34_GetSupportVertex_is_GetSupport (proxy : b2DistanceProxy) (d : b2Vec)
    (h : 1 ≤ proxy.GetVertexCount) :
    supportVertexScan proxy d = supportScan proxy d ∧
    proxy.GetSupportVertex d = proxy.GetVertex (proxy.GetSupport d) ∧
    (∀ k < proxy.GetVertexCount,
      b2Dot (proxy.GetVertex k) d ≤ b2Dot (proxy.GetSupportVertex d) d) ∧
    ∀ k < proxy.GetSupport d,
      b2Dot (proxy.GetVertex k) d < b2Dot (proxy.GetSupportVertex d) d := by
  have hscan : supportVertexScan proxy d = supportScan proxy d := by
    unfold supportVertexScan supportScan
    unfold GetVertexCount at h
    obtain ⟨m, hm⟩ : ∃ m, proxy.m_vertices.length = m + 1 := ⟨proxy.m_vertices.length - 1, by omega⟩
    rw [hm, List.range_eq_range', List.range'_succ, List.foldl_cons, if_neg (lt_irrefl _)]
    rfl
  have hv : proxy.GetSupportVertex d = proxy.GetVertex (proxy.GetSupport d) := by
    unfold GetSupportVertex GetSupport GetVertex
    rw [hscan]
  obtain ⟨-, h2, h3, h4⟩ := foldl_argmax_from_first
    (fun i => b2Dot (proxy.m_vertices.getD i default) d) (proxy.m_vertices.length - 1)
  have hlen : proxy.m_vertices.length - 1 + 1 = proxy.m_vertices.length := by
    unfold GetVertexCount at h; omega
  rw [hlen] at h3
  refine ⟨hscan, hv, ?_, ?_⟩
  · intro k hk
    rw [hv]
    exact le_of_le_of_eq (h3 k hk) h2.symm
  · intro k hk
    rw [hv]
    exact lt_of_lt_of_eq (h4 k hk) h2.symm

/-- C34 for the four corners of the unit box and the direction `(1, 0)`, which two corners
maximise: `GetSupportVertex` returns the corner at position 1, the first of them. -/
theorem C34_GetSupportVertex_is_GetSupport_witness :
    1 ≤ (⟨unitBox.vertices, 0⟩ : b2DistanceProxy).GetVertexCount ∧
    (⟨unitBox.vertices, 0⟩ : b2DistanceProxy).GetSupportVertex ⟨1, 0⟩ =
      (⟨unitBox.vertices, 0⟩ : b2DistanceProxy).GetVertex
        ((⟨unitBox.vertices, 0⟩ : b2DistanceProxy).GetSupport ⟨1, 0⟩) ∧
    (⟨unitBox.vertices, 0⟩ : b2DistanceProxy).GetSupportVertex ⟨1, 0⟩ =
      (⟨unitBox.vertices, 0⟩ : b2DistanceProxy).GetVertex 1 :=
  ⟨by decide, (C34_GetSupportVertex_is_GetSupport ⟨unitBox.vertices, 0⟩ ⟨1, 0⟩ (by decide)).2.1,
    by
      simp only [GetSupportVertex, supportVertexScan, GetVertex, unitBox, List.length_cons,
        List.length_nil]
      norm_num [List.range, List.range.loop, b2Dot]⟩

end b2DistanceProxy

/-! ## Polygon collision: index safety (C35) -/

/-- The wrap-around successor of an index into a non-empty array is an index into it. -/
theorem nextIndex_lt (i n : Nat) (h : 0 < n) : nextIndex i n < n := by
  unfold nextIndex
  split
  · assumption
  · exact h

/-- The face `b2FindIncidentEdge` selects is a face of `poly2` when `poly2` has a normal. -/
theorem incidentFace_lt (MAX_FLOAT : ℚ) (poly1 : b2PolygonShape) (xf1 : b2Transform)
    (edge1 : Nat) (poly2 : b2PolygonShape) (xf2 : b2Transform) (h : poly2.normals ≠ []) :
    incidentFace MAX_FLOAT poly1 xf1 edge1 poly2 xf2 < poly2.normals.length := by
  have hpos : 0 < poly2.normals.length := List.length_pos.mpr h
  obtain ⟨-, -, h3⟩ := foldl_argmin_spec
    (fun i => b2Dot (b2MulTRot xf2.q (b2MulRot xf1.q (poly1.normals.getD edge1 default)))
      (poly2.normals.getD i default)) MAX_FLOAT poly2.normals.length
  unfold incidentFace incidentIndex
  rcases h3 with ⟨h3, -⟩ | ⟨h3, -, -⟩
  · rw [h3]; exact hpos
  · exact h3

/-- The reference and the incident polygon `b2CollidePolygons` chooses are the two polygons
given, in one order or the other. -/
theorem chooseReference_polys (LINEAR_SLOP : ℚ) (polyA : b2PolygonShape) (xfA : b2Transform)
    (polyB : b2PolygonShape) (xfB : b2Transform) (edgeA : Nat) (separationA : ℚ)
    (edgeB : Nat) (separationB : ℚ) :
    ((chooseReference LINEAR_SLOP polyA xfA polyB xfB edgeA separationA edgeB
          separationB).poly1 = polyA ∧
      (chooseReference LINEAR_SLOP polyA xfA polyB xfB edgeA separationA edgeB
          separationB).poly2 = polyB) ∨
    ((chooseReference LINEAR_SLOP polyA xfA polyB xfB edgeA separationA edgeB
          separationB).poly1 = polyB ∧
      (chooseReference LINEAR_SLOP polyA xfA polyB xfB edgeA separationA edgeB
          separationB).poly2 = polyA) := by
  unfold chooseReference
  split
  · exact Or.inr ⟨rfl, rfl⟩
  · exact Or.inl ⟨rfl, rfl⟩

/-- C35. Index safety of the SAT pipeline, for two polygons with at least one vertex and as
many normals as vertices. The edge index `b2FindMaxSeparation` returns is below the vertex
count of its first polygon, in both calls of `b2CollidePolygons`. For the reference `r` that
`b2CollidePolygons` chooses from the two results, the assertion
`0 <= edge1 < poly1->GetVertexCount()` of `b2FindIncidentEdge` holds, so the routine returns
and `b2CollidePolygons` writes a manifold; and every index used is within bounds: `edge1` into
the normals of the reference polygon, `iv1 = edge1` and `iv2` into its vertices, the incident
face `i1` into the normals and the vertices of the incident polygon and `i2` into its
vertices. -/
theorem C35_index_safety (MAX_FLOAT LINEAR_SLOP : ℚ) (Normalize : b2Vec → b2Vec)
    (manifold : b2Manifold) (polyA : b2PolygonShape) (xfA : b2Transform)
    (polyB : b2PolygonShape) (xfB : b2Transform)
    (hA : 1 ≤ polyA.GetVertexCount) (hB : 1 ≤ polyB.GetVertexCount)
    (hnA : polyA.normals.length = polyA.vertices.length)
    (hnB : polyB.normals.length = polyB.vertices.length) :
    (b2FindMaxSeparation MAX_FLOAT polyA xfA polyB xfB).1 < polyA.GetVertexCount ∧
    (b2FindMaxSeparation MAX_FLOAT polyB xfB polyA xfA).1 < polyB.GetVertexCount ∧
    (∃ m', b2CollidePolygons MAX_FLOAT LINEAR_SLOP Normalize manifold polyA xfA polyB xfB
      = some m') ∧
    ∀ r, r = chooseReference LINEAR_SLOP polyA xfA polyB xfB
        (b2FindMaxSeparation MAX_FLOAT polyA xfA polyB xfB).1
        (b2FindMaxSeparation MAX_FLOAT polyA xfA polyB xfB).2
        (b2FindMaxSeparation MAX_FLOAT polyB xfB polyA xfA).1
        (b2FindMaxSeparation MAX_FLOAT polyB xfB polyA xfA).2 →
      r.edge1 < r.poly1.GetVertexCount ∧
      (∃ c, b2FindIncidentEdge MAX_FLOAT r.poly1 r.xf1 r.edge1 r.poly2 r.xf2 = some c) ∧
      r.edge1 < r.poly1.normals.length ∧
      r.edge1 < r.poly1.vertices.length ∧
      nextIndex r.edge1 r.poly1.vertices.length < r.poly1.vertices.length ∧
      incidentFace MAX_FLOAT r.poly1 r.xf1 r.edge1 r.poly2 r.xf2 < r.poly2.normals.length ∧
      incidentFace MAX_FLOAT r.poly1 r.xf1 r.edge1 r.poly2 r.xf2 < r.poly2.vertices.length ∧
      nextIndex (incidentFace MAX_FLOAT r.poly1 r.xf1 r.edge1 r.poly2 r.xf2)
        r.poly2.normals.length < r.poly2.vertices.length := by
  have hvA : polyA.vertices ≠ [] := by
    intro h0; unfold b2PolygonShape.GetVertexCount at hA; rw [h0] at hA; exact absurd hA (by decide)
  have hvB : polyB.vertices ≠ [] := by
    intro h0; unfold b2PolygonShape.GetVertexCount at hB; rw [h0] at hB; exact absurd hB (by decide)
  refine ⟨b2FindMaxSeparation_index_lt MAX_FLOAT polyA xfA polyB xfB hvA,
    b2FindMaxSeparation_index_lt MAX_FLOAT polyB xfB polyA xfA hvB,
    (b2CollidePolygons_total MAX_FLOAT LINEAR_SLOP Normalize manifold polyA xfA polyB xfB).2
      hvA hvB, ?_⟩
  intro r hr
  have hlt : r.edge1 < r.poly1.GetVertexCount := by
    rw [hr]
    exact chooseReference_edge_lt MAX_FLOAT LINEAR_SLOP polyA xfA polyB xfB hvA hvB
  have hpolys : (r.poly1 = polyA ∧ r.poly2 = polyB) ∨ (r.poly1 = polyB ∧ r.poly2 = polyA) := by
    rw [hr]
    exact chooseReference_polys LINEAR_SLOP polyA xfA polyB xfB _ _ _ _
  have h1 : r.poly1.normals.length = r.poly1.vertices.length := by
    rcases hpolys with ⟨h, -⟩ | ⟨h, -⟩ <;> rw [h] <;> assumption
  have h2 : r.poly2.normals.length = r.poly2.vertices.length := by
    rcases hpolys with ⟨-, h⟩ | ⟨-, h⟩ <;> rw [h] <;> assumption
  have h2pos : 0 < r.poly2.vertices.length := by
    rcases hpolys with ⟨-, h⟩ | ⟨-, h⟩ <;> rw [h] <;> exact List.length_pos.mpr (by assumption)
  have h2n : r.poly2.normals ≠ [] := by
    apply List.length_pos.mp
    rw [h2]
    exact h2pos
  have hlt' : r.edge1 < r.poly1.vertices.length := hlt
  have hi1 := incidentFace_lt MAX_FLOAT r.poly1 r.xf1 r.edge1 r.poly2 r.xf2 h2n
  refine ⟨hlt, ⟨_, b2FindIncidentEdge_some MAX_FLOAT r.poly1 r.xf1 r.edge1 r.poly2 r.xf2 hlt⟩,
    ?_, hlt', nextIndex_lt _ _ (by omega), hi1, ?_, ?_⟩
  · rw [h1]; exact hlt'
  · rw [← h2]; exact hi1
  · rw [← h2]; exact nextIndex_lt _ _ (by omega)

/-- C35 for the two boxes of half-extent 0.5 centred at `(0, 0)` and `(0.9, 0)`: both edge
indices are below 4 and `b2CollidePolygons` writes a manifold. -/
theorem C35_index_safety_witness :
    1 ≤ unitBox.GetVertexCount ∧ unitBox.normals.length = unitBox.vertices.length ∧
    (b2FindMaxSeparation FLT_MAX unitBox (xfAt 0 0) unitBox (xfAt (9 / 10) 0)).1 < 4 ∧
    (b2FindMaxSeparation FLT_MAX unitBox (xfAt (9 / 10) 0) unitBox (xfAt 0 0)).1 < 4 ∧
    (∃ m', b2CollidePolygons FLT_MAX (1 / 200) normalizeAxial zeroManifold unitBox (xfAt 0 0)
      unitBox (xfAt (9 / 10) 0) = some m') ∧
    ∃ c, b2FindIncidentEdge FLT_MAX
      (chooseReference (1 / 200) unitBox (xfAt 0 0) unitBox (xfAt (9 / 10) 0)
        (b2FindMaxSeparation FLT_MAX unitBox (xfAt 0 0) unitBox (xfAt (9 / 10) 0)).1
        (b2FindMaxSeparation FLT_MAX unitBox (xfAt 0 0) unitBox (xfAt (9 / 10) 0)).2
        (b2FindMaxSeparation FLT_MAX unitBox (xfAt (9 / 10) 0) unitBox (xfAt 0 0)).1
        (b2FindMaxSeparation FLT_MAX unitBox (xfAt (9 / 10) 0) unitBox (xfAt 0 0)).2).poly1
      (chooseReference (1 / 200) unitBox (xfAt 0 0) unitBox (xfAt (9 / 10) 0)
        (b2FindMaxSeparation FLT_MAX unitBox (xfAt 0 0) unitBox (xfAt (9 / 10) 0)).1
        (b2FindMaxSeparation FLT_MAX unitBox (xfAt 0 0) unitBox (xfAt (9 / 10) 0)).2
        (b2FindMaxSeparation FLT_MAX unitBox (xfAt (9 / 10) 0) unitBox (xfAt 0 0)).1
        (b2FindMaxSeparation FLT_MAX unitBox (xfAt (9 / 10) 0) unitBox (xfAt 0 0)).2).xf1
      (chooseReference (1 / 200) unitBox (xfAt 0 0) unitBox (xfAt (9 / 10) 0)
        (b2FindMaxSeparation FLT_MAX unitBox (xfAt 0 0) unitBox (xfAt (9 / 10) 0)).1
        (b2FindMaxSeparation FLT_MAX unitBox (xfAt 0 0) unitBox (xfAt (9 / 10) 0)).2
        (b2FindMaxSeparation FLT_MAX unitBox (xfAt (9 / 10) 0) unitBox (xfAt 0 0)).1
        (b2FindMaxSeparation FLT_MAX unitBox (xfAt (9 / 10) 0) unitBox (xfAt 0 0)).2).edge1
      (chooseReference (1 / 200) unitBox (xfAt 0 0) unitBox (xfAt (9 / 10) 0)
        (b2FindMaxSeparation FLT_MAX unitBox (xfAt 0 0) unitBox (xfAt (9 / 10) 0)).1
        (b2FindMaxSeparation FLT_MAX unitBox (xfAt 0 0) unitBox (xfAt (9 / 10) 0)).2
        (b2FindMaxSeparation FLT_MAX unitBox (xfAt (9 / 10) 0) unitBox (xfAt 0 0)).1
        (b2FindMaxSeparation FLT_MAX unitBox (xfAt (9 / 10) 0) unitBox (xfAt 0 0)).2).poly2
      (chooseReference (1 / 200) unitBox (xfAt 0 0) unitBox (xfAt (9 / 10) 0)
        (b2FindMaxSeparation FLT_MAX unitBox (xfAt 0 0) unitBox (xfAt (9 / 10) 0)).1
        (b2FindMaxSeparation FLT_MAX unitBox (xfAt 0 0) unitBox (xfAt (9 / 10) 0)).2
        (b2FindMaxSeparation FLT_MAX unitBox (xfAt (9 / 10) 0) unitBox (xfAt 0 0)).1
        (b2FindMaxSeparation FLT_MAX unitBox (xfAt (9 / 10) 0) unitBox (xfAt 0 0)).2).xf2
      = some c :=
  ⟨by decide, by decide,
    (C35_index_safety FLT_MAX (1 / 200) normalizeAxial zeroManifold unitBox (xfAt 0 0) unitBox
      (xfAt (9 / 10) 0) (by decide) (by decide) (by decide) (by decide)).1,
    (C35_index_safety FLT_MAX (1 / 200) normalizeAxial zeroManifold unitBox (xfAt 0 0) unitBox
      (xfAt (9 / 10) 0) (by decide) (by decide) (by decide) (by decide)).2.1,
    (C35_index_safety FLT_MAX (1 / 200) normalizeAxial zeroManifold unitBox (xfAt 0 0) unitBox
      (xfAt (9 / 10) 0) (by decide) (by decide) (by decide) (by decide)).2.2.1,
    ((C35_index_safety FLT_MAX (1 / 200) normalizeAxial zeroManifold unitBox (xfAt 0 0) unitBox
      (xfAt (9 / 10) 0) (by decide) (by decide) (by decide) (by decide)).2.2.2 _ rfl).2.1⟩

namespace b2WeldJoint

/-! ## Weld joint: frame conditions of the three passes (C33) -/

/-- The branch of `InitVelocityConstraints` that fills `m_mass`, `m_gamma` and `m_bias` keeps
the members that configure the joint. -/
theorem initMass_keeps_config (B2_PI : ℚ) (j : b2WeldJoint) (aA aB dt : ℚ) :
    (initMass B2_PI j aA aB dt).m_bodyA = j.m_bodyA ∧
    (initMass B2_PI j aA aB dt).m_bodyB = j.m_bodyB ∧
    (initMass B2_PI j aA aB dt).m_dampingRatio = j.m_dampingRatio ∧
    (initMass B2_PI j aA aB dt).m_localAnchorA = j.m_localAnchorA ∧
    (initMass B2_PI j aA aB dt).m_localAnchorB = j.m_localAnchorB ∧
    (initMass B2_PI j aA aB dt).m_referenceAngle = j.m_referenceAngle := by
  unfold initMass initSoft
  simp only []
  split_ifs <;> exact ⟨rfl, rfl, rfl, rfl, rfl, rfl⟩

/-- `InitVelocityConstraints` keeps the members that configure the joint. -/
theorem InitVelocityConstraints_config (Rot : ℚ → b2Rot) (B2_PI : ℚ) (j : b2WeldJoint)
    (data : b2SolverData) :
    (InitVelocityConstraints Rot B2_PI j data).1.m_bodyA = j.m_bodyA ∧
    (InitVelocityConstraints Rot B2_PI j data).1.m_bodyB = j.m_bodyB ∧
    (InitVelocityConstraints Rot B2_PI j data).1.m_dampingRatio = j.m_dampingRatio ∧
    (InitVelocityConstraints Rot B2_PI j data).1.m_localAnchorA = j.m_localAnchorA ∧
    (InitVelocityConstraints Rot B2_PI j data).1.m_localAnchorB = j.m_localAnchorB ∧
    (InitVelocityConstraints Rot B2_PI j data).1.m_referenceAngle = j.m_referenceAngle := by
  have h := initMass_keeps_config B2_PI (cacheBodies Rot j data)
    (data.positions (cacheBodies Rot j data).m_indexA).a
    (data.positions (cacheBodies Rot j data).m_indexB).a data.step.dt
  unfold InitVelocityConstraints
  simp only []
  split_ifs <;> exact h

/-- `InitVelocityConstraints` writes no velocity but those of the two bodies of the joint. -/
theorem InitVelocityConstraints_other_velocities (Rot : ℚ → b2Rot) (B2_PI : ℚ)
    (j : b2WeldJoint) (data : b2SolverData) (i : Nat)
    (hA : i ≠ j.m_bodyA.m_islandIndex) (hB : i ≠ j.m_bodyB.m_islandIndex) :
    (InitVelocityConstraints Rot B2_PI j data).2.velocities i = data.velocities i := by
  obtain ⟨-, -, -, k4, k5, -⟩ :=
    initMass_keeps B2_PI (cacheBodies Rot j data)
      (data.positions (cacheBodies Rot j data).m_indexA).a
      (data.positions (cacheBodies Rot j data).m_indexB).a data.step.dt
  have k4' : (initMass B2_PI (cacheBodies Rot j data)
      (data.positions (cacheBodies Rot j data).m_indexA).a
      (data.positions (cacheBodies Rot j data).m_indexB).a data.step.dt).m_indexA
      = j.m_bodyA.m_islandIndex := k4
  have k5' : (initMass B2_PI (cacheBodies Rot j data)
      (data.positions (cacheBodies Rot j data).m_indexA).a
      (data.positions (cacheBodies Rot j data).m_indexB).a data.step.dt).m_indexB
      = j.m_bodyB.m_islandIndex := k5
  unfold InitVelocityConstraints
  simp only [k4', k5']
  split_ifs
  · show Function.update (Function.update _ _ _) _ _ i = _
    rw [Function.update_noteq hB, Function.update_noteq hA]
  · show Function.update (Function.update _ _ _) _ _ i = _
    rw [Function.update_noteq hB, Function.update_noteq hA]

/-- C33. Frame conditions of the three passes of the weld joint. `SolvePositionConstraints`
keeps the velocity array and the time step and writes no position but those at `indexA` and
`indexB`; the method assigns no member of the joint. `SolveVelocityConstraints` keeps the
position array and the time step, writes no velocity but those at `indexA` and `indexB`, and
changes no member of the joint but the accumulated impulse. `InitVelocityConstraints` keeps
the position array and the time step, writes no velocity but those at the island indices of
the two bodies, which it caches as `indexA` and `indexB`, and keeps the members that configure
the joint: the bodies, the frequency, the damping ratio, the local anchors and the reference
angle. -/
theorem C33_frame_conditions (Rot : ℚ → b2Rot) (B2_PI : ℚ) (Length : b2Vec → ℚ)
    (LINEAR_SLOP ANGULAR_SLOP : ℚ) (j : b2WeldJoint) (data : b2SolverData) :
    ((SolvePositionConstraints Rot Length LINEAR_SLOP ANGULAR_SLOP j data).2.velocities
        = data.velocities ∧
      (SolvePositionConstraints Rot Length LINEAR_SLOP ANGULAR_SLOP j data).2.step
        = data.step ∧
      ∀ i, i ≠ j.m_indexA → i ≠ j.m_indexB →
        (SolvePositionConstraints Rot Length LINEAR_SLOP ANGULAR_SLOP j data).2.positions i
          = data.positions i) ∧
    ((SolveVelocityConstraints j data).2.positions = data.positions ∧
      (SolveVelocityConstraints j data).2.step = data.step ∧
      (∀ i, i ≠ j.m_indexA → i ≠ j.m_indexB →
        (SolveVelocityConstraints j data).2.velocities i = data.velocities i) ∧
      { (SolveVelocityConstraints j data).1 with m_impulse := j.m_impulse } = j) ∧
    ((InitVelocityConstraints Rot B2_PI j data).2.positions = data.positions ∧
      (InitVelocityConstraints Rot B2_PI j data).2.step = data.step ∧
      (InitVelocityConstraints Rot B2_PI j data).1.m_indexA = j.m_bodyA.m_islandIndex ∧
      (InitVelocityConstraints Rot B2_PI j data).1.m_indexB = j.m_bodyB.m_islandIndex ∧
      (∀ i, i ≠ j.m_bodyA.m_islandIndex → i ≠ j.m_bodyB.m_islandIndex →
        (InitVelocityConstraints Rot B2_PI j data).2.velocities i = data.velocities i) ∧
      (InitVelocityConstraints Rot B2_PI j data).1.m_bodyA = j.m_bodyA ∧
      (InitVelocityConstraints Rot B2_PI j data).1.m_bodyB = j.m_bodyB ∧
      (InitVelocityConstraints Rot B2_PI j data).1.m_frequencyHz = j.m_frequencyHz ∧
      (InitVelocityConstraints Rot B2_PI j data).1.m_dampingRatio = j.m_dampingRatio ∧
      (InitVelocityConstraints Rot B2_PI j data).1.m_localAnchorA = j.m_localAnchorA ∧
      (InitVelocityConstraints Rot B2_PI j data).1.m_localAnchorB = j.m_localAnchorB ∧
      (InitVelocityConstraints Rot B2_PI j data).1.m_referenceAngle = j.m_referenceAngle) := by
  refine ⟨⟨rfl, rfl, ?_⟩, ?_, ?_⟩
  · intro i hA hB
    unfold SolvePositionConstraints
    show Function.update (Function.update _ _ _) _ _ i = _
    rw [Function.update_noteq hB, Function.update_noteq hA]
  · obtain ⟨h1, -, -, h4, h5, h6⟩ := SolveVelocityConstraints_writes j data _ rfl
    refine ⟨h5, h6, h4, ?_⟩
    rw [h1]
  · obtain ⟨f1, f2, -, -, -, -, -, -, f9, -, f11, f12⟩ :=
      InitVelocityConstraints_fields Rot B2_PI j data
    obtain ⟨c1, c2, c3, c4, c5, c6⟩ := InitVelocityConstraints_config Rot B2_PI j data
    exact ⟨f12, f11, f1, f2,
      fun i hA hB => InitVelocityConstraints_other_velocities Rot B2_PI j data i hA hB,
      c1, c2, f9, c3, c4, c5, c6⟩

/-- C33 for the joint `weldPair` between the bodies 0 and 1 and a third body with island
index 2: no pass writes the position or the velocity of the third body. -/
theorem C33_frame_conditions_witness :
    2 ≠ weldPair.m_indexA ∧ 2 ≠ weldPair.m_indexB ∧
    2 ≠ weldPair.m_bodyA.m_islandIndex ∧ 2 ≠ weldPair.m_bodyB.m_islandIndex ∧
    (SolvePositionConstraints rotRational lengthAxial (1 / 200) (2 / 180 * PI_RATIONAL)
      weldPair (pairData 1 1 true ⟨0, 0⟩ ⟨1, 0⟩)).2.positions 2 = ⟨⟨1, 0⟩, 0⟩ ∧
    (SolveVelocityConstraints weldPair (pairData 1 1 true ⟨0, 0⟩ ⟨1, 0⟩)).2.velocities 2
      = ⟨⟨1, 0⟩, 0⟩ ∧
    (InitVelocityConstraints rotRational PI_RATIONAL weldPair
      (pairData 1 1 true ⟨0, 0⟩ ⟨1, 0⟩)).2.velocities 2 = ⟨⟨1, 0⟩, 0⟩ :=
  ⟨by decide, by decide, by decide, by decide,
    ((C33_frame_conditions rotRational PI_RATIONAL lengthAxial (1 / 200)
      (2 / 180 * PI_RATIONAL) weldPair (pairData 1 1 true ⟨0, 0⟩ ⟨1, 0⟩)).1.2.2 2
        (by decide) (by decide)).trans rfl,
    ((C33_frame_conditions rotRational PI_RATIONAL lengthAxial (1 / 200)
      (2 / 180 * PI_RATIONAL) weldPair (pairData 1 1 true ⟨0, 0⟩ ⟨1, 0⟩)).2.1.2.2.1 2
        (by decide) (by decide)).trans rfl,
    ((C33_frame_conditions rotRational PI_RATIONAL lengthAxial (1 / 200)
      (2 / 180 * PI_RATIONAL) weldPair (pairData 1 1 true ⟨0, 0⟩ ⟨1, 0⟩)).2.2.2.2.2.2.1 2
        (by decide) (by decide)).trans rfl⟩

end b2WeldJoint

/-! ## Weld joint: the effective-mass matrix is positive definite (C32) -/

/-- The vector `Solve33` gives solves the system when the determinant is not zero. -/
theorem b2Mat33.mul_Solve33 (A : b2Mat33) (b : b2Vec3)
    (hdet : b2Dot3 A.ex (b2Cross3 A.ey A.ez) ≠ 0) :
    b2Mul33 A (A.Solve33 b) = b := by
  obtain ⟨x, y, z⟩ := b
  obtain ⟨⟨a11, a21, a31⟩, ⟨a12, a22, a32⟩, ⟨a13, a23, a33⟩⟩ := A
  simp only [b2Dot3, b2Cross3] at hdet
  simp only [b2Mat33.Solve33, b2Mul33, b2Dot3, b2Cross3, if_pos hdet,
    b2Vec3.smul_eq, b2Vec3.add_eq, b2Vec3.mk.injEq]
  refine ⟨?_, ?_, ?_⟩ <;> field_simp <;> ring

/-- The quadratic form of the matrix `K` of the weld joint. -/
theorem weldK_quadratic_form (mA mB iA iB : ℚ) (rA rB : b2Vec) (x : b2Vec3) :
    b2Dot3 x (b2Mul33 (weldK mA mB iA iB rA rB) x) =
      (mA + mB) * b2Dot ⟨x.x, x.y⟩ ⟨x.x, x.y⟩ + iA * (b2CrossVV rA ⟨x.x, x.y⟩ + x.z) ^ 2
        + iB * (b2CrossVV rB ⟨x.x, x.y⟩ + x.z) ^ 2 := by
  simp only [weldK, b2Mul33, b2Dot3, b2Dot, b2CrossVV, b2Vec3.smul_eq, b2Vec3.add_eq]
  ring

/-- The determinant of the matrix `K` of the weld joint, as `Solve33` and `GetSymInverse33`
compute it. -/
theorem weldK_det (mA mB iA iB : ℚ) (rA rB : b2Vec) :
    b2Dot3 (weldK mA mB iA iB rA rB).ex
        (b2Cross3 (weldK mA mB iA iB rA rB).ey (weldK mA mB iA iB rA rB).ez) =
      (mA + mB) ^ 2 * (iA + iB) +
        (mA + mB) * (iA * iB) * ((rA.x - rB.x) ^ 2 + (rA.y - rB.y) ^ 2) := by
  simp only [weldK, b2Dot3, b2Cross3]
  ring

/-- C32. The matrix `K` that `InitVelocityConstraints` and `SolvePositionConstraints` assemble
from `mA`, `mB`, `iA`, `iB` and the arms `rA`, `rB` is symmetric, and for every `x = (p, t)`
`x^T K x = (mA + mB) * |p|^2 + iA * (cross(rA, p) + t)^2 + iB * (cross(rB, p) + t)^2`, which is
not negative when `mA`, `mB`, `iA`, `iB` are not. If moreover `mA + mB > 0` and `iA + iB > 0`,
then `K` is positive definite and its determinant is positive, so the determinant by which
`Solve33` and `GetSymInverse33` divide is not zero, `Solve33` gives the solution of `K x = b`
and `GetSymInverse33` gives the inverse of `K`. -/
theorem C32_effective_mass_positive_definite (mA mB iA iB : ℚ) (rA rB : b2Vec) :
    ((weldK mA mB iA iB rA rB).ex.y = (weldK mA mB iA iB rA rB).ey.x ∧
      (weldK mA mB iA iB rA rB).ex.z = (weldK mA mB iA iB rA rB).ez.x ∧
      (weldK mA mB iA iB rA rB).ey.z = (weldK mA mB iA iB rA rB).ez.y) ∧
    (∀ (p : b2Vec) (t : ℚ),
      b2Dot3 ⟨p.x, p.y, t⟩ (b2Mul33 (weldK mA mB iA iB rA rB) ⟨p.x, p.y, t⟩) =
        (mA + mB) * b2Dot p p + iA * (b2CrossVV rA p + t) ^ 2
          + iB * (b2CrossVV rB p + t) ^ 2) ∧
    (0 ≤ mA → 0 ≤ mB → 0 ≤ iA → 0 ≤ iB →
      (∀ x, 0 ≤ b2Dot3 x (b2Mul33 (weldK mA mB iA iB rA rB) x)) ∧
      (mA + mB > 0 → iA + iB > 0 →
        (∀ x, x ≠ ⟨0, 0, 0⟩ → 0 < b2Dot3 x (b2Mul33 (weldK mA mB iA iB rA rB) x)) ∧
        0 < b2Dot3 (weldK mA mB iA iB rA rB).ex
          (b2Cross3 (weldK mA mB iA iB rA rB).ey (weldK mA mB iA iB rA rB).ez) ∧
        (∀ b, b2Mul33 (weldK mA mB iA iB rA rB) ((weldK mA mB iA iB rA rB).Solve33 b) = b) ∧
        (∀ v, b2Mul33 (weldK mA mB iA iB rA rB)
          (b2Mul33 (weldK mA mB iA iB rA rB).GetSymInverse33 v) = v))) := by
  refine ⟨⟨rfl, rfl, rfl⟩, fun p t => weldK_quadratic_form mA mB iA iB rA rB ⟨p.x, p.y, t⟩, ?_⟩
  intro hmA hmB hiA hiB
  have hM : 0 ≤ mA + mB := add_nonneg hmA hmB
  refine ⟨?_, ?_⟩
  · intro x
    rw [weldK_quadratic_form]
    have h1 : 0 ≤ b2Dot ⟨x.x, x.y⟩ ⟨x.x, x.y⟩ := by
      simp only [b2Dot]; nlinarith [mul_self_nonneg x.x, mul_self_nonneg x.y]
    have h2 := mul_nonneg hM h1
    have h3 := mul_nonneg hiA (sq_nonneg (b2CrossVV rA ⟨x.x, x.y⟩ + x.z))
    have h4 := mul_nonneg hiB (sq_nonneg (b2CrossVV rB ⟨x.x, x.y⟩ + x.z))
    linarith
  · intro hm hi
    have hdet : 0 < b2Dot3 (weldK mA mB iA iB rA rB).ex
        (b2Cross3 (weldK mA mB iA iB rA rB).ey (weldK mA mB iA iB rA rB).ez) := by
      rw [weldK_det]
      have h1 : 0 < (mA + mB) ^ 2 * (iA + iB) := mul_pos (pow_pos hm 2) hi
      have h2 : 0 ≤ (mA + mB) * (iA * iB) * ((rA.x - rB.x) ^ 2 + (rA.y - rB.y) ^ 2) :=
        mul_nonneg (mul_nonneg hM (mul_nonneg hiA hiB))
          (add_nonneg (sq_nonneg _) (sq_nonneg _))
      linarith
    refine ⟨?_, hdet, ?_, ?_⟩
    · intro x hx
      rw [weldK_quadratic_form]
      have h3 := mul_nonneg hiA (sq_nonneg (b2CrossVV rA ⟨x.x, x.y⟩ + x.z))
      have h4 := mul_nonneg hiB (sq_nonneg (b2CrossVV rB ⟨x.x, x.y⟩ + x.z))
      by_cases hp : x.x = 0 ∧ x.y = 0
      · obtain ⟨hx1, hx2⟩ := hp
        have hz : x.z ≠ 0 := by
          intro hz
          apply hx
          obtain ⟨a, b, c⟩ := x
          simp only at hx1 hx2 hz
          rw [hx1, hx2, hz]
        have hz2 : 0 < x.z ^ 2 := by positivity
        simp only [b2Dot, b2CrossVV, hx1, hx2]
        have : 0 < (iA + iB) * x.z ^ 2 := mul_pos hi hz2
        nlinarith
      · have hpp : 0 < b2Dot ⟨x.x, x.y⟩ ⟨x.x, x.y⟩ := by
          simp only [b2Dot]
          rcases not_and_or.mp hp with h | h
          · have := mul_self_pos.mpr h
            nlinarith [mul_self_nonneg x.y]
          · have := mul_self_pos.mpr h
            nlinarith [mul_self_nonneg x.x]
        have := mul_pos hm hpp
        linarith
    · intro b
      exact b2Mat33.mul_Solve33 _ b (ne_of_gt hdet)
    · intro v
      exact b2Mat33.mul_GetSymInverse33 _ v rfl rfl rfl (ne_of_gt hdet)

/-- C32 for the matrix of the joint `weldPair`, with inverse masses and inertias 1 and the
arms `(1, 0)` and `(-1, 0)`: its determinant is 16, and the form at `(1, 1, 1)` is 8. -/
theorem C32_effective_mass_positive_definite_witness :
    (0 : ℚ) ≤ 1 ∧ (1 : ℚ) + 1 > 0 ∧
    b2Dot3 (weldK 1 1 1 1 ⟨1, 0⟩ ⟨-1, 0⟩).ex
      (b2Cross3 (weldK 1 1 1 1 ⟨1, 0⟩ ⟨-1, 0⟩).ey (weldK 1 1 1 1 ⟨1, 0⟩ ⟨-1, 0⟩).ez) = 16 ∧
    0 < b2Dot3 (weldK 1 1 1 1 ⟨1, 0⟩ ⟨-1, 0⟩).ex
      (b2Cross3 (weldK 1 1 1 1 ⟨1, 0⟩ ⟨-1, 0⟩).ey (weldK 1 1 1 1 ⟨1, 0⟩ ⟨-1, 0⟩).ez) ∧
    b2Dot3 ⟨1, 1, 1⟩ (b2Mul33 (weldK 1 1 1 1 ⟨1, 0⟩ ⟨-1, 0⟩) ⟨1, 1, 1⟩) = 8 ∧
    0 < b2Dot3 ⟨1, 1, 1⟩ (b2Mul33 (weldK 1 1 1 1 ⟨1, 0⟩ ⟨-1, 0⟩) ⟨1, 1, 1⟩) :=
  ⟨by norm_num, by norm_num,
    by norm_num [weldK, b2Dot3, b2Cross3],
    (((C32_effective_mass_positive_definite 1 1 1 1 ⟨1, 0⟩ ⟨-1, 0⟩).2.2 (by norm_num)
      (by norm_num) (by norm_num) (by norm_num)).2 (by norm_num) (by norm_num)).2.1,
    by norm_num [weldK, b2Dot3, b2Mul33, b2Vec3.smul_eq, b2Vec3.add_eq],
    (((C32_effective_mass_positive_definite 1 1 1 1 ⟨1, 0⟩ ⟨-1, 0⟩).2.2 (by norm_num)
      (by norm_num) (by norm_num) (by norm_num)).2 (by norm_num) (by norm_num)).1 ⟨1, 1, 1⟩
        (by decide)⟩

namespace b2WeldJoint

/-! ## Weld joint: the position pass of bodies without rotational inertia (C31) -/

/-- The rigid branch of `SolvePositionConstraints` for bodies without rotational inertia whose
inverse masses do not sum to zero: the angles are kept and the centres move along `C1`. -/
theorem solvePositionRigid_no_inertia (Length : b2Vec → ℚ) (j : b2WeldJoint) (rA rB : b2Vec)
    (cA : b2Vec) (aA : ℚ) (cB : b2Vec) (aB : ℚ)
    (hiA : j.m_invIA = 0) (hiB : j.m_invIB = 0) (hm : j.m_invMassA + j.m_invMassB ≠ 0) :
    (solvePositionRigid Length j
        (weldK j.m_invMassA j.m_invMassB j.m_invIA j.m_invIB rA rB) rA rB cA aA cB aB).2 =
      (⟨cA + (j.m_invMassA / (j.m_invMassA + j.m_invMassB)) * (cB + rB - cA - rA), aA⟩,
        ⟨cB - (j.m_invMassB / (j.m_invMassA + j.m_invMassB)) * (cB + rB - cA - rA), aB⟩) := by
  have hdet : (j.m_invMassA + j.m_invMassB) * (j.m_invMassA + j.m_invMassB) ≠ 0 :=
    mul_ne_zero hm hm
  simp only [solvePositionRigid, weldK, hiA, hiB, b2Mat33.Solve22, mul_zero, add_zero,
    sub_zero, zero_mul, neg_zero, lt_irrefl, gt_iff_lt, if_false, if_pos hdet, ne_eq,
    not_false_eq_true, hdet, if_true, b2Vec.sub_def, b2Vec.add_def, b2Vec.neg_def,
    b2Vec.smul_def, b2CrossVV, Prod.mk.injEq, b2Position.mk.injEq, b2Vec.mk.injEq]
  refine ⟨⟨⟨?_, ?_⟩, trivial⟩, ⟨?_, ?_⟩, trivial⟩ <;> field_simp <;> ring

/-- The positions `SolvePositionConstraints` writes for a rigid joint between two different
bodies without rotational inertia whose inverse masses do not sum to zero. -/
theorem SolvePositionConstraints_no_inertia (Rot : ℚ → b2Rot) (Length : b2Vec → ℚ)
    (LINEAR_SLOP ANGULAR_SLOP : ℚ) (j : b2WeldJoint) (data : b2SolverData)
    (hf : ¬ j.m_frequencyHz > 0) (hiA : j.m_invIA = 0) (hiB : j.m_invIB = 0)
    (hm : j.m_invMassA + j.m_invMassB ≠ 0) (hne : j.m_indexA ≠ j.m_indexB) :
    (SolvePositionConstraints Rot Length LINEAR_SLOP ANGULAR_SLOP j data).2.positions j.m_indexA
      = ⟨(data.positions j.m_indexA).c +
          (j.m_invMassA / (j.m_invMassA + j.m_invMassB)) * positionC1 Rot j data,
        (data.positions j.m_indexA).a⟩ ∧
    (SolvePositionConstraints Rot Length LINEAR_SLOP ANGULAR_SLOP j data).2.positions j.m_indexB
      = ⟨(data.positions j.m_indexB).c -
          (j.m_invMassB / (j.m_invMassA + j.m_invMassB)) * positionC1 Rot j data,
        (data.positions j.m_indexB).a⟩ := by
  have h := solvePositionRigid_no_inertia Length j
    (b2MulRot (Rot (data.positions j.m_indexA).a) (j.m_localAnchorA - j.m_localCenterA))
    (b2MulRot (Rot (data.positions j.m_indexB).a) (j.m_localAnchorB - j.m_localCenterB))
    (data.positions j.m_indexA).c (data.positions j.m_indexA).a
    (data.positions j.m_indexB).c (data.positions j.m_indexB).a hiA hiB hm
  unfold SolvePositionConstraints positionC1
  simp only [if_neg hf]
  constructor
  · show Function.update (Function.update _ _ _) _ _ _ = _
    rw [Function.update_noteq hne, Function.update_same, h]
  · show Function.update _ _ _ _ = _
    rw [Function.update_same, h]

/-- The value a rigid joint returns from `SolvePositionConstraints`. -/
theorem SolvePositionConstraints_rigid_flag (Rot : ℚ → b2Rot) (Length : b2Vec → ℚ)
    (LINEAR_SLOP ANGULAR_SLOP : ℚ) (j : b2WeldJoint) (data : b2SolverData)
    (hf : ¬ j.m_frequencyHz > 0) :
    (SolvePositionConstraints Rot Length LINEAR_SLOP ANGULAR_SLOP j data).1 = true ↔
      Length (positionC1 Rot j data) ≤ LINEAR_SLOP ∧ |positionC2 j data| ≤ ANGULAR_SLOP := by
  unfold SolvePositionConstraints positionC1 positionC2
  simp only [decide_eq_true_eq, if_neg hf, solvePositionRigid]

/-- After one call of `SolvePositionConstraints` on a rigid joint between two different bodies
without rotational inertia, the anchors coincide and the angle `C2` is what it was. -/
theorem SolvePositionConstraints_anchors_meet (Rot : ℚ → b2Rot) (Length : b2Vec → ℚ)
    (LINEAR_SLOP ANGULAR_SLOP : ℚ) (j : b2WeldJoint) (data : b2SolverData)
    (hf : ¬ j.m_frequencyHz > 0) (hiA : j.m_invIA = 0) (hiB : j.m_invIB = 0)
    (hm : j.m_invMassA + j.m_invMassB ≠ 0) (hne : j.m_indexA ≠ j.m_indexB) :
    positionC1 Rot j (SolvePositionConstraints Rot Length LINEAR_SLOP ANGULAR_SLOP j data).2
      = ⟨0, 0⟩ ∧
    positionC2 j (SolvePositionConstraints Rot Length LINEAR_SLOP ANGULAR_SLOP j data).2
      = positionC2 j data := by
  obtain ⟨hA, hB⟩ := SolvePositionConstraints_no_inertia Rot Length LINEAR_SLOP ANGULAR_SLOP
    j data hf hiA hiB hm hne
  constructor
  · have h : positionC1 Rot j
        (SolvePositionConstraints Rot Length LINEAR_SLOP ANGULAR_SLOP j data).2 =
        (data.positions j.m_indexB).c -
            (j.m_invMassB / (j.m_invMassA + j.m_invMassB)) * positionC1 Rot j data +
          b2MulRot (Rot (data.positions j.m_indexB).a) (j.m_localAnchorB - j.m_localCenterB) -
          ((data.positions j.m_indexA).c +
            (j.m_invMassA / (j.m_invMassA + j.m_invMassB)) * positionC1 Rot j data) -
          b2MulRot (Rot (data.positions j.m_indexA).a)
            (j.m_localAnchorA - j.m_localCenterA) := by
      conv_lhs => unfold positionC1
      rw [hA, hB]
    rw [h]
    unfold positionC1
    generalize b2MulRot (Rot (data.positions j.m_indexB).a)
      (j.m_localAnchorB - j.m_localCenterB) = rB
    generalize b2MulRot (Rot (data.positions j.m_indexA).a)
      (j.m_localAnchorA - j.m_localCenterA) = rA
    simp only [b2Vec.sub_def, b2Vec.add_def, b2Vec.smul_def, b2Vec.mk.injEq]
    constructor <;> field_simp <;> ring
  · unfold positionC2
    rw [hA, hB]

/-- Successive calls of `SolvePositionConstraints` on a rigid joint between two different
bodies without rotational inertia keep the angles of both bodies. -/
theorem positionPasses_angles (Rot : ℚ → b2Rot) (Length : b2Vec → ℚ)
    (LINEAR_SLOP ANGULAR_SLOP : ℚ) (j : b2WeldJoint) (data : b2SolverData)
    (hf : ¬ j.m_frequencyHz > 0) (hiA : j.m_invIA = 0) (hiB : j.m_invIB = 0)
    (hm : j.m_invMassA + j.m_invMassB ≠ 0) (hne : j.m_indexA ≠ j.m_indexB) (n : Nat) :
    ((positionPasses Rot Length LINEAR_SLOP ANGULAR_SLOP j data n).positions j.m_indexA).a
      = (data.positions j.m_indexA).a ∧
    ((positionPasses Rot Length LINEAR_SLOP ANGULAR_SLOP j data n).positions j.m_indexB).a
      = (data.positions j.m_indexB).a := by
  induction n with
  | zero => exact ⟨rfl, rfl⟩
  | succ n ih =>
    obtain ⟨hA, hB⟩ := SolvePositionConstraints_no_inertia Rot Length LINEAR_SLOP ANGULAR_SLOP
      j (positionPasses Rot Length LINEAR_SLOP ANGULAR_SLOP j data n) hf hiA hiB hm hne
    show ((SolvePositionConstraints Rot Length LINEAR_SLOP ANGULAR_SLOP j
        (positionPasses Rot Length LINEAR_SLOP ANGULAR_SLOP j data n)).2.positions j.m_indexA).a
        = _ ∧
      ((SolvePositionConstraints Rot Length LINEAR_SLOP ANGULAR_SLOP j
        (positionPasses Rot Length LINEAR_SLOP ANGULAR_SLOP j data n)).2.positions j.m_indexB).a
        = _
    rw [hA, hB]
    exact ih

/-- C31, amended. Positional correction without rotation, over exact arithmetic. For a rigid weld
joint (`frequencyHz = 0`) between two different bodies with `iA = iB = 0` and `mA + mB > 0`, one
call of `SolvePositionConstraints` leaves both angles as they were and, with
`C1 = cB + rB - cA - rA` at the positions on entry, moves the centres to
`cA + mA / (mA + mB) * C1` and `cB - mB / (mA + mB) * C1`, so that the `C1` of the positions it
leaves is exactly zero. Hence, the length of the zero vector being 0 and `LINEAR_SLOP` not being
negative, a second call reports the positional error 0 and returns true if and only if
`|aB - aA - referenceAngle| <= ANGULAR_SLOP`. No number of calls changes the two angles or the
angle `C2 = aB - aA - referenceAngle`, and every call after the first returns true under that same
condition. -/
theorem C31_exact_positional_correction (Rot : ℚ → b2Rot) (Length : b2Vec → ℚ)
    (LINEAR_SLOP ANGULAR_SLOP : ℚ) (j : b2WeldJoint) (data : b2SolverData)
    (hf : j.m_frequencyHz = 0) (hiA : j.m_invIA = 0) (hiB : j.m_invIB = 0)
    (hm : j.m_invMassA + j.m_invMassB > 0) (hne : j.m_indexA ≠ j.m_indexB) :
    ((SolvePositionConstraints Rot Length LINEAR_SLOP ANGULAR_SLOP j data).2.positions
        j.m_indexA).a = (data.positions j.m_indexA).a ∧
    ((SolvePositionConstraints Rot Length LINEAR_SLOP ANGULAR_SLOP j data).2.positions
        j.m_indexB).a = (data.positions j.m_indexB).a ∧
    ((SolvePositionConstraints Rot Length LINEAR_SLOP ANGULAR_SLOP j data).2.positions
        j.m_indexA).c = (data.positions j.m_indexA).c +
          (j.m_invMassA / (j.m_invMassA + j.m_invMassB)) * positionC1 Rot j data ∧
    ((SolvePositionConstraints Rot Length LINEAR_SLOP ANGULAR_SLOP j data).2.positions
        j.m_indexB).c = (data.positions j.m_indexB).c -
          (j.m_invMassB / (j.m_invMassA + j.m_invMassB)) * positionC1 Rot j data ∧
    positionC1 Rot j (SolvePositionConstraints Rot Length LINEAR_SLOP ANGULAR_SLOP j data).2
      = ⟨0, 0⟩ ∧
    (Length ⟨0, 0⟩ = 0 → 0 ≤ LINEAR_SLOP →
      Length (positionC1 Rot j
        (SolvePositionConstraints Rot Length LINEAR_SLOP ANGULAR_SLOP j data).2) = 0 ∧
      ((SolvePositionConstraints Rot Length LINEAR_SLOP ANGULAR_SLOP j
          (SolvePositionConstraints Rot Length LINEAR_SLOP ANGULAR_SLOP j data).2).1 = true ↔
        |(data.positions j.m_indexB).a - (data.positions j.m_indexA).a - j.m_referenceAngle|
          ≤ ANGULAR_SLOP)) ∧
    (∀ n,
      ((positionPasses Rot Length LINEAR_SLOP ANGULAR_SLOP j data n).positions j.m_indexA).a
        = (data.positions j.m_indexA).a ∧
      ((positionPasses Rot Length LINEAR_SLOP ANGULAR_SLOP j data n).positions j.m_indexB).a
        = (data.positions j.m_indexB).a ∧
      positionC2 j (positionPasses Rot Length LINEAR_SLOP ANGULAR_SLOP j data n)
        = positionC2 j data) ∧
    (Length ⟨0, 0⟩ = 0 → 0 ≤ LINEAR_SLOP → ∀ n,
      ((SolvePositionConstraints Rot Length LINEAR_SLOP ANGULAR_SLOP j
          (positionPasses Rot Length LINEAR_SLOP ANGULAR_SLOP j data (n + 1))).1 = true ↔
        |(data.positions j.m_indexB).a - (data.positions j.m_indexA).a - j.m_referenceAngle|
          ≤ ANGULAR_SLOP)) := by
  have hf' : ¬ j.m_frequencyHz > 0 := by rw [hf]; exact lt_irrefl 0
  have hm' : j.m_invMassA + j.m_invMassB ≠ 0 := ne_of_gt hm
  obtain ⟨hA, hB⟩ := SolvePositionConstraints_no_inertia Rot Length LINEAR_SLOP ANGULAR_SLOP
    j data hf' hiA hiB hm' hne
  have hangles := positionPasses_angles Rot Length LINEAR_SLOP ANGULAR_SLOP j data hf' hiA hiB
    hm' hne
  have hlater : Length ⟨0, 0⟩ = 0 → 0 ≤ LINEAR_SLOP → ∀ n,
      ((SolvePositionConstraints Rot Length LINEAR_SLOP ANGULAR_SLOP j
          (positionPasses Rot Length LINEAR_SLOP ANGULAR_SLOP j data (n + 1))).1 = true ↔
        |(data.positions j.m_indexB).a - (data.positions j.m_indexA).a - j.m_referenceAngle|
          ≤ ANGULAR_SLOP) := by
    intro hlen hslop n
    obtain ⟨h1, h2⟩ := SolvePositionConstraints_anchors_meet Rot Length LINEAR_SLOP
      ANGULAR_SLOP j (positionPasses Rot Length LINEAR_SLOP ANGULAR_SLOP j data n) hf' hiA hiB
      hm' hne
    rw [SolvePositionConstraints_rigid_flag Rot Length LINEAR_SLOP ANGULAR_SLOP j _ hf']
    have e1 : positionC1 Rot j (positionPasses Rot Length LINEAR_SLOP ANGULAR_SLOP j data (n + 1))
        = ⟨0, 0⟩ := h1
    have e2 : positionC2 j (positionPasses Rot Length LINEAR_SLOP ANGULAR_SLOP j data (n + 1))
        = (data.positions j.m_indexB).a - (data.positions j.m_indexA).a - j.m_referenceAngle := by
      unfold positionC2
      rw [(hangles (n + 1)).1, (hangles (n + 1)).2]
    rw [e1, e2, hlen]
    exact ⟨fun h => h.2, fun h => ⟨hslop, h⟩⟩
  obtain ⟨hzero, -⟩ := SolvePositionConstraints_anchors_meet Rot Length LINEAR_SLOP
    ANGULAR_SLOP j data hf' hiA hiB hm' hne
  refine ⟨by rw [hA], by rw [hB], by rw [hA], by rw [hB], hzero, ?_, ?_, hlater⟩
  · intro hlen hslop
    exact ⟨by rw [hzero, hlen], hlater hlen hslop 0⟩
  · intro n
    refine ⟨(hangles n).1, (hangles n).2, ?_⟩
    unfold positionC2
    rw [(hangles n).1, (hangles n).2]

/-- C31, amended, for the joint `weldPairNoInertia` with the anchors apart and the angular error
1: one call moves the centres to `(1/2, -1/2)` and `(3/2, 1/2)`, the anchors then coincide, and
the second call returns false. -/
theorem C31_exact_positional_correction_witness :
    weldPairNoInertia.m_frequencyHz = 0 ∧ weldPairNoInertia.m_invIA = 0 ∧
    weldPairNoInertia.m_invIB = 0 ∧
    weldPairNoInertia.m_invMassA + weldPairNoInertia.m_invMassB > 0 ∧
    weldPairNoInertia.m_indexA ≠ weldPairNoInertia.m_indexB ∧
    lengthAxial ⟨0, 0⟩ = 0 ∧
    positionC1 rotRational weldPairNoInertia apartData = ⟨3, -1⟩ ∧
    ((SolvePositionConstraints rotRational lengthAxial (1 / 200) (2 / 180 * PI_RATIONAL)
      weldPairNoInertia apartData).2.positions weldPairNoInertia.m_indexA).c
        = ⟨1 / 2, -1 / 2⟩ ∧
    ((SolvePositionConstraints rotRational lengthAxial (1 / 200) (2 / 180 * PI_RATIONAL)
      weldPairNoInertia apartData).2.positions weldPairNoInertia.m_indexB).c
        = ⟨3 / 2, 1 / 2⟩ ∧
    positionC1 rotRational weldPairNoInertia
      (SolvePositionConstraints rotRational lengthAxial (1 / 200) (2 / 180 * PI_RATIONAL)
        weldPairNoInertia apartData).2 = ⟨0, 0⟩ ∧
    (SolvePositionConstraints rotRational lengthAxial (1 / 200) (2 / 180 * PI_RATIONAL)
      weldPairNoInertia
      (SolvePositionConstraints rotRational lengthAxial (1 / 200) (2 / 180 * PI_RATIONAL)
        weldPairNoInertia apartData).2).1 = false := by
  have hf : weldPairNoInertia.m_frequencyHz = 0 := rfl
  have hiA : weldPairNoInertia.m_invIA = 0 := rfl
  have hiB : weldPairNoInertia.m_invIB = 0 := rfl
  have hm : weldPairNoInertia.m_invMassA + weldPairNoInertia.m_invMassB > 0 := by
    norm_num [weldPairNoInertia, weldPair]
  have hne : weldPairNoInertia.m_indexA ≠ weldPairNoInertia.m_indexB := by decide
  have hlen : lengthAxial ⟨0, 0⟩ = 0 := by norm_num [lengthAxial]
  have hC1 : positionC1 rotRational weldPairNoInertia apartData = ⟨3, -1⟩ := by
    norm_num [positionC1, weldPairNoInertia, weldPair, apartData, rotRational, b2MulRot,
      b2Vec.sub_def, b2Vec.add_def]
  obtain ⟨-, -, h3, h4, h5, h6, -, -⟩ := C31_exact_positional_correction rotRational
    lengthAxial (1 / 200) (2 / 180 * PI_RATIONAL) weldPairNoInertia apartData hf hiA hiB hm hne
  refine ⟨hf, hiA, hiB, hm, hne, hlen, hC1, ?_, ?_, h5, ?_⟩
  · rw [h3, hC1]
    norm_num [weldPairNoInertia, weldPair, apartData, b2Vec.add_def, b2Vec.smul_def]
  · rw [h4, hC1]
    norm_num [weldPairNoInertia, weldPair, apartData, b2Vec.sub_def, b2Vec.smul_def]
  · rw [Bool.eq_false_iff]
    intro ht
    have := (h6 hlen (by norm_num)).2.mp ht
    norm_num [weldPairNoInertia, weldPair, apartData, PI_RATIONAL] at this

end b2WeldJoint

end box2d

namespace box2d

namespace ieee

/-! ## Single-precision arithmetic: the order of the values that are not NaN -/

theorem F32.lt_iff (a b : F32) : a < b ↔ F32.lt a b = true := Iff.rfl

theorem F32.le_iff (a b : F32) : a ≤ b ↔ F32.le a b = true := Iff.rfl

theorem F32.not_lt_self (a : F32) : ¬ a < a := by
  cases a <;> simp [F32.lt_iff, F32.lt]

theorem F32.lt_of_lt_of_lt (a b c : F32) (h1 : a < b) (h2 : b < c) : a < c := by
  cases a <;> cases b <;> cases c <;> simp_all [F32.lt_iff, F32.lt]
  exact lt_trans h1 h2

/-- Among values that are not NaN, "not less" is transitive. -/
theorem F32.not_lt_of_not_lt (a b c : F32) (ha : a ≠ .nan) (hb : b ≠ .nan) (hc : c ≠ .nan)
    (h1 : ¬ a < b) (h2 : ¬ b < c) : ¬ a < c := by
  cases a <;> cases b <;> cases c <;> simp_all [F32.lt_iff, F32.lt]
  exact le_trans h2 h1

/-- Among values that are not NaN, `a <= b` says that `b` is not less than `a`. -/
theorem F32.le_iff_not_lt (a b : F32) (ha : a ≠ .nan) (hb : b ≠ .nan) : a ≤ b ↔ ¬ b < a := by
  cases a <;> cases b <;> simp_all [F32.lt_iff, F32.le_iff, F32.lt, F32.le]
  rename_i s t
  cases s <;> cases t <;> simp

/-- Two values each at most the other are the same value. -/
theorem F32.eq_of_le_of_le (a b : F32) (h1 : a ≤ b) (h2 : b ≤ a) : a = b := by
  cases a <;> cases b <;> simp_all [F32.le_iff, F32.le]
  · exact le_antisymm h1 h2
  · rename_i s t
    cases s <;> cases t <;> simp_all

theorem F32.ne_nan_of_le_left (a b : F32) (h : a ≤ b) : a ≠ .nan := by
  cases a <;> simp_all [F32.le_iff, F32.le]

theorem F32.ne_nan_of_le_right (a b : F32) (h : a ≤ b) : b ≠ .nan := by
  cases a <;> cases b <;> simp_all [F32.le_iff, F32.le]

theorem F32.zero_eq : (0 : F32) = .fin 0 := by
  show F32.fin ((0 : Nat) : ℚ) = .fin 0
  rw [Nat.cast_zero]

/-- A value greater than zero does not compare equal to zero. -/
theorem F32.eq_zero_of_pos (a : F32) (h : a > 0) : a.eq 0 = false := by
  rw [F32.zero_eq] at h ⊢
  cases a with
  | fin q =>
    have hq : (0 : ℚ) < q := by simpa [F32.lt_iff, F32.lt] using h
    simp [F32.eq, ne_of_gt hq]
  | inf s => rfl
  | nan => rfl

/-- A value that compares unequal to zero does not compare equal to it. -/
theorem F32.eq_zero_of_ne (a : F32) (h : a.ne 0 = true) : a.eq 0 = false := by
  simpa [F32.ne] using h

/-- Zero times a number is zero. -/
theorem F32.zero_mul_fin (q : ℚ) : F32.fin 0 * F32.fin q = .fin 0 := by
  show round32 (0 * q) = .fin 0
  rw [zero_mul]
  decide!

/-- A number times zero is zero. -/
theorem F32.fin_mul_zero (q : ℚ) : F32.fin q * F32.fin 0 = .fin 0 := by
  show round32 (q * 0) = .fin 0
  rw [mul_zero]
  decide!

end ieee

end box2d

namespace box2d

/-! ## Scans that keep the first best value, for a comparison that orders the values met -/

/-- A scan over the indices below `n` that starts from `(0, L)` and takes an index only when its
value is better than the best so far, for a comparison `better` that is transitive and
irreflexive and whose negation is transitive on the values `ok` holds of: the value kept is
`ok` and `L` is not better than it, no value is better than it, and either the scan ends
where it started, or it ends on the first index whose value is the value kept, every earlier
value being worse. -/
theorem scan_first_best {α : Type} (better : α → α → Prop) [DecidableRel better]
    (ok : α → Prop) (hirr : ∀ a, ¬ better a a)
    (htrans : ∀ a b c, better a b → better b c → better a c)
    (hneg : ∀ a b c, ok a → ok b → ok c → ¬ better a b → ¬ better b c → ¬ better a c)
    (g : Nat → α) (L : α) (hL : ok L) (n : Nat) (hg : ∀ i < n, ok (g i)) :
    ok ((List.range n).foldl
      (fun best i => if better (g i) best.2 then (i, g i) else best) (0, L)).2 ∧
    ¬ better L ((List.range n).foldl
      (fun best i => if better (g i) best.2 then (i, g i) else best) (0, L)).2 ∧
    (∀ i < n, ¬ better (g i) ((List.range n).foldl
      (fun best i => if better (g i) best.2 then (i, g i) else best) (0, L)).2) ∧
    (((List.range n).foldl
        (fun best i => if better (g i) best.2 then (i, g i) else best) (0, L) = (0, L) ∧
        ∀ i < n, ¬ better (g i) L) ∨
      (((List.range n).foldl
          (fun best i => if better (g i) best.2 then (i, g i) else best) (0, L)).1 < n ∧
        g ((List.range n).foldl
          (fun best i => if better (g i) best.2 then (i, g i) else best) (0, L)).1 =
          ((List.range n).foldl
            (fun best i => if better (g i) best.2 then (i, g i) else best) (0, L)).2 ∧
        ∀ i < ((List.range n).foldl
            (fun best i => if better (g i) best.2 then (i, g i) else best) (0, L)).1,
          better ((List.range n).foldl
            (fun best i => if better (g i) best.2 then (i, g i) else best) (0, L)).2 (g i))) := by
  induction n with
  | zero =>
    refine ⟨hL, hirr L, fun i hi => absurd hi (Nat.not_lt_zero i),
      Or.inl ⟨rfl, fun i hi => absurd hi (Nat.not_lt_zero i)⟩⟩
  | succ n ih =>
    have ih' := ih (fun i hi => hg i (Nat.lt_succ_of_lt hi))
    have hgn : ok (g n) := hg n (Nat.lt_succ_self n)
    rw [List.range_succ, List.foldl_append]
    generalize (List.range n).foldl
      (fun best i => if better (g i) best.2 then (i, g i) else best) (0, L) = r at ih' ⊢
    obtain ⟨h0, h1, h2, h3⟩ := ih'
    simp only [List.foldl_cons, List.foldl_nil]
    by_cases h : better (g n) r.2
    · rw [if_pos h]
      have hworse : ∀ i < n, better (g n) (g i) := by
        intro i hi
        by_contra hc
        exact hneg (g n) (g i) r.2 hgn (hg i (Nat.lt_succ_of_lt hi)) h0 hc (h2 i hi) h
      refine ⟨hgn, fun hc => h1 (htrans _ _ _ hc h), ?_, Or.inr ⟨Nat.lt_succ_self n, rfl, hworse⟩⟩
      intro i hi
      rcases Nat.lt_succ_iff_lt_or_eq.mp hi with hi | hi
      · exact fun hc => h2 i hi (htrans _ _ _ hc h)
      · subst hi; exact hirr _
    · rw [if_neg h]
      refine ⟨h0, h1, ?_, ?_⟩
      · intro i hi
        rcases Nat.lt_succ_iff_lt_or_eq.mp hi with hi | hi
        · exact h2 i hi
        · subst hi; exact h
      · rcases h3 with ⟨h3, h4⟩ | ⟨h3, h4, h5⟩
        · refine Or.inl ⟨h3, ?_⟩
          intro i hi
          rcases Nat.lt_succ_iff_lt_or_eq.mp hi with hi | hi
          · exact h4 i hi
          · subst hi; rw [h3] at h; exact h
        · exact Or.inr ⟨Nat.lt_succ_of_lt h3, h4, h5⟩

/-- A scan over a list that starts from `M` and takes a value only when it is better than the
best so far: the value kept is `ok`, `M` is not better than it, no value of the list is better
than it, and it is `M` or a value of the list. -/
theorem scan_list_best {α β : Type} (better : α → α → Prop) [DecidableRel better]
    (ok : α → Prop) (hirr : ∀ a, ¬ better a a)
    (htrans : ∀ a b c, better a b → better b c → better a c)
    (hneg : ∀ a b c, ok a → ok b → ok c → ¬ better a b → ¬ better b c → ¬ better a c)
    (f : β → α) (l : List β) : ∀ M : α, ok M → (∀ v ∈ l, ok (f v)) →
    ok (l.foldl (fun si v => if better (f v) si then f v else si) M) ∧
    ¬ better M (l.foldl (fun si v => if better (f v) si then f v else si) M) ∧
    (∀ v ∈ l, ¬ better (f v) (l.foldl (fun si v => if better (f v) si then f v else si) M)) ∧
    (l.foldl (fun si v => if better (f v) si then f v else si) M = M ∨
      ∃ v ∈ l, l.foldl (fun si v => if better (f v) si then f v else si) M = f v) := by
  induction l with
  | nil =>
    intro M hM _
    refine ⟨hM, hirr M, fun v hv => absurd hv (List.not_mem_nil v), Or.inl rfl⟩
  | cons a l ih =>
    intro M hM hl
    have hla : ok (f a) := hl a (List.mem_cons_self a l)
    have hl' : ∀ v ∈ l, ok (f v) := fun v hv => hl v (List.mem_cons_of_mem a hv)
    simp only [List.foldl_cons]
    by_cases h : better (f a) M
    · rw [if_pos h]
      obtain ⟨h0, h1, h2, h3⟩ := ih (f a) hla hl'
      refine ⟨h0, fun hc => h1 (htrans _ _ _ h hc), ?_, ?_⟩
      · intro v hv
        rcases List.mem_cons.mp hv with rfl | hv
        · exact h1
        · exact h2 v hv
      · rcases h3 with h3 | ⟨v, hv, h3⟩
        · exact Or.inr ⟨a, List.mem_cons_self a l, h3⟩
        · exact Or.inr ⟨v, List.mem_cons_of_mem a hv, h3⟩
    · rw [if_neg h]
      obtain ⟨h0, h1, h2, h3⟩ := ih M hM hl'
      refine ⟨h0, h1, ?_, ?_⟩
      · intro v hv
        rcases List.mem_cons.mp hv with rfl | hv
        · exact hneg _ _ _ hla hM h0 h h1
        · exact h2 v hv
      · rcases h3 with h3 | ⟨v, hv, h3⟩
        · exact Or.inl h3
        · exact Or.inr ⟨v, List.mem_cons_of_mem a hv, h3⟩

/-- A scan over the indices from 1 to `m` that starts from index 0 and its value: it ends on
the first index whose value no value is better than. -/
theorem scan_from_first {α : Type} (better : α → α → Prop) [DecidableRel better]
    (ok : α → Prop) (hirr : ∀ a, ¬ better a a)
    (htrans : ∀ a b c, better a b → better b c → better a c)
    (hneg : ∀ a b c, ok a → ok b → ok c → ¬ better a b → ¬ better b c → ¬ better a c)
    (g : Nat → α) (m : Nat) (hg : ∀ i < m + 1, ok (g i)) :
    ((List.range' 1 m).foldl
      (fun best i => if better (g i) best.2 then (i, g i) else best) (0, g 0)).1 < m + 1 ∧
    g ((List.range' 1 m).foldl
      (fun best i => if better (g i) best.2 then (i, g i) else best) (0, g 0)).1 =
      ((List.range' 1 m).foldl
        (fun best i => if better (g i) best.2 then (i, g i) else best) (0, g 0)).2 ∧
    (∀ i < m + 1, ¬ better (g i) ((List.range' 1 m).foldl
      (fun best i => if better (g i) best.2 then (i, g i) else best) (0, g 0)).2) ∧
    ∀ i < ((List.range' 1 m).foldl
        (fun best i => if better (g i) best.2 then (i, g i) else best) (0, g 0)).1,
      better ((List.range' 1 m).foldl
        (fun best i => if better (g i) best.2 then (i, g i) else best) (0, g 0)).2 (g i) := by
  have h := scan_first_best better ok hirr htrans hneg g (g 0)
    (hg 0 (Nat.succ_pos m)) (m + 1) hg
  rw [List.range_eq_range', List.range'_succ, List.foldl_cons, if_neg (hirr _)] at h
  obtain ⟨-, -, h2, h3⟩ := h
  refine ⟨?_, ?_, h2, ?_⟩
  · rcases h3 with ⟨h3, -⟩ | ⟨h3, -, -⟩
    · rw [h3]; exact Nat.succ_pos m
    · exact h3
  · rcases h3 with ⟨h3, -⟩ | ⟨-, h3, -⟩
    · rw [h3]
    · exact h3
  · rcases h3 with ⟨h3, -⟩ | ⟨-, -, h3⟩
    · rw [h3]; intro i hi; exact absurd hi (Nat.not_lt_zero i)
    · exact h3

end box2d

namespace box2d

namespace ieee

/-! ## Single-precision arithmetic: rounding does not go below a float -/

/-- The number of halvings of `n ≥ 1` is the position of its leading bit. -/
theorem halvings_spec : ∀ (fuel n : Nat), n ≤ fuel → 1 ≤ n →
    2 ^ halvings fuel n ≤ n ∧ n < 2 ^ (halvings fuel n + 1)
  | 0, n, h, hn => by omega
  | fuel + 1, n, h, hn => by
    unfold halvings
    by_cases h2 : n < 2
    · rw [if_pos h2]
      constructor
      · simpa using hn
      · simpa using h2
    · rw [if_neg h2]
      obtain ⟨ih1, ih2⟩ := halvings_spec fuel (n / 2) (by omega) (by omega)
      have e1 : 2 ^ (halvings fuel (n / 2) + 1) = 2 * 2 ^ halvings fuel (n / 2) := by ring
      have e2 : 2 ^ (halvings fuel (n / 2) + 1 + 1) = 4 * 2 ^ halvings fuel (n / 2) := by ring
      rw [e1] at ih2
      rw [e1, e2]
      constructor <;> omega

/-- The binary exponent of a rational other than 0 brackets its magnitude. -/
theorem ilog2_spec (q : ℚ) (hq : q ≠ 0) :
    (2 : ℚ) ^ ilog2 q ≤ |q| ∧ |q| < (2 : ℚ) ^ (ilog2 q + 1) := by
  have hnum : 1 ≤ q.num.natAbs := Nat.one_le_iff_ne_zero.mpr
    (fun h => hq (Rat.num_eq_zero.mp (Int.natAbs_eq_zero.mp h)))
  have hden : 1 ≤ q.den := q.den_pos
  obtain ⟨a1, a2⟩ := halvings_spec q.num.natAbs q.num.natAbs le_rfl hnum
  obtain ⟨b1, b2⟩ := halvings_spec q.den q.den le_rfl hden
  have habs : |q| = (q.num.natAbs : ℚ) / (q.den : ℚ) := by
    rw [Nat.cast_natAbs, Int.cast_abs]
    nth_rewrite 1 [← Rat.num_div_den q]
    rw [abs_div, Nat.abs_cast]
  have hb0 : (0 : ℚ) < (q.den : ℚ) := by exact_mod_cast hden
  have ha0 : (0 : ℚ) < (q.num.natAbs : ℚ) := by exact_mod_cast hnum
  have a1' : (2 : ℚ) ^ (halvings q.num.natAbs q.num.natAbs) ≤ (q.num.natAbs : ℚ) := by
    exact_mod_cast a1
  have a2' : (q.num.natAbs : ℚ) < (2 : ℚ) ^ (halvings q.num.natAbs q.num.natAbs + 1) := by
    exact_mod_cast a2
  have b1' : (2 : ℚ) ^ (halvings q.den q.den) ≤ (q.den : ℚ) := by exact_mod_cast b1
  have b2' : (q.den : ℚ) < (2 : ℚ) ^ (halvings q.den q.den + 1) := by exact_mod_cast b2
  have hpow : ∀ e : ℤ, (2 : ℚ) ^ (e + 1) = 2 * (2 : ℚ) ^ e := by
    intro e
    rw [zpow_add₀ (two_ne_zero), zpow_one, mul_comm]
  have he : (2 : ℚ) ^ ((halvings q.num.natAbs q.num.natAbs : ℤ) - (halvings q.den q.den : ℤ)) =
      (2 : ℚ) ^ (halvings q.num.natAbs q.num.natAbs) / (2 : ℚ) ^ (halvings q.den q.den) := by
    rw [zpow_sub₀ (two_ne_zero), zpow_natCast, zpow_natCast]
  have hA : (0 : ℚ) < (2 : ℚ) ^ (halvings q.num.natAbs q.num.natAbs) := by positivity
  have hB : (0 : ℚ) < (2 : ℚ) ^ (halvings q.den q.den) := by positivity
  rw [pow_succ] at a2' b2'
  have hlow : (2 : ℚ) ^ ((halvings q.num.natAbs q.num.natAbs : ℤ) - (halvings q.den q.den : ℤ)) <
      2 * |q| := by
    rw [he, habs, div_lt_iff₀ hB]
    have e : 2 * ((q.num.natAbs : ℚ) / (q.den : ℚ)) * (2 : ℚ) ^ (halvings q.den q.den) =
        (2 * (2 : ℚ) ^ (halvings q.den q.den) * (q.num.natAbs : ℚ)) / (q.den : ℚ) := by ring
    rw [e, lt_div_iff₀ hb0]
    have g1 := mul_le_mul_of_nonneg_right a1' hb0.le
    have g2 := mul_lt_mul_of_pos_left b2' ha0
    linarith
  have hhigh : |q| <
      2 * (2 : ℚ) ^ ((halvings q.num.natAbs q.num.natAbs : ℤ) - (halvings q.den q.den : ℤ)) := by
    rw [he, habs, div_lt_iff₀ hb0]
    have e : 2 * ((2 : ℚ) ^ (halvings q.num.natAbs q.num.natAbs) /
        (2 : ℚ) ^ (halvings q.den q.den)) * (q.den : ℚ) =
        (2 * (2 : ℚ) ^ (halvings q.num.natAbs q.num.natAbs) * (q.den : ℚ)) /
          (2 : ℚ) ^ (halvings q.den q.den) := by ring
    rw [e, lt_div_iff₀ hB]
    have g1 := mul_le_mul_of_nonneg_left b1' ha0.le
    have g2 := mul_lt_mul_of_pos_right a2' hb0
    linarith
  unfold ilog2
  simp only []
  split_ifs with h
  · exact ⟨h, by rw [hpow]; exact hhigh⟩
  · rw [sub_add_cancel]
    refine ⟨?_, lt_of_not_le h⟩
    have := hpow ((halvings q.num.natAbs q.num.natAbs : ℤ) - (halvings q.den q.den : ℤ) - 1)
    rw [sub_add_cancel] at this
    rw [this] at hlow
    linarith

/-- The binary exponent grows with the magnitude. -/
theorem ilog2_mono (a b : ℚ) (ha : a ≠ 0) (hb : b ≠ 0) (h : |a| ≤ |b|) : ilog2 a ≤ ilog2 b := by
  have h1 := (ilog2_spec a ha).1
  have h2 := (ilog2_spec b hb).2
  have h3 : (2 : ℚ) ^ ilog2 a < (2 : ℚ) ^ (ilog2 b + 1) := lt_of_le_of_lt (le_trans h1 h) h2
  have h4 := (zpow_lt_zpow_iff_right₀ (by norm_num : (1 : ℚ) < 2)).mp h3
  omega

/-- Rounding to the nearest integer does not go below an integer that the argument reaches. -/
theorem roundNearestEven_ge (x : ℚ) (n : ℤ) (h : (n : ℚ) ≤ x) : n ≤ roundNearestEven x := by
  have hf : n ≤ ⌊x⌋ := Int.le_floor.mpr h
  unfold roundNearestEven
  split_ifs <;> omega

/-- A number that rounding leaves as it is, is an integer multiple of the spacing at its
exponent, and is below `2 ^ 128` in magnitude. -/
theorem round32_fixed (q : ℚ) (hq : round32 q = .fin q) :
    q = (roundNearestEven (q / 2 ^ max (ilog2 q - 23) (-149)) : ℚ) *
      2 ^ max (ilog2 q - 23) (-149) ∧ |q| < 2 ^ 128 := by
  unfold round32 at hq
  simp only [] at hq
  split_ifs at hq with h
  have e := F32.fin.inj hq
  refine ⟨e.symm, ?_⟩
  rw [e] at h
  exact lt_of_not_le h

/-- The rounding of `x`, before the test for overflow, is not below a float `q ≤ x`. -/
theorem round32_ge (q x : ℚ) (hq : round32 q = .fin q) (hx : q ≤ x) :
    q ≤ (roundNearestEven (x / 2 ^ max (ilog2 x - 23) (-149)) : ℚ) *
      2 ^ max (ilog2 x - 23) (-149) := by
  have hqn := (round32_fixed q hq).1
  have hpos : (0 : ℚ) < 2 ^ max (ilog2 x - 23) (-149) := by positivity
  by_cases hle : max (ilog2 x - 23) (-149) ≤ max (ilog2 q - 23) (-149)
  · obtain ⟨n, hn⟩ : ∃ n : ℤ, q = (n : ℚ) * 2 ^ max (ilog2 q - 23) (-149) := ⟨_, hqn⟩
    generalize max (ilog2 q - 23) (-149) = eq at hn hle
    generalize max (ilog2 x - 23) (-149) = ex at hle hpos ⊢
    have hsplit : (2 : ℚ) ^ eq = ((2 ^ (eq - ex).toNat : ℤ) : ℚ) * 2 ^ ex := by
      rw [Int.cast_pow, Int.cast_ofNat, ← zpow_natCast, Int.toNat_of_nonneg (by omega),
        ← zpow_add₀ (two_ne_zero), sub_add_cancel]
    have hN : ((n * 2 ^ (eq - ex).toNat : ℤ) : ℚ) = q / 2 ^ ex := by
      rw [eq_div_iff hpos.ne', hn, hsplit]
      push_cast
      ring
    have hle2 : ((n * 2 ^ (eq - ex).toNat : ℤ) : ℚ) ≤ x / 2 ^ ex := by
      rw [hN]
      exact div_le_div_of_nonneg_right hx hpos.le
    have hr := roundNearestEven_ge _ _ hle2
    have hr' : q / 2 ^ ex ≤ (roundNearestEven (x / 2 ^ ex) : ℚ) := by
      rw [← hN]
      exact_mod_cast hr
    exact (div_le_iff₀ hpos).mp hr'
  · have hlt : max (ilog2 q - 23) (-149) < max (ilog2 x - 23) (-149) := lt_of_not_le hle
    rcases le_or_lt q 0 with hq0 | hq0
    · rcases le_or_lt 0 x with hx0 | hx0
      · have h0 : ((0 : ℤ) : ℚ) ≤ x / 2 ^ max (ilog2 x - 23) (-149) := by
          rw [Int.cast_zero]
          exact div_nonneg hx0 hpos.le
        have hr := roundNearestEven_ge _ _ h0
        have hr' : (0 : ℚ) ≤ (roundNearestEven (x / 2 ^ max (ilog2 x - 23) (-149)) : ℚ) := by
          exact_mod_cast hr
        exact le_trans hq0 (mul_nonneg hr' hpos.le)
      · exfalso
        have hxq : |x| ≤ |q| := by
          rw [abs_of_neg hx0, abs_of_nonpos hq0]
          linarith
        have hqne : q ≠ 0 := by
          intro e
          rw [e] at hx
          linarith
        have := ilog2_mono x q hx0.ne hqne hxq
        have h1 := le_max_left (ilog2 q - 23) (-149)
        have h2 := le_max_right (ilog2 q - 23) (-149)
        rcases max_cases (ilog2 x - 23) (-149) with ⟨e, -⟩ | ⟨e, -⟩ <;> omega
    · have hx0 : 0 < x := lt_of_lt_of_le hq0 hx
      have h1 := le_max_left (ilog2 q - 23) (-149)
      have h2 := le_max_right (ilog2 q - 23) (-149)
      have hex : max (ilog2 x - 23) (-149) = ilog2 x - 23 := by
        rcases max_cases (ilog2 x - 23) (-149) with ⟨e, -⟩ | ⟨e, -⟩ <;> omega
      rw [hex] at hlt hpos ⊢
      have hqs := (ilog2_spec q hq0.ne').2
      have hxs := (ilog2_spec x hx0.ne').1
      rw [abs_of_pos hq0] at hqs
      rw [abs_of_pos hx0] at hxs
      have hG : (2 : ℚ) ^ ilog2 x = ((2 ^ 23 : ℤ) : ℚ) * 2 ^ (ilog2 x - 23) := by
        rw [Int.cast_pow, Int.cast_ofNat, ← zpow_natCast, ← zpow_add₀ (two_ne_zero)]
        congr 1
        push_cast
        ring
      have hqG : q < (2 : ℚ) ^ ilog2 x :=
        lt_of_lt_of_le hqs (zpow_le_zpow_right₀ (by norm_num) (by omega))
      have h23 : ((2 ^ 23 : ℤ) : ℚ) ≤ x / 2 ^ (ilog2 x - 23) := by
        rw [le_div_iff₀ hpos, ← hG]
        exact hxs
      have hr := roundNearestEven_ge _ _ h23
      have hr' : ((2 ^ 23 : ℤ) : ℚ) ≤ (roundNearestEven (x / 2 ^ (ilog2 x - 23)) : ℚ) := by
        exact_mod_cast hr
      have := mul_le_mul_of_nonneg_right hr' hpos.le
      rw [← hG] at this
      linarith

/-- The sum of a float and a value that is not negative is not less than the float. -/
theorem F32.not_add_lt_self (a t : F32) (ha : a.isFloat = true) (ht : 0 ≤ t) : ¬ a + t < a := by
  rw [F32.zero_eq] at ht
  cases a with
  | nan => cases t <;> simp [F32.lt_iff, F32.lt]
  | inf s =>
    cases t with
    | nan => simp [F32.le_iff, F32.le] at ht
    | inf u =>
      show ¬ F32.lt (F32.add (.inf s) (.inf u)) (.inf s) = true
      unfold F32.add
      cases s <;> cases u <;> simp [F32.lt]
    | fin b =>
      show ¬ F32.lt (F32.add (.inf s) (.fin b)) (.inf s) = true
      cases s <;> simp [F32.add, F32.lt]
  | fin q =>
    have hq : round32 q = .fin q := by simpa [F32.isFloat] using ha
    cases t with
    | nan => simp [F32.le_iff, F32.le] at ht
    | inf u =>
      have hu : u = false := by simpa [F32.le_iff, F32.le] using ht
      subst hu
      show ¬ F32.lt (F32.add (.fin q) (.inf false)) (.fin q) = true
      simp [F32.add, F32.lt]
    | fin b =>
      have hb : 0 ≤ b := by simpa [F32.le_iff, F32.le] using ht
      have hge := round32_ge q (q + b) hq (by linarith)
      have hq2 := (round32_fixed q hq).2
      show ¬ F32.lt (round32 (q + b)) (.fin q) = true
      unfold round32
      simp only []
      split_ifs with hov
      · have hneg : ¬ (roundNearestEven ((q + b) / 2 ^ max (ilog2 (q + b) - 23) (-149)) : ℚ) *
            2 ^ max (ilog2 (q + b) - 23) (-149) < 0 := by
          intro hn
          rw [abs_of_neg hn] at hov
          rw [abs_lt] at hq2
          linarith [hq2.1]
        simp [F32.lt, hneg]
      · simp [F32.lt, hge]

/-- The product of the literal `0.1f` and a value that is not negative is not negative. -/
theorem tenth_mul_nonneg (s : F32) (hs : 0 ≤ s) : 0 ≤ tenth * s := by
  rw [F32.zero_eq] at hs ⊢
  cases s with
  | nan => simp [F32.le_iff, F32.le] at hs
  | inf u =>
    have hu : u = false := by simpa [F32.le_iff, F32.le] using hs
    subst hu
    decide!
  | fin b =>
    have hb : 0 ≤ b := by simpa [F32.le_iff, F32.le] using hs
    show F32.le (.fin 0) (round32 (13421773 / 134217728 * b)) = true
    have h0 : ((0 : ℤ) : ℚ) ≤ 13421773 / 134217728 * b /
        2 ^ max (ilog2 (13421773 / 134217728 * b) - 23) (-149) := by
      rw [Int.cast_zero]
      positivity
    have hr := roundNearestEven_ge _ _ h0
    have hr' : (0 : ℚ) ≤ (roundNearestEven (13421773 / 134217728 * b /
        2 ^ max (ilog2 (13421773 / 134217728 * b) - 23) (-149)) : ℚ) := by
      exact_mod_cast hr
    have hnn : (0 : ℚ) ≤ (roundNearestEven (13421773 / 134217728 * b /
        2 ^ max (ilog2 (13421773 / 134217728 * b) - 23) (-149)) : ℚ) *
          2 ^ max (ilog2 (13421773 / 134217728 * b) - 23) (-149) :=
      mul_nonneg hr' (by positivity)
    unfold round32
    simp only []
    split_ifs with hov
    · simp [F32.le, not_lt.mpr hnn]
    · simp [F32.le, hnn]

end ieee

end box2d

namespace box2d

namespace ieee

/-! ## Single-precision arithmetic: the results of the operations are floats -/

/-- Rounding to the nearest integer does not go above an integer that bounds the argument. -/
theorem roundNearestEven_le (x : ℚ) (n : ℤ) (h : x ≤ (n : ℚ)) : roundNearestEven x ≤ n := by
  have hfl : (⌊x⌋ : ℚ) ≤ x := Int.floor_le x
  unfold roundNearestEven
  split_ifs with h1 h2 h3
  · exact Int.cast_le.mp (le_trans hfl h)
  all_goals
    have hlt : (⌊x⌋ : ℚ) < (n : ℚ) := by
      have : (⌊x⌋ : ℚ) < x := by linarith
      linarith
    have := Int.cast_lt.mp hlt
    omega

/-- Rounding an integer to the nearest integer gives that integer. -/
theorem roundNearestEven_int (n : ℤ) : roundNearestEven (n : ℚ) = n := by
  unfold roundNearestEven
  rw [Int.floor_intCast, sub_self, if_pos (by norm_num)]

/-- A number that rounding produces is an integer of at most 24 bits times a power of two
not below the least one, `2 ^ -149`, and is below `2 ^ 128` in magnitude. -/
theorem round32_repr (q r : ℚ) (h : round32 q = .fin r) :
    ∃ (N e : ℤ), |N| ≤ 2 ^ 24 ∧ -149 ≤ e ∧ r = (N : ℚ) * 2 ^ e ∧ |r| < 2 ^ 128 := by
  unfold round32 at h
  simp only [] at h
  split_ifs at h with hov
  have hr := F32.fin.inj h
  refine ⟨roundNearestEven (q / 2 ^ max (ilog2 q - 23) (-149)), max (ilog2 q - 23) (-149), ?_,
    le_max_right _ _, hr.symm, ?_⟩
  · have hpos : (0 : ℚ) < 2 ^ max (ilog2 q - 23) (-149) := by positivity
    have hx : |q / 2 ^ max (ilog2 q - 23) (-149)| ≤ 2 ^ 24 := by
      by_cases hq : q = 0
      · rw [hq, zero_div, abs_zero]
        positivity
      · have hs := (ilog2_spec q hq).2
        rw [abs_div, abs_of_pos hpos, div_le_iff₀ hpos]
        have hle : (2 : ℚ) ^ (ilog2 q + 1) ≤ 2 ^ 24 * 2 ^ max (ilog2 q - 23) (-149) := by
          have e24 : (2 : ℚ) ^ 24 = 2 ^ (24 : ℤ) := by norm_cast
          rw [e24, ← zpow_add₀ (two_ne_zero)]
          exact zpow_le_zpow_right₀ (by norm_num) (by
            have := le_max_left (ilog2 q - 23) (-149)
            omega)
        linarith
    rw [abs_le] at hx ⊢
    constructor
    · apply roundNearestEven_ge
      push_cast
      exact hx.1
    · apply roundNearestEven_le
      push_cast
      exact hx.2
  · rw [← hr]
    exact lt_of_not_le hov

/-- An integer of at most 24 bits times a power of two not below `2 ^ -149`, of magnitude
below `2 ^ 128`, is a number that rounding leaves as it is. -/
theorem round32_of_repr (N e : ℤ) (hN : |N| ≤ 2 ^ 24) (he : -149 ≤ e)
    (hr : |(N : ℚ) * 2 ^ e| < 2 ^ 128) : round32 ((N : ℚ) * 2 ^ e) = .fin ((N : ℚ) * 2 ^ e) := by
  by_cases hN0 : N = 0
  · rw [hN0, Int.cast_zero, zero_mul]
    decide!
  have hpe : (0 : ℚ) < 2 ^ e := by positivity
  have hne : (N : ℚ) * 2 ^ e ≠ 0 := mul_ne_zero (Int.cast_ne_zero.mpr hN0) hpe.ne'
  obtain ⟨s1, s2⟩ := ilog2_spec _ hne
  have habs : |(N : ℚ) * 2 ^ e| = (|N| : ℤ) * 2 ^ e := by
    rw [abs_mul, abs_of_pos hpe, Int.cast_abs]
  have hM : ∃ M : ℤ, (N : ℚ) * 2 ^ e / 2 ^ max (ilog2 ((N : ℚ) * 2 ^ e) - 23) (-149) = (M : ℚ) := by
    rcases lt_or_eq_of_le hN with hlt | heq
    · have hlt' : ((|N| : ℤ) : ℚ) < 2 ^ (24 : ℤ) := by
        have e24 : (2 : ℚ) ^ (24 : ℤ) = ((2 ^ 24 : ℤ) : ℚ) := by norm_num
        rw [e24]
        exact Int.cast_lt.mpr hlt
      have hb : |(N : ℚ) * 2 ^ e| < 2 ^ (e + 24) := by
        rw [habs, add_comm, zpow_add₀ (two_ne_zero)]
        exact mul_lt_mul_of_pos_right hlt' hpe
      have hL : ilog2 ((N : ℚ) * 2 ^ e) < e + 24 :=
        (zpow_lt_zpow_iff_right₀ (by norm_num : (1 : ℚ) < 2)).mp (lt_of_le_of_lt s1 hb)
      have hle : max (ilog2 ((N : ℚ) * 2 ^ e) - 23) (-149) ≤ e := max_le (by omega) he
      generalize max (ilog2 ((N : ℚ) * 2 ^ e) - 23) (-149) = e' at hle ⊢
      refine ⟨N * 2 ^ (e - e').toNat, ?_⟩
      have hpe' : (0 : ℚ) < 2 ^ e' := by positivity
      rw [div_eq_iff hpe'.ne']
      push_cast
      rw [mul_assoc, ← zpow_natCast, Int.toNat_of_nonneg (by omega), ← zpow_add₀ (two_ne_zero),
        sub_add_cancel]
    · have hb : |(N : ℚ) * 2 ^ e| = 2 ^ (e + 24) := by
        rw [habs, heq, add_comm, zpow_add₀ (two_ne_zero)]
        norm_cast
      rw [hb] at s1 s2
      have h1 : ilog2 ((N : ℚ) * 2 ^ e) ≤ e + 24 :=
        (zpow_le_zpow_iff_right₀ (by norm_num : (1 : ℚ) < 2)).mp s1
      have h2 : e + 24 < ilog2 ((N : ℚ) * 2 ^ e) + 1 :=
        (zpow_lt_zpow_iff_right₀ (by norm_num : (1 : ℚ) < 2)).mp s2
      have hL : ilog2 ((N : ℚ) * 2 ^ e) = e + 24 := by omega
      have hmax : max (ilog2 ((N : ℚ) * 2 ^ e) - 23) (-149) = e + 1 := by
        rw [hL, max_eq_left (by omega)]
        ring
      rw [hmax]
      have hpe' : (0 : ℚ) < 2 ^ (e + 1) := by positivity
      rcases (abs_eq (by norm_num : (0 : ℤ) ≤ 2 ^ 24)).mp heq with hN' | hN'
      · refine ⟨2 ^ 23, ?_⟩
        rw [div_eq_iff hpe'.ne', hN', zpow_add₀ (two_ne_zero)]
        push_cast
        ring
      · refine ⟨-2 ^ 23, ?_⟩
        rw [div_eq_iff hpe'.ne', hN', zpow_add₀ (two_ne_zero)]
        push_cast
        ring
  obtain ⟨M, hM⟩ := hM
  have hback : (M : ℚ) * 2 ^ max (ilog2 ((N : ℚ) * 2 ^ e) - 23) (-149) = (N : ℚ) * 2 ^ e := by
    rw [← hM]
    exact div_mul_cancel₀ _ (by positivity)
  unfold round32
  simp only []
  rw [hM, roundNearestEven_int, hback, if_neg (not_le.mpr hr)]

/-- A number that rounding produces is left as it is by rounding. -/
theorem round32_idem (q r : ℚ) (h : round32 q = .fin r) : round32 r = .fin r := by
  obtain ⟨N, e, hN, he, hr, hb⟩ := round32_repr q r h
  rw [hr] at hb ⊢
  exact round32_of_repr N e hN he hb

/-- The sum of two values is a value of the format. -/
theorem F32.isFloat_add (a b : F32) : (a + b).isFloat = true := by
  cases a with
  | nan => cases b <;> rfl
  | inf s =>
    cases b with
    | nan => rfl
    | fin y => rfl
    | inf u =>
      cases s <;> cases u <;> rfl
  | fin x =>
    cases b with
    | nan => rfl
    | inf u => rfl
    | fin y =>
      show (round32 (x + y)).isFloat = true
      cases hxy : round32 (x + y) with
      | nan => rfl
      | inf u => rfl
      | fin r =>
        show decide (round32 r = .fin r) = true
        exact decide_eq_true (round32_idem _ _ hxy)

/-- The negative of a value of the format is a value of the format. -/
theorem F32.isFloat_neg (a : F32) (h : a.isFloat = true) : (-a).isFloat = true := by
  cases a with
  | nan => rfl
  | inf s => rfl
  | fin x =>
    have hx : round32 x = .fin x := by simpa [F32.isFloat] using h
    obtain ⟨N, e, hN, he, hr, hb⟩ := round32_repr x x hx
    show decide (round32 (-x) = .fin (-x)) = true
    apply decide_eq_true
    have e1 : -x = ((-N : ℤ) : ℚ) * 2 ^ e := by
      rw [hr]
      push_cast
      ring
    rw [e1]
    apply round32_of_repr (-N) e (by rw [abs_neg]; exact hN) he
    rw [← e1, abs_neg]
    exact hb

/-- The dot product the routines compute is a value of the format. -/
theorem b2Dot_isFloat (a b : b2Vec) : (b2Dot a b).isFloat = true :=
  F32.isFloat_add _ _

/-- The value `si` of the inner loop of `b2FindMaxSeparation` is a value of the format when
`MAX_FLOAT` is. -/
theorem deepest_isFloat (MAX_FLOAT : F32) (n v1 : b2Vec) (v2s : List b2Vec)
    (hM : MAX_FLOAT.isFloat = true) : (deepest MAX_FLOAT n v1 v2s).isFloat = true := by
  unfold deepest
  induction v2s generalizing MAX_FLOAT with
  | nil => exact hM
  | cons v vs ih =>
    rw [List.foldl_cons]
    apply ih
    split_ifs
    · exact b2Dot_isFloat _ _
    · exact hM

/-- The separation `b2FindMaxSeparation` returns is a value of the format when `MAX_FLOAT`
is. -/
theorem b2FindMaxSeparation_isFloat (MAX_FLOAT : F32) (poly1 : b2PolygonShape)
    (xf1 : b2Transform) (poly2 : b2PolygonShape) (xf2 : b2Transform)
    (hM : MAX_FLOAT.isFloat = true) :
    (b2FindMaxSeparation MAX_FLOAT poly1 xf1 poly2 xf2).2.isFloat = true := by
  unfold b2FindMaxSeparation
  have hstep : ∀ (l : List Nat) (best : Nat × F32), best.2.isFloat = true →
      (l.foldl
        (fun best i =>
          if faceSeparation MAX_FLOAT poly1 xf1 poly2 xf2 i > best.2 then
            (i, faceSeparation MAX_FLOAT poly1 xf1 poly2 xf2 i)
          else best) best).2.isFloat = true := by
    intro l
    induction l with
    | nil => intro best hb; exact hb
    | cons i l ih =>
      intro best hb
      rw [List.foldl_cons]
      apply ih
      split_ifs
      · exact deepest_isFloat _ _ _ _ hM
      · exact hb
  exact hstep _ _ (F32.isFloat_neg _ hM)

end ieee

end box2d

namespace box2d

namespace ieee

/-! ## Distance proxy: the support scan in single precision (C13) -/

namespace b2DistanceProxy

/-- C13, as corrected. For every proxy with at least one vertex and every direction `d` such
that no dot product the scan computes is a NaN, `GetSupport(d)` returns an index
`i < GetVertexCount()` such that, for the dot products as computed in single precision,
`dot(vertex[i], d) >= dot(vertex[k], d)` for every `k`, and every index below `i` has a
strictly smaller computed dot product: `i` is the lowest index attaining the maximum of the
computed dot products. -/
theorem C13_GetSupport_first_computed_maximum (proxy : b2DistanceProxy) (d : b2Vec)
    (h : 1 ≤ proxy.GetVertexCount)
    (hnan : ∀ k < proxy.GetVertexCount, b2Dot (proxy.GetVertex k) d ≠ F32.nan) :
    proxy.GetSupport d < proxy.GetVertexCount ∧
    (∀ k < proxy.GetVertexCount,
      b2Dot (proxy.GetVertex k) d ≤ b2Dot (proxy.GetVertex (proxy.GetSupport d)) d) ∧
    ∀ k < proxy.GetSupport d,
      b2Dot (proxy.GetVertex k) d < b2Dot (proxy.GetVertex (proxy.GetSupport d)) d := by
  unfold GetVertexCount at h hnan ⊢
  have hlen : proxy.m_vertices.length - 1 + 1 = proxy.m_vertices.length := by omega
  obtain ⟨h1, h2, h3, h4⟩ := scan_from_first (fun (x b : F32) => x > b) (fun a => a ≠ F32.nan)
    (fun a => F32.not_lt_self a) (fun a b c hab hbc => F32.lt_of_lt_of_lt c b a hbc hab)
    (fun a b c ha hb hc hab hbc => F32.not_lt_of_not_lt c b a hc hb ha hbc hab)
    (fun i => b2Dot (proxy.m_vertices.getD i default) d) (proxy.m_vertices.length - 1)
    (by rw [hlen]; exact hnan)
  rw [hlen] at h1 h3
  unfold GetSupport GetVertex supportScan
  unfold GetVertex at hnan
  refine ⟨h1, ?_, ?_⟩
  · intro k hk
    rw [F32.le_iff_not_lt _ _ (hnan k hk) (hnan _ h1)]
    have := h3 k hk
    rw [← h2] at this
    exact this
  · intro k hk
    have := h4 k hk
    rw [← h2] at this
    exact this

end b2DistanceProxy

end ieee

end box2d

namespace box2d

namespace ieee

/-! ## Polygon collision: the separation search in single precision (C7) -/

/-- The value `si` of a face is the least computed separation over the vertices of `poly2`,
when `poly2` has a vertex and every computed separation is a float at most `MAX_FLOAT`. -/
theorem faceSeparation_is_computed_min (MAX_FLOAT : F32) (poly1 : b2PolygonShape)
    (xf1 : b2Transform) (poly2 : b2PolygonShape) (xf2 : b2Transform) (i : Nat)
    (h2 : poly2.vertices ≠ [])
    (hfin : ∀ v2 ∈ poly2.vertices, computedSeparation poly1 xf1 xf2 i v2 ≤ MAX_FLOAT) :
    (∃ v2 ∈ poly2.vertices,
      faceSeparation MAX_FLOAT poly1 xf1 poly2 xf2 i = computedSeparation poly1 xf1 xf2 i v2) ∧
    ∀ v2 ∈ poly2.vertices,
      faceSeparation MAX_FLOAT poly1 xf1 poly2 xf2 i ≤ computedSeparation poly1 xf1 xf2 i v2 := by
  obtain ⟨v0, hv0⟩ := List.exists_mem_of_ne_nil _ h2
  have hM : MAX_FLOAT ≠ F32.nan := F32.ne_nan_of_le_right _ _ (hfin v0 hv0)
  have hok : ∀ v ∈ poly2.vertices, computedSeparation poly1 xf1 xf2 i v ≠ F32.nan :=
    fun v hv => F32.ne_nan_of_le_left _ _ (hfin v hv)
  obtain ⟨g0, g1, g2, g3⟩ := scan_list_best (fun (x si : F32) => x < si) (fun a => a ≠ F32.nan)
    (fun a => F32.not_lt_self a) (fun a b c hab hbc => F32.lt_of_lt_of_lt a b c hab hbc)
    (fun a b c ha hb hc hab hbc => F32.not_lt_of_not_lt a b c ha hb hc hab hbc)
    (computedSeparation poly1 xf1 xf2 i) poly2.vertices MAX_FLOAT hM hok
  have hle : ∀ v2 ∈ poly2.vertices,
      faceSeparation MAX_FLOAT poly1 xf1 poly2 xf2 i ≤ computedSeparation poly1 xf1 xf2 i v2 := by
    intro v hv
    exact (F32.le_iff_not_lt _ _ g0 (hok v hv)).mpr (g2 v hv)
  refine ⟨?_, hle⟩
  rcases g3 with g3 | g3
  · refine ⟨v0, hv0, F32.eq_of_le_of_le _ _ (hle v0 hv0) ?_⟩
    have e : faceSeparation MAX_FLOAT poly1 xf1 poly2 xf2 i = MAX_FLOAT := g3
    rw [e]
    exact hfin v0 hv0
  · exact g3

/-- C7, as corrected. For polygons with at least one vertex each and transforms such that every
separation the routine computes is a float between `-MAX_FLOAT` and `MAX_FLOAT`,
`b2FindMaxSeparation` returns the maximum over the faces `i` of `poly1` of `m i`, the minimum
over the vertices `v2` of `poly2` of the computed value of `dot(n_i', v2 - v1_i')`, where
`n_i'` and `v1_i'` are the normal and the vertex of face `i` as the routine maps them into the
frame of `poly2`, every operation rounded to single precision; and the edge index it reports
is the lowest face index attaining that maximum of computed values. -/
theorem C7_max_over_faces_of_computed_min (MAX_FLOAT : F32) (poly1 : b2PolygonShape)
    (xf1 : b2Transform) (poly2 : b2PolygonShape) (xf2 : b2Transform)
    (h1 : poly1.vertices ≠ []) (h2 : poly2.vertices ≠ [])
    (hfin : ∀ i < poly1.vertices.length, ∀ v2 ∈ poly2.vertices,
      -MAX_FLOAT ≤ computedSeparation poly1 xf1 xf2 i v2 ∧
      computedSeparation poly1 xf1 xf2 i v2 ≤ MAX_FLOAT) :
    ∃ m : Nat → F32,
      (∀ i < poly1.vertices.length,
        (∃ v2 ∈ poly2.vertices, m i = computedSeparation poly1 xf1 xf2 i v2) ∧
        ∀ v2 ∈ poly2.vertices, m i ≤ computedSeparation poly1 xf1 xf2 i v2) ∧
      (b2FindMaxSeparation MAX_FLOAT poly1 xf1 poly2 xf2).1 < poly1.vertices.length ∧
      (b2FindMaxSeparation MAX_FLOAT poly1 xf1 poly2 xf2).2 =
        m (b2FindMaxSeparation MAX_FLOAT poly1 xf1 poly2 xf2).1 ∧
      (∀ i < poly1.vertices.length,
        m i ≤ (b2FindMaxSeparation MAX_FLOAT poly1 xf1 poly2 xf2).2) ∧
      (∀ i < (b2FindMaxSeparation MAX_FLOAT poly1 xf1 poly2 xf2).1,
        m i < (b2FindMaxSeparation MAX_FLOAT poly1 xf1 poly2 xf2).2) := by
  have hmin := fun i (hi : i < poly1.vertices.length) =>
    faceSeparation_is_computed_min MAX_FLOAT poly1 xf1 poly2 xf2 i h2
      (fun v hv => (hfin i hi v hv).2)
  have hpos : 0 < poly1.vertices.length := List.length_pos.mpr h1
  obtain ⟨v0, hv0⟩ := List.exists_mem_of_ne_nil _ h2
  have hL : -MAX_FLOAT ≠ F32.nan := F32.ne_nan_of_le_left _ _ (hfin 0 hpos v0 hv0).1
  have hok : ∀ i < poly1.vertices.length,
      faceSeparation MAX_FLOAT poly1 xf1 poly2 xf2 i ≠ F32.nan := by
    intro i hi
    obtain ⟨⟨v, hv, e⟩, -⟩ := hmin i hi
    rw [e]
    exact F32.ne_nan_of_le_left _ _ (hfin i hi v hv).2
  refine ⟨faceSeparation MAX_FLOAT poly1 xf1 poly2 xf2, hmin, ?_⟩
  obtain ⟨g0, -, g2, g3⟩ := scan_first_best (fun (x b : F32) => x > b)
    (fun a => a ≠ F32.nan)
    (fun a => F32.not_lt_self a) (fun a b c hab hbc => F32.lt_of_lt_of_lt c b a hbc hab)
    (fun a b c ha hb hc hab hbc => F32.not_lt_of_not_lt c b a hc hb ha hbc hab)
    (faceSeparation MAX_FLOAT poly1 xf1 poly2 xf2) (-MAX_FLOAT) hL poly1.vertices.length hok
  unfold b2FindMaxSeparation
  have hall : ∀ i < poly1.vertices.length,
      faceSeparation MAX_FLOAT poly1 xf1 poly2 xf2 i ≤
        ((List.range poly1.vertices.length).foldl
          (fun best i =>
            if faceSeparation MAX_FLOAT poly1 xf1 poly2 xf2 i > best.2 then
              (i, faceSeparation MAX_FLOAT poly1 xf1 poly2 xf2 i)
            else best)
          (0, -MAX_FLOAT)).2 := by
    intro i hi
    exact (F32.le_iff_not_lt _ _ (hok i hi) g0).mpr (g2 i hi)
  rcases g3 with ⟨heq, hle⟩ | ⟨hlt, hval, hlow⟩
  · refine ⟨by rw [heq]; exact hpos, ?_, hall, ?_⟩
    · rw [heq]
      obtain ⟨⟨v, hv, hv'⟩, -⟩ := hmin 0 hpos
      have hlo := (hfin 0 hpos v hv).1
      have hhi := (F32.le_iff_not_lt _ _ (hok 0 hpos) hL).mpr (hle 0 hpos)
      show -MAX_FLOAT = faceSeparation MAX_FLOAT poly1 xf1 poly2 xf2 0
      rw [hv'] at hhi ⊢
      exact F32.eq_of_le_of_le _ _ hlo hhi
    · rw [heq]
      intro i hi
      exact absurd hi (Nat.not_lt_zero i)
  · exact ⟨hlt, hval.symm, hall, hlow⟩

end ieee

end box2d

namespace box2d

namespace ieee

/-! ## Polygon collision: the incident edge in single precision (C21) -/

/-- C21, as corrected. `b2FindIncidentEdge`, for a reference edge `edge1` of `poly1` and a
polygon `poly2` with at least one normal, the dot products it computes being floats at most
`MAX_FLOAT` (so none is a NaN): with `n1'` the reference normal as the routine rotates it into
the frame of `poly2`, the face `i1` selected is the lowest index that minimises the computed
value of `dot(n1', normals2[i])`, every operation rounded to single precision; the routine
writes `c[0].v = xf2 * vertices2[i1]` and `c[1].v = xf2 * vertices2[i2]`, where `i2 = i1 + 1`
wrapped to 0 at the end, and both contact features are (face, `edge1`, vertex, `i1` resp.
`i2`), the indices as bytes, which are the indices themselves below 256. -/
theorem C21_incident_edge_of_computed_min (MAX_FLOAT : F32) (poly1 : b2PolygonShape)
    (xf1 : b2Transform) (edge1 : Nat) (poly2 : b2PolygonShape) (xf2 : b2Transform)
    (he : edge1 < poly1.GetVertexCount) (h2 : poly2.normals ≠ [])
    (hfin : ∀ i < poly2.normals.length,
      b2Dot (b2MulTRot xf2.q (b2MulRot xf1.q (poly1.normals.getD edge1 default)))
        (poly2.normals.getD i default) ≤ MAX_FLOAT) :
    ∃ i1 i2 c,
      i1 = incidentFace MAX_FLOAT poly1 xf1 edge1 poly2 xf2 ∧
      i1 < poly2.normals.length ∧
      (∀ i < poly2.normals.length,
        b2Dot (b2MulTRot xf2.q (b2MulRot xf1.q (poly1.normals.getD edge1 default)))
            (poly2.normals.getD i1 default) ≤
          b2Dot (b2MulTRot xf2.q (b2MulRot xf1.q (poly1.normals.getD edge1 default)))
            (poly2.normals.getD i default)) ∧
      (∀ i < i1,
        b2Dot (b2MulTRot xf2.q (b2MulRot xf1.q (poly1.normals.getD edge1 default)))
            (poly2.normals.getD i1 default) <
          b2Dot (b2MulTRot xf2.q (b2MulRot xf1.q (poly1.normals.getD edge1 default)))
            (poly2.normals.getD i default)) ∧
      i2 = (if i1 + 1 < poly2.normals.length then i1 + 1 else 0) ∧
      b2FindIncidentEdge MAX_FLOAT poly1 xf1 edge1 poly2 xf2 = some c ∧
      c.1.v = b2Mul xf2 (poly2.vertices.getD i1 default) ∧
      c.2.v = b2Mul xf2 (poly2.vertices.getD i2 default) ∧
      c.1.id = ⟨edge1 % 256, i1 % 256, .e_face, .e_vertex⟩ ∧
      c.2.id = ⟨edge1 % 256, i2 % 256, .e_face, .e_vertex⟩ ∧
      (edge1 < 256 → poly2.normals.length ≤ 256 →
        c.1.id = ⟨edge1, i1, .e_face, .e_vertex⟩ ∧ c.2.id = ⟨edge1, i2, .e_face, .e_vertex⟩) := by
  have hpos : 0 < poly2.normals.length := List.length_pos.mpr h2
  have hM : MAX_FLOAT ≠ F32.nan := F32.ne_nan_of_le_right _ _ (hfin 0 hpos)
  have hok : ∀ i < poly2.normals.length,
      b2Dot (b2MulTRot xf2.q (b2MulRot xf1.q (poly1.normals.getD edge1 default)))
        (poly2.normals.getD i default) ≠ F32.nan :=
    fun i hi => F32.ne_nan_of_le_left _ _ (hfin i hi)
  obtain ⟨g0, -, g2, g3⟩ := scan_first_best (fun (x b : F32) => x < b)
    (fun a => a ≠ F32.nan)
    (fun a => F32.not_lt_self a) (fun a b c hab hbc => F32.lt_of_lt_of_lt a b c hab hbc)
    (fun a b c ha hb hc hab hbc => F32.not_lt_of_not_lt a b c ha hb hc hab hbc)
    (fun i => b2Dot (b2MulTRot xf2.q (b2MulRot xf1.q (poly1.normals.getD edge1 default)))
      (poly2.normals.getD i default)) MAX_FLOAT hM poly2.normals.length hok
  have hidx : incidentFace MAX_FLOAT poly1 xf1 edge1 poly2 xf2 =
      ((List.range poly2.normals.length).foldl
        (fun best i =>
          if (fun i => b2Dot (b2MulTRot xf2.q (b2MulRot xf1.q (poly1.normals.getD edge1 default)))
            (poly2.normals.getD i default)) i < best.2
          then (i, (fun i => b2Dot
            (b2MulTRot xf2.q (b2MulRot xf1.q (poly1.normals.getD edge1 default)))
            (poly2.normals.getD i default)) i)
          else best) (0, MAX_FLOAT)).1 := rfl
  have key : incidentFace MAX_FLOAT poly1 xf1 edge1 poly2 xf2 < poly2.normals.length ∧
      (∀ i < poly2.normals.length,
        b2Dot (b2MulTRot xf2.q (b2MulRot xf1.q (poly1.normals.getD edge1 default)))
            (poly2.normals.getD (incidentFace MAX_FLOAT poly1 xf1 edge1 poly2 xf2) default) ≤
          b2Dot (b2MulTRot xf2.q (b2MulRot xf1.q (poly1.normals.getD edge1 default)))
            (poly2.normals.getD i default)) ∧
      (∀ i < incidentFace MAX_FLOAT poly1 xf1 edge1 poly2 xf2,
        b2Dot (b2MulTRot xf2.q (b2MulRot xf1.q (poly1.normals.getD edge1 default)))
            (poly2.normals.getD (incidentFace MAX_FLOAT poly1 xf1 edge1 poly2 xf2) default) <
          b2Dot (b2MulTRot xf2.q (b2MulRot xf1.q (poly1.normals.getD edge1 default)))
            (poly2.normals.getD i default)) := by
    rw [hidx]
    generalize (List.range poly2.normals.length).foldl _ (0, MAX_FLOAT) = r at g0 g2 g3 ⊢
    rcases g3 with ⟨g3, g4⟩ | ⟨g3, g4, g5⟩
    · rw [g3]
      refine ⟨hpos, ?_, ?_⟩
      · intro i hi
        have a1 : ¬ MAX_FLOAT < b2Dot (b2MulTRot xf2.q (b2MulRot xf1.q
            (poly1.normals.getD edge1 default))) (poly2.normals.getD 0 default) :=
          (F32.le_iff_not_lt _ _ (hok 0 hpos) hM).mp (hfin 0 hpos)
        have a2 := g4 i hi
        exact (F32.le_iff_not_lt _ _ (hok 0 hpos) (hok i hi)).mpr
          (F32.not_lt_of_not_lt _ _ _ (hok i hi) hM (hok 0 hpos) a2 a1)
      · intro i hi
        exact absurd hi (Nat.not_lt_zero _)
    · refine ⟨g3, ?_, ?_⟩
      · intro i hi
        have := g2 i hi
        rw [← g4] at this
        exact (F32.le_iff_not_lt _ _ (hok _ g3) (hok i hi)).mpr this
      · intro i hi
        have := g5 i hi
        rw [← g4] at this
        exact this
  have hsome : b2FindIncidentEdge MAX_FLOAT poly1 xf1 edge1 poly2 xf2 = some
      (⟨b2Mul xf2 (poly2.vertices.getD (incidentFace MAX_FLOAT poly1 xf1 edge1 poly2 xf2) default),
          ⟨edge1 % 256, incidentFace MAX_FLOAT poly1 xf1 edge1 poly2 xf2 % 256,
            .e_face, .e_vertex⟩⟩,
       ⟨b2Mul xf2 (poly2.vertices.getD
            (nextIndex (incidentFace MAX_FLOAT poly1 xf1 edge1 poly2 xf2) poly2.normals.length)
            default),
          ⟨edge1 % 256,
            nextIndex (incidentFace MAX_FLOAT poly1 xf1 edge1 poly2 xf2) poly2.normals.length
              % 256,
            .e_face, .e_vertex⟩⟩) := by
    unfold b2FindIncidentEdge
    rw [if_neg (not_not.mpr he)]
  refine ⟨_, _, _, rfl, key.1, key.2.1, key.2.2, rfl, hsome, rfl, rfl, rfl, rfl, ?_⟩
  intro h256 hlen
  have hi1 : incidentFace MAX_FLOAT poly1 xf1 edge1 poly2 xf2 < 256 := by
    have := key.1
    omega
  have hi2 : nextIndex (incidentFace MAX_FLOAT poly1 xf1 edge1 poly2 xf2)
      poly2.normals.length < 256 := by
    unfold nextIndex
    split_ifs <;> omega
  have hnext : (if incidentFace MAX_FLOAT poly1 xf1 edge1 poly2 xf2 + 1 < poly2.normals.length
      then incidentFace MAX_FLOAT poly1 xf1 edge1 poly2 xf2 + 1 else 0) =
      nextIndex (incidentFace MAX_FLOAT poly1 xf1 edge1 poly2 xf2) poly2.normals.length := rfl
  rw [hnext]
  simp only [Nat.mod_eq_of_lt h256, Nat.mod_eq_of_lt hi1, Nat.mod_eq_of_lt hi2, and_self]

end ieee

end box2d

namespace box2d

namespace ieee

/-! ## Weld joint: the soft coefficients in single precision (C24) -/

namespace b2WeldJoint

/-- A division under the test `x > 0.0f` never divides by zero. -/
theorem checkedDiv_of_pos (x : F32) :
    (if x > 0 then checkedDiv 1 x else some 0) = some (if x > 0 then 1 / x else 0) := by
  unfold checkedDiv
  by_cases h : x > 0
  · simp only [if_pos h, F32.eq_zero_of_pos x h, Bool.false_eq_true, if_false]
  · simp only [if_neg h]

/-- A division under the test `x != 0.0f` never divides by zero. -/
theorem checkedDiv_of_ne (x : F32) :
    (if x.ne 0 then checkedDiv 1 x else some 0) = some (if x.ne 0 then 1 / x else 0) := by
  unfold checkedDiv
  by_cases h : x.ne 0 = true
  · simp only [if_pos h, F32.eq_zero_of_ne x h, Bool.false_eq_true, if_false]
  · simp only [if_neg h]

/-- The soft branch with checked divisions never fails and gives the joint of the soft branch:
each of its divisions sits under a test that excludes a divisor equal to zero. -/
theorem initSoftChecked_some (B2_PI : F32) (j : b2WeldJoint) (K : b2Mat33) (aA aB dt : F32) :
    initSoftChecked B2_PI j K aA aB dt = some (initSoft B2_PI j K aA aB dt) := by
  unfold initSoftChecked initSoft
  simp only [checkedDiv_of_pos, checkedDiv_of_ne, Option.some_bind]

/-- The members `m_mass`, `m_gamma` and `m_bias` that `InitVelocityConstraints` leaves are those
of its mode branch. -/
theorem InitVelocityConstraints_branch (Rot : F32 → b2Rot) (B2_PI : F32) (j : b2WeldJoint)
    (data : b2SolverData) :
    (InitVelocityConstraints Rot B2_PI j data).1.m_mass =
      (initMass B2_PI (cacheBodies Rot j data) (data.positions j.m_bodyA.m_islandIndex).a
        (data.positions j.m_bodyB.m_islandIndex).a data.step.dt).m_mass ∧
    (InitVelocityConstraints Rot B2_PI j data).1.m_gamma =
      (initMass B2_PI (cacheBodies Rot j data) (data.positions j.m_bodyA.m_islandIndex).a
        (data.positions j.m_bodyB.m_islandIndex).a data.step.dt).m_gamma ∧
    (InitVelocityConstraints Rot B2_PI j data).1.m_bias =
      (initMass B2_PI (cacheBodies Rot j data) (data.positions j.m_bodyA.m_islandIndex).a
        (data.positions j.m_bodyB.m_islandIndex).a data.step.dt).m_bias := by
  unfold InitVelocityConstraints
  simp only []
  split_ifs <;> exact ⟨rfl, rfl, rfl⟩

/-- C24, as corrected. Soft-mode coefficients in `InitVelocityConstraints`
(`frequencyHz > 0`), every operation rounded to single precision: with `invM = iA + iB`,
`m = 1 / invM` if `invM > 0` and 0 otherwise, `omega = 2 * pi * frequencyHz`,
`d = 2 * m * dampingRatio * omega`, `k = m * omega * omega`, `h = dt` and
`C = aB - aA - referenceAngle`, the joint stores `gamma = 1 / (h * (d + h * k))` if
`h * (d + h * k) != 0` and 0 otherwise, `bias = C * h * k * gamma`, and the angular effective
mass `1 / (invM + gamma)` if `invM + gamma != 0` and 0 otherwise; no division divides by zero;
and for `h = 0` both `gamma` and `bias` are 0 provided `C`, `k` and `d + h * k` are numbers,
that is, no operation on the way to them has overflowed or produced a NaN. -/
theorem C24_soft_coefficients_computed (Rot : F32 → b2Rot) (B2_PI : F32) (j : b2WeldJoint)
    (data : b2SolverData) (invM m omega d k h C gamma : F32)
    (hf : j.m_frequencyHz > 0)
    (hinvM : invM = j.m_bodyA.m_invI + j.m_bodyB.m_invI)
    (hm : m = if invM > 0 then 1 / invM else 0)
    (homega : omega = 2 * B2_PI * j.m_frequencyHz)
    (hd : d = 2 * m * j.m_dampingRatio * omega)
    (hk : k = m * omega * omega)
    (hh : h = data.step.dt)
    (hC : C = (data.positions j.m_bodyB.m_islandIndex).a -
      (data.positions j.m_bodyA.m_islandIndex).a - j.m_referenceAngle)
    (hgamma : gamma = if (h * (d + h * k)).ne 0 then 1 / (h * (d + h * k)) else 0) :
    (InitVelocityConstraints Rot B2_PI j data).1.m_gamma = gamma ∧
    (InitVelocityConstraints Rot B2_PI j data).1.m_bias = C * h * k * gamma ∧
    (InitVelocityConstraints Rot B2_PI j data).1.m_mass.ez.z =
      (if (invM + gamma).ne 0 then 1 / (invM + gamma) else 0) ∧
    (∃ j', initSoftChecked B2_PI (cacheBodies Rot j data) (initK Rot j data)
        (data.positions j.m_bodyA.m_islandIndex).a (data.positions j.m_bodyB.m_islandIndex).a
        data.step.dt = some j' ∧
      j'.m_gamma = gamma ∧ j'.m_bias = C * h * k * gamma ∧
      j'.m_mass = (InitVelocityConstraints Rot B2_PI j data).1.m_mass) ∧
    (h = 0 → (∃ q, C = .fin q) → (∃ q, k = .fin q) → (∃ q, d + h * k = .fin q) →
      (InitVelocityConstraints Rot B2_PI j data).1.m_gamma = 0 ∧
      (InitVelocityConstraints Rot B2_PI j data).1.m_bias = 0) := by
  obtain ⟨m1, m2, m3⟩ := InitVelocityConstraints_branch Rot B2_PI j data
  have hfreq : (cacheBodies Rot j data).m_frequencyHz > 0 := hf
  have hK : weldK (cacheBodies Rot j data).m_invMassA (cacheBodies Rot j data).m_invMassB
      (cacheBodies Rot j data).m_invIA (cacheBodies Rot j data).m_invIB
      (cacheBodies Rot j data).m_rA (cacheBodies Rot j data).m_rB = initK Rot j data := rfl
  have hinit : initMass B2_PI (cacheBodies Rot j data)
      (data.positions j.m_bodyA.m_islandIndex).a (data.positions j.m_bodyB.m_islandIndex).a
      data.step.dt = initSoft B2_PI (cacheBodies Rot j data) (initK Rot j data)
      (data.positions j.m_bodyA.m_islandIndex).a (data.positions j.m_bodyB.m_islandIndex).a
      data.step.dt := by
    unfold initMass
    simp only [hK, if_pos hfreq]
  rw [hinit] at m1 m2 m3
  have g1 : (initSoft B2_PI (cacheBodies Rot j data) (initK Rot j data)
      (data.positions j.m_bodyA.m_islandIndex).a (data.positions j.m_bodyB.m_islandIndex).a
      data.step.dt).m_gamma = gamma := by
    rw [hgamma, hh, hd, hk, homega, hm, hinvM]
    rfl
  have g2 : (initSoft B2_PI (cacheBodies Rot j data) (initK Rot j data)
      (data.positions j.m_bodyA.m_islandIndex).a (data.positions j.m_bodyB.m_islandIndex).a
      data.step.dt).m_bias = C * h * k * gamma := by
    rw [hgamma, hC, hh, hd, hk, homega, hm, hinvM]
    rfl
  have g3 : (initSoft B2_PI (cacheBodies Rot j data) (initK Rot j data)
      (data.positions j.m_bodyA.m_islandIndex).a (data.positions j.m_bodyB.m_islandIndex).a
      data.step.dt).m_mass.ez.z = (if (invM + gamma).ne 0 then 1 / (invM + gamma) else 0) := by
    rw [hgamma, hh, hd, hk, homega, hm, hinvM]
    rfl
  refine ⟨m2.trans g1, m3.trans g2, (congrArg (fun M => M.ez.z) m1).trans g3,
    ⟨_, initSoftChecked_some _ _ _ _ _ _, g1, g2, m1.symm⟩, ?_⟩
  intro h0 hCfin hkfin hsum
  obtain ⟨c, hc⟩ := hCfin
  obtain ⟨kq, hkq⟩ := hkfin
  obtain ⟨sq, hsq⟩ := hsum
  have hg0 : gamma = 0 := by
    rw [hgamma, hsq, h0, F32.zero_eq, F32.zero_mul_fin]
    rfl
  refine ⟨(m2.trans g1).trans hg0, (m3.trans g2).trans ?_⟩
  rw [hg0, hc, hkq, h0, F32.zero_eq, F32.fin_mul_zero, F32.zero_mul_fin, F32.zero_mul_fin]

end b2WeldJoint

end ieee

end box2d

namespace box2d

namespace ieee

/-! ## Polygon collision: the choice of the reference face in single precision (C8) -/

/-- C8, as corrected. When neither computed separation exceeds the combined radius,
`b2CollidePolygons` takes the face of B as reference (reference polygon B, incident polygon A,
reference edge `edgeB`, manifold type `e_faceB`, `flip = 1`) if and only if
`separationB > separationA + k_tol` holds for the floats the routine computes, where
`k_tol = 0.1f * LINEAR_SLOP` and the sum are rounded to single precision and the comparison
is false on a NaN, and otherwise the face of A (reference edge `edgeA`, type `e_faceA`,
`flip = 0`); so for `LINEAR_SLOP ≥ 0`, and `MAX_FLOAT` a value of the format, a tie
`separationA = separationB` gives A. -/
theorem C8_reference_face_choice_computed (MAX_FLOAT LINEAR_SLOP : F32)
    (polyA : b2PolygonShape) (xfA : b2Transform) (polyB : b2PolygonShape) (xfB : b2Transform)
    (edgeA edgeB : Nat) (separationA separationB : F32)
    (hsA : b2FindMaxSeparation MAX_FLOAT polyA xfA polyB xfB = (edgeA, separationA))
    (hsB : b2FindMaxSeparation MAX_FLOAT polyB xfB polyA xfA = (edgeB, separationB))
    (hA : ¬ separationA > polyA.radius + polyB.radius)
    (hB : ¬ separationB > polyA.radius + polyB.radius) :
    (separationB > separationA + tenth * LINEAR_SLOP ↔
      referenceChoice MAX_FLOAT LINEAR_SLOP polyA xfA polyB xfB =
        some ⟨polyB, polyA, xfB, xfA, edgeB, .e_faceB, 1⟩) ∧
    (¬ separationB > separationA + tenth * LINEAR_SLOP ↔
      referenceChoice MAX_FLOAT LINEAR_SLOP polyA xfA polyB xfB =
        some ⟨polyA, polyB, xfA, xfB, edgeA, .e_faceA, 0⟩) ∧
    (0 ≤ LINEAR_SLOP → MAX_FLOAT.isFloat = true → separationA = separationB →
      referenceChoice MAX_FLOAT LINEAR_SLOP polyA xfA polyB xfB =
        some ⟨polyA, polyB, xfA, xfB, edgeA, .e_faceA, 0⟩) := by
  have hrc : referenceChoice MAX_FLOAT LINEAR_SLOP polyA xfA polyB xfB =
      some (chooseReference LINEAR_SLOP polyA xfA polyB xfB edgeA separationA edgeB
        separationB) := by
    unfold referenceChoice
    simp only [hsA, hsB, if_neg hA, if_neg hB]
  rw [hrc]
  unfold chooseReference
  refine ⟨?_, ?_, ?_⟩
  · constructor
    · intro h; rw [if_pos h]
    · intro h
      by_contra hc
      rw [if_neg hc] at h
      have hflip : (0 : Nat) = 1 := congrArg Reference.flip (Option.some.inj h)
      exact absurd hflip (by decide)
  · constructor
    · intro h; rw [if_neg h]
    · intro h hc
      rw [if_pos hc] at h
      have hflip : (1 : Nat) = 0 := congrArg Reference.flip (Option.some.inj h)
      exact absurd hflip (by decide)
  · intro hslop hfloat heq
    have hsep : separationA.isFloat = true := by
      have := b2FindMaxSeparation_isFloat MAX_FLOAT polyA xfA polyB xfB hfloat
      rw [hsA] at this
      exact this
    rw [if_neg]
    rw [← heq]
    exact F32.not_add_lt_self separationA (tenth * LINEAR_SLOP) hsep
      (tenth_mul_nonneg LINEAR_SLOP hslop)

/-- C8 fails as stated for the code, which computes in single precision. For two boxes of
half-extent `0.5f`, B turned by `0.2` at `xfTurned`, and `LINEAR_SLOP = 0.005f`, the computed
separations are `-1665467 / 2 ^ 25` for A and `-6594759 / 2 ^ 27` for B, neither above the
combined radius; the separation of B exceeds that of A by more than a tenth of `LINEAR_SLOP`,
but the float `separationA + k_tol` is the separation of B itself, so the test is false and the
routine takes the face of A. Over exact arithmetic it takes the face of B. -/
theorem C8_rounded_tolerance_changes_the_choice :
    b2FindMaxSeparation FLT_MAX (boxOf half) xfOrigin (boxOf half) xfTurned
      = (1, .fin (-1665467 / 33554432)) ∧
    b2FindMaxSeparation FLT_MAX (boxOf half) xfTurned (boxOf half) xfOrigin
      = (3, .fin (-6594759 / 134217728)) ∧
    ¬ F32.fin (-1665467 / 33554432) > (boxOf half).radius + (boxOf half).radius ∧
    ¬ F32.fin (-6594759 / 134217728) > (boxOf half).radius + (boxOf half).radius ∧
    (-6594759 / 134217728 : ℚ) > -1665467 / 33554432 + 1 / 10 * slop.toRat ∧
    F32.fin (-1665467 / 33554432) + tenth * slop = .fin (-6594759 / 134217728) ∧
    referenceChoice FLT_MAX slop (boxOf half) xfOrigin (boxOf half) xfTurned =
      some ⟨boxOf half, boxOf half, xfOrigin, xfTurned, 1, .e_faceA, 0⟩ ∧
    (box2d.chooseReference slop.toRat (boxOf half).toExact xfOrigin.toExact
      (boxOf half).toExact xfTurned.toExact
      (box2d.b2FindMaxSeparation FLT_MAX.toRat (boxOf half).toExact xfOrigin.toExact
        (boxOf half).toExact xfTurned.toExact).1
      (box2d.b2FindMaxSeparation FLT_MAX.toRat (boxOf half).toExact xfOrigin.toExact
        (boxOf half).toExact xfTurned.toExact).2
      (box2d.b2FindMaxSeparation FLT_MAX.toRat (boxOf half).toExact xfTurned.toExact
        (boxOf half).toExact xfOrigin.toExact).1
      (box2d.b2FindMaxSeparation FLT_MAX.toRat (boxOf half).toExact xfTurned.toExact
        (boxOf half).toExact xfOrigin.toExact).2).type = .e_faceB := by
  decide!

/-- C8 for two boxes of half-extent `0.5f`, B turned by `0.2` at `xfTurned`: the computed
separation of B does not exceed the computed `separationA + k_tol`, and the face of A is the
reference; and for the box A against itself the separations tie and the face of A is the
reference. -/
theorem C8_reference_face_choice_computed_witness :
    referenceChoice FLT_MAX slop (boxOf half) xfOrigin (boxOf half) xfTurned =
      some ⟨boxOf half, boxOf half, xfOrigin, xfTurned, 1, .e_faceA, 0⟩ ∧
    referenceChoice FLT_MAX slop (boxOf half) xfOrigin (boxOf half) xfOrigin =
      some ⟨boxOf half, boxOf half, xfOrigin, xfOrigin, 0, .e_faceA, 0⟩ :=
  ⟨(C8_reference_face_choice_computed FLT_MAX slop (boxOf half) xfOrigin (boxOf half) xfTurned
      1 3 (.fin (-1665467 / 33554432)) (.fin (-6594759 / 134217728)) (by decide!) (by decide!)
      (by decide!) (by decide!)).2.1.mp (by decide!),
    (C8_reference_face_choice_computed FLT_MAX slop (boxOf half) xfOrigin (boxOf half) xfOrigin
      0 0 (.fin (-1)) (.fin (-1)) (by decide!) (by decide!)
      (by decide!) (by decide!)).2.2 (by decide!) (by decide!) rfl⟩

end ieee

end box2d

namespace box2d

namespace ieee

/-! ## Single precision against exact arithmetic: concrete runs -/

/-- C7 fails as stated for the code, which computes in single precision. For two boxes of
half-extent `0.3f`, the second moved without rotation to `xfCorner`, the computed separations
of the faces 1 and 2 round to the same float, `14874971 / 2 ^ 24`, and `b2FindMaxSeparation`
reports edge 1 with that value; the separation of every vertex from face 2 is greater, so the
maximum over the faces of the minimum over the vertices is attained at face 2 only, with the
value `3718743 / 2 ^ 22`, which is what the routine gives over exact arithmetic. And for two
boxes at `(FLT_MAX, 0)` and `(-FLT_MAX, 0)` the difference of the positions overflows, every
separation the routine computes is a NaN, and it returns `MAX_FLOAT` for edge 0, which is the
separation of no vertex from any face. -/
theorem C7_rounding_changes_the_edge :
    b2FindMaxSeparation FLT_MAX (boxOf threeTenths) xfOrigin (boxOf threeTenths) xfCorner
      = (1, .fin (14874971 / 16777216)) ∧
    (∀ v2 ∈ (boxOf threeTenths).toExact.vertices,
      (14874971 / 16777216 : ℚ) < box2d.projectedSeparation (boxOf threeTenths).toExact
        xfOrigin.toExact xfCorner.toExact 2 v2) ∧
    box2d.b2FindMaxSeparation FLT_MAX.toRat (boxOf threeTenths).toExact xfOrigin.toExact
      (boxOf threeTenths).toExact xfCorner.toExact = (2, 3718743 / 4194304) ∧
    b2FindMaxSeparation FLT_MAX (boxOf half) xfFarRight (boxOf half) xfFarLeft
      = (0, FLT_MAX) ∧
    (∀ i < (boxOf half).vertices.length, ∀ v2 ∈ (boxOf half).vertices,
      computedSeparation (boxOf half) xfFarRight xfFarLeft i v2 = .nan) := by
  decide!

/-- C7 for two boxes of half-extent `0.3f`, the second moved to `xfCorner`: every computed
separation is a float within the range, and the routine reports edge 1. -/
theorem C7_max_over_faces_of_computed_min_witness :
    (boxOf threeTenths).vertices ≠ [] ∧
    (∀ i < (boxOf threeTenths).vertices.length, ∀ v2 ∈ (boxOf threeTenths).vertices,
      -FLT_MAX ≤ computedSeparation (boxOf threeTenths) xfOrigin xfCorner i v2 ∧
      computedSeparation (boxOf threeTenths) xfOrigin xfCorner i v2 ≤ FLT_MAX) ∧
    ∃ m : Nat → F32,
      (∀ i < (boxOf threeTenths).vertices.length,
        (∃ v2 ∈ (boxOf threeTenths).vertices,
          m i = computedSeparation (boxOf threeTenths) xfOrigin xfCorner i v2) ∧
        ∀ v2 ∈ (boxOf threeTenths).vertices,
          m i ≤ computedSeparation (boxOf threeTenths) xfOrigin xfCorner i v2) ∧
      (b2FindMaxSeparation FLT_MAX (boxOf threeTenths) xfOrigin (boxOf threeTenths) xfCorner).1 <
        (boxOf threeTenths).vertices.length ∧
      (b2FindMaxSeparation FLT_MAX (boxOf threeTenths) xfOrigin (boxOf threeTenths) xfCorner).2 =
        m (b2FindMaxSeparation FLT_MAX (boxOf threeTenths) xfOrigin (boxOf threeTenths)
          xfCorner).1 ∧
      (∀ i < (boxOf threeTenths).vertices.length,
        m i ≤ (b2FindMaxSeparation FLT_MAX (boxOf threeTenths) xfOrigin (boxOf threeTenths)
          xfCorner).2) ∧
      (∀ i < (b2FindMaxSeparation FLT_MAX (boxOf threeTenths) xfOrigin (boxOf threeTenths)
          xfCorner).1,
        m i < (b2FindMaxSeparation FLT_MAX (boxOf threeTenths) xfOrigin (boxOf threeTenths)
          xfCorner).2) :=
  ⟨by decide, by decide!,
    C7_max_over_faces_of_computed_min FLT_MAX (boxOf threeTenths) xfOrigin (boxOf threeTenths)
      xfCorner (by decide) (by decide) (by decide!)⟩

namespace b2DistanceProxy

/-- C13 fails as stated for the code, which computes in single precision. For the vertices
`(1, 0)` and `(1, 1)` and the direction `(1, 2 ^ -30)` both computed dot products are 1 and
`GetSupport` returns 0, while the dot product of vertex 1 is the greater one, so that the
scan over exact arithmetic returns 1. For the vertices `(2 ^ 127, -2 ^ 127)` and `(0, 0)` and
the direction `(2, 2)` the first computed dot product is a NaN and `GetSupport` returns 0, an
index whose computed dot product is not `>=` that of vertex 1. -/
theorem C13_rounding_and_nan_change_the_support :
    nearTieProxy.GetSupport nearTieDirection = 0 ∧
    box2d.b2Dot (nearTieProxy.GetVertex 0).toExact nearTieDirection.toExact <
      box2d.b2Dot (nearTieProxy.GetVertex 1).toExact nearTieDirection.toExact ∧
    nearTieProxy.toExact.GetSupport nearTieDirection.toExact = 1 ∧
    overflowProxy.GetSupport ⟨2, 2⟩ = 0 ∧
    b2Dot (overflowProxy.GetVertex 0) ⟨2, 2⟩ = .nan ∧
    ¬ (b2Dot (overflowProxy.GetVertex 1) ⟨2, 2⟩ ≤
      b2Dot (overflowProxy.GetVertex (overflowProxy.GetSupport ⟨2, 2⟩)) ⟨2, 2⟩) := by
  decide!

/-- C13 for the four vertices of the box of half-extent `0.5f` and the direction `(1, 1)`: no
computed dot product is a NaN and the support is vertex 2, `(0.5, 0.5)`. -/
theorem C13_GetSupport_first_computed_maximum_witness :
    1 ≤ boxProxy.GetVertexCount ∧
    (∀ k < boxProxy.GetVertexCount, b2Dot (boxProxy.GetVertex k) ⟨1, 1⟩ ≠ F32.nan) ∧
    boxProxy.GetSupport ⟨1, 1⟩ = 2 ∧
    boxProxy.GetSupport ⟨1, 1⟩ < boxProxy.GetVertexCount ∧
    (∀ k < boxProxy.GetVertexCount,
      b2Dot (boxProxy.GetVertex k) ⟨1, 1⟩ ≤
        b2Dot (boxProxy.GetVertex (boxProxy.GetSupport ⟨1, 1⟩)) ⟨1, 1⟩) ∧
    ∀ k < boxProxy.GetSupport ⟨1, 1⟩,
      b2Dot (boxProxy.GetVertex k) ⟨1, 1⟩ <
        b2Dot (boxProxy.GetVertex (boxProxy.GetSupport ⟨1, 1⟩)) ⟨1, 1⟩ :=
  ⟨by decide, by decide!, by decide!,
    C13_GetSupport_first_computed_maximum boxProxy ⟨1, 1⟩ (by decide) (by decide!)⟩

end b2DistanceProxy

/-- C21 fails as stated for the code, which computes in single precision. For two boxes of
half-extent `0.5f`, the reference box rotated by `0.3 + pi / 4` and the incident box by `0.3`,
and the reference edge 1, the computed dot products of the faces 0 and 3 of the incident box
are the same float and `b2FindIncidentEdge` takes face 0; the dot product of face 3 is the
smaller one, so that face 3 is the only minimiser, which is what the routine gives over exact
arithmetic. And for a reference normal that is a NaN every computed dot product is a NaN and
the routine takes face 0, whose dot product is not `<=` that of face 1. -/
theorem C21_rounding_changes_the_incident_face :
    incidentFace FLT_MAX (boxOf half) ⟨⟨0, 0⟩, rotRef⟩ 1 (boxOf half) ⟨⟨0, 0⟩, rotInc⟩ = 0 ∧
    box2d.b2Dot
        (box2d.b2MulTRot rotInc.toExact
          (box2d.b2MulRot rotRef.toExact ((boxOf half).toExact.normals.getD 1 default)))
        ((boxOf half).toExact.normals.getD 3 default) <
      box2d.b2Dot
        (box2d.b2MulTRot rotInc.toExact
          (box2d.b2MulRot rotRef.toExact ((boxOf half).toExact.normals.getD 1 default)))
        ((boxOf half).toExact.normals.getD 0 default) ∧
    box2d.incidentFace FLT_MAX.toRat (boxOf half).toExact (b2Transform.toExact ⟨⟨0, 0⟩, rotRef⟩)
      1 (boxOf half).toExact (b2Transform.toExact ⟨⟨0, 0⟩, rotInc⟩) = 3 ∧
    incidentFace FLT_MAX nanNormalBox xfOrigin 0 (boxOf half) xfOrigin = 0 ∧
    ¬ (b2Dot (b2MulTRot xfOrigin.q (b2MulRot xfOrigin.q (nanNormalBox.normals.getD 0 default)))
        ((boxOf half).normals.getD 0 default) ≤
      b2Dot (b2MulTRot xfOrigin.q (b2MulRot xfOrigin.q (nanNormalBox.normals.getD 0 default)))
        ((boxOf half).normals.getD 1 default)) := by
  decide!

/-- C21 for two boxes of half-extent `0.5f`, the reference box rotated by `0.3 + pi / 4` and the
incident box by `0.3`, and the reference edge 1: the incident face is face 0, and the incident
edge runs from vertex 0 to vertex 1 of the incident box. -/
theorem C21_incident_edge_of_computed_min_witness :
    ∃ c, b2FindIncidentEdge FLT_MAX (boxOf half) ⟨⟨0, 0⟩, rotRef⟩ 1 (boxOf half)
        ⟨⟨0, 0⟩, rotInc⟩ = some c ∧
      c.1.id = ⟨1, 0, .e_face, .e_vertex⟩ ∧ c.2.id = ⟨1, 1, .e_face, .e_vertex⟩ := by
  have hface : incidentFace FLT_MAX (boxOf half) ⟨⟨0, 0⟩, rotRef⟩ 1 (boxOf half)
      ⟨⟨0, 0⟩, rotInc⟩ = 0 := by decide!
  obtain ⟨i1, i2, c, e1, -, -, -, e2, e3, -, -, -, -, e6⟩ :=
    C21_incident_edge_of_computed_min FLT_MAX (boxOf half) ⟨⟨0, 0⟩, rotRef⟩ 1 (boxOf half)
      ⟨⟨0, 0⟩, rotInc⟩ (by decide) (by decide) (by decide!)
  rw [hface] at e1
  subst e1
  have e2' : i2 = 1 := by rw [e2]; rfl
  subst e2'
  exact ⟨c, e3, (e6 (by decide) (by decide)).1, (e6 (by decide) (by decide)).2⟩

namespace b2WeldJoint

/-- C24 fails as stated for the code, which computes in single precision. For the soft joint
`stiffJoint`, of frequency `1e19f` between bodies of unit inverse inertia, and the time step
`h = 0`, the stiffness `k` overflows to an infinity, `h * k` is a NaN, the test
`h * (d + h * k) != 0` passes on the NaN, and the joint stores a NaN as `gamma`, as `bias` and
as the angular effective mass, not 0. -/
theorem C24_overflow_stores_nan :
    stiffJoint.m_frequencyHz > 0 ∧
    (restData 0 0 0).step.dt = 0 ∧
    F32.fin (1 / 2) * (2 * pi32 * stiffJoint.m_frequencyHz) * (2 * pi32 * stiffJoint.m_frequencyHz)
      = .inf false ∧
    (InitVelocityConstraints rotAtZero pi32 stiffJoint (restData 0 0 0)).1.m_gamma = .nan ∧
    (InitVelocityConstraints rotAtZero pi32 stiffJoint (restData 0 0 0)).1.m_bias = .nan ∧
    (InitVelocityConstraints rotAtZero pi32 stiffJoint (restData 0 0 0)).1.m_mass.ez.z = .nan := by
  decide!

/-- C24 for the soft joint `softJoint`, of frequency 1 and reference angle `1 / 8`, between
bodies at the angle 0: with the time step `1 / 64` the joint stores the `gamma`, the `bias` and
the angular effective mass computed from `invM = 2`, `m = 1 / 2`,
`omega = d = 13176795 / 2 ^ 21`, `k = 10349031 / 2 ^ 19` and `C = -1 / 8`; with the time step
0 it stores `gamma = 0` and `bias = 0`. -/
theorem C24_soft_coefficients_computed_witness :
    softJoint.m_frequencyHz > 0 ∧
    (InitVelocityConstraints rotAtZero pi32 softJoint (restData (.fin (1 / 64)) 0 0)).1.m_gamma =
      .fin (10180951 / 1048576) ∧
    (InitVelocityConstraints rotAtZero pi32 softJoint (restData (.fin (1 / 64)) 0 0)).1.m_bias =
      .fin (-6280123 / 16777216) ∧
    (InitVelocityConstraints rotAtZero pi32 softJoint
      (restData (.fin (1 / 64)) 0 0)).1.m_mass.ez.z = .fin (5731239 / 67108864) ∧
    (InitVelocityConstraints rotAtZero pi32 softJoint (restData 0 0 0)).1.m_gamma = 0 ∧
    (InitVelocityConstraints rotAtZero pi32 softJoint (restData 0 0 0)).1.m_bias = 0 :=
  ⟨by decide!,
    (C24_soft_coefficients_computed rotAtZero pi32 softJoint (restData (.fin (1 / 64)) 0 0)
      2 (.fin (1 / 2)) (.fin (13176795 / 2097152)) (.fin (13176795 / 2097152))
      (.fin (10349031 / 524288)) (.fin (1 / 64)) (.fin (-1 / 8)) (.fin (10180951 / 1048576))
      (by decide!) (by decide!) (by decide!) (by decide!) (by decide!) (by decide!) rfl
      (by decide!) (by decide!)).1,
    ((C24_soft_coefficients_computed rotAtZero pi32 softJoint (restData (.fin (1 / 64)) 0 0)
      2 (.fin (1 / 2)) (.fin (13176795 / 2097152)) (.fin (13176795 / 2097152))
      (.fin (10349031 / 524288)) (.fin (1 / 64)) (.fin (-1 / 8)) (.fin (10180951 / 1048576))
      (by decide!) (by decide!) (by decide!) (by decide!) (by decide!) (by decide!) rfl
      (by decide!) (by decide!)).2.1).trans (by decide!),
    ((C24_soft_coefficients_computed rotAtZero pi32 softJoint (restData (.fin (1 / 64)) 0 0)
      2 (.fin (1 / 2)) (.fin (13176795 / 2097152)) (.fin (13176795 / 2097152))
      (.fin (10349031 / 524288)) (.fin (1 / 64)) (.fin (-1 / 8)) (.fin (10180951 / 1048576))
      (by decide!) (by decide!) (by decide!) (by decide!) (by decide!) (by decide!) rfl
      (by decide!) (by decide!)).2.2.1).trans (by decide!),
    ((C24_soft_coefficients_computed rotAtZero pi32 softJoint (restData 0 0 0)
      2 (.fin (1 / 2)) (.fin (13176795 / 2097152)) (.fin (13176795 / 2097152))
      (.fin (10349031 / 524288)) 0 (.fin (-1 / 8)) 0
      (by decide!) (by decide!) (by decide!) (by decide!) (by decide!) (by decide!) rfl
      (by decide!) (by decide!)).2.2.2.2 rfl ⟨_, rfl⟩ ⟨_, rfl⟩
      ⟨13176795 / 2097152, by decide!⟩).1,
    ((C24_soft_coefficients_computed rotAtZero pi32 softJoint (restData 0 0 0)
      2 (.fin (1 / 2)) (.fin (13176795 / 2097152)) (.fin (13176795 / 2097152))
      (.fin (10349031 / 524288)) 0 (.fin (-1 / 8)) 0
      (by decide!) (by decide!) (by decide!) (by decide!) (by decide!) (by decide!) rfl
      (by decide!) (by decide!)).2.2.2.2 rfl ⟨_, rfl⟩ ⟨_, rfl⟩
      ⟨13176795 / 2097152, by decide!⟩).2⟩

/-- C31 fails as stated for the code, which computes in single precision. The rigid joint
`farJoint` has `iA = iB = 0` and `mA + mB = 2`, and at the positions `farData` there is no
angular error. The first call moves the centres to `(1000000.5, 0)` and `(1000002.5, 0)`,
the floats nearest to the corrected centres, and leaves the anchors `125829 / 2 ^ 22`, about
`0.03`, apart. The correction of each centre is then half of that, less than half the distance
`0.0625` between neighbouring floats, so the second call leaves both centres where they are
and returns false, and so does the third. -/
theorem C31_correction_lost_to_rounding :
    farJoint.m_frequencyHz = 0 ∧ farJoint.m_invIA = 0 ∧ farJoint.m_invIB = 0 ∧
    farJoint.m_invMassA + farJoint.m_invMassB > 0 ∧ farJoint.m_indexA ≠ farJoint.m_indexB ∧
    ((farData.positions 1).a - (farData.positions 0).a - farJoint.m_referenceAngle).abs ≤
      angularSlop ∧
    (SolvePositionConstraints rotAtZero lengthOnAxis slop angularSlop farJoint farData).2.positions
      0 = ⟨⟨.fin (2000001 / 2), 0⟩, 0⟩ ∧
    (SolvePositionConstraints rotAtZero lengthOnAxis slop angularSlop farJoint farData).2.positions
      1 = ⟨⟨.fin (2000005 / 2), 0⟩, 0⟩ ∧
    (⟨.fin (2000005 / 2), 0⟩ : b2Vec) + farJoint.m_rB - ⟨.fin (2000001 / 2), 0⟩ - farJoint.m_rA =
      ⟨.fin (-125829 / 4194304), 0⟩ ∧
    (SolvePositionConstraints rotAtZero lengthOnAxis slop angularSlop farJoint
      (SolvePositionConstraints rotAtZero lengthOnAxis slop angularSlop farJoint farData).2).1
      = false ∧
    (SolvePositionConstraints rotAtZero lengthOnAxis slop angularSlop farJoint
      (SolvePositionConstraints rotAtZero lengthOnAxis slop angularSlop farJoint
        farData).2).2.positions 0 = ⟨⟨.fin (2000001 / 2), 0⟩, 0⟩ ∧
    (SolvePositionConstraints rotAtZero lengthOnAxis slop angularSlop farJoint
      (SolvePositionConstraints rotAtZero lengthOnAxis slop angularSlop farJoint
        farData).2).2.positions 1 = ⟨⟨.fin (2000005 / 2), 0⟩, 0⟩ ∧
    (SolvePositionConstraints rotAtZero lengthOnAxis slop angularSlop farJoint
      (SolvePositionConstraints rotAtZero lengthOnAxis slop angularSlop farJoint
        (SolvePositionConstraints rotAtZero lengthOnAxis slop angularSlop farJoint
          farData).2).2).1 = false := by
  decide!

end b2WeldJoint

end ieee

end box2d

namespace b2d11

/-! ## Block allocator: the assertions of `Free` as compiled with `_DEBUG` (C25) -/

namespace BlockAllocator

variable {σ : Type}

/-- The validation loop over a list of chunk indices, from a value of `found`: it fails when
some chunk of another block size overlaps the block at `p`, and otherwise ends with `found`
set if it was set before or some chunk of the block size contains the block. -/
theorem debugLoop_eq (chunkAt : Nat → Chunk) (size : Int) (p : Int) (blockSize : Nat)
    (l : List Nat) (found : Bool) :
    l.foldlM
      (fun (found : Bool) (i : Nat) =>
        let chunk := chunkAt i
        if chunk.blockSize ≠ blockSize then
          if ¬ (p + (blockSize : Int) ≤ chunk.blocks ∨ chunk.blocks + size ≤ p)
          then none
          else some found
        else if chunk.blocks ≤ p ∧ p + (blockSize : Int) ≤ chunk.blocks + size
        then some true
        else some found)
      found =
    if ∀ i ∈ l, (chunkAt i).blockSize ≠ blockSize →
        p + (blockSize : Int) ≤ (chunkAt i).blocks ∨ (chunkAt i).blocks + size ≤ p
    then some (found || decide (∃ i ∈ l, (chunkAt i).blockSize = blockSize ∧
        (chunkAt i).blocks ≤ p ∧ p + (blockSize : Int) ≤ (chunkAt i).blocks + size))
    else none := by
  induction l generalizing found with
  | nil => simp
  | cons i l ih =>
    rw [List.foldlM_cons]
    simp only []
    by_cases hb : (chunkAt i).blockSize ≠ blockSize
    · rw [if_pos hb]
      by_cases ho : p + (blockSize : Int) ≤ (chunkAt i).blocks ∨ (chunkAt i).blocks + size ≤ p
      · rw [if_neg (not_not.mpr ho)]
        simp only [Option.bind_eq_bind, Option.some_bind]
        rw [ih]
        simp only [List.mem_cons, forall_eq_or_imp, exists_eq_or_imp]
        simp [hb, ho]
      · rw [if_pos ho]
        simp only [Option.bind_eq_bind, Option.none_bind]
        rw [if_neg]
        intro hall
        exact ho (hall i (List.mem_cons_self _ _) hb)
    · rw [if_neg hb]
      have hb' : (chunkAt i).blockSize = blockSize := not_not.mp hb
      by_cases hin : (chunkAt i).blocks ≤ p ∧ p + (blockSize : Int) ≤ (chunkAt i).blocks + size
      · rw [if_pos hin]
        simp only [Option.bind_eq_bind, Option.some_bind]
        rw [ih]
        simp only [List.mem_cons, forall_eq_or_imp, exists_eq_or_imp]
        simp [hb', hin]
      · rw [if_neg hin]
        simp only [Option.bind_eq_bind, Option.some_bind]
        rw [ih]
        simp only [List.mem_cons, forall_eq_or_imp, exists_eq_or_imp]
        simp [hb', hin]

/-- The validation of the `_DEBUG` block of `Free` ends with `found` set exactly for a pointer
that `DebugValid` accepts. -/
theorem debugScan_true_iff (H : Host σ) (a : BlockAllocator σ) (p : Int) (blockSize : Nat) :
    debugScan H a p blockSize = some true ↔ DebugValid H a p blockSize := by
  unfold debugScan DebugValid
  rw [debugLoop_eq (fun i => a.chunks.getD i Chunk.zero) (H.CHUNK_SIZE : Int)]
  simp only [List.mem_range, Bool.false_or]
  constructor
  · intro h
    split_ifs at h with h1
    · refine ⟨h1, ?_⟩
      have h2 := Option.some.inj h
      exact of_decide_eq_true h2
  · rintro ⟨h1, h2⟩
    rw [if_pos h1]
    exact congrArg some (decide_eq_true h2)

/-- The method `Free` of a `_DEBUG` build for a size in `[1, 640]`: it fails unless the pointer
passes the validation, and then does what `Free` does after filling the block. -/
theorem FreeDebug_pooled (H : Host σ) (memset : (Int → Int) → Int → Nat → Int → Int)
    (a : BlockAllocator σ) (p size : Int) (h1 : 1 ≤ size) (h2 : size ≤ 640) :
    FreeDebug H memset a p size =
      if debugScan H a p (sizeOfClass (classIndex size)) = some true then
        some { a with
          next := Function.update (memset a.next p (sizeOfClass (classIndex size))) p
            (a.m_freeLists (classIndex size))
          m_freeLists := Function.update a.m_freeLists (classIndex size) p }
      else none := by
  have hM : ¬ size > (MAX_BLOCK_SIZE : Int) := by simp [MAX_BLOCK_SIZE]; omega
  have hlt := classIndex_lt size h2
  unfold classIndex at hlt
  unfold FreeDebug
  rw [if_neg (by omega), if_neg (by omega), if_neg hM]
  simp only [if_neg (not_not.mpr hlt)]
  unfold sizeOfClass classIndex
  cases hs : debugScan H a p (s_blockSizes.getD (s_blockSizeLookup.getD size.toNat 0) 0) with
  | none => simp
  | some found => cases found <;> simp

/-- The method `Free` of a `_DEBUG` build fails an assertion exactly for a negative size, and
for a size in `[1, 640]` with a pointer that the validation rejects. -/
theorem FreeDebug_none_iff (H : Host σ) (memset : (Int → Int) → Int → Nat → Int → Int)
    (a : BlockAllocator σ) (p size : Int) :
    FreeDebug H memset a p size = none ↔
      size < 0 ∨ (1 ≤ size ∧ size ≤ 640 ∧ ¬ DebugValid H a p (sizeOfClass (classIndex size))) := by
  rcases lt_trichotomy size 0 with h | h | h
  · have : FreeDebug H memset a p size = none := by
      unfold FreeDebug
      rw [if_neg (by omega), if_pos (by omega)]
    simp [this, h]
  · subst h
    simp [FreeDebug]
  · by_cases hM : size ≤ 640
    · rw [FreeDebug_pooled H memset a p size (by omega) hM]
      by_cases hv : DebugValid H a p (sizeOfClass (classIndex size))
      · rw [if_pos ((debugScan_true_iff H a p _).mpr hv)]
        simp [hv]
        omega
      · rw [if_neg (fun hs => hv ((debugScan_true_iff H a p _).mp hs))]
        simp [hv]
        omega
    · have hM' : size > (MAX_BLOCK_SIZE : Int) := by simp [MAX_BLOCK_SIZE]; omega
      unfold FreeDebug
      rw [if_neg (by omega), if_neg (by omega), if_pos hM']
      simp
      omega

/-- A block of a class, in a pool whose chunks do not overlap, passes the validation of the
`_DEBUG` block of `Free` for the block size of the class. -/
theorem IsBlock.debugValid {H : Host σ} {a : BlockAllocator σ} {j : Nat} {p : Int}
    (h : IsBlock H a j p) (hj : j < 14) (hca : ChunkArrayInv a) (hd : ChunksDisjoint H a) :
    DebugValid H a p (sizeOfClass j) := by
  obtain ⟨i, k, c, hi, hc, hbs, hk, hp⟩ := h
  have hpos : 16 ≤ sizeOfClass j := classSize_ge j hj
  have hget : ∀ i', i' < a.m_chunkCount → a.chunks[i']? = some (a.chunks.getD i' Chunk.zero) := by
    intro i' hi'
    have hlen : i' < a.chunks.length := by
      have := hca.1
      have := hca.2
      omega
    rw [List.getD_eq_getElem?_getD, List.getElem?_eq_getElem hlen]
    rfl
  have hci : a.chunks.getD i Chunk.zero = c := by
    have := hget i hi
    rw [hc] at this
    exact (Option.some.inj this).symm
  have hfit : ((k : Int) + 1) * (sizeOfClass j : Int) ≤ (H.CHUNK_SIZE : Int) := by
    have h1 : (k + 1) * sizeOfClass j ≤ H.CHUNK_SIZE / sizeOfClass j * sizeOfClass j :=
      Nat.mul_le_mul_right _ hk
    have h2 := Nat.div_mul_le_self H.CHUNK_SIZE (sizeOfClass j)
    exact_mod_cast le_trans h1 h2
  have hk0 : (0 : Int) ≤ (sizeOfClass j : Int) * (k : Int) := by positivity
  have hlo : c.blocks ≤ p := by rw [hp]; omega
  have hhi : p + (sizeOfClass j : Int) ≤ c.blocks + (H.CHUNK_SIZE : Int) := by
    rw [hp]
    nlinarith
  refine ⟨fun i' hi' hne => ?_, i, hi, by rw [hci]; exact hbs, by rw [hci]; exact hlo,
    by rw [hci]; exact hhi⟩
  have hne' : i' ≠ i := by
    intro e
    subst e
    rw [hci] at hne
    exact hne hbs
  rcases Nat.lt_or_gt_of_ne hne' with hlt | hgt
  · rcases (hd i c hi hc).2 i' _ hlt (hget i' hi') with h1 | h1
    · left; omega
    · right; omega
  · rcases (hd i' _ hi' (hget i' hi')).2 i c hgt hc with h1 | h1
    · right; omega
    · left; omega

/-- C25, as corrected. Assertion validity in the block allocator. `Allocate(size)` fails an
assertion exactly when `size < 0`, and so does `Free(p, size)` in a build without `_DEBUG`; it
is the assertion `0 < size` that fails. In a build with `_DEBUG`, `Free(p, size)` fails an
assertion exactly when `size < 0` or when, for a size in `[1, 640]`, the pointer does not pass
the validation of the `_DEBUG` block: it overlaps a chunk of another block size or lies in no
chunk of the block size of its class. A block of the class of `size`, in a pool whose chunk
array is consistent and whose chunks do not overlap, passes that validation. No other
assertion fires: `BLOCK_SIZES < UCHAR_MAX`; the class index looked up for a size in `[1, 640]`
is below `BLOCK_SIZES`; the table construction keeps the running index `j` below `BLOCK_SIZES`
in every pass; and for every size class `b` the block count `CHUNK_SIZE / b` satisfies
`blockCount * b ≤ CHUNK_SIZE`, and is at least 1 when `CHUNK_SIZE ≥ 640`. -/
theorem C25_assertion_validity_with_debug (H : Host σ)
    (memset : (Int → Int) → Int → Nat → Int → Int) (a : BlockAllocator σ) (p size : Int) :
    (Allocate H a size = none ↔ size < 0) ∧
    (Free H a p size = none ↔ size < 0) ∧
    (FreeDebug H memset a p size = none ↔
      size < 0 ∨
        (1 ≤ size ∧ size ≤ 640 ∧ ¬ DebugValid H a p (sizeOfClass (classIndex size)))) ∧
    (1 ≤ size → size ≤ 640 → ChunkArrayInv a → ChunksDisjoint H a →
      IsBlock H a (classIndex size) p →
      DebugValid H a p (sizeOfClass (classIndex size)) ∧
      FreeDebug H memset a p size ≠ none) ∧
    (size < 0 → ¬ (size = 0) ∧ ¬ (0 < size)) ∧
    BLOCK_SIZES < 255 ∧
    (1 ≤ size → size ≤ 640 → s_blockSizeLookup.getD size.toNat 0 < BLOCK_SIZES) ∧
    (∀ n, n ≤ 640 →
      ∃ st, (List.range' 1 n).foldlM lookupStep (0, List.replicate (MAX_BLOCK_SIZE + 1) 0) =
        some st ∧ st.1 < BLOCK_SIZES) ∧
    (∃ st, buildLookup = some st) ∧
    (∀ index, index < BLOCK_SIZES →
      H.CHUNK_SIZE / s_blockSizes.getD index 0 * s_blockSizes.getD index 0 ≤ H.CHUNK_SIZE ∧
      (640 ≤ H.CHUNK_SIZE → 1 ≤ H.CHUNK_SIZE / s_blockSizes.getD index 0)) ∧
    (∀ index, ∃ r, allocateChunk H a index = some r) := by
  refine ⟨Allocate_none_iff H a size, Free_none_iff H a p size,
    FreeDebug_none_iff H memset a p size, ?_, fun h => ⟨by omega, by omega⟩,
    by decide, fun _ h2 => classIndex_lt size h2, lookupLoop_index_lt, ?_, ?_, ?_⟩
  · intro h1 h2 hca hd hb
    have hv := IsBlock.debugValid hb (classIndex_lt size h2) hca hd
    refine ⟨hv, ?_⟩
    rw [Ne, FreeDebug_none_iff]
    rintro (h | ⟨-, -, h⟩)
    · omega
    · exact h hv
  · obtain ⟨st, h, -⟩ := buildLookup_inv
    exact ⟨st, h⟩
  · intro index hi
    refine ⟨Nat.div_mul_le_self _ _, fun hc => ?_⟩
    have h1 := classSize_le index hi
    have h2 := classSize_ge index hi
    exact (Nat.one_le_div_iff (by omega)).mpr (by omega)
  · intro index
    exact ⟨_, allocateChunk_some H a index⟩

theorem busyChunkState_chunk : busyChunkState.chunks.getD 0 Chunk.zero = ⟨16, 8192⟩ := by
  have h0 : busyChunkState.chunks[0]? = some ⟨16, 8192⟩ := by
    unfold busyChunkState
    exact List.getElem?_set_self (by simp)
  rw [List.getD_eq_getElem?_getD, h0]
  rfl

theorem busyChunkState_arrayInv : ChunkArrayInv busyChunkState := by
  unfold ChunkArrayInv busyChunkState
  simp

theorem busyChunkState_first_block : IsBlock bumpHost busyChunkState 0 8192 := by
  refine ⟨0, 0, ⟨16, 8192⟩, by decide, ?_, by decide, by decide, by decide⟩
  unfold busyChunkState
  exact List.getElem?_set_self (by simp)

/-- C25 fails as stated for `Free` as compiled with `_DEBUG`. In the state reached from the
constructor by `Allocate(16)`, whose only chunk, at 8192, has blocks of 16 bytes, the call
`Free(8192, 32)` fails the assertion inside the validation loop, since the 32 bytes at 8192
overlap a chunk of another block size, and the call `Free(100000, 16)` fails `Assert(found)`,
since 100000 lies in no chunk; neither size is negative, and without `_DEBUG` both calls
return. -/
theorem C25_pointer_assertions_fire :
    FreeDebug bumpHost memsetFd busyChunkState 8192 32 = none ∧
    FreeDebug bumpHost memsetFd busyChunkState 100000 16 = none ∧
    ¬ ((32 : Int) < 0) ∧ ¬ ((16 : Int) < 0) ∧
    Free bumpHost busyChunkState 8192 32 ≠ none ∧
    Free bumpHost busyChunkState 100000 16 ≠ none := by
  refine ⟨?_, ?_, by decide, by decide, ?_, ?_⟩
  · refine (FreeDebug_none_iff _ _ _ _ _).mpr (Or.inr ⟨by decide, by decide, ?_⟩)
    rw [classIndex_32]
    rintro ⟨h, -⟩
    have := h 0 (by decide) (by rw [busyChunkState_chunk]; decide)
    rw [busyChunkState_chunk] at this
    revert this
    decide
  · refine (FreeDebug_none_iff _ _ _ _ _).mpr (Or.inr ⟨by decide, by decide, ?_⟩)
    rw [classIndex_16]
    rintro ⟨-, i, hi, -, -, h⟩
    have hi0 : i = 0 := by
      have : i < 1 := hi
      omega
    subst hi0
    rw [busyChunkState_chunk] at h
    revert h
    decide
  · rw [Ne, Free_none_iff]
    decide
  · rw [Ne, Free_none_iff]
    decide

/-- C25 for the host `bumpHost` and the state reached from the constructor by `Allocate(16)`:
a negative size fails the assertion of `Allocate` and of `Free`, with and without `_DEBUG`;
`Free(8192, 16)`, of the block handed out, passes the validation; and a chunk of 16384 bytes
holds at least one block of the largest class. -/
theorem C25_assertion_validity_with_debug_witness :
    Allocate bumpHost busyChunkState (-1) = none ∧
    Free bumpHost busyChunkState 8192 (-1) = none ∧
    FreeDebug bumpHost memsetFd busyChunkState 8192 (-1) = none ∧
    FreeDebug bumpHost memsetFd busyChunkState 8192 16 ≠ none ∧
    1 ≤ bumpHost.CHUNK_SIZE / s_blockSizes.getD 13 0 :=
  ⟨(C25_assertion_validity_with_debug bumpHost memsetFd busyChunkState 8192 (-1)).1.mpr
      (by decide),
    (C25_assertion_validity_with_debug bumpHost memsetFd busyChunkState 8192 (-1)).2.1.mpr
      (by decide),
    (C25_assertion_validity_with_debug bumpHost memsetFd busyChunkState 8192 (-1)).2.2.1.mpr
      (Or.inl (by decide)),
    ((C25_assertion_validity_with_debug bumpHost memsetFd busyChunkState 8192 16).2.2.2.1
      (by decide) (by decide) busyChunkState_arrayInv busyChunkState_disjoint
      (by rw [classIndex_16]; exact busyChunkState_first_block)).2,
    ((C25_assertion_validity_with_debug bumpHost memsetFd busyChunkState 8192 (-1)).2.2.2.2.2.2.2.2.2.1
      13 (by decide)).2 (by decide)⟩

end BlockAllocator

end b2d11
